import Mathlib

/-!
# Dimension bookkeeping and rebinning in scipp

A shallow embedding of the extent table, the proxies and the slicing of
`scipp::core::Dataset` (`core/dataset.cpp`), of the views over subspans
(`core/subspan_view.cpp`), of the dimension merge and the arithmetic of the
tag-based `Dataset` (`src/dataset.cpp`) and of the storage, the arithmetic and
the rebinning of variables (`src/variable.cpp`), together with the properties
proved about them.

Conventions.
* `scipp::index` / `gsl::index` values are mathematical integers (`Int`): extents
  are lengths of arrays held in memory, and no operation below is meant to wrap.
  The cursors of `RebinGeneralHelper::rebin` are of type `int` and are bounded by
  `INT_MAX`.
* Elements are exact rational numbers or NaN (`Value`).  Where the infinities and
  the overflow of `double` matter, the elements are of the type `Double`.
* The operands of `apply` hold a buffer each (`apply`), or the right-hand side is
  a view of the buffer of the left-hand side (`applyShared`).
* The constant `Dimensions::Sparse` is declared in a header that is not part of
  the sources at hand, so every definition that mentions it takes the sentinel
  as its first argument `Sparse`.
* A C++ function that throws is modelled by a function returning the state at
  the moment of the throw together with the exception, or by a function into
  `Except` where nothing is written before the throw.
-/

namespace Scipp

/-! ## Dimension labels -/

/-- Dimension labels (the enumeration `Dim`): the labels that occur in the
sources, `Invalid` being the "no dimension" value. -/
inductive Dim where
  | Invalid
  | X
  | Y
  | Z
  | Tof
  | Spectrum
  | Energy
  | DeltaE
  | Ei
  | Position
  | Component
  | TwoTheta
  | Qx
  | Qy
  | Qz
  deriving DecidableEq, Repr

namespace core

/-! ## `namespace extents` of `core/dataset.cpp` -/

/-- The table `std::unordered_map<Dim, scipp::index>`: a finite partial map from
labels to (encoded) extents. -/
abbrev ExtentMap := Dim → Option Int

/-- The empty table. -/
def ExtentMap.empty : ExtentMap := fun _ => none

/-- Assignment `dims[dim] = value`. -/
def ExtentMap.assign (dims : ExtentMap) (dim : Dim) (value : Int) : ExtentMap :=
  fun d => if d = dim then some value else dims d

/-- The outcome of a call that may throw: the table as the call leaves it, and
the message of the exception if one was thrown. -/
structure SetResult where
  dims : ExtentMap
  threw : Option String

namespace extents

/-- The message of the `std::runtime_error` thrown by `setExtent`. -/
def lengthMismatch : String := "Length mismatch on insertion"

/-- Embedding of `extents::makeUnknownEdgeState`. -/
def makeUnknownEdgeState (Sparse : Int) (extent : Int) : Int :=
  if extent = Sparse then extent else -extent - 1

/-- Embedding of `extents::shrink`. -/
def shrink (extent : Int) : Int := extent - 1

/-- Embedding of `extents::isUnknownEdgeState`. -/
def isUnknownEdgeState (Sparse : Int) (extent : Int) : Bool :=
  decide (extent < 0) && decide (extent ≠ Sparse)

/-- Embedding of `extents::decodeExtent`. -/
def decodeExtent (Sparse : Int) (extent : Int) : Int :=
  if isUnknownEdgeState Sparse extent then -extent - 1 else extent

/-- Embedding of `extents::isSame`. -/
def isSame (extent reference : Int) : Bool :=
  decide (reference = -extent - 1)

/-- Embedding of `extents::oneLarger`. -/
def oneLarger (extent reference : Int) : Bool :=
  decide (extent = -reference - 1 + 1)

/-- Embedding of `extents::oneSmaller`. -/
def oneSmaller (extent reference : Int) : Bool :=
  decide (extent = -reference - 1 - 1)

/-- Embedding of `extents::setExtent`.  `heldExtent` is a reference into the table, so the
assignment made when the held value is the sparse sentinel is part of the table
also when the call throws afterwards. -/
def setExtent (Sparse : Int) (dims : ExtentMap) (dim : Dim) (extent : Int)
    (isCoord : Bool) : SetResult :=
  match dims dim with
  | none => ⟨dims.assign dim (makeUnknownEdgeState Sparse extent), none⟩
  | some held =>
    if extent ≠ Sparse then
      let dims1 :=
        if held = Sparse then dims.assign dim (makeUnknownEdgeState Sparse extent) else dims
      let heldExtent := if held = Sparse then makeUnknownEdgeState Sparse extent else held
      if isUnknownEdgeState Sparse heldExtent then
        if isSame extent heldExtent then ⟨dims1, none⟩
        else if oneLarger extent heldExtent && isCoord then
          ⟨dims1.assign dim (shrink extent), none⟩
        else if oneSmaller extent heldExtent && !isCoord then
          ⟨dims1.assign dim extent, none⟩
        else ⟨dims1, some lengthMismatch⟩
      else
        if (decide (extent ≠ heldExtent) || isCoord) && decide (extent ≠ heldExtent + 1) then
          ⟨dims1, some lengthMismatch⟩
        else ⟨dims1, none⟩
    else ⟨dims, none⟩

end extents

/-- Embedding of `Dataset::dimensions`, as a function of the member `m_dims` it reads: every
held value is decoded. -/
def dimensionsOf (Sparse : Int) (m_dims : ExtentMap) : ExtentMap :=
  fun d => (m_dims d).map (extents.decodeExtent Sparse)

/-! ## `Dataset` of `core/dataset.cpp` -/

/-- Modelled from the spec: the class `Dimensions` (its header is not part of the
sources): an ordered sequence of (label, extent) pairs, where an extent is a
non-negative integer or the sparse sentinel. -/
structure Dimensions where
  shape : List (Dim × Int)
  deriving DecidableEq, Repr

/-- Modelled from the spec: `Dimensions::sparse`, whether a sparse dimension is
present. -/
def Dimensions.sparse (Sparse : Int) (dims : Dimensions) : Bool :=
  dims.shape.any (fun p => decide (p.2 = Sparse))

/-- Modelled from the spec: `Dimensions::sparseDim`, the label of the sparse
dimension, `Dim::Invalid` if there is none. -/
def Dimensions.sparseDim (Sparse : Int) (dims : Dimensions) : Dim :=
  match dims.shape.find? (fun p => decide (p.2 = Sparse)) with
  | some p => p.1
  | none => Dim.Invalid

/-- Modelled from the spec: `Dimensions::denseLabels`, the labels of the
dimensions that are not sparse, in order. -/
def Dimensions.denseLabels (Sparse : Int) (dims : Dimensions) : List Dim :=
  (dims.shape.filter (fun p => decide (p.2 ≠ Sparse))).map Prod.fst

/-- Modelled from the spec: `Dimensions::operator[]`, the extent of a label, which
fails for a label that is not present. -/
def Dimensions.extent (dims : Dimensions) (dim : Dim) : Option Int :=
  (dims.shape.find? (fun p => decide (p.1 = dim))).map Prod.snd

/-- A `Variable`, as far as the extent table is concerned: its dimensions. -/
structure Variable where
  dims : Dimensions
  deriving DecidableEq, Repr

/-- The struct `DatasetData`: the parts of one data item. -/
structure DatasetData where
  data : Option Variable
  coord : Option Variable
  labels : List (String × Variable)
  attrs : List (String × Variable)
  deriving DecidableEq, Repr

/-- The class `Dataset`.  The member maps are association lists; iteration visits
them in list order, which is the order of first insertion. -/
structure Dataset where
  m_dims : ExtentMap
  m_coords : List (Dim × Variable)
  m_labels : List (String × Variable)
  m_attrs : List (String × Variable)
  m_masks : List (String × Variable)
  m_data : List (String × DatasetData)

/-- The outcome of a member function that may throw: the dataset as the call
leaves it, and the message of the exception if one was thrown. -/
structure DatasetResult where
  dataset : Dataset
  threw : Option String

/-- The default-constructed `Dataset`. -/
def Dataset.empty : Dataset := ⟨ExtentMap.empty, [], [], [], [], []⟩

/-- Embedding of `insert_or_assign` on a map: the value of a present key is replaced, a new key
is added. -/
def insertOrAssign {K V : Type} [DecidableEq K] (key : K) (value : V) :
    List (K × V) → List (K × V)
  | [] => [(key, value)]
  | (k, v) :: rest =>
    if k = key then (k, value) :: rest else (k, v) :: insertOrAssign key value rest

/-- Embedding of `find` on a map. -/
def findItem {K V : Type} [DecidableEq K] (key : K) (m : List (K × V)) : Option V :=
  (m.find? (fun p => decide (p.1 = key))).map Prod.snd

/-- Embedding of `erase(key)` on a map. -/
def eraseKey {K V : Type} [DecidableEq K] (key : K) (m : List (K × V)) : List (K × V) :=
  m.filter (fun p => decide (p.1 ≠ key))

/-- Embedding of `Dataset::contains`. -/
def Dataset.contains (ds : Dataset) (name : String) : Bool :=
  (findItem name ds.m_data).isSome

/-- Embedding of `DataConstProxy::dims` of an unsliced item: the dimensions of the data if there
are data, of the sparse coordinate otherwise (dereferencing an absent coordinate
is undefined and gives `none`). -/
def DatasetData.dims (item : DatasetData) : Option Dimensions :=
  match item.data with
  | some v => some v.dims
  | none => item.coord.map Variable.dims

/-- The loop of `Dataset::setDims` over the dense labels, on the copy `tmp`. -/
def setDimsLoop (Sparse : Int) (dims : Dimensions) (coordDim : Dim) :
    List Dim → ExtentMap → SetResult
  | [], tmp => ⟨tmp, none⟩
  | dim :: rest, tmp =>
    match dims.extent dim with
    | none => ⟨tmp, some "Dimensions::operator[]"⟩
    | some e =>
      match extents.setExtent Sparse tmp dim e (decide (dim = coordDim)) with
      | ⟨tmp1, none⟩ => setDimsLoop Sparse dims coordDim rest tmp1
      | ⟨tmp1, some msg⟩ => ⟨tmp1, some msg⟩

/-- Embedding of `Dataset::setDims` on the extent table: the table that is committed, or the
message of the exception. -/
def setDimsTable (Sparse : Int) (m_dims : ExtentMap) (dims : Dimensions) (coordDim : Dim) :
    Except String ExtentMap :=
  match setDimsLoop Sparse dims coordDim (dims.denseLabels Sparse) m_dims with
  | ⟨_, some msg⟩ => .error msg
  | ⟨tmp, none⟩ =>
    if dims.sparse Sparse then
      match extents.setExtent Sparse tmp (dims.sparseDim Sparse) Sparse false with
      | ⟨_, some msg⟩ => .error msg
      | ⟨tmp1, none⟩ => .ok tmp1
    else .ok tmp

/-- Embedding of `Dataset::setDims`: the table is updated on a copy, which replaces `m_dims` only
when no insertion threw. -/
def Dataset.setDims (Sparse : Int) (ds : Dataset) (dims : Dimensions) (coordDim : Dim) :
    DatasetResult :=
  match setDimsTable Sparse ds.m_dims dims coordDim with
  | .error msg => ⟨ds, some msg⟩
  | .ok tmp => ⟨{ ds with m_dims := tmp }, none⟩

/-- One of the loops of `Dataset::rebuildDims`: `setDims` for each entry of a list of
(dimensions, coordinate label) pairs, stopping at the first exception. -/
def rebuildLoop (Sparse : Int) : List (Option Dimensions × Dim) → Dataset → DatasetResult
  | [], ds => ⟨ds, none⟩
  | (none, _) :: _, ds => ⟨ds, some "DataConstProxy::dims"⟩
  | (some dims, coordDim) :: rest, ds =>
    match Dataset.setDims Sparse ds dims coordDim with
    | ⟨ds1, none⟩ => rebuildLoop Sparse rest ds1
    | ⟨ds1, some msg⟩ => ⟨ds1, some msg⟩

/-- The calls of `setDims` made by `Dataset::rebuildDims`, in order: the data
items, the coordinates (each with its own label as coordinate dimension), the
labels, the masks and the attributes. -/
def Dataset.rebuildOrder (ds : Dataset) : List (Option Dimensions × Dim) :=
  ds.m_data.map (fun d => (d.2.dims, Dim.Invalid))
    ++ ds.m_coords.map (fun c => (some c.2.dims, c.1))
    ++ ds.m_labels.map (fun l => (some l.2.dims, Dim.Invalid))
    ++ ds.m_masks.map (fun m => (some m.2.dims, Dim.Invalid))
    ++ ds.m_attrs.map (fun a => (some a.2.dims, Dim.Invalid))

/-- Embedding of `Dataset::rebuildDims`. -/
def Dataset.rebuildDims (Sparse : Int) (ds : Dataset) : DatasetResult :=
  rebuildLoop Sparse ds.rebuildOrder { ds with m_dims := ExtentMap.empty }

/-- Embedding of `expect::notSparse` followed by the rest of a setter. -/
def expectNotSparse (Sparse : Int) (ds : Dataset) (v : Variable)
    (rest : Unit → DatasetResult) : DatasetResult :=
  if v.dims.sparse Sparse then ⟨ds, some "expect::notSparse"⟩ else rest ()

/-- Embedding of `Dataset::setCoord`. -/
def Dataset.setCoord (Sparse : Int) (ds : Dataset) (dim : Dim) (coord : Variable) :
    DatasetResult :=
  expectNotSparse Sparse ds coord fun _ =>
    match ds.setDims Sparse coord.dims dim with
    | ⟨ds1, some msg⟩ => ⟨ds1, some msg⟩
    | ⟨ds1, none⟩ => ⟨{ ds1 with m_coords := insertOrAssign dim coord ds1.m_coords }, none⟩

/-- Embedding of `Dataset::setLabels`. -/
def Dataset.setLabels (Sparse : Int) (ds : Dataset) (labelName : String) (labels : Variable) :
    DatasetResult :=
  expectNotSparse Sparse ds labels fun _ =>
    match ds.setDims Sparse labels.dims Dim.Invalid with
    | ⟨ds1, some msg⟩ => ⟨ds1, some msg⟩
    | ⟨ds1, none⟩ =>
      ⟨{ ds1 with m_labels := insertOrAssign labelName labels ds1.m_labels }, none⟩

/-- Embedding of `Dataset::setAttr` for an attribute of the dataset. -/
def Dataset.setAttr (Sparse : Int) (ds : Dataset) (attrName : String) (attr : Variable) :
    DatasetResult :=
  expectNotSparse Sparse ds attr fun _ =>
    match ds.setDims Sparse attr.dims Dim.Invalid with
    | ⟨ds1, some msg⟩ => ⟨ds1, some msg⟩
    | ⟨ds1, none⟩ => ⟨{ ds1 with m_attrs := insertOrAssign attrName attr ds1.m_attrs }, none⟩

/-- Embedding of `Dataset::setMask`. -/
def Dataset.setMask (Sparse : Int) (ds : Dataset) (masksName : String) (mask : Variable) :
    DatasetResult :=
  expectNotSparse Sparse ds mask fun _ =>
    match ds.setDims Sparse mask.dims Dim.Invalid with
    | ⟨ds1, some msg⟩ => ⟨ds1, some msg⟩
    | ⟨ds1, none⟩ => ⟨{ ds1 with m_masks := insertOrAssign masksName mask ds1.m_masks }, none⟩

/-- The assignment `m_data[name].data = data`: the data of a present item are
replaced, an absent item is created with nothing but the data. -/
def assignData (name : String) (data : Variable) (m : List (String × DatasetData)) :
    List (String × DatasetData) :=
  match findItem name m with
  | some item => insertOrAssign name { item with data := some data } m
  | none => insertOrAssign name ⟨some data, none, [], []⟩ m

/-- Embedding of `Dataset::setData(name, Variable)`. -/
def Dataset.setData (Sparse : Int) (ds : Dataset) (name : String) (data : Variable) :
    DatasetResult :=
  match ds.setDims Sparse data.dims Dim.Invalid with
  | ⟨ds1, some msg⟩ => ⟨ds1, some msg⟩
  | ⟨ds1, none⟩ =>
    let sparseData := data.dims.sparse Sparse
    match findItem name ds1.m_data with
    | some item =>
      if (item.dims.map (Dimensions.sparse Sparse)) ≠ some sparseData then
        ⟨ds1, some "Cannot set dense values or variances if coordinates sparse or vice versa"⟩
      else
        Dataset.rebuildDims Sparse { ds1 with m_data := assignData name data ds1.m_data }
    | none => ⟨{ ds1 with m_data := assignData name data ds1.m_data }, none⟩

/-- Embedding of `Dataset::erase`. -/
def Dataset.erase (Sparse : Int) (ds : Dataset) (name : String) : DatasetResult :=
  if ds.contains name then
    Dataset.rebuildDims Sparse { ds with m_data := eraseKey name ds.m_data }
  else ⟨ds, some ("Could not find data with name " ++ name ++ ".")⟩

/-- Embedding of `Dataset::dimensions`. -/
def Dataset.dimensions (Sparse : Int) (ds : Dataset) : ExtentMap :=
  dimensionsOf Sparse ds.m_dims

/-- Whether a member scanned by `Dataset::rebuildDims` has the label `d` among its
dimensions ("a member references the dimension"). -/
def Dataset.references (ds : Dataset) (d : Dim) : Bool :=
  ds.rebuildOrder.any fun entry =>
    match entry.1 with
    | some dims => (dims.extent d).isSome
    | none => false

/-! ## Proxies and slicing of `core/dataset.cpp` -/

/-- The exceptions thrown by the code below, each with its message. -/
inductive Exception where
  | TypeError (msg : String)
  | RuntimeError (msg : String)
  | NotFoundError (msg : String)
  | SliceError (msg : String)
  | DimensionError (msg : String)
  | OutOfRange (msg : String)
  | BadCast
  | UnitMismatchError (msg : String)
  | DimensionMismatchError (msg : String)
  | VariableNotFoundError (msg : String)
  deriving DecidableEq, Repr

/-- Modelled from the spec: `Dimensions::contains(label)` (the header of
`Dimensions` is not part of the sources). -/
def Dimensions.contains (dims : Dimensions) (dim : Dim) : Bool :=
  dims.shape.any (fun p => decide (p.1 = dim))

/-- Modelled from the spec: `Dimensions::erase(label)` (the header of `Dimensions` is
not part of the sources): the pair of the label is removed, the order of the
others is kept. -/
def Dimensions.erase (dims : Dimensions) (dim : Dim) : Dimensions :=
  ⟨dims.shape.filter (fun p => decide (p.1 ≠ dim))⟩

/-- Modelled from the spec: `Dimensions::resize(label, size)` (the header of
`Dimensions` is not part of the sources): the extent of the label is replaced,
the order is kept. -/
def Dimensions.resize (dims : Dimensions) (dim : Dim) (size : Int) : Dimensions :=
  ⟨dims.shape.map (fun p => if p.1 = dim then (p.1, size) else p)⟩

/-- Modelled from the spec: the class `Slice` (its header is not part of the
sources): a dimension with the range `[m_begin, m_end)`, or with the single index
`m_begin`, which is marked by `m_end = -1`. -/
structure Slice where
  m_dim : Dim
  m_begin : Int
  m_end : Int
  deriving DecidableEq, Repr

/-- Modelled from the spec: `Slice::isRange` (the header of `Slice` is not part of
the sources). -/
def Slice.isRange (s : Slice) : Bool := decide (s.m_end ≠ -1)

/-- The type `detail::slice_list`: slices with the extent resolved for each. -/
abbrev SliceList := List (Slice × Int)

/-- Modelled from the spec: `expect::validSlice` on `Dimensions` (not part of the
sources): the dimension exists and the index or range lies within its extent. -/
def validSlice (dims : Dimensions) (s : Slice) : Bool :=
  match dims.extent s.m_dim with
  | none => false
  | some e =>
    decide (0 ≤ s.m_begin) &&
      (if s.isRange then decide (s.m_begin ≤ s.m_end) && decide (s.m_end ≤ e)
       else decide (s.m_begin < e))

/-- Modelled from the spec: `expect::validSlice` on a table of extents (not part of
the sources). -/
def validSliceMap (dims : ExtentMap) (s : Slice) : Bool :=
  match dims s.m_dim with
  | none => false
  | some e =>
    decide (0 ≤ s.m_begin) &&
      (if s.isRange then decide (s.m_begin ≤ s.m_end) && decide (s.m_end ≤ e)
       else decide (s.m_begin < e))

/-- Modelled from the spec: the dimensions of a variable seen through a slice list
(`detail::makeSlice(...).dims()`, not part of the sources): a single index drops
the dimension, a range keeps it with the reduced extent, and a variable that holds
more elements than the extent resolved for the slice keeps the excess. -/
def slicedDims : Dimensions → SliceList → Dimensions
  | dims, [] => dims
  | dims, (s, extent) :: rest =>
    match dims.extent s.m_dim with
    | none => slicedDims dims rest
    | some e =>
      if s.isRange then
        slicedDims (dims.resize s.m_dim (s.m_end - s.m_begin + (e - extent))) rest
      else slicedDims (dims.erase s.m_dim) rest

/-- The classes `DataConstProxy` and `DataProxy`: an item of the dataset with a slice
list.  The dataset the item belongs to is left implicit, and proxies to constant
and to mutable data are not told apart. -/
structure DataProxy where
  m_data : String × DatasetData
  m_slices : SliceList
  deriving DecidableEq, Repr

/-- Embedding of `DataConstProxy::name`. -/
def DataProxy.name (item : DataProxy) : String := item.m_data.1

/-- Embedding of `DataConstProxy::dims`: the dimensions of the sliced data, or of the
sliced sparse coordinate if there are no data (`none` for an item with neither,
for which the source is undefined). -/
def DataProxy.dims (item : DataProxy) : Option Dimensions :=
  item.m_data.2.dims.map (fun dims => slicedDims dims item.m_slices)

/-- Embedding of `DataConstProxy::slice` and `DataProxy::slice` for one slice. -/
def DataProxy.slice (item : DataProxy) (slice1 : Slice) : Except Exception DataProxy :=
  match item.dims with
  | none => .error (.RuntimeError "DataConstProxy::dims")
  | some dims_ =>
    if validSlice dims_ slice1 then
      match dims_.extent slice1.m_dim with
      | some e => .ok ⟨item.m_data, item.m_slices ++ [(slice1, e)]⟩
      | none => .error (.DimensionError "Dimensions::operator[]")
    else .error (.SliceError "expect::validSlice")

/-- The classes `DatasetConstProxy` and `DatasetProxy`: the dataset, the items and the
slice list. -/
structure DatasetConstProxy where
  m_dataset : Dataset
  m_items : List DataProxy
  m_slices : SliceList

/-- Embedding of `detail::make_item`: the proxy of an entry of `m_data` under the slices
of the parent. -/
def make_item (slices : SliceList) (item : String × DatasetData) : DataProxy :=
  ⟨item, slices⟩

/-- Embedding of the constructors `DatasetConstProxy::DatasetConstProxy(dataset)` and
`DatasetProxy::DatasetProxy(dataset)`: one item for each entry of `m_data`. -/
def DatasetConstProxy.ofDataset (dataset : Dataset) : DatasetConstProxy :=
  ⟨dataset, dataset.m_data.map (make_item []), []⟩

/-- Modelled from the spec: the range `[begin(), end())` of a dataset proxy (declared
in a header that is not part of the sources): the items `m_items`, in order. -/
def DatasetConstProxy.items (view : DatasetConstProxy) : List DataProxy := view.m_items

/-- Modelled from the spec: `DatasetConstProxy::size` (header not part of the
sources). -/
def DatasetConstProxy.size (view : DatasetConstProxy) : Nat := view.items.length

/-- Modelled from the spec: `DatasetConstProxy::empty` (header not part of the
sources). -/
def DatasetConstProxy.empty (view : DatasetConstProxy) : Bool := decide (view.size = 0)

/-- Modelled from the spec: `DatasetConstProxy::find` (header not part of the
sources): the first item with the name, `none` standing for `end()`. -/
def DatasetConstProxy.find (view : DatasetConstProxy) (name : String) : Option DataProxy :=
  view.items.find? (fun item => decide (item.name = name))

/-- Embedding of `DatasetConstProxy::contains`: `find(name) != end()`. -/
def DatasetConstProxy.contains (view : DatasetConstProxy) (name : String) : Bool :=
  (view.find name).isSome

/-- Modelled from the spec: the range `[begin(), end())` of a `Dataset` (declared in a
header that is not part of the sources): one item for each entry of `m_data`. -/
def Dataset.items (ds : Dataset) : List DataProxy := ds.m_data.map (make_item [])

/-- Modelled from the spec: `Dataset::size` (header not part of the sources). -/
def Dataset.size (ds : Dataset) : Nat := ds.m_data.length

/-- Modelled from the spec: `Dataset::empty` (header not part of the sources). -/
def Dataset.isEmpty (ds : Dataset) : Bool := decide (ds.size = 0)

/-- Modelled from the spec: `Dataset::find` (header not part of the sources): the item
of the entry of `m_data` with the name, `none` standing for `end()`. -/
def Dataset.find (ds : Dataset) (name : String) : Option DataProxy :=
  (ds.m_data.find? (fun item => decide (item.1 = name))).map (make_item [])

/-- One step of the loop of `DatasetConstProxy::dimensions`: a single index erases the
dimension, a range sets its extent to `end - begin`.  The source dereferences the
result of `find` unchecked: for a dimension that is not in the table the step is
undefined, which is `none`. -/
def sliceExtents (base_dims : ExtentMap) (slice : Slice) : Option ExtentMap :=
  match base_dims slice.m_dim with
  | none => none
  | some _ =>
    if !slice.isRange then some (fun d => if d = slice.m_dim then none else base_dims d)
    else some (base_dims.assign slice.m_dim (slice.m_end - slice.m_begin))

/-- The loop of `DatasetConstProxy::dimensions` over the slice list. -/
def sliceExtentsLoop : Option ExtentMap → SliceList → Option ExtentMap
  | base_dims, [] => base_dims
  | none, _ :: _ => none
  | some base_dims, (slice, _) :: rest => sliceExtentsLoop (sliceExtents base_dims slice) rest

/-- Embedding of `DatasetConstProxy::dimensions`. -/
def DatasetConstProxy.dimensions (Sparse : Int) (view : DatasetConstProxy) :
    Option ExtentMap :=
  sliceExtentsLoop (some (view.m_dataset.dimensions Sparse)) view.m_slices

/-- The largest value of `scipp::index`, `std::numeric_limits<scipp::index>::max()`. -/
def indexMax : Int := 9223372036854775807

/-- The loop of `DatasetConstProxy::slice_items` over the items of the view: the
sliced items that depend on the dimension, and the smallest extent seen. -/
def sliceItemsLoop (slice : Slice) :
    List DataProxy → List DataProxy → Int → Except Exception (List DataProxy × Int)
  | [], items, extent => .ok (items, extent)
  | item :: rest, items, extent =>
    match item.dims with
    | none => .error (.RuntimeError "DataConstProxy::dims")
    | some dims =>
      if dims.contains slice.m_dim then
        match item.slice slice, dims.extent slice.m_dim with
        | .ok sliced, some e => sliceItemsLoop slice rest (items ++ [sliced]) (min extent e)
        | .error err, _ => .error err
        | .ok _, none => .error (.DimensionError "Dimensions::operator[]")
      else sliceItemsLoop slice rest items extent

/-- Embedding of `DatasetConstProxy::slice_items`. -/
def slice_items (Sparse : Int) (view : DatasetConstProxy) (slice : Slice) :
    Except Exception (List DataProxy × SliceList) :=
  match sliceItemsLoop slice view.items [] indexMax with
  | .error err => .error err
  | .ok (items, extent) =>
    if extent = indexMax then
      match view.dimensions Sparse with
      | none => .error (.RuntimeError "DatasetConstProxy::dimensions")
      | some currentDims =>
        if validSliceMap currentDims slice then
          match currentDims slice.m_dim with
          | some e => .ok (items, view.m_slices ++ [(slice, e)])
          | none => .error (.OutOfRange "unordered_map::at")
        else .error (.SliceError "expect::validSlice")
    else .ok (items, view.m_slices ++ [(slice, extent)])

/-- Embedding of `DatasetConstProxy::slice` and `DatasetProxy::slice` for one slice. -/
def DatasetConstProxy.slice (Sparse : Int) (view : DatasetConstProxy) (slice1 : Slice) :
    Except Exception DatasetConstProxy :=
  match slice_items Sparse view slice1 with
  | .error err => .error err
  | .ok (items, slices) => .ok ⟨view.m_dataset, items, slices⟩

/-- Embedding of `Dataset::slice` for one slice: the slice of the proxy of the whole
dataset. -/
def Dataset.slice (Sparse : Int) (ds : Dataset) (slice1 : Slice) :
    Except Exception DatasetConstProxy :=
  (DatasetConstProxy.ofDataset ds).slice Sparse slice1

/-- Whether an item depends on a dimension: its dimensions contain the label. -/
def DataProxy.dependsOn (item : DataProxy) (dim : Dim) : Bool :=
  match item.dims with
  | some dims => dims.contains dim
  | none => false

/-- Example: the dataset of the test `find_in_slice`, with coordinates for `X` and `Y` of
extent 2, data `a` along `X` and data `b` along `Y`. -/
def exampleDataset : Dataset :=
  ⟨(ExtentMap.empty.assign Dim.X (-3)).assign Dim.Y (-3),
    [(Dim.X, ⟨⟨[(Dim.X, 2)]⟩⟩), (Dim.Y, ⟨⟨[(Dim.Y, 2)]⟩⟩)], [], [], [],
    [("a", ⟨some ⟨⟨[(Dim.X, 2)]⟩⟩, none, [], []⟩),
      ("b", ⟨some ⟨⟨[(Dim.Y, 2)]⟩⟩, none, [], []⟩)]⟩

end core

namespace Tagged

/-! ## The tag-based `Dataset` of `src/dataset.cpp` -/

/-- Modelled from the spec: the class `Dimensions` used by the tag-based `Dataset`
(its header is not part of the sources): an ordered sequence of (label, extent)
pairs with unique labels. -/
structure Dimensions where
  shape : List (Dim × Int)
  deriving DecidableEq, Repr

/-- Modelled from the spec: `Dimensions::contains(label)`. -/
def Dimensions.contains (dims : Dimensions) (dim : Dim) : Bool :=
  dims.shape.any (fun p => decide (p.1 = dim))

/-- Modelled from the spec: `Dimensions::operator[]`, the extent of a label, which
fails for a label that is not present. -/
def Dimensions.extent (dims : Dimensions) (dim : Dim) : Option Int :=
  (dims.shape.find? (fun p => decide (p.1 = dim))).map Prod.snd

/-- Modelled from the spec: `Dimensions::add`, which adds a pair to the sequence.
No property below depends on where in the sequence the new pair is placed. -/
def Dimensions.add (dims : Dimensions) (dim : Dim) (size : Int) : Dimensions :=
  ⟨dims.shape ++ [(dim, size)]⟩

/-- The pairs of `Dimensions::resize`: the extent of the label is replaced. -/
def resizeShape (dim : Dim) (size : Int) : List (Dim × Int) → List (Dim × Int)
  | [] => []
  | (label, extent) :: rest =>
    if label = dim then (label, size) :: rest else (label, extent) :: resizeShape dim size rest

/-- Modelled from the spec: `Dimensions::resize`, which changes the extent of a
label and keeps the order. -/
def Dimensions.resize (dims : Dimensions) (dim : Dim) (size : Int) : Dimensions :=
  ⟨resizeShape dim size dims.shape⟩

/-- A tag: its numeric identifier `tag_id` (`tags.h`). -/
structure Tag where
  value : Nat
  deriving DecidableEq, Repr

/-- The number of coordinate tags, `std::tuple_size<Coord::tags>` (`tags.h`). -/
def numCoordTags : Nat := 15

/-- A `Variable` of the tag-based interface, as far as insertion is concerned: its
tag, its name and its dimensions. -/
structure Variable where
  tag : Tag
  name : String
  dimensions : Dimensions
  deriving DecidableEq, Repr

/-- Embedding of `Variable::isCoord`, by `is_coord` of `tags.h`: the coordinate tags come first. -/
def Variable.isCoord (v : Variable) : Bool := decide (v.tag.value < numCoordTags)

/-- The tag-based class `Dataset`. -/
structure Dataset where
  m_dimensions : Dimensions
  m_variables : List Variable

/-- The outcome of a member function that may throw. -/
structure DatasetResult where
  dataset : Dataset
  threw : Option String

/-- The helper `count(dataset, tag)`: the number of variables with the tag. -/
def count (ds : Dataset) (tag : Tag) : Nat :=
  (ds.m_variables.filter (fun item => decide (item.tag = tag))).length

/-- The flag `canShrink` of `Dataset::mergeDimensions`: no variable that depends on
`dim` is anything but the dimension-coordinate of `dim`.  The table
`coordDimension`, declared outside the sources, is a parameter. -/
def canShrink (coordDimension : Nat → Dim) (m_variables : List Variable) (dim : Dim) : Bool :=
  m_variables.all fun var =>
    !(var.dimensions.contains dim && decide (coordDimension var.tag.value ≠ dim))

/-- The loop over `j` of `Dataset::mergeDimensions` for one dimension `dim` of extent
`size` of the inserted variable, followed by the `add` made when the label was not
found.  The first argument is the part of `m_dimensions` still to be visited. -/
def mergeDimension (coordDimension : Nat → Dim) (m_variables : List Variable)
    (m_dimensions : Dimensions) (dim : Dim) (size : Int) (coordDim : Dim) :
    List (Dim × Int) → Dimensions × Option String
  | [] => (m_dimensions.add dim size, none)
  | (label, held) :: rest =>
    if label = dim then
      if held = size then (m_dimensions, none)
      else if dim = coordDim then
        if held = size - 1 then (m_dimensions, none)
        else (m_dimensions, some ("Cannot insert variable into Dataset: Variable is a dimension "
          ++ "coordiante, but the dimension length matches neither as default "
          ++ "coordinate nor as edge coordinate."))
      else
        if held = size + 1 ∧ canShrink coordDimension m_variables dim = true then
          (m_dimensions.resize dim size, none)
        else (m_dimensions, some "Cannot insert variable into Dataset: Dimensions do not match.")
    else mergeDimension coordDimension m_variables m_dimensions dim size coordDim rest

/-- The loop over `i` of `Dataset::mergeDimensions`: the dimensions of the inserted
variable are merged one after the other; what was merged before an exception
stays merged. -/
def mergeLoop (coordDimension : Nat → Dim) (m_variables : List Variable) (coordDim : Dim) :
    List (Dim × Int) → Dimensions → Dimensions × Option String
  | [], m_dimensions => (m_dimensions, none)
  | (dim, size) :: rest, m_dimensions =>
    match mergeDimension coordDimension m_variables m_dimensions dim size coordDim
        m_dimensions.shape with
    | (m1, none) => mergeLoop coordDimension m_variables coordDim rest m1
    | (m1, some msg) => (m1, some msg)

/-- Embedding of `Dataset::mergeDimensions`. -/
def Dataset.mergeDimensions (coordDimension : Nat → Dim) (ds : Dataset) (dims : Dimensions)
    (coordDim : Dim) : DatasetResult :=
  match mergeLoop coordDimension ds.m_variables coordDim dims.shape ds.m_dimensions with
  | (m1, threw) => ⟨{ ds with m_dimensions := m1 }, threw⟩

/-- Embedding of `Dataset::insert` of the variable `var`. -/
def Dataset.insert (coordDimension : Nat → Dim) (ds : Dataset) (var : Variable) :
    DatasetResult :=
  if var.isCoord = true ∧ count ds var.tag ≠ 0 then
    ⟨ds, some "Attempt to insert duplicate coordinate."⟩
  else if var.isCoord = false ∧
      ds.m_variables.any (fun item =>
        decide (item.tag = var.tag) && decide (item.name = var.name)) = true then
    ⟨ds, some "Attempt to insert data of same type with duplicate name."⟩
  else
    match ds.mergeDimensions coordDimension var.dimensions
        (coordDimension var.tag.value) with
    | ⟨ds1, some msg⟩ => ⟨ds1, some msg⟩
    | ⟨ds1, none⟩ => ⟨{ ds1 with m_variables := ds1.m_variables ++ [var] }, none⟩

/-- An instance of the table `coordDimension` for examples: the coordinate tag
`Coord::Tof` (identifier `3`) belongs to `Dim::Tof`, every other tag to no
dimension. -/
def exampleCoordDimension : Nat → Dim := fun t => if t = 3 then Dim.Tof else Dim.Invalid

/-- Example: the coordinate `Coord::Tof` with `4` bin edges. -/
def exampleTofEdges : Variable := ⟨⟨3⟩, "", ⟨[(Dim.Tof, 4)]⟩⟩

/-- Example: a dataset that holds `Data::Value` (identifier `18`) named "monitor" with `2`
entries along `Dim::Spectrum`. -/
def exampleSpectrumDataset : Dataset :=
  ⟨⟨[(Dim.Spectrum, 2)]⟩, [⟨⟨18⟩, "monitor", ⟨[(Dim.Spectrum, 2)]⟩⟩]⟩

/-- Example: `Data::Value` with `2` spectra of `3` bins along `Dim::Tof`. -/
def exampleSpectra : Variable := ⟨⟨18⟩, "counts", ⟨[(Dim.Spectrum, 2), (Dim.Tof, 3)]⟩⟩

/-- Example: `Data::Value` with `2` spectra of `5` entries along `Dim::Tof`. -/
def exampleOversizedSpectra : Variable :=
  ⟨⟨18⟩, "oversized", ⟨[(Dim.Spectrum, 2), (Dim.Tof, 5)]⟩⟩

end Tagged

/-! ## `RebinHelper::rebinInner` of `src/variable.cpp` -/

/-- The element type `T` with exact arithmetic: a rational number, or NaN.  There
are no infinities and no rounding: a quotient by zero is NaN. -/
inductive Value where
  | nan
  | num (q : ℚ)
  deriving DecidableEq

namespace Value

/-- Embedding of `std::isnan`. -/
def isnan : Value → Bool
  | nan => true
  | num _ => false

/-- The comparison `a <= b`, false when an operand is NaN. -/
def le : Value → Value → Bool
  | num a, num b => decide (a ≤ b)
  | _, _ => false

/-- The comparison `a < b`, false when an operand is NaN. -/
def lt : Value → Value → Bool
  | num a, num b => decide (a < b)
  | _, _ => false

/-- The comparison `a > b`, false when an operand is NaN. -/
def gt (a b : Value) : Bool := lt b a

/-- The sum `a + b`. -/
def add : Value → Value → Value
  | num a, num b => num (a + b)
  | _, _ => nan

/-- The difference `a - b`. -/
def sub : Value → Value → Value
  | num a, num b => num (a - b)
  | _, _ => nan

/-- The product `a * b`. -/
def mul : Value → Value → Value
  | num a, num b => num (a * b)
  | _, _ => nan

/-- The quotient `a / b`. -/
def div : Value → Value → Value
  | num a, num b => if b = 0 then nan else num (a / b)
  | _, _ => nan

end Value

/-- A span or a pointer into a buffer: the element at each index. -/
abbrev Span := Nat → Value

/-- The assignment `span[index] = value`. -/
def Span.set (span : Span) (index : Nat) (value : Value) : Span :=
  fun k => if k = index then value else span k

namespace RebinHelper

/-- The variables that change in the `while` loop of `rebinInner`: the two cursors
and the output. -/
structure LoopState where
  iold : Nat
  inew : Nat
  newData : Span

/-- The condition of the `while` loop. -/
def loopCondition (oldSize newSize : Nat) (st : LoopState) : Bool :=
  decide (st.iold < oldSize) && decide (st.inew < newSize)

/-- The body of the `while` loop of `rebinInner`. -/
def loopBody (oldData xold xnew : Span)
    (oldEdgeOffset newEdgeOffset oldOffset newOffset : Nat) (st : LoopState) : LoopState :=
  let xo_low := xold (oldEdgeOffset + st.iold)
  let xo_high := xold (oldEdgeOffset + st.iold + 1)
  let xn_low := xnew (newEdgeOffset + st.inew)
  let xn_high := xnew (newEdgeOffset + st.inew + 1)
  if (xn_low.isnan || xn_high.isnan) || xn_high.le xo_low then
    { st with inew := st.inew + 1 }
  else if (xo_low.isnan || xo_high.isnan) || xo_high.le xn_low then
    { st with iold := st.iold + 1 }
  else
    let delta := (if xo_high.lt xn_high then xo_high else xn_high).sub
      (if xo_low.gt xn_low then xo_low else xn_low)
    let owidth := xo_high.sub xo_low
    let newData := st.newData.set (newOffset + st.inew)
      ((st.newData (newOffset + st.inew)).add
        (((oldData (oldOffset + st.iold)).mul delta).div owidth))
    if xn_high.gt xo_high then
      { iold := st.iold + 1, inew := st.inew, newData := newData }
    else
      { iold := st.iold, inew := st.inew + 1, newData := newData }

/-- The `while` loop of `rebinInner`, run for at most `fuel` iterations. -/
def whileLoop (oldSize newSize : Nat) (oldData xold xnew : Span)
    (oldEdgeOffset newEdgeOffset oldOffset newOffset : Nat) : Nat → LoopState → LoopState
  | 0, st => st
  | fuel + 1, st =>
    if loopCondition oldSize newSize st then
      whileLoop oldSize newSize oldData xold xnew oldEdgeOffset newEdgeOffset oldOffset
        newOffset fuel
        (loopBody oldData xold xnew oldEdgeOffset newEdgeOffset oldOffset newOffset st)
    else st

/-- The body of the `for` loop of `rebinInner` over the rows: row `c` is rebinned
into `newData`.  Each iteration of the `while` loop advances one cursor, so
`oldSize + newSize` iterations are enough. -/
def rebinRow (oldSize newSize : Nat) (jointOld jointNew : Bool) (oldData xold xnew : Span)
    (c : Nat) (newData : Span) : Span :=
  let oldEdgeOffset := if jointOld then 0 else c * (oldSize + 1)
  let newEdgeOffset := if jointNew then 0 else c * (newSize + 1)
  let oldOffset := c * oldSize
  let newOffset := c * newSize
  (whileLoop oldSize newSize oldData xold xnew oldEdgeOffset newEdgeOffset oldOffset newOffset
    (oldSize + newSize) ⟨0, 0, newData⟩).newData

/-- Embedding of `RebinHelper::rebinInner`.  The arguments are what the function reads from its
operands: `oldSize` and `newSize` are the extents of `dim`, `volume` is the volume
of the old data, `jointOld` and `jointNew` tell whether the edge coordinates are
one-dimensional.  The rows, rebinned in parallel in the source, are rebinned one
after the other.  The row count `volume / oldSize` is undefined for
`oldSize = 0`. -/
def rebinInner (oldSize newSize volume : Nat) (jointOld jointNew : Bool)
    (oldData newData xold xnew : Span) : Option Span :=
  if oldSize = 0 then none
  else
    some ((List.range (volume / oldSize)).foldl
      (fun data c => rebinRow oldSize newSize jointOld jointNew oldData xold xnew c data)
      newData)

/-- The sum of the `size` elements of a span from `offset` on. -/
def sumRow (span : Span) (offset size : Nat) : Value :=
  (List.range size).foldl (fun acc k => acc.add (span (offset + k))) (Value.num 0)

/-- The width of the overlap of the bins `[a, b]` and `[lo, hi]`. -/
def overlap (a b lo hi : ℚ) : ℚ := max 0 (min b hi - max a lo)

/-- The share of old bin `i` that falls into new bin `j`: the value `v i` of the old
bin times the overlap width over the width of the old bin. -/
def share (x y v : Nat → ℚ) (i j : Nat) : ℚ :=
  v i * overlap (x i) (x (i + 1)) (y j) (y (j + 1)) / (x (i + 1) - x i)

/-- What new bin `k` holds when the cursors are at `(i, j)`: the shares of the pairs
`(i2, k)` that the cursors have left behind, that is with `i2 < i` or `k < j`. -/
def settled (x y v : Nat → ℚ) (oldSize i j k : Nat) : ℚ :=
  ∑ i2 in Finset.range oldSize, if i2 < i ∨ k < j then share x y v i2 k else 0

/-- The hypotheses on one row: its edges and its old data are numbers, held where
the loop reads them, and both edge sequences increase strictly. -/
structure RowInput (oldSize newSize : Nat) (oldData xold xnew : Span)
    (oldEdgeOffset newEdgeOffset oldOffset : Nat) (x y v : Nat → ℚ) : Prop where
  xold_eq : ∀ k, k ≤ oldSize → xold (oldEdgeOffset + k) = Value.num (x k)
  xnew_eq : ∀ k, k ≤ newSize → xnew (newEdgeOffset + k) = Value.num (y k)
  old_eq : ∀ i, i < oldSize → oldData (oldOffset + i) = Value.num (v i)
  x_strict : ∀ i, i < oldSize → x i < x (i + 1)
  y_strict : ∀ j, j < newSize → y j < y (j + 1)

/-- The invariant of the `while` loop: the cursors are in range, every bin of the
row holds the shares settled so far, and nothing outside the row has changed. -/
structure LoopInvariant (oldSize newSize newOffset : Nat) (x y v : Nat → ℚ) (initial : Span)
    (st : LoopState) : Prop where
  iold_le : st.iold ≤ oldSize
  inew_le : st.inew ≤ newSize
  row : ∀ k, k < newSize →
    st.newData (newOffset + k) = Value.num (settled x y v oldSize st.iold st.inew k)
  frame : ∀ k, (k < newOffset ∨ newOffset + newSize ≤ k) → st.newData k = initial k

/-- Example: the old edges `0, 1, 2, ...`. -/
def exampleOldEdge (k : Nat) : ℚ := k

/-- Example: the new edges `0, 2, 4, ...`. -/
def exampleNewEdge (k : Nat) : ℚ := 2 * k

/-- Example: the old data `1, 2, 3, ...`. -/
def exampleOldValue (k : Nat) : ℚ := k + 1

/-- Example: the span of the old edges. -/
def exampleOldEdges : Span := fun k => Value.num (exampleOldEdge k)

/-- Example: the span of the new edges. -/
def exampleNewEdges : Span := fun k => Value.num (exampleNewEdge k)

/-- Example: the span of the old data. -/
def exampleOldData : Span := fun k => Value.num (exampleOldValue k)

/-- Example: an output buffer of zeros. -/
def exampleZeros : Span := fun _ => Value.num 0

end RebinHelper

/-! ## Memory layout of `Dimensions` and strided views (`src/variable.cpp`) -/

namespace Tagged

/-- Modelled from the spec: `Dimensions::volume` (the header of `Dimensions` is not part
of the sources): the product of the extents. -/
def Dimensions.volume (dims : Dimensions) : Int := (dims.shape.map Prod.snd).prod

/-- Modelled from the spec: `Dimensions::labels` (the header of `Dimensions` is not part
of the sources): the labels in order. -/
def Dimensions.labels (dims : Dimensions) : List Dim := dims.shape.map Prod.fst

/-- Modelled from the spec: `Dimensions::count` (the header of `Dimensions` is not part
of the sources): the number of dimensions. -/
def Dimensions.count (dims : Dimensions) : Int := dims.shape.length

/-- Modelled from the spec: `Dimensions::erase(label)` (the header of `Dimensions` is
not part of the sources): the pair of the label is removed, the order of the
others is kept. -/
def Dimensions.erase (dims : Dimensions) (dim : Dim) : Dimensions :=
  ⟨dims.shape.filter (fun p => decide (p.1 ≠ dim))⟩

/-- The product of the extents of a shape. -/
def shapeVolume (shape : List (Dim × Nat)) : Nat := (shape.map Prod.snd).prod

/-- The distance in memory between neighbours along a label: the product of the
extents of the dimensions after it (the innermost dimension is the last one), and
0 for a label that is not in the shape, which is then broadcast. -/
def shapeStride (dim : Dim) : List (Dim × Nat) → Nat
  | [] => 0
  | (label, _) :: rest => if label = dim then shapeVolume rest else shapeStride dim rest

/-- The extents of the dimensions as natural numbers. -/
def Dimensions.natShape (dims : Dimensions) : List (Dim × Nat) :=
  dims.shape.map (fun p => (p.1, p.2.toNat))

/-- Modelled from the spec: `Dimensions::offset(label)` (the header of `Dimensions` is
not part of the sources): the distance in memory between neighbours along the
label.  The sources call it for labels of the dimensions only. -/
def Dimensions.offset (dims : Dimensions) (dim : Dim) : Int := shapeStride dim dims.natShape

/-- The positions in a buffer with dimensions `parent` that a view with the dimensions
`target` visits from `offset` on, in the order of iteration: the last dimension of
`target` runs fastest, and each step along a label moves by the stride of that
label in `parent`. -/
def viewIndices (parent : List (Dim × Nat)) : Nat → List (Dim × Nat) → List Nat
  | offset, [] => [offset]
  | offset, (label, extent) :: rest =>
    (List.range extent).flatMap
      (fun t => viewIndices parent (offset + t * shapeStride label parent) rest)

/-- Modelled from the spec: `Dimensions::isContiguousIn(parent)` (the header of
`Dimensions` is not part of the sources): whether the range that the dimensions
select in `parent` is contiguous in memory, that is whether a view with these
dimensions visits consecutive positions. -/
def Dimensions.isContiguousIn (dims parent : Dimensions) : Bool :=
  decide (viewIndices parent.natShape 0 dims.natShape
    = List.range' 0 (shapeVolume dims.natShape))

end Tagged

namespace Value

/-- The comparison `a == b` of two elements, false when an operand is NaN. -/
def eq : Value → Value → Bool
  | num a, num b => decide (a = b)
  | _, _ => false

end Value

/-! ## Type-erased storage and views of `src/variable.cpp` -/

namespace Storage

open Tagged (Dimensions Tag shapeVolume shapeStride viewIndices)

open core (Exception)

/-- The element types a variable can hold (`DType`).  The element values themselves are
modelled by `Value` whatever the element type is. -/
inductive DType where
  | Double
  | Float
  | Int64
  | Int32
  | Char
  | Bool
  | String
  | Dataset
  deriving DecidableEq, Repr

/-- A physical unit, as far as it is compared: its identifier. -/
structure Unit where
  id : Nat
  deriving DecidableEq, Repr

/-- The element read at a position of a buffer.  Reading outside the buffer is
undefined in the source and gives zero here. -/
def readAt (buffer : List Value) (position : Nat) : Value :=
  buffer.getD position (Value.num 0)

/-- Modelled from the spec: the class `VariableView` (its header is not part of the
sources), a strided view into the buffer of another model: the buffer, the offset
of the first element, the dimensions iterated over and the dimensions of the
buffer. -/
structure VariableView where
  m_variable : List Value
  m_offset : Int
  m_targetDimensions : Dimensions
  m_dimensions : Dimensions
  deriving DecidableEq

/-- Modelled from the spec: `VariableView::size` (header not part of the sources): the
volume of the dimensions iterated over. -/
def VariableView.size (view : VariableView) : Int := view.m_targetDimensions.volume

/-- The positions of the buffer that a view visits, in the order of iteration. -/
def VariableView.indices (view : VariableView) : List Nat :=
  viewIndices view.m_dimensions.natShape view.m_offset.toNat view.m_targetDimensions.natShape

/-- Modelled from the spec: the range `[begin(), end())` of a `VariableView` (header not
part of the sources): the elements of the buffer at the positions visited. -/
def VariableView.elements (view : VariableView) : List Value :=
  view.indices.map (readAt view.m_variable)

/-- Modelled from the spec: `makeVariableView(data, offset, targetDimensions,
dimensions)` (header not part of the sources). -/
def makeVariableView (data : List Value) (offset : Int) (targetDimensions : Dimensions)
    (dimensions : Dimensions) : VariableView :=
  ⟨data, offset, targetDimensions, dimensions⟩

/-- Modelled from the spec: the constructor `VariableView(other, targetDimensions)`
(header not part of the sources): the same buffer and offset, iterated over other
dimensions. -/
def VariableView.retarget (other : VariableView) (targetDimensions : Dimensions) :
    VariableView :=
  ⟨other.m_variable, other.m_offset, targetDimensions, other.m_dimensions⟩

/-- Modelled from the spec: the constructor `VariableView(other, targetDimensions, dim,
begin)` (header not part of the sources): as `VariableView(other,
targetDimensions)`, from index `begin` of `dim` on.  The offset is advanced as
`DataModel::getView(dims, dim, begin)` advances it. -/
def VariableView.retargetAt (other : VariableView) (targetDimensions : Dimensions)
    (dim : Dim) (begin : Int) : VariableView :=
  ⟨other.m_variable,
    other.m_offset + (if other.m_dimensions.contains dim then begin * other.m_dimensions.offset dim
      else begin * other.m_dimensions.volume),
    targetDimensions, other.m_dimensions⟩

/-- A `gsl::span` into a buffer: the position of its first element and its size. -/
structure GslSpan where
  first : Int
  size : Int
  deriving DecidableEq, Repr

/-- The elements of a span of a buffer. -/
def GslSpan.elements (span : GslSpan) (buffer : List Value) : List Value :=
  (List.range span.size.toNat).map (fun i => readAt buffer (span.first.toNat + i))

/-- What a concept holds: `DataModel` owns a buffer, `ViewModel` holds a view, to constant
elements (`ViewModel<VariableView<const T>>`) or to mutable ones. -/
inductive Model where
  | DataModel (m_model : List Value)
  | ViewModel (m_model : VariableView) (isConst : Bool)
  deriving DecidableEq

/-- The class `VariableConcept` with its implementations `DataModel` and `ViewModel`:
the dimensions, the element type, which in the source is the template argument,
and the model. -/
structure VariableConcept where
  m_dimensions : Dimensions
  m_dtype : DType
  m_model : Model
  deriving DecidableEq

namespace VariableConcept

/-- Embedding of `VariableConcept::dimensions`. -/
def dimensions (self : VariableConcept) : Dimensions := self.m_dimensions

/-- Embedding of `VariableConceptT::dtype`. -/
def dtype (self : VariableConcept) : DType := self.m_dtype

/-- Embedding of `DataModel::size` and `ViewModel::size`. -/
def size (self : VariableConcept) : Int :=
  match self.m_model with
  | .DataModel m_model => m_model.length
  | .ViewModel m_model _ => m_model.size

/-- The buffer that the model owns or points into. -/
def buffer (self : VariableConcept) : List Value :=
  match self.m_model with
  | .DataModel m_model => m_model
  | .ViewModel m_model _ => m_model.m_variable

/-- The position of `m_model.data()` in the buffer. -/
def dataOffset (self : VariableConcept) : Int :=
  match self.m_model with
  | .DataModel _ => 0
  | .ViewModel m_model _ => m_model.m_offset

/-- Embedding of `DataModel::isContiguous` and `ViewModel::isContiguous`. -/
def isContiguous (self : VariableConcept) : Bool :=
  match self.m_model with
  | .DataModel _ => true
  | .ViewModel m_model _ => self.m_dimensions.isContiguousIn m_model.m_dimensions

/-- Embedding of `DataModel::isView` and `ViewModel::isView`. -/
def isView (self : VariableConcept) : Bool :=
  match self.m_model with
  | .DataModel _ => false
  | .ViewModel _ _ => true

/-- Embedding of `DataModel::isConstView` and `ViewModel::isConstView`. -/
def isConstView (self : VariableConcept) : Bool :=
  match self.m_model with
  | .DataModel _ => false
  | .ViewModel _ isConst => isConst

/-- The message of the exception of the constructors of `DataModel` and `ViewModel`. -/
def sizeMismatch : String :=
  "Creating Variable: data size does not match volume given by dimension extents"

/-- Embedding of the constructor `DataModel::DataModel(dimensions, model)`. -/
def makeDataModel (dimensions : Dimensions) (dtype : DType) (model : List Value) :
    Except Exception VariableConcept :=
  if dimensions.volume ≠ (model.length : Int) then .error (.RuntimeError sizeMismatch)
  else .ok ⟨dimensions, dtype, .DataModel model⟩

/-- Embedding of the constructor `ViewModel::ViewModel(dimensions, model)`. -/
def makeViewModel (dimensions : Dimensions) (dtype : DType) (model : VariableView)
    (isConst : Bool) : Except Exception VariableConcept :=
  if dimensions.volume ≠ model.size then .error (.RuntimeError sizeMismatch)
  else .ok ⟨dimensions, dtype, .ViewModel model isConst⟩

/-- Embedding of `ViewModel::requireMutable`; a `DataModel` is always mutable.  The flag
`nonConst` tells whether the overload for a mutable `this` is the one called. -/
def requireMutable (self : VariableConcept) (nonConst : Bool) : Except Exception PUnit.{1} :=
  if nonConst && self.isConstView then
    .error (.RuntimeError "View is const, cannot get mutable range of data.")
  else .ok ⟨⟩

/-- Embedding of `ViewModel::requireContiguous`; a `DataModel` is always contiguous. -/
def requireContiguous (self : VariableConcept) : Except Exception PUnit.{1} :=
  if self.isView && !self.isContiguous then
    .error (.RuntimeError "View is not contiguous, cannot get contiguous range of data.")
  else .ok ⟨⟩

/-- Embedding of `makeSpan(model, dims, dim, begin, end)`, for the model of the
concept. -/
def makeSpan (self : VariableConcept) (dim : Dim) (begin end_ : Int) :
    Except Exception GslSpan :=
  let dims := self.m_dimensions
  if !dims.contains dim && (decide (begin ≠ 0) || decide (end_ ≠ 1)) then
    .error (.RuntimeError "VariableConcept: Slice index out of range.")
  else if !dims.contains dim || decide (dims.extent dim = some (end_ - begin)) then
    .ok ⟨self.dataOffset, self.size⟩
  else
    let beginOffset := begin * dims.offset dim
    let endOffset := end_ * dims.offset dim
    .ok ⟨self.dataOffset + beginOffset, endOffset - beginOffset⟩

/-- Embedding of `getSpan()` of `DataModel` and `ViewModel`, for constant and for mutable
`this`. -/
def getSpan (self : VariableConcept) (nonConst : Bool) : Except Exception GslSpan := do
  self.requireMutable nonConst
  self.requireContiguous
  pure ⟨self.dataOffset, self.size⟩

/-- Embedding of `getSpan(dim, begin, end)` of `DataModel` and `ViewModel`, for constant
and for mutable `this`. -/
def getSpanAt (self : VariableConcept) (nonConst : Bool) (dim : Dim) (begin end_ : Int) :
    Except Exception GslSpan := do
  self.requireMutable nonConst
  self.requireContiguous
  self.makeSpan dim begin end_

/-- Embedding of `getView(dims)` of `DataModel` and `ViewModel`, for constant and for
mutable `this`. -/
def getView (self : VariableConcept) (nonConst : Bool) (dims : Dimensions) :
    Except Exception VariableView := do
  self.requireMutable nonConst
  match self.m_model with
  | .DataModel m_model => pure (makeVariableView m_model 0 dims self.m_dimensions)
  | .ViewModel m_model _ => pure (m_model.retarget dims)

/-- Embedding of `getView(dims, dim, begin)` of `DataModel` and `ViewModel`, for constant
and for mutable `this`. -/
def getViewAt (self : VariableConcept) (nonConst : Bool) (dims : Dimensions) (dim : Dim)
    (begin : Int) : Except Exception VariableView := do
  self.requireMutable nonConst
  match self.m_model with
  | .DataModel m_model =>
    let beginOffset :=
      if self.m_dimensions.contains dim then begin * self.m_dimensions.offset dim
      else begin * self.m_dimensions.volume
    pure (makeVariableView m_model beginOffset dims self.m_dimensions)
  | .ViewModel m_model _ => pure (m_model.retargetAt dims dim begin)

/-- Embedding of `getReshaped(dims)` of `DataModel` and `ViewModel`, for constant and for
mutable `this`. -/
def getReshaped (self : VariableConcept) (nonConst : Bool) (dims : Dimensions) :
    Except Exception VariableView := do
  self.requireMutable nonConst
  match self.m_model with
  | .DataModel m_model => pure (makeVariableView m_model 0 dims dims)
  | .ViewModel m_model _ => pure (m_model.retarget dims)

/-- Embedding of `DataModel::clone()` and `ViewModel::clone()`. -/
def clone (self : VariableConcept) : Except Exception VariableConcept :=
  match self.m_model with
  | .DataModel m_model => makeDataModel self.m_dimensions self.m_dtype m_model
  | .ViewModel m_model isConst => makeViewModel self.m_dimensions self.m_dtype m_model isConst

/-- Embedding of `DataModel::clone(dims)` and `ViewModel::clone(dims)`: a new buffer of
`dims.volume()` value-initialised elements, which a view cannot provide. -/
def cloneWith (self : VariableConcept) (dims : Dimensions) : Except Exception VariableConcept :=
  match self.m_model with
  | .DataModel _ =>
    makeDataModel dims self.m_dtype (List.replicate dims.volume.toNat (Value.num 0))
  | .ViewModel _ _ => .error (.RuntimeError "Cannot resize view.")

/-- The dimensions of the view made by `makeView(dim, begin, end)`: `end = -1` marks a single
index, which erases the dimension; a range resizes it. -/
def makeViewDims (self : VariableConcept) (dim : Dim) (begin end_ : Int) : Dimensions :=
  if end_ = -1 then self.m_dimensions.erase dim
  else self.m_dimensions.resize dim (end_ - begin)

/-- Embedding of `VariableConceptT::makeView(dim, begin, end)`, for constant and for
mutable `this`; the overload for mutable `this` defers to the other one for a view
of constant elements. -/
def makeView (self : VariableConcept) (nonConst : Bool) (dim : Dim) (begin end_ : Int) :
    Except Exception VariableConcept := do
  let asMutable := nonConst && !self.isConstView
  let dims := self.makeViewDims dim begin end_
  let view ← self.getViewAt asMutable dims dim begin
  makeViewModel dims self.m_dtype view (!asMutable)

/-- The message of the exception of `VariableConceptT::reshape`. -/
def reshapeMismatch : String := "Cannot reshape to dimensions with different volume"

/-- Embedding of `VariableConceptT::reshape(dims)`, for constant and for mutable `this`. -/
def reshape (self : VariableConcept) (nonConst : Bool) (dims : Dimensions) :
    Except Exception VariableConcept :=
  if self.m_dimensions.volume ≠ dims.volume then .error (.RuntimeError reshapeMismatch)
  else do
    let view ← self.getReshaped nonConst dims
    makeViewModel dims self.m_dtype view (!nonConst)

/-- Embedding of `equal(view1, view2)`: `std::equal` over two ranges, which also compares
their lengths. -/
def equal : List Value → List Value → Bool
  | [], [] => true
  | x :: xs, y :: ys => Value.eq x y && equal xs ys
  | _, _ => false

/-- Embedding of `requireT<T>(concept)`: the cast to the concept of an element type, which
fails with a `TypeError`.  The function `to_string` of a `DType` is not part of
the sources and is a parameter. -/
def requireT (to_string : DType → String) (expected : DType) (concept : VariableConcept) :
    Except Exception VariableConcept :=
  if concept.dtype = expected then .ok concept
  else .error (.TypeError
    ("Expected item dtype " ++ to_string expected ++ ", got " ++ to_string concept.dtype ++ "."))

/-- The elements of the concept in the order of its dimensions, as `getView(dimensions())`
iterates over them. -/
def values (self : VariableConcept) : List Value :=
  match self.m_model with
  | .DataModel m_model => (makeVariableView m_model 0 self.m_dimensions self.m_dimensions).elements
  | .ViewModel m_model _ => (m_model.retarget self.m_dimensions).elements

/-- Embedding of `VariableConceptT::operator==`. -/
def eq (to_string : DType → String) (self other : VariableConcept) : Except Exception Bool :=
  let dims := self.dimensions
  if dims ≠ other.dimensions then .ok false
  else if self.dtype ≠ other.dtype then .ok false
  else do
    let otherT ← requireT to_string self.dtype other
    if self.isContiguous then
      if other.isContiguous && dims.isContiguousIn other.dimensions then
        let mine ← self.getSpan false
        let theirs ← otherT.getSpan false
        pure (equal (mine.elements self.buffer) (theirs.elements otherT.buffer))
      else
        let mine ← self.getSpan false
        let theirs ← otherT.getView false dims
        pure (equal (mine.elements self.buffer) theirs.elements)
    else
      if other.isContiguous && dims.isContiguousIn other.dimensions then
        let mine ← self.getView false dims
        let theirs ← otherT.getSpan false
        pure (equal mine.elements (theirs.elements otherT.buffer))
      else
        let mine ← self.getView false dims
        let theirs ← otherT.getView false dims
        pure (equal mine.elements theirs.elements)

/-- The buffer after `std::copy` or `std::transform` has written the given elements at the
given positions, one after the other. -/
def writeAll (buffer : List Value) : List Nat → List Value → List Value
  | position :: positions, x :: xs => writeAll (buffer.set position x) positions xs
  | _, _ => buffer

/-- The concept with the buffer it owns or points into replaced.  A view holds the buffer
as it is when the view is made, so writing through a view changes the buffer of the
view only. -/
def withBuffer (self : VariableConcept) (buffer : List Value) : VariableConcept :=
  match self.m_model with
  | .DataModel _ => { self with m_model := .DataModel buffer }
  | .ViewModel m_model isConst =>
    { self with m_model := .ViewModel { m_model with m_variable := buffer } isConst }

/-- Embedding of `VariableConceptT::copy(other, dim, offset, otherBegin, otherEnd)`.  Every
exception comes before the first element is written, so the result is either the
exception or the concept after the copy.  `std::copy` into a span writes as many
elements as the source has, from the first position of the span on. -/
def copy (to_string : DType → String) (self other : VariableConcept) (dim : Dim)
    (offset otherBegin otherEnd : Int) : Except Exception VariableConcept := do
  let delta := otherEnd - otherBegin
  let iterDims :=
    if self.dimensions.contains dim then self.dimensions.resize dim delta else self.dimensions
  let otherT ← requireT to_string self.dtype other
  let otherView ← otherT.getViewAt false iterDims dim otherBegin
  if self.isContiguous && iterDims.isContiguousIn self.dimensions then
    let target ← self.getSpanAt true dim offset (offset + delta)
    if other.isContiguous && iterDims.isContiguousIn other.dimensions then
      let source ← otherT.getSpanAt false dim otherBegin otherEnd
      let xs := source.elements otherT.buffer
      pure (self.withBuffer (writeAll self.buffer (List.range' target.first.toNat xs.length) xs))
    else
      let xs := otherView.elements
      pure (self.withBuffer (writeAll self.buffer (List.range' target.first.toNat xs.length) xs))
  else
    let view ← self.getViewAt true iterDims dim offset
    if other.isContiguous && iterDims.isContiguousIn other.dimensions then
      let source ← otherT.getSpanAt false dim otherBegin otherEnd
      pure (self.withBuffer (writeAll self.buffer view.indices (source.elements otherT.buffer)))
    else
      pure (self.withBuffer (writeAll self.buffer view.indices otherView.elements))

end VariableConcept

/-- Modelled from the spec: `Dimensions::contains(other)` (the header of `Dimensions` is
not part of the sources): every label of `other` is present with the same
extent. -/
def containsAll (dims other : Dimensions) : Bool :=
  other.shape.all (fun p => decide (dims.extent p.1 = some p.2))

namespace VariableConcept

/-- Embedding of `ArithmeticHelper::apply(a, b)` for a range `b` that is not part of the
buffer of `a`: `std::transform` over the positions of `a`, which replaces each
element of `a` by `op` of it and of the element of `b` at the same place of
the iteration.  For ranges of one buffer see `transformShared`. -/
def transform (op : Value → Value → Value) (buffer : List Value) :
    List Nat → List Value → List Value
  | position :: positions, x :: xs =>
    transform op (buffer.set position (op (readAt buffer position) x)) positions xs
  | _, _ => buffer

/-- The positions of a span. -/
def spanIndices (span : GslSpan) : List Nat := List.range' span.first.toNat span.size.toNat

/-- The part of `VariableConceptT::apply` after the test for an overlap: the three cases
of the dimensions, each with the two ways to read `other`. -/
def applyTransform (op : Value → Value → Value) (self otherT : VariableConcept) :
    Except Exception VariableConcept := do
  let dims := self.dimensions
  let other := otherT
  if self.isContiguous && containsAll dims other.dimensions then
    if other.isContiguous && dims.isContiguousIn other.dimensions then
      let a ← self.getSpan true
      let b ← otherT.getSpan false
      pure (self.withBuffer (transform op self.buffer (spanIndices a) (b.elements otherT.buffer)))
    else
      let a ← self.getSpan true
      let b ← otherT.getView false dims
      pure (self.withBuffer (transform op self.buffer (spanIndices a) b.elements))
  else if containsAll dims other.dimensions then
    if other.isContiguous && dims.isContiguousIn other.dimensions then
      let a ← self.getView true dims
      let b ← otherT.getSpan false
      pure (self.withBuffer (transform op self.buffer a.indices (b.elements otherT.buffer)))
    else
      let a ← self.getView true dims
      let b ← otherT.getView false dims
      pure (self.withBuffer (transform op self.buffer a.indices b.elements))
  else
    if other.isContiguous && dims.isContiguousIn other.dimensions then
      let a ← self.getView true other.dimensions
      let b ← otherT.getSpan false
      pure (self.withBuffer (transform op self.buffer a.indices (b.elements otherT.buffer)))
    else
      let a ← self.getView true other.dimensions
      let b ← otherT.getView false other.dimensions
      pure (self.withBuffer (transform op self.buffer a.indices b.elements))

/-- The `try` block of `VariableConceptT<T>::apply<Op, OtherT>(other)`, where `T` is the
element type of `self`.  `VariableView::overlaps` is not part of the sources and is
a parameter.  On an overlap the elements of `other` are copied into a new
`DataModel` and `apply` is called again with the copy: the cast of the copy to
`OtherT` succeeds and the new buffer overlaps nothing, so that call goes on to
the transformation. -/
def applyTry (to_string : DType → String) (overlaps : VariableView → VariableView → Bool)
    (op : Value → Value → Value) (OtherT : DType) (self other : VariableConcept) :
    Except Exception VariableConcept := do
  let dims := self.dimensions
  let otherT ← requireT to_string OtherT other
  if self.dtype = OtherT then
    let mine ← self.getView true dims
    let theirs ← otherT.getView false dims
    if overlaps mine theirs then
      let data ← otherT.getView false otherT.dimensions
      let copy ← makeDataModel other.dimensions OtherT data.elements
      applyTransform op self copy
    else applyTransform op self otherT
  else applyTransform op self otherT

/-- The outcome of `apply`: the left-hand side after the call and the exception thrown, if
any. -/
structure ApplyResult where
  self : VariableConcept
  threw : Option Exception
  deriving DecidableEq

/-- The handler `catch (const std::bad_cast &)` of `apply`, which replaces a `bad_cast` by a
`runtime_error`; any other exception passes. -/
def catchBadCast : Exception → Exception
  | .BadCast => .RuntimeError
      "Cannot apply arithmetic operation to Variables: Underlying data types do not match."
  | e => e

/-- Embedding of `VariableConceptT<T>::apply<Op, OtherT>(other)`.  Every exception of the
`try` block comes before `std::transform` writes the first element, so the
left-hand side at an exception is the one before the call. -/
def apply (to_string : DType → String) (overlaps : VariableView → VariableView → Bool)
    (op : Value → Value → Value) (OtherT : DType) (self other : VariableConcept) :
    ApplyResult :=
  match applyTry to_string overlaps op OtherT self other with
  | .ok result => ⟨result, none⟩
  | .error e => ⟨self, some (catchBadCast e)⟩

end VariableConcept

/-- The class `Variable`: tag, unit, name and the concept that owns or views the data. -/
structure Variable where
  m_tag : Tag
  m_unit : Unit
  m_name : String
  m_object : VariableConcept
  deriving DecidableEq

/-- Modelled from the spec: the class `ConstVariableSlice` (its header is not part of the
sources): the variable it refers to, and the view if it shows a part of the
variable or a reshaped variable. -/
structure ConstVariableSlice where
  m_variable : Variable
  m_view : Option VariableConcept
  deriving DecidableEq

namespace Variable

/-- Embedding of `Variable::tag`. -/
def tag (self : Variable) : Tag := self.m_tag

/-- Embedding of `Variable::unit`. -/
def unit (self : Variable) : Unit := self.m_unit

/-- Embedding of `Variable::name`. -/
def name (self : Variable) : String := self.m_name

/-- Embedding of `Variable::data`. -/
def data (self : Variable) : VariableConcept := self.m_object

/-- Embedding of `Variable::dimensions`. -/
def dimensions (self : Variable) : Dimensions := self.m_object.dimensions

/-- Embedding of the constructor `Variable(tag, unit, dimensions, object)`. -/
def make (tag : Tag) (unit : Unit) (dtype : DType) (dimensions : Dimensions)
    (object : List Value) : Except Exception Variable := do
  let m_object ← VariableConcept.makeDataModel dimensions dtype object
  pure ⟨tag, unit, "", m_object⟩

/-- The copy constructor of `Variable`, which clones the concept. -/
def clone (self : Variable) : Except Exception Variable := do
  let m_object ← self.m_object.clone
  pure { self with m_object := m_object }

/-- Embedding of `Variable::setDimensions`. -/
def setDimensions (self : Variable) (dimensions : Dimensions) : Except Exception Variable :=
  if dimensions.volume = self.m_object.dimensions.volume then
    if dimensions ≠ self.m_object.dimensions then
      .ok { self with m_object := { self.m_object with m_dimensions := dimensions } }
    else .ok self
  else do
    let m_object ← self.m_object.cloneWith dimensions
    pure { self with m_object := m_object }

/-- Embedding of `Variable::operator()(dim, begin, end) const &`, by the constructor
`ConstVariableSlice(variable, dim, begin, end)`. -/
def slice (self : Variable) (dim : Dim) (begin end_ : Int) :
    Except Exception ConstVariableSlice := do
  let view ← self.m_object.makeView false dim begin end_
  pure ⟨self, some view⟩

/-- Embedding of `Variable::reshape(dims) const &`, by the constructor
`ConstVariableSlice(variable, dims)`. -/
def reshapeView (self : Variable) (dims : Dimensions) : Except Exception ConstVariableSlice := do
  let view ← self.m_object.reshape false dims
  pure ⟨self, some view⟩

/-- Embedding of `Variable::reshape(dims) &&`. -/
def reshape (self : Variable) (dims : Dimensions) : Except Exception Variable :=
  self.setDimensions dims

end Variable

namespace ConstVariableSlice

/-- Modelled from the spec: `ConstVariableSlice::tag` (header not part of the sources). -/
def tag (self : ConstVariableSlice) : Tag := self.m_variable.tag

/-- Modelled from the spec: `ConstVariableSlice::unit` (header not part of the sources). -/
def unit (self : ConstVariableSlice) : Unit := self.m_variable.unit

/-- Modelled from the spec: `ConstVariableSlice::name` (header not part of the sources). -/
def name (self : ConstVariableSlice) : String := self.m_variable.name

/-- Modelled from the spec: `ConstVariableSlice::data` (header not part of the sources): the
view if there is one. -/
def data (self : ConstVariableSlice) : VariableConcept :=
  match self.m_view with
  | some view => view
  | none => self.m_variable.data

/-- Modelled from the spec: `ConstVariableSlice::dimensions` (header not part of the
sources): those of the view if there is one. -/
def dimensions (self : ConstVariableSlice) : Dimensions := self.data.dimensions

end ConstVariableSlice

/-- Embedding of the constructor `Variable(const ConstVariableSlice &)`. -/
def Variable.ofSlice (to_string : DType → String) (slice : ConstVariableSlice) :
    Except Exception Variable := do
  let copied ← slice.m_variable.clone
  match slice.m_view with
  | none => pure copied
  | some _ =>
    let renamed : Variable :=
      { copied with m_tag := slice.tag, m_name := slice.m_variable.m_name, m_unit := slice.unit }
    let resized ← renamed.setDimensions slice.dimensions
    let data ← resized.m_object.copy to_string slice.data Dim.Invalid 0 0 1
    pure { resized with m_object := data }

/-- Embedding of `ConstVariableSlice::reshape(dims)`. -/
def ConstVariableSlice.reshape (to_string : DType → String) (self : ConstVariableSlice)
    (dims : Dimensions) : Except Exception Variable := do
  let reshaped ← Variable.ofSlice to_string self
  reshaped.setDimensions dims

/-- An operand of the template `equals`: a `Variable` or a `ConstVariableSlice`. -/
inductive Operand where
  | ofVariable (var : Variable)
  | ofSlice (slice : ConstVariableSlice)

namespace Operand

/-- The name `a.name()` of an operand. -/
def name : Operand → String
  | ofVariable var => var.name
  | ofSlice slice => slice.name

/-- The unit `a.unit()` of an operand. -/
def unit : Operand → Unit
  | ofVariable var => var.unit
  | ofSlice slice => slice.unit

/-- The tag `a.tag()` of an operand. -/
def tag : Operand → Tag
  | ofVariable var => var.tag
  | ofSlice slice => slice.tag

/-- The dimensions `a.dimensions()` of an operand. -/
def dimensions : Operand → Dimensions
  | ofVariable var => var.dimensions
  | ofSlice slice => slice.dimensions

/-- The concept `a.data()` of an operand. -/
def data : Operand → VariableConcept
  | ofVariable var => var.data
  | ofSlice slice => slice.data

end Operand

/-- Embedding of the template `equals(a, b)`. -/
def equals (to_string : DType → String) (a b : Operand) : Except Exception Bool :=
  if a.name ≠ b.name then .ok false
  else if a.unit ≠ b.unit then .ok false
  else if a.tag ≠ b.tag then .ok false
  else if !decide (a.dimensions = b.dimensions) then .ok false
  else a.data.eq to_string b.data

/-- Embedding of the four `operator!=`, each of which is `!(*this == other)`, for operands of
either kind. -/
def notEquals (to_string : DType → String) (a b : Operand) : Except Exception Bool := do
  let same ← equals to_string a b
  pure (!same)

/-- Embedding of `Variable::operator==(const Variable &)`. -/
def Variable.eq (to_string : DType → String) (self other : Variable) : Except Exception Bool :=
  equals to_string (.ofVariable self) (.ofVariable other)

/-- Embedding of `Variable::operator==(const ConstVariableSlice &)`. -/
def Variable.eqSlice (to_string : DType → String) (self : Variable)
    (other : ConstVariableSlice) : Except Exception Bool :=
  equals to_string (.ofVariable self) (.ofSlice other)

/-- Embedding of `ConstVariableSlice::operator==(const Variable &)`. -/
def ConstVariableSlice.eqVariable (to_string : DType → String) (self : ConstVariableSlice)
    (other : Variable) : Except Exception Bool :=
  equals to_string (.ofSlice self) (.ofVariable other)

/-- Embedding of `ConstVariableSlice::operator==(const ConstVariableSlice &)`. -/
def ConstVariableSlice.eq (to_string : DType → String) (self other : ConstVariableSlice) :
    Except Exception Bool :=
  equals to_string (.ofSlice self) (.ofSlice other)

/-- Whether a concept is as the classes `Dimensions`, `DataModel` and `ViewModel` keep it:
no extent is negative, no label occurs twice, and the concept holds as many
elements as the volume of its dimensions. -/
def VariableConcept.valid (self : VariableConcept) : Bool :=
  self.dimensions.shape.all (fun p => decide (0 ≤ p.2)) &&
    decide self.dimensions.labels.Nodup && decide (self.dimensions.volume = self.size)

/-- The variable made of the slice `var(dim, begin, end)`, as `emplace_back` makes it in
`split`. -/
def sliceVariable (to_string : DType → String) (var : Variable) (dim : Dim) (begin end_ : Int) :
    Except Exception Variable := do
  let slice ← var.slice dim begin end_
  Variable.ofSlice to_string slice

/-- Modelled from the spec: `Dimensions::operator[]` where the sources read an extent
(header not part of the sources): it fails for a label that is not present. -/
def extentOf (dims : Dimensions) (dim : Dim) : Except Exception Int :=
  match dims.extent dim with
  | some extent => .ok extent
  | none => .error (.DimensionError "Dimension not found.")

/-- The loop of `split` over the neighbours `indices[i]`, `indices[i + 1]`, and the last
part from `indices.back()` to the extent. -/
def splitLoop (to_string : DType → String) (var : Variable) (dim : Dim) :
    List Int → Except Exception (List Variable)
  | [] => .ok []
  | [last] => do
    let extent ← extentOf var.dimensions dim
    let part ← sliceVariable to_string var dim last extent
    pure [part]
  | index :: next :: rest => do
    let part ← sliceVariable to_string var dim index next
    let parts ← splitLoop to_string var dim (next :: rest)
    pure (part :: parts)

/-- Embedding of `split(var, dim, indices)`. -/
def split (to_string : DType → String) (var : Variable) (dim : Dim) (indices : List Int) :
    Except Exception (List Variable) :=
  match indices with
  | [] => do
    let copied ← var.clone
    pure [copied]
  | front :: rest => do
    let first ← sliceVariable to_string var dim 0 front
    let parts ← splitLoop to_string var dim (front :: rest)
    pure (first :: parts)

/-- The loop of `concatenate` over the labels of the first operand. -/
def concatenateCheck (dims1 dims2 : Dimensions) (dim : Dim) : List Dim → Except Exception PUnit.{1}
  | [] => .ok ⟨⟩
  | dim1 :: rest =>
    if dim1 ≠ dim then
      if !dims2.contains dim1 then
        .error (.RuntimeError "Cannot concatenate Variables: Dimensions do not match.")
      else if dims2.extent dim1 ≠ dims1.extent dim1 then
        .error (.RuntimeError "Cannot concatenate Variables: Dimension extents do not match.")
      else concatenateCheck dims1 dims2 dim rest
    else concatenateCheck dims1 dims2 dim rest

/-- Embedding of `concatenate(a1, a2, dim)`.  Where `dim` is in neither operand it is added
by `Dimensions::add`. -/
def concatenate (to_string : DType → String) (a1 a2 : Variable) (dim : Dim) :
    Except Exception Variable :=
  if a1.tag ≠ a2.tag then
    .error (.RuntimeError "Cannot concatenate Variables: Data types do not match.")
  else if a1.unit ≠ a2.unit then
    .error (.RuntimeError "Cannot concatenate Variables: Units do not match.")
  else if a1.name ≠ a2.name then
    .error (.RuntimeError "Cannot concatenate Variables: Names do not match.")
  else do
    let dims1 := a1.dimensions
    let dims2 := a2.dimensions
    concatenateCheck dims1 dims2 dim dims1.labels
    let size1 := if dims1.contains dim then dims1.count - 1 else dims1.count
    let size2 := if dims2.contains dim then dims2.count - 1 else dims2.count
    if size1 ≠ size2 then
      .error (.RuntimeError "Cannot concatenate Variables: Dimensions do not match.")
    else
      let out ← a1.clone
      let extent1 ← if dims1.contains dim then (extentOf dims1 dim).map (fun e => 1 + (e - 1))
        else pure 1
      let extent2 ← if dims2.contains dim then (extentOf dims2 dim).map (fun e => 1 + (e - 1))
        else pure 1
      let dims :=
        if dims1.contains dim then dims1.resize dim (extent1 + extent2)
        else dims1.add dim (extent1 + extent2)
      let out ← out.setDimensions dims
      let data ← out.m_object.copy to_string a1.data dim 0 0 extent1
      let data ← data.copy to_string a2.data dim extent1 0 extent2
      pure { out with m_object := data }

/-- A `to_string` of element types for the examples. -/
def exampleToString : DType → String
  | .Double => "double"
  | .Float => "float"
  | .Int64 => "int64"
  | .Int32 => "int32"
  | .Char => "char"
  | .Bool => "bool"
  | .String => "string"
  | .Dataset => "Dataset"

/-- Example: a variable of two doubles along `Dim::X`. -/
def exampleDoubles : Variable :=
  ⟨⟨18⟩, ⟨0⟩, "v", ⟨⟨[(Dim.X, 2)]⟩, .Double, .DataModel [Value.num 1, Value.num 2]⟩⟩

/-- Example: two 64 bit integers along `Dim::X`. -/
def exampleInts : VariableConcept :=
  ⟨⟨[(Dim.X, 2)]⟩, .Int64, .DataModel [Value.num 3, Value.num 4]⟩

/-- Example: a variable of two by three doubles along `Dim::X` and `Dim::Y`. -/
def exampleMatrix : Variable :=
  ⟨⟨18⟩, ⟨0⟩, "m", ⟨⟨[(Dim.X, 2), (Dim.Y, 3)]⟩, .Double,
    .DataModel [Value.num 1, Value.num 2, Value.num 3, Value.num 4, Value.num 5, Value.num 6]⟩⟩

/-- Example: a variable of two doubles along `Dim::X`, the first of which is not a number. -/
def exampleWithNaN : Variable :=
  ⟨⟨18⟩, ⟨0⟩, "v", ⟨⟨[(Dim.X, 2)]⟩, .Double, .DataModel [Value.nan, Value.num 1]⟩⟩

end Storage

/-! ## Erasing from a `Dataset` (`core/dataset.cpp`) -/

namespace core

/-- The message of the `except::DatasetError` thrown by `Dataset::erase`, without the
text that the exception adds for the dataset. -/
def eraseMessage (name : String) : String := "Could not find data with name " ++ name ++ "."

/-- The message of the exceptions thrown by `Dataset::eraseSparseLabels`. -/
def noSparseData (name : String) : String := "No sparse data with name " ++ name ++ " found."

/-- Embedding of `Dataset::eraseSparseLabels`.  The conditional expression at its end
clears the labels of the item when there is exactly one label, and erases the item
from `m_data` otherwise. -/
def Dataset.eraseSparseLabels (ds : Dataset) (name labelName : String) : DatasetResult :=
  match findItem name ds.m_data with
  | none => ⟨ds, some (noSparseData name)⟩
  | some data =>
    match findItem labelName data.labels with
    | none => ⟨ds, some (noSparseData name)⟩
    | some _ =>
      if data.labels.length = 1 then
        ⟨{ ds with m_data := insertOrAssign name { data with labels := [] } ds.m_data }, none⟩
      else ⟨{ ds with m_data := eraseKey name ds.m_data }, none⟩

/-- Example: a dataset with one item `a` that has sparse data, a sparse coordinate and the
two sparse labels `l1` and `l2`. -/
def exampleSparseLabels (Sparse : Int) : Dataset :=
  ⟨ExtentMap.empty.assign Dim.X Sparse, [], [], [], [],
    [("a", ⟨some ⟨⟨[(Dim.X, Sparse)]⟩⟩, some ⟨⟨[(Dim.X, Sparse)]⟩⟩,
      [("l1", ⟨⟨[(Dim.X, Sparse)]⟩⟩), ("l2", ⟨⟨[(Dim.X, Sparse)]⟩⟩)], []⟩)]⟩

end core

/-! ## Arithmetic of the tag-based `Dataset` (`src/dataset.cpp`) -/

namespace aligned

/-- The body of the loop of `aligned::multiply` at index `i`, on the two arrays that are
written: `e1[i]` is computed from the old `v1[i]`, then `v1[i]` is multiplied. -/
def multiplyStep (v2 e2 : Span) (i : Nat) (state : Span × Span) : Span × Span :=
  let v1 := state.1
  let e1 := state.2
  let e1 := e1.set i
    (Value.add (Value.mul (e1 i) (Value.mul (v2 i) (v2 i)))
      (Value.mul (e2 i) (Value.mul (v1 i) (v1 i))))
  let v1 := v1.set i (Value.mul (v1 i) (v2 i))
  (v1, e1)

/-- The loop of `aligned::multiply` from index `i` on, with the number of iterations that
remain. -/
def multiplyLoop (v2 e2 : Span) : Nat → Nat → Span × Span → Span × Span
  | _, 0, state => state
  | i, remaining + 1, state => multiplyLoop v2 e2 (i + 1) remaining (multiplyStep v2 e2 i state)

/-- Embedding of `aligned::multiply(size, v1, e1, v2, e2)`: the arrays `v1` and `e1` after the
call.  The pointers are `__restrict`, so the four arrays are distinct; `v2` and `e2`
point to constant data and are only read. -/
def multiply (size : Int) (v1 e1 v2 e2 : Span) : Span × Span :=
  multiplyLoop v2 e2 0 size.toNat (v1, e1)

end aligned

/-! ## Equality of data proxies (`core/dataset.cpp`) -/

namespace core

/-- The parts of the proxies that `operator==` of data proxies uses and that are declared in
headers that are not part of the sources: the proxies of coordinates, labels,
attributes and masks, as made from the arguments that the sources pass to
`makeProxyItems` and to the constructor of the proxy, with their `operator!=`; and
the proxy of a sliced variable with its `operator!=` and `hasVariances`. -/
structure ProxyInterface (Proxy VariableProxy : Type) where
  coordsOf : Option Dimensions → List (Dim × Variable) → Option Variable → SliceList → Proxy
  labelsOf : Option Dimensions → List (String × Variable) → List (String × Variable) →
    SliceList → Proxy
  attrsOf : Option Dimensions → List (String × Variable) → SliceList → Proxy
  masksOf : Option Dimensions → List (String × Variable) → SliceList → Proxy
  proxyNe : Proxy → Proxy → Bool
  dataOf : Variable → SliceList → VariableProxy
  dataNe : VariableProxy → VariableProxy → Bool
  hasVariances : VariableProxy → Bool

/-- The class `DataConstProxy` with the dataset it refers to: `m_dataset`, the entry
`m_data` of the item and the slice list. -/
structure DataConstProxy where
  m_dataset : Dataset
  m_data : String × DatasetData
  m_slices : SliceList

namespace DataConstProxy

/-- Embedding of `DataConstProxy::name`. -/
def name (self : DataConstProxy) : String := self.m_data.1

/-- Modelled from the spec: `DataConstProxy::slices` (header not part of the sources). -/
def slices (self : DataConstProxy) : SliceList := self.m_slices

/-- Modelled from the spec: `DataConstProxy::hasData` (header not part of the sources):
whether the item holds data. -/
def hasData (self : DataConstProxy) : Bool := self.m_data.2.data.isSome

/-- Embedding of `DataConstProxy::dims`. -/
def dims (self : DataConstProxy) : Option Dimensions :=
  DataProxy.dims ⟨self.m_data, self.m_slices⟩

/-- Modelled from the spec: `DataConstProxy::data` (header not part of the sources): the
proxy of the sliced data, `none` where there are no data and the source throws. -/
def data {Proxy VariableProxy : Type} (I : ProxyInterface Proxy VariableProxy)
    (self : DataConstProxy) : Option VariableProxy :=
  self.m_data.2.data.map (fun v => I.dataOf v self.slices)

/-- Modelled from the spec: `DataConstProxy::hasVariances` (header not part of the
sources): whether there are data and they have variances. -/
def hasVariances {Proxy VariableProxy : Type} (I : ProxyInterface Proxy VariableProxy)
    (self : DataConstProxy) : Bool :=
  match self.data I with
  | some v => I.hasVariances v
  | none => false

/-- Embedding of `DataConstProxy::coords`. -/
def coords {Proxy VariableProxy : Type} (I : ProxyInterface Proxy VariableProxy)
    (self : DataConstProxy) : Proxy :=
  I.coordsOf self.dims self.m_dataset.m_coords self.m_data.2.coord self.slices

/-- Embedding of `DataConstProxy::labels`. -/
def labels {Proxy VariableProxy : Type} (I : ProxyInterface Proxy VariableProxy)
    (self : DataConstProxy) : Proxy :=
  I.labelsOf self.dims self.m_dataset.m_labels self.m_data.2.labels self.slices

/-- Embedding of `DataConstProxy::attrs`. -/
def attrs {Proxy VariableProxy : Type} (I : ProxyInterface Proxy VariableProxy)
    (self : DataConstProxy) : Proxy :=
  I.attrsOf self.dims self.m_data.2.attrs self.slices

/-- Embedding of `DataConstProxy::masks`. -/
def masks {Proxy VariableProxy : Type} (I : ProxyInterface Proxy VariableProxy)
    (self : DataConstProxy) : Proxy :=
  I.masksOf self.dims self.m_dataset.m_masks self.slices

/-- The comparison `a.data() != b.data()`, made where both proxies have data. -/
def dataDiffers {Proxy VariableProxy : Type} (I : ProxyInterface Proxy VariableProxy)
    (a b : DataConstProxy) : Bool :=
  match a.data I, b.data I with
  | some x, some y => I.dataNe x y
  | _, _ => false

/-- Embedding of `operator==(const DataConstProxy &, const DataConstProxy &)`. -/
def eq {Proxy VariableProxy : Type} (I : ProxyInterface Proxy VariableProxy)
    (a b : DataConstProxy) : Bool :=
  if a.hasData ≠ b.hasData then false
  else if a.hasVariances I ≠ b.hasVariances I then false
  else if I.proxyNe (a.coords I) (b.coords I) then false
  else if I.proxyNe (a.labels I) (b.labels I) then false
  else if I.proxyNe (a.masks I) (b.masks I) then false
  else if I.proxyNe (a.attrs I) (b.attrs I) then false
  else if a.hasData && a.dataDiffers I b then false
  else true

/-- The proxy of the same item under another name. -/
def renamed (self : DataConstProxy) (name : String) : DataConstProxy :=
  ⟨self.m_dataset, (name, self.m_data.2), self.m_slices⟩

end DataConstProxy

end core

/-! ## In-place arithmetic of variables and slices (`src/var.cpp`) -/

namespace Tagged

/-- The tag `Data::Value`: its identifier by `tag_id` of `tags.h`, the fifteen coordinate tags
come first. -/
def Data.Value : Tag := ⟨18⟩

/-- The tag `Data::Variance`. -/
def Data.Variance : Tag := ⟨19⟩

/-- The tag `Data::Events`. -/
def Data.Events : Tag := ⟨25⟩

end Tagged

namespace Storage

open Tagged (Dimensions Tag)

open core (Exception)

/-- The parts used by the arithmetic that are declared outside the sources: the text of an
element type, the test of two views for an overlap, the product and the sum of
units (the sum fails for units that cannot be added), which element types have
a concept with addition and with the four operations and how the messages call
these concepts, which tags are data and which are attributes, and the sum of two
variables of event lists. -/
structure Interface where
  to_string : DType → String
  overlaps : VariableView → VariableView → Bool
  unitMul : Unit → Unit → Unit
  unitAdd : Unit → Unit → Except Exception Unit
  isAddable : DType → Bool
  isArithmetic : DType → Bool
  addableName : String
  arithmeticName : String
  isData : Tag → Bool
  isAttr : Tag → Bool
  eventsPlus : VariableConcept → VariableConcept → Except Exception VariableConcept

namespace Operand

/-- The variable that an operand is or refers to. -/
def underlying : Operand → Variable
  | ofVariable var => var
  | ofSlice slice => slice.m_variable

/-- The element type `dtype()` of an operand. -/
def dtype (self : Operand) : DType := self.data.dtype

/-- The operand after its data have been written.  A slice with a view writes through the
view, which holds the buffer as it was when the view was made; a slice without
a view writes the variable it refers to. -/
def withData (self : Operand) (data : VariableConcept) : Operand :=
  match self with
  | ofVariable var => ofVariable { var with m_object := data }
  | ofSlice slice =>
    match slice.m_view with
    | some _ => ofSlice { slice with m_view := some data }
    | none => ofSlice { slice with m_variable := { slice.m_variable with m_object := data } }

/-- Embedding of `VariableSlice::setUnit`, and `Variable::setUnit` for a variable: a slice
whose dimensions differ from those of its variable cannot change the unit. -/
def setUnit (self : Operand) (unit : Unit) : Except Exception Operand :=
  match self with
  | ofVariable var => .ok (ofVariable { var with m_unit := unit })
  | ofSlice slice =>
    if slice.unit ≠ unit ∧ slice.dimensions ≠ slice.m_variable.dimensions then
      .error (.RuntimeError
        "Partial view on data of variable cannot be used to change the unit.\n")
    else .ok (ofSlice { slice with m_variable := { slice.m_variable with m_unit := unit } })

end Operand

/-- The outcome of an in-place operation on a variable or slice: the left-hand side as the
call leaves it, and the exception thrown, if any. -/
structure InPlaceResult where
  lhs : Operand
  threw : Option Exception

/-- Embedding of `require<T>(concept)` followed by `operator+=`, `-=` or `*=` of the concept,
which is `apply` with the operation on the elements: the cast fails for an element
type without the operations. -/
def requireApply (I : Interface) (supported : DType → Bool) (conceptName : String)
    (op : Value → Value → Value) (var other : Operand) : InPlaceResult :=
  if !supported var.data.dtype then
    ⟨var,
      some (.RuntimeError ("Cannot apply operation, requires " ++ conceptName ++ " type."))⟩
  else
    let result := VariableConcept.apply I.to_string I.overlaps op var.data.dtype
      var.data other.data
    ⟨var.withData result.self, result.threw⟩

/-- Embedding of the template `plus_equals(variable, other)`.  The sum of event lists, which
concatenates nested datasets, is left to the interface. -/
def plus_equals (I : Interface) (var other : Operand) : InPlaceResult :=
  if var.unit ≠ other.unit then
    ⟨var, some (.UnitMismatchError "expect::equals")⟩
  else if decide (var.dtype ≠ DType.Dataset) || I.isAttr var.tag then
    if !containsAll var.dimensions other.dimensions then
      ⟨var, some (.DimensionError "expect::contains")⟩
    else requireApply I I.isAddable I.addableName Value.add var other
  else if var.dimensions = other.dimensions then
    match I.eventsPlus var.data other.data with
    | .ok data => ⟨var.withData data, none⟩
    | .error e => ⟨var, some e⟩
  else ⟨var, some (.RuntimeError "Cannot add Variables: Dimensions do not match.")⟩

/-- Embedding of the template `minus_equals(variable, other)`. -/
def minus_equals (I : Interface) (var other : Operand) : InPlaceResult :=
  if var.unit ≠ other.unit then
    ⟨var, some (.UnitMismatchError "expect::equals")⟩
  else if !containsAll var.dimensions other.dimensions then
    ⟨var, some (.DimensionError "expect::contains")⟩
  else if var.tag = Tagged.Data.Events then
    ⟨var, some (.RuntimeError "Subtraction of events lists not implemented.")⟩
  else requireApply I I.isArithmetic I.arithmeticName Value.sub var other

/-- Embedding of the template `times_equals(variable, other)` of `src/variable.cpp`.  The
unit is set before the elements are multiplied. -/
def times_equals (I : Interface) (var other : Operand) : InPlaceResult :=
  if !containsAll var.dimensions other.dimensions then
    ⟨var, some (.DimensionError "expect::contains")⟩
  else if var.tag = Tagged.Data.Events then
    ⟨var, some (.RuntimeError "Multiplication of events lists not implemented.")⟩
  else
    match var.setUnit (I.unitMul var.unit other.unit) with
    | .error e => ⟨var, some e⟩
    | .ok withUnit => requireApply I I.isArithmetic I.arithmeticName Value.mul withUnit other

/-- An interface for the examples: units are multiplied by adding their identifiers and
can be added when they are equal; doubles, floats and the integers have all
operations; the tags from `Data::Tof` on are data and no tag is an attribute. -/
def exampleInterface : Interface where
  to_string := exampleToString
  overlaps := fun _ _ => false
  unitMul := fun a b => ⟨a.id + b.id⟩
  unitAdd := fun a b => if a = b then .ok a else .error (.UnitMismatchError "Unit::operator+")
  isAddable := fun t => decide (t ∈ [DType.Double, DType.Float, DType.Int64, DType.Int32])
  isArithmetic := fun t => decide (t ∈ [DType.Double, DType.Float, DType.Int64, DType.Int32])
  addableName := "addable"
  arithmeticName := "arithmetic"
  isData := fun tag => decide (Tagged.numCoordTags ≤ tag.value)
  isAttr := fun _ => false
  eventsPlus := fun a _ => .ok a

/-- Example: a variable of two doubles along `Dim::X` with another unit than
`exampleDoubles`. -/
def exampleOtherUnit : Variable :=
  ⟨⟨18⟩, ⟨1⟩, "w", ⟨⟨[(Dim.X, 2)]⟩, .Double, .DataModel [Value.num 3, Value.num 4]⟩⟩

end Storage

/-! ## Binary operators, `broadcast` and `assign` (`src/variable.cpp`) -/

namespace Storage

open Tagged (Dimensions Tag)

open core (Exception)

/-- Modelled from the spec: `Variable::isCoord` (header not part of the sources), by
`is_coord` of `tags.h`: the coordinate tags come first. -/
def Variable.isCoord (self : Variable) : Bool := decide (self.m_tag.value < Tagged.numCoordTags)

/-- The conversion of an operand to a `Variable` where a function takes a `Variable` by
value: the copy of a variable, the constructor `Variable(const ConstVariableSlice
&)` for a slice. -/
def Operand.toVariable (to_string : DType → String) : Operand → Except Exception Variable
  | .ofVariable var => var.clone
  | .ofSlice slice => Variable.ofSlice to_string slice

/-- The loop of `broadcast` over the labels of `dims`: a label that is present must have the
same extent, a label that is not present is added. -/
def broadcastDims : List (Dim × Int) → Dimensions → Except Exception Dimensions
  | [], newDims => .ok newDims
  | (label, extent) :: rest, newDims =>
    if newDims.contains label then
      if newDims.extent label = some extent then broadcastDims rest newDims
      else .error (.DimensionError "expect::dimensionMatches")
    else broadcastDims rest (newDims.add label extent)

/-- Embedding of `broadcast(var, dims)`. -/
def broadcast (to_string : DType → String) (var : Variable) (dims : Dimensions) :
    Except Exception Variable :=
  if containsAll var.dimensions dims then .ok var
  else do
    let newDims ← broadcastDims dims.shape var.dimensions
    let result ← var.clone
    let result ← result.setDimensions newDims
    let data ← result.m_object.copy to_string var.data Dim.Invalid 0 0 1
    pure { result with m_object := data }

/-- The binary operators `operator+`, `operator-` and `operator*` of two variables, each of
which broadcasts its first argument and applies the in-place operator to the
result. -/
def binaryOperator (I : Interface) (inPlace : Interface → Operand → Operand → InPlaceResult)
    (a : Variable) (b : Operand) : Except Exception Variable := do
  let result ← broadcast I.to_string a b.dimensions
  let applied := inPlace I (.ofVariable result) b
  match applied.threw with
  | some e => .error e
  | none => pure applied.lhs.underlying

/-- Embedding of `operator*(Variable a, const Variable &b)` and of the overload for a
slice `b`. -/
def times (I : Interface) (a : Variable) (b : Operand) : Except Exception Variable :=
  binaryOperator I times_equals a b

/-- Embedding of `operator+(Variable a, const Variable &b)` and of the overload for a
slice `b`. -/
def plus (I : Interface) (a : Variable) (b : Operand) : Except Exception Variable :=
  binaryOperator I plus_equals a b

/-- Embedding of `VariableSlice::assign(other)`. -/
def assign (to_string : DType → String) (self other : Operand) : InPlaceResult :=
  if self.tag ≠ other.tag then
    ⟨self, some (.RuntimeError "Cannot assign to slice: Type mismatch.")⟩
  else if self.unit ≠ other.unit then
    ⟨self, some (.RuntimeError "Cannot assign to slice: Unit mismatch.")⟩
  else if self.dimensions ≠ other.dimensions then
    ⟨self, some (.DimensionMismatchError "DimensionMismatchError")⟩
  else
    match self.data.copy to_string other.data Dim.Invalid 0 0 1 with
    | .error e => ⟨self, some e⟩
    | .ok data => ⟨self.withData data, none⟩

end Storage

/-! ## In-place arithmetic of the tag-based `Dataset` (`src/dataset.cpp`) -/

namespace Arithmetic

open Storage (Variable Operand Interface InPlaceResult VariableConcept DType readAt)

open Tagged (Tag)

open core (Exception)

/-- Modelled from the spec: the template `find(dataset, tag, name)` (declared in a header
that is not part of the sources): the index of the first variable with the tag
and the name, `none` where it throws the `VariableNotFoundError`. -/
def find (tag : Tag) (name : String) : List Variable → Option Nat
  | [] => none
  | var :: rest =>
    if var.tag = tag ∧ var.name = name then some 0 else (find tag name rest).map (fun i => i + 1)

/-- Modelled from the spec: the template `count(dataset, tag, name)` (declared in a header
that is not part of the sources): the number of variables with the tag and the
name. -/
def count (dataset : List Variable) (tag : Tag) (name : String) : Nat :=
  (dataset.filter (fun var => decide (var.tag = tag) && decide (var.name = name))).length

/-- The set `names` of `binary_op_equals`: the distinct names of the data variables of the
right-hand side. -/
def names (I : Interface) (other : List Variable) : List String :=
  ((other.filter (fun var2 => I.isData var2.tag)).map Variable.name).dedup

/-- The outcome of an in-place operation on a dataset: the variables as the call leaves
them, and the exception thrown, if any. -/
structure DatasetResult where
  dataset : List Variable
  threw : Option Exception

/-- A variable of a dataset as the slice that `dataset(tag, name)` and the iteration over a
dataset give: a slice of the whole variable. -/
def asSlice (var : Variable) : Operand := .ofSlice ⟨var, none⟩

/-- An in-place operation on the variable `dataset[index]`. -/
def updateAt (dataset : List Variable) (index : Nat) (f : Operand → InPlaceResult) :
    DatasetResult :=
  match dataset.get? index with
  | none => ⟨dataset, some (.OutOfRange "dataset[index]")⟩
  | some var1 =>
    let result := f (asSlice var1)
    ⟨dataset.set index result.lhs.underlying, result.threw⟩

/-- What `binary_op_equals` does with a data variable `var1` of the left-hand side and
`var2`: variances are added, anything else is combined by `op`. -/
def combine (I : Interface) (op : Operand → Operand → InPlaceResult) (var2 : Variable)
    (var1 : Operand) : InPlaceResult :=
  if var1.tag = Tagged.Data.Variance then Storage.plus_equals I var1 (asSlice var2)
  else op var1 (asSlice var2)

/-- The outcome of the loop of the handler: the variables, the counter and the exception. -/
structure BroadcastResult where
  dataset : List Variable
  count : Nat
  threw : Option Exception

/-- The loop `for (auto var1 : dataset)` in the handler of `binary_op_equals`: every left
variable with the tag of `var2` is counted and combined with `var2`, up to the
first exception. -/
def applyToTag (I : Interface) (op : Operand → Operand → InPlaceResult) (var2 : Variable) :
    List Variable → BroadcastResult
  | [] => ⟨[], 0, none⟩
  | var1 :: rest =>
    if var1.tag = var2.tag then
      let result := combine I op var2 (asSlice var1)
      match result.threw with
      | some e => ⟨result.lhs.underlying :: rest, 1, some e⟩
      | none =>
        let more := applyToTag I op var2 rest
        ⟨result.lhs.underlying :: more.dataset, more.count + 1, more.threw⟩
    else
      let more := applyToTag I op var2 rest
      ⟨var1 :: more.dataset, more.count, more.threw⟩

/-- The message of `binary_op_equals` for a right-hand variable without a match. -/
def notPresent : String :=
  "Right-hand-side in binary operation contains variable that is not present in left-hand-side."

/-- The message of `binary_op_equals` where no left variable has the tag. -/
def typeNotPresent : String :=
  "Right-hand-side in binary operation contains variable type that is not present in " ++
    "left-hand-side."

/-- The message of `binary_op_equals` for coordinates that differ. -/
def coordinatesDiffer : String :=
  "Coordinates of datasets do not match. Cannot perform binary operation."

/-- The body of the second loop of `binary_op_equals` for one variable `var2` of the
right-hand side; `namesSize` is `names.size()`.  The handler catches the
`VariableNotFoundError` of `dataset(tag, name)` only: no other statement of the
`try` block throws one. -/
def binaryOpStep (I : Interface) (op : Operand → Operand → InPlaceResult) (namesSize : Nat)
    (dataset : List Variable) (var2 : Variable) : DatasetResult :=
  match find var2.tag var2.name dataset with
  | some index =>
    match dataset.get? index with
    | none => ⟨dataset, some (.OutOfRange "dataset[index]")⟩
    | some var1 =>
      if var1.isCoord then
        match Storage.equals I.to_string (asSlice var1) (asSlice var2) with
        | .error e => ⟨dataset, some e⟩
        | .ok true => ⟨dataset, none⟩
        | .ok false => ⟨dataset, some (.RuntimeError coordinatesDiffer)⟩
      else if I.isData var1.tag then updateAt dataset index (combine I op var2)
      else
        match Storage.notEquals I.to_string (asSlice var1) (asSlice var2) with
        | .error e => ⟨dataset, some e⟩
        | .ok true => updateAt dataset index (fun var1 => Storage.plus_equals I var1 (asSlice var2))
        | .ok false => ⟨dataset, none⟩
  | none =>
    if I.isData var2.tag ∧ namesSize = 1 then
      let result := applyToTag I op var2 dataset
      match result.threw with
      | some e => ⟨result.dataset, some e⟩
      | none =>
        if result.count = 0 then ⟨result.dataset, some (.RuntimeError typeNotPresent)⟩
        else ⟨result.dataset, none⟩
    else ⟨dataset, some (.RuntimeError notPresent)⟩

/-- The second loop of `binary_op_equals` over the variables of the right-hand side, up to
the first exception. -/
def binaryOpLoop (I : Interface) (op : Operand → Operand → InPlaceResult) (namesSize : Nat) :
    List Variable → List Variable → DatasetResult
  | [], dataset => ⟨dataset, none⟩
  | var2 :: rest, dataset =>
    match binaryOpStep I op namesSize dataset var2 with
    | ⟨dataset1, none⟩ => binaryOpLoop I op namesSize rest dataset1
    | ⟨dataset1, some e⟩ => ⟨dataset1, some e⟩

/-- Embedding of the template `binary_op_equals(op, dataset, other)` for two datasets. -/
def binary_op_equals (I : Interface) (op : Operand → Operand → InPlaceResult)
    (dataset other : List Variable) : DatasetResult :=
  binaryOpLoop I op (names I other).length other dataset

/-- Embedding of `Dataset::operator+=(const Dataset &)`. -/
def plusAssign (I : Interface) (dataset other : List Variable) : DatasetResult :=
  binary_op_equals I (Storage.plus_equals I) dataset other

/-- Embedding of `Dataset::operator-=(const Dataset &)`. -/
def minusAssign (I : Interface) (dataset other : List Variable) : DatasetResult :=
  binary_op_equals I (Storage.minus_equals I) dataset other

end Arithmetic

/-! ## Multiplication of datasets with variances (`src/dataset.cpp`) -/

namespace Arithmetic

open Storage (Variable Operand Interface InPlaceResult VariableConcept DType readAt)

open Tagged (Tag)

open core (Exception)

/-- The outcome of `ValueWithError::operator*=`: the value and the variance of the left-hand
side as the call leaves them, and the exception thrown, if any. -/
structure PairResult where
  value : Operand
  error : Operand
  threw : Option Exception

/-- The array at the pointer `data()` of what `get<Tag>()` returns for a variable: the
elements of the buffer from the first element of the variable on. -/
def pointer (data : VariableConcept) : Span :=
  fun i => readAt data.buffer (data.dataOffset.toNat + i)

/-- The data of a variable after `size` elements at its pointer have been written. -/
def storeAt (data : VariableConcept) (size : Nat) (span : Span) : VariableConcept :=
  data.withBuffer
    (Storage.VariableConcept.writeAll data.buffer (List.range' data.dataOffset.toNat size)
      ((List.range size).map span))

/-- Modelled from the spec: the test of the element type by `get<Data::Value>()` and
`get<Data::Variance>()` (the template `get` is declared in a header that is not
part of the sources): the elements of both tags are doubles. -/
def requireDouble (I : Interface) (var : Operand) : Except Exception VariableConcept :=
  Storage.VariableConcept.requireT I.to_string DType.Double var.data

/-- The part of the fused branch after the units are set: the four arrays are taken and
`aligned::multiply` runs over `v1.size()` elements. -/
def fusedMultiply (I : Interface) (var1 error1 var2 error2 : Operand) : PairResult :=
  match requireDouble I var1, requireDouble I var2, requireDouble I error1,
      requireDouble I error2 with
  | .ok v1, .ok v2, .ok e1, .ok e2 =>
    let size := var1.dimensions.volume
    let result := aligned.multiply size (pointer v1) (pointer e1) (pointer v2) (pointer e2)
    ⟨var1.withData (storeAt v1 size.toNat result.1),
      error1.withData (storeAt e1 size.toNat result.2), none⟩
  | .error e, _, _, _ => ⟨var1, error1, some e⟩
  | _, .error e, _, _ => ⟨var1, error1, some e⟩
  | _, _, .error e, _ => ⟨var1, error1, some e⟩
  | _, _, _, .error e => ⟨var1, error1, some e⟩

/-- The branch of `ValueWithError::operator*=` for operands that all have the same
dimensions: the units are set, then the elements are multiplied in one loop. -/
def timesEqualsFused (I : Interface) (var1 error1 var2 error2 : Operand) : PairResult :=
  match I.unitAdd (I.unitMul (I.unitMul var2.unit var2.unit) error1.unit)
      (I.unitMul (I.unitMul var1.unit var1.unit) error2.unit) with
  | .error e => ⟨var1, error1, some e⟩
  | .ok unit =>
    match error1.setUnit unit with
    | .error e => ⟨var1, error1, some e⟩
    | .ok error1 =>
      match var1.setUnit (I.unitMul var1.unit var2.unit) with
      | .error e => ⟨var1, error1, some e⟩
      | .ok var1 => fusedMultiply I var1 error1 var2 error2

/-- The temporary `error1 * (var2 * var2) + error2 * (var1 * var1)` of the other branch of
`ValueWithError::operator*=`. -/
def varianceFormula (I : Interface) (var1 error1 var2 error2 : Operand) :
    Except Exception Variable := do
  let a ← var2.toVariable I.to_string
  let squared2 ← Storage.times I a var2
  let b ← error1.toVariable I.to_string
  let left ← Storage.times I b (.ofVariable squared2)
  let c ← var1.toVariable I.to_string
  let squared1 ← Storage.times I c var1
  let d ← error2.toVariable I.to_string
  let right ← Storage.times I d (.ofVariable squared1)
  Storage.plus I left (.ofVariable right)

/-- The branch of `ValueWithError::operator*=` for operands whose dimensions are not all
the same: `var1.assign(error1 * (var2 * var2) + error2 * (var1 * var1))`, then
`var1 *= var2`. -/
def timesEqualsGeneric (I : Interface) (var1 error1 var2 error2 : Operand) : PairResult :=
  match varianceFormula I var1 error1 var2 error2 with
  | .error e => ⟨var1, error1, some e⟩
  | .ok formula =>
    let assigned := Storage.assign I.to_string var1 (.ofVariable formula)
    match assigned.threw with
    | some e => ⟨assigned.lhs, error1, some e⟩
    | none =>
      let multiplied := Storage.times_equals I assigned.lhs var2
      ⟨multiplied.lhs, error1, multiplied.threw⟩

/-- Embedding of `ValueWithError::operator*=`, for the value `var1` and the variance `error1`
of the left-hand side and the value `var2` and the variance `error2` of the
other group. -/
def ValueWithError.timesEquals (I : Interface) (var1 error1 var2 error2 : Operand) :
    PairResult :=
  if var1.dimensions = var2.dimensions ∧ var1.dimensions = error1.dimensions ∧
      var1.dimensions = error2.dimensions then
    timesEqualsFused I var1 error1 var2 error2
  else timesEqualsGeneric I var1 error1 var2 error2

/-- The message of `times_equals` for a right-hand variable without a match. -/
def notPresentTimes : String :=
  "Right-hand-side in addition contains variable that is not present in left-hand-side."

/-- The message of `times_equals` for coordinates that differ. -/
def coordinatesDifferTimes : String :=
  "Coordinates of datasets do not match. Cannot perform addition"

/-- The multiplication of a value with its variance in `times_equals`: the two variances are
looked up, and the group of the left-hand side is multiplied by the group of
`other`. -/
def timesWithVariance (I : Interface) (dataset other : List Variable) (index : Nat)
    (var1 var2 : Variable) : DatasetResult :=
  match find Tagged.Data.Variance var2.name dataset, find Tagged.Data.Variance var2.name other with
  | some error_index1, some error_index2 =>
    match dataset.get? error_index1, other.get? error_index2 with
    | some error1, some error2 =>
      let result := ValueWithError.timesEquals I (asSlice var1) (asSlice error1) (asSlice var2)
        (asSlice error2)
      ⟨(dataset.set index result.value.underlying).set error_index1 result.error.underlying,
        result.threw⟩
    | _, _ => ⟨dataset, some (.OutOfRange "dataset[index]")⟩
  | _, _ => ⟨dataset, some (.VariableNotFoundError "find")⟩

/-- The body of the loop of `times_equals` of `src/dataset.cpp` for one variable `var2` of
the right-hand side. -/
def timesStep (I : Interface) (dataset other : List Variable) (var2 : Variable) :
    DatasetResult :=
  match find var2.tag var2.name dataset with
  | none => ⟨dataset, some (.RuntimeError notPresentTimes)⟩
  | some index =>
    if var2.tag = Tagged.Data.Variance ∧
        (find Tagged.Data.Value var2.name dataset = none ∨
          find Tagged.Data.Value var2.name other = none) then
      ⟨dataset, some (.RuntimeError
        "Cannot multiply datasets that contain a variance but no corresponding value.")⟩
    else
      match dataset.get? index with
      | none => ⟨dataset, some (.OutOfRange "dataset[index]")⟩
      | some var1 =>
        if var1.isCoord then
          match Storage.equals I.to_string (asSlice var1) (asSlice var2) with
          | .error e => ⟨dataset, some e⟩
          | .ok true => ⟨dataset, none⟩
          | .ok false => ⟨dataset, some (.RuntimeError coordinatesDifferTimes)⟩
        else if I.isData var1.tag then
          if var2.tag = Tagged.Data.Value then
            if count dataset Tagged.Data.Variance var2.name
                ≠ count other Tagged.Data.Variance var2.name then
              ⟨dataset, some (.RuntimeError
                "Either both or none of the operands must have a variance for their values.")⟩
            else if count dataset Tagged.Data.Variance var2.name ≠ 0 then
              timesWithVariance I dataset other index var1 var2
            else updateAt dataset index (fun var1 => Storage.times_equals I var1 (asSlice var2))
          else if var2.tag = Tagged.Data.Variance then ⟨dataset, none⟩
          else updateAt dataset index (fun var1 => Storage.times_equals I var1 (asSlice var2))
        else ⟨dataset, none⟩

/-- The loop of `times_equals` over the variables of the right-hand side, up to the first
exception. -/
def timesLoop (I : Interface) (other : List Variable) :
    List Variable → List Variable → DatasetResult
  | [], dataset => ⟨dataset, none⟩
  | var2 :: rest, dataset =>
    match timesStep I dataset other var2 with
    | ⟨dataset1, none⟩ => timesLoop I other rest dataset1
    | ⟨dataset1, some e⟩ => ⟨dataset1, some e⟩

/-- Embedding of the template `times_equals(dataset, other)` of `src/dataset.cpp` for two
datasets, which is `Dataset::operator*=(const Dataset &)`. -/
def times_equals (I : Interface) (dataset other : List Variable) : DatasetResult :=
  timesLoop I other other dataset

/-- Whether every coordinate of `dataset` is at its place and as it was in `after`, the
variables of the dataset after an operation. -/
def coordsKept (dataset after : List Variable) : Prop :=
  after.length = dataset.length ∧
    ∀ i var, dataset.get? i = some var → var.isCoord = true → after.get? i = some var

/-- Example: a dataset with the coordinate `Coord::X` and the value `a`. -/
def exampleLeft : List Variable :=
  [⟨⟨0⟩, ⟨0⟩, "", ⟨⟨[(Dim.X, 2)]⟩, .Double, .DataModel [Value.num 0, Value.num 1]⟩⟩,
    ⟨Tagged.Data.Value, ⟨0⟩, "a", ⟨⟨[(Dim.X, 2)]⟩, .Double,
      .DataModel [Value.num 1, Value.num 2]⟩⟩]

/-- Example: a dataset with a coordinate `Coord::X` that differs from the one of
`exampleLeft`. -/
def exampleShifted : List Variable :=
  [⟨⟨0⟩, ⟨0⟩, "", ⟨⟨[(Dim.X, 2)]⟩, .Double, .DataModel [Value.num 5, Value.num 6]⟩⟩]

/-- Example: a dataset with the value `a` and its variance, both along `Dim::X`. -/
def exampleWithVariance : List Variable :=
  [⟨Tagged.Data.Value, ⟨0⟩, "a", ⟨⟨[(Dim.X, 2)]⟩, .Double,
      .DataModel [Value.num 1, Value.num 2]⟩⟩,
    ⟨Tagged.Data.Variance, ⟨0⟩, "a", ⟨⟨[(Dim.X, 2)]⟩, .Double,
      .DataModel [Value.num 3, Value.num 4]⟩⟩]

/-- Example: a dataset with the value `a` and its variance, both without dimensions. -/
def exampleScalar : List Variable :=
  [⟨Tagged.Data.Value, ⟨0⟩, "a", ⟨⟨[]⟩, .Double, .DataModel [Value.num 2]⟩⟩,
    ⟨Tagged.Data.Variance, ⟨0⟩, "a", ⟨⟨[]⟩, .Double, .DataModel [Value.num 1]⟩⟩]

/-- Example: a dataset with the single value `b`. -/
def exampleRight : List Variable :=
  [⟨Tagged.Data.Value, ⟨0⟩, "b", ⟨⟨[(Dim.X, 2)]⟩, .Double,
    .DataModel [Value.num 10, Value.num 20]⟩⟩]

end Arithmetic

/-! ## Rebinning a variable (`src/variable.cpp`) -/

namespace Tagged

/-- Modelled from the spec: `Dimensions::ndim()` (the header of `Dimensions` is not part
of the sources): the number of dimensions. -/
def Dimensions.ndim (dims : Dimensions) : Int := dims.shape.length

/-- Modelled from the spec: `Dimensions::inner()` (the header of `Dimensions` is not part
of the sources): the label of the last dimension, which runs fastest in memory,
and `Dim::Invalid` without dimensions. -/
def Dimensions.inner (dims : Dimensions) : Dim := dims.labels.getLast?.getD Dim.Invalid

end Tagged

namespace Storage

open Tagged (Dimensions Tag)

open core (Exception)

/-- Embedding of `isMatchingOr1DBinEdge(dim, edges, toMatch)`.  The extent `edges[dim]` is read
for edges that are not one-dimensional, which fails for a label that is not
present. -/
def isMatchingOr1DBinEdge (dim : Dim) (edges toMatch : Dimensions) : Except Exception Bool :=
  if edges.ndim = 1 then .ok true
  else do
    let extent ← extentOf edges dim
    pure (decide (edges.resize dim (extent - 1) = toMatch))

/-- The element types whose concept is a `FloatingPointVariableConcept`: those with
`std::is_floating_point`, which are `double` and `float`. -/
def isFloatingPoint (dtype : DType) : Bool :=
  decide (dtype = DType.Double) || decide (dtype = DType.Float)

/-- The call `RebinHelper<T>::rebinInner(dim, oldT, newT, oldCoordT, newCoordT)` on concepts:
the spans and the extents are taken in the order of the source and the rows are
rebinned by `RebinHelper.rebinInner`; the result is the data of `newT` after the
call.  The quotient `volume() / oldSize` by zero is undefined in the source; the
call fails here. -/
def rebinInnerOf (dim : Dim) (oldT newT oldCoordT newCoordT : VariableConcept) :
    Except Exception VariableConcept := do
  let _ ← oldT.getSpan false
  let _ ← newT.getSpan true
  let oldSize ← extentOf oldT.dimensions dim
  let newSize ← extentOf newT.dimensions dim
  if oldSize = 0 then .error (.RuntimeError "Division by zero.")
  else do
    let _ ← oldCoordT.getSpan false
    let _ ← newCoordT.getSpan false
    match RebinHelper.rebinInner oldSize.toNat newSize.toNat oldT.dimensions.volume.toNat
        (decide (oldCoordT.dimensions.ndim = 1)) (decide (newCoordT.dimensions.ndim = 1))
        (Arithmetic.pointer oldT) (Arithmetic.pointer newT) (Arithmetic.pointer oldCoordT)
        (Arithmetic.pointer newCoordT) with
    | some newData => pure (Arithmetic.storeAt newT newT.size.toNat newData)
    | none => .error (.RuntimeError "Division by zero.")

/-- The message of `FloatingPointVariableConceptT::rebin` for edges it does not support. -/
def unsupportedEdges : String :=
  "TODO the new coord should be 1D or the same din as newCoord."

/-- Embedding of `FloatingPointVariableConceptT<T>::rebin(old, dim, oldCoord, newCoord)`, where `T`
is the element type of `self`; the result is the data of `self` after the call. -/
def FloatingPointVariableConceptT.rebin (to_string : DType → String) (self old : VariableConcept)
    (dim : Dim) (oldCoord newCoord : VariableConcept) : Except Exception VariableConcept := do
  let oldT ← VariableConcept.requireT to_string self.dtype old
  let oldCoordT ← VariableConcept.requireT to_string self.dtype oldCoord
  let newCoordT ← VariableConcept.requireT to_string self.dtype newCoord
  let dims := self.dimensions
  if dims.inner ≠ dim then .error (.RuntimeError unsupportedEdges)
  else do
    let matchesOld ← isMatchingOr1DBinEdge dim oldCoord.dimensions old.dimensions
    if !matchesOld then .error (.RuntimeError unsupportedEdges)
    else do
      let matchesNew ← isMatchingOr1DBinEdge dim newCoord.dimensions dims
      if !matchesNew then .error (.RuntimeError unsupportedEdges)
      else rebinInnerOf dim oldT self oldCoordT newCoordT

/-- The parts used by `rebin` that are declared outside the sources: the text of an
element type, the test `expect::countsOrCountsDensity` with the exception it
throws, the table `coordDimension` from the identifier of a coordinate tag to
its dimension, the unit `units::counts` and the product of units, the loop of
`RebinGeneralHelper<T>::rebin`, which reads the coordinates by the template
`span<T>()` and changes `newT` only by adding to the elements of its slices
and gives the buffer of `newT` after the call, and the branch for a density,
which converts by `counts::fromDensity` and `counts::toDensity`. -/
structure RebinInterface where
  to_string : DType → String
  countsOrCountsDensity : Variable → Option Exception
  coordDimension : Nat → Dim
  counts : Unit
  unitMul : Unit → Unit → Unit
  rebinGeneral : Dim → Variable → Variable → Variable → Variable → Except Exception (List Value)
  rebinDensity : Variable → Variable → Variable → Except Exception Variable

/-- Embedding of `require<FloatingPointVariableConcept>(rebinned.data()).rebin(...)`. -/
def requireRebin (R : RebinInterface) (rebinned old : VariableConcept) (dim : Dim)
    (oldCoord newCoord : VariableConcept) : Except Exception VariableConcept :=
  if !isFloatingPoint rebinned.dtype then
    .error (.RuntimeError "Cannot apply operation, requires floating-point type.")
  else FloatingPointVariableConceptT.rebin R.to_string rebinned old dim oldCoord newCoord

/-- The branch of `rebin` that is not for the inner dimension. -/
def rebinOuter (R : RebinInterface) (dim : Dim) (var rebinned oldCoord newCoord : Variable) :
    Except Exception Variable :=
  if newCoord.dimensions.ndim ≠ 1 ∨ oldCoord.dimensions.ndim ≠ 1 then
    .error (.RuntimeError "Not inner rebin works only for 1d coordinates for now.")
  else
    match rebinned.m_object.dtype with
    | .Double | .Float => do
      let buffer ← R.rebinGeneral dim var rebinned oldCoord newCoord
      pure { rebinned with m_object := rebinned.m_object.withBuffer buffer }
    | _ => .error (.RuntimeError "Rebinning is possible only for double and float types.")

/-- Embedding of `rebin(var, oldCoord, newCoord)`. -/
def rebin (R : RebinInterface) (var oldCoord newCoord : Variable) : Except Exception Variable :=
  match R.countsOrCountsDensity var with
  | some e => .error e
  | none =>
    let dim := R.coordDimension newCoord.tag.value
    if var.unit = R.counts ∨ var.unit = R.unitMul R.counts R.counts then do
      let extent ← extentOf newCoord.dimensions dim
      let dims := var.dimensions.resize dim (extent - 1)
      let data ← var.m_object.cloneWith dims
      let rebinned : Variable := { var with m_object := data }
      if rebinned.dimensions.inner = dim then do
        let data ← requireRebin R rebinned.data var.data dim oldCoord.data newCoord.data
        pure { rebinned with m_object := data }
      else rebinOuter R dim var rebinned oldCoord newCoord
    else R.rebinDensity var oldCoord newCoord

/-- Example: the parts of `rebin` outside the sources, with the dimension `Dim::X` for every
coordinate and the unit 7 for counts. -/
def exampleRebinInterface : RebinInterface where
  to_string := exampleToString
  countsOrCountsDensity := fun _ => none
  coordDimension := fun _ => Dim.X
  counts := ⟨7⟩
  unitMul := fun a b => ⟨a.id + b.id⟩
  rebinGeneral := fun _ _ newT _ _ => .ok newT.m_object.buffer
  rebinDensity := fun var _ _ => .ok var

/-- Example: counts `1, 2, 3, 4` in two rows of two bins along `Dim::X`. -/
def exampleCounts : Variable :=
  ⟨⟨18⟩, ⟨7⟩, "counts", ⟨⟨[(Dim.Y, 2), (Dim.X, 2)]⟩, .Double,
    .DataModel [Value.num 1, Value.num 2, Value.num 3, Value.num 4]⟩⟩

/-- Example: the old bin edges `0, 1, 2` along `Dim::X`. -/
def exampleOldCoord : Variable :=
  ⟨⟨0⟩, ⟨0⟩, "", ⟨⟨[(Dim.X, 3)]⟩, .Double,
    .DataModel [Value.num 0, Value.num 1, Value.num 2]⟩⟩

/-- Example: the new bin edges `0, 2` along `Dim::X`. -/
def exampleNewCoord : Variable :=
  ⟨⟨0⟩, ⟨0⟩, "", ⟨⟨[(Dim.X, 2)]⟩, .Double, .DataModel [Value.num 0, Value.num 2]⟩⟩

/-- Example: the variable that `rebin` returns for the counts and the edges above, and
the counts themselves if it fails. -/
def exampleRebinned : Variable :=
  match rebin exampleRebinInterface exampleCounts exampleOldCoord exampleNewCoord with
  | .ok rebinned => rebinned
  | .error _ => exampleCounts

end Storage

/-! ## The loops of the two rebin helpers (`src/variable.cpp`) -/

namespace RebinHelper

/-- The value of `delta` in the body of the loop of `rebinInner`: the overlap of the current
old bin and the current new bin. -/
def delta (xold xnew : Span) (oldEdgeOffset newEdgeOffset : Nat) (st : LoopState) : Value :=
  let xo_low := xold (oldEdgeOffset + st.iold)
  let xo_high := xold (oldEdgeOffset + st.iold + 1)
  let xn_low := xnew (newEdgeOffset + st.inew)
  let xn_high := xnew (newEdgeOffset + st.inew + 1)
  (if xo_high.lt xn_high then xo_high else xn_high).sub
    (if xo_low.gt xn_low then xo_low else xn_low)

/-- The value of `owidth` in the body of the loop of `rebinInner`: the width of the current
old bin. -/
def owidth (xold : Span) (oldEdgeOffset : Nat) (st : LoopState) : Value :=
  (xold (oldEdgeOffset + st.iold + 1)).sub (xold (oldEdgeOffset + st.iold))

/-- Whether the body of the loop takes its last branch, which adds to the output: no edge of
the two current bins is NaN and the bins overlap. -/
def contributes (xold xnew : Span) (oldEdgeOffset newEdgeOffset : Nat) (st : LoopState) : Bool :=
  let xo_low := xold (oldEdgeOffset + st.iold)
  let xo_high := xold (oldEdgeOffset + st.iold + 1)
  let xn_low := xnew (newEdgeOffset + st.inew)
  let xn_high := xnew (newEdgeOffset + st.inew + 1)
  !((xn_low.isnan || xn_high.isnan) || xn_high.le xo_low) &&
    !((xo_low.isnan || xo_high.isnan) || xo_high.le xn_low)

end RebinHelper

namespace RebinGeneralHelper

open core (Exception)

/-- The largest value of the type `int`, which is the type of the cursors `iold` and `inew` of
`RebinGeneralHelper::rebin`, for an `int` of 32 bits. -/
def INT_MAX : Nat := 2147483647

/-- What stands for an overflow of a cursor of type `int`, which is undefined in the
source. -/
def overflow : Exception := .RuntimeError "Signed integer overflow."

/-- The variables that change in the `while` loop of `RebinGeneralHelper::rebin`: the two cursors,
which are of type `int` and never negative, and the output variable `newT`. -/
structure LoopState (α : Type) where
  iold : Nat
  inew : Nat
  newT : α

/-- The condition of the `while` loop, which compares the cursors of type `int` with the
extents of type `gsl::index`. -/
def loopCondition {α : Type} (oldSize newSize : Nat) (st : LoopState α) : Bool :=
  decide (st.iold < oldSize) && decide (st.inew < newSize)

/-- The body of the `while` loop of `RebinGeneralHelper::rebin`.  The statement
`newT(dim, inew) += oldT(dim, iold) * delta / owidth` works on slices of
variables; it is the parameter `addTo`, which is given `inew`, `iold`, `delta`
and `owidth` and may throw.  The body starts with the sums `iold + 1` and
`inew + 1` of type `int`, the indices of the upper edges: for a cursor at
`INT_MAX` the sum overflows, which is undefined in the source; the call fails
here. -/
def loopBody {α : Type} (addTo : Nat → Nat → Value → Value → α → Except Exception α)
    (xold xnew : Span) (st : LoopState α) : Except Exception (LoopState α) :=
  if st.iold < INT_MAX ∧ st.inew < INT_MAX then
    let xo_low := xold st.iold
    let xo_high := xold (st.iold + 1)
    let xn_low := xnew st.inew
    let xn_high := xnew (st.inew + 1)
    if (xn_low.isnan || xn_high.isnan) || xn_high.le xo_low then
      .ok { st with inew := st.inew + 1 }
    else if (xo_low.isnan || xo_high.isnan) || xo_high.le xn_low then
      .ok { st with iold := st.iold + 1 }
    else
      let delta := (if xo_high.lt xn_high then xo_high else xn_high).sub
        (if xo_low.gt xn_low then xo_low else xn_low)
      let owidth := xo_high.sub xo_low
      match addTo st.inew st.iold delta owidth st.newT with
      | .error e => .error e
      | .ok newT =>
        if xn_high.gt xo_high then .ok { iold := st.iold + 1, inew := st.inew, newT := newT }
        else .ok { iold := st.iold, inew := st.inew + 1, newT := newT }
  else .error overflow

/-- The `while` loop of `RebinGeneralHelper::rebin`, run for at most `fuel` iterations and up to
the first exception. -/
def whileLoop {α : Type} (addTo : Nat → Nat → Value → Value → α → Except Exception α)
    (oldSize newSize : Nat) (xold xnew : Span) :
    Nat → LoopState α → Except Exception (LoopState α)
  | 0, st => .ok st
  | fuel + 1, st =>
    if loopCondition oldSize newSize st then
      match loopBody addTo xold xnew st with
      | .error e => .error e
      | .ok next => whileLoop addTo oldSize newSize xold xnew fuel next
    else .ok st

/-- Embedding of `RebinGeneralHelper::rebin`.  The arguments are what the function reads from its
operands: `oldSize` and `newSize` are the extents of `dim` and `xold`, `xnew`
the arrays of the edges; the result is `newT` after the call.  Each iteration
that returns advances one cursor, so `oldSize + newSize` iterations are
enough. -/
def rebin {α : Type} (addTo : Nat → Nat → Value → Value → α → Except Exception α)
    (oldSize newSize : Nat) (xold xnew : Span) (newT : α) : Except Exception α :=
  match whileLoop addTo oldSize newSize xold xnew (oldSize + newSize) ⟨0, 0, newT⟩ with
  | .error e => .error e
  | .ok st => .ok st.newT

end RebinGeneralHelper

namespace core

/-- The extent `item.dims()[dim]` of an item along a dimension, `none` if the dimensions of
the item do not contain it. -/
def DataProxy.extentAlong (item : DataProxy) (dim : Dim) : Option Int :=
  item.dims.bind (fun dims => dims.extent dim)

end core

namespace Arithmetic

open Storage (Variable Operand Interface InPlaceResult VariableConcept DType readAt)

open Tagged (Tag)

open core (Exception)

/-- Example: the parts outside the sources for datasets with attributes: the tags from 26 on,
which follow the data tags, are attributes. -/
def exampleAttrInterface : Interface :=
  { Storage.exampleInterface with
    isData := fun tag => decide (Tagged.numCoordTags ≤ tag.value) && decide (tag.value < 26)
    isAttr := fun tag => decide (26 ≤ tag.value) }

/-- Example: a dataset with the attribute `n`. -/
def exampleAttrLeft : List Variable :=
  [⟨⟨26⟩, ⟨0⟩, "n", ⟨⟨[(Dim.X, 2)]⟩, .Double, .DataModel [Value.num 1, Value.num 2]⟩⟩]

/-- Example: a dataset with an attribute `n` that differs from the one of `exampleAttrLeft`. -/
def exampleAttrRight : List Variable :=
  [⟨⟨26⟩, ⟨0⟩, "n", ⟨⟨[(Dim.X, 2)]⟩, .Double, .DataModel [Value.num 10, Value.num 20]⟩⟩]

end Arithmetic

/-! ## Views over subspans (`core/subspan_view.cpp`) -/

namespace core

open Storage (DType)

/-- Modelled from the spec: `Dimensions::inner()` (the header of `Dimensions` is not part
of the sources): the label of the last dimension, `Dim::Invalid` if there is
none. -/
def Dimensions.inner (dims : Dimensions) : Dim :=
  (dims.shape.getLast?.map Prod.fst).getD Dim.Invalid

/-- A `span<T>` over elements of the values of a variable: the index of its first element
and its length. -/
structure Subspan where
  first : Int
  size : Int
  deriving DecidableEq, Repr

/-- Modelled from the spec: `span::subspan(offset, count)` (its header is not part of the
sources): the `count` elements from `offset` on.  The part must lie within the
span; where it does not, the program is terminated, which is an error here. -/
def Subspan.subspan (data : Subspan) (offset count : Int) : Except Exception Subspan :=
  if 0 ≤ offset ∧ 0 ≤ count ∧ offset + count ≤ data.size then
    .ok ⟨data.first + offset, count⟩
  else .error (.RuntimeError "span::subspan")

/-- The loop of `make_subspans`: `count` more iterations from the index `i` on. -/
def makeSubspansLoop (data : Subspan) (span_len : Int) :
    Nat → Int → List Subspan → Except Exception (List Subspan)
  | 0, _, spans => .ok spans
  | count + 1, i, spans =>
    match data.subspan (span_len * i) span_len with
    | .error e => .error e
    | .ok part => makeSubspansLoop data span_len count (i + 1) (spans ++ [part])

/-- Embedding of `make_subspans(data, span_len)`.  The quotient `data.size() / span_len` by zero
is undefined in the source; the call fails here. -/
def make_subspans (data : Subspan) (span_len : Int) : Except Exception (List Subspan) :=
  if span_len = 0 then .error (.RuntimeError "Division by zero.")
  else
    let len := data.size.tdiv span_len
    makeSubspansLoop data span_len len.toNat 0 []

/-- Modelled from the spec: what `subspan_view` reads of a `Variable`, a `VariableProxy` or a
`VariableConstProxy` (their headers are not part of the sources): the
dimensions, the unit, the element type, whether the data are contiguous, the
number of elements of `values<E>()`, which is also that of `variances<E>()`,
and whether there are variances. -/
structure SubspanSource where
  dims : Dimensions
  unit : Nat
  dtype : DType
  isContiguous : Bool
  size : Int
  hasVariances : Bool
  deriving DecidableEq, Repr

/-- Modelled from the spec: the variable that `makeVariable<span<T>>(dims, unit, values,
variances)` makes (its header is not part of the sources), with spans as
elements. -/
structure SubspanVariable where
  dims : Dimensions
  unit : Nat
  values : List Subspan
  variances : List Subspan
  deriving DecidableEq, Repr

/-- The lambdas `values_view` and `variances_view` of `subspan_view`: the subspans of all
elements, of the length of the inner dimension. -/
def values_view (v : SubspanSource) : Except Exception (List Subspan) :=
  match v.dims.extent v.dims.inner with
  | none => .error (.DimensionError "Dimensions::operator[]")
  | some span_len => make_subspans ⟨0, v.size⟩ span_len

/-- Embedding of the template `subspan_view<T, Var>(var, dim)`.  The exception of
`expect::notSparse` is not part of the sources and is a parameter. -/
def subspan_view (Sparse : Int) (notSparse : Exception) (var : SubspanSource) (dim : Dim) :
    Except Exception SubspanVariable :=
  if var.dims.sparse Sparse then .error notSparse
  else if dim ≠ var.dims.inner then
    .error (.DimensionError "View over subspan can only be created for inner dimension.")
  else if !var.isContiguous then
    .error (.DimensionError
      "View over subspan can only be created for contiguous range of data.")
  else
    let dims := var.dims.erase dim
    match values_view var with
    | .error e => .error e
    | .ok values =>
      if var.hasVariances then
        match values_view var with
        | .error e => .error e
        | .ok variances => .ok ⟨dims, var.unit, values, variances⟩
      else .ok ⟨dims, var.unit, values, []⟩

/-- Embedding of `subspan_view_impl(var, dim)`, which the three functions `subspan_view(var,
dim)` call: `invoke<double, float>` calls the template for the element type of
`var`. -/
def subspan_view_impl (Sparse : Int) (notSparse : Exception) (var : SubspanSource)
    (dim : Dim) : Except Exception SubspanVariable :=
  if var.dtype = DType.Double then subspan_view Sparse notSparse var dim
  else if var.dtype = DType.Float then subspan_view Sparse notSparse var dim
  else .error (.RuntimeError "Unsupported dtype.")

/-- Example: six contiguous doubles in two rows of three along `Dim::X`. -/
def exampleRows : SubspanSource :=
  ⟨⟨[(Dim.Y, 2), (Dim.X, 3)]⟩, 0, .Double, true, 6, false⟩

end core

/-! ## Operands of `apply` that overlap (`src/variable.cpp`) -/

namespace Storage

open Tagged (Dimensions Tag shapeVolume shapeStride viewIndices)

open core (Exception)

namespace VariableConcept

/-- The positions of the buffer that hold the elements of a concept, in the order of its
dimensions: those that `getView(dimensions())` visits. -/
def positions (self : VariableConcept) : List Nat :=
  match self.m_model with
  | .DataModel _ => viewIndices self.m_dimensions.natShape 0 self.m_dimensions.natShape
  | .ViewModel m_model _ =>
    viewIndices m_model.m_dimensions.natShape m_model.m_offset.toNat self.m_dimensions.natShape

/-- The elements of a concept in the order of the dimensions `dims`, as `getView(dims)`
iterates over them: along a label of `dims` that the concept does not have, its
elements are repeated. -/
def valuesIn (self : VariableConcept) (dims : Dimensions) : List Value :=
  match self.m_model with
  | .DataModel m_model => (makeVariableView m_model 0 dims self.m_dimensions).elements
  | .ViewModel m_model _ => (m_model.retarget dims).elements

/-- An independent copy of a concept: a `DataModel` of its own that holds the elements of
the concept, as the copy made in `apply` does. -/
def copyOf (self : VariableConcept) : VariableConcept :=
  ⟨self.m_dimensions, self.m_dtype, .DataModel self.values⟩

end VariableConcept

/-- Example: a test for an overlap that finds two views to overlap when they are views of
buffers of equal size and equal content. -/
def exampleOverlaps (a b : VariableView) : Bool :=
  decide (a.m_variable.length = b.m_variable.length) && decide (a.m_variable = b.m_variable)

/-- Example: the interface `exampleInterface` with the test `exampleOverlaps`, which finds a
variable to overlap itself. -/
def exampleOverlapInterface : Interface := { exampleInterface with overlaps := exampleOverlaps }

end Storage

/-! ## Multiplication of a dataset by a number (`src/dataset.cpp`) -/

namespace Arithmetic

open Storage (Variable Operand Interface InPlaceResult VariableConcept DType readAt)

open Tagged (Tag)

open core (Exception)

/-- Embedding of `Variable::operator*=(const double value)`: `times_equals` with the variable
`other(Data::Value, {}, {value})`, whose unit is set to `units::dimensionless`.
That constant is not part of the sources and is a parameter. -/
def timesEqualsDouble (I : Interface) (dimensionless : Storage.Unit) (var : Variable)
    (value : Value) : InPlaceResult :=
  Storage.times_equals I (.ofVariable var)
    (.ofVariable ⟨Tagged.Data.Value, dimensionless, "", ⟨⟨[]⟩, .Double, .DataModel [value]⟩⟩)

/-- What `Dataset::operator*=(const double value)` does with one variable: a value is
multiplied by `value`, a variance by `value * value`, and any other variable is
left as it is. -/
def timesDoubleStep (I : Interface) (dimensionless : Storage.Unit) (value : Value)
    (var : Variable) : InPlaceResult :=
  if var.tag = Tagged.Data.Value then timesEqualsDouble I dimensionless var value
  else if var.tag = Tagged.Data.Variance then
    timesEqualsDouble I dimensionless var (Value.mul value value)
  else ⟨.ofVariable var, none⟩

/-- Embedding of `Dataset::operator*=(const double value)`: the loop over `m_variables`, up to
the first exception. -/
def timesAssignDouble (I : Interface) (dimensionless : Storage.Unit) (value : Value) :
    List Variable → DatasetResult
  | [] => ⟨[], none⟩
  | var :: rest =>
    let result := timesDoubleStep I dimensionless value var
    match result.threw with
    | some e => ⟨result.lhs.underlying :: rest, some e⟩
    | none =>
      let more := timesAssignDouble I dimensionless value rest
      ⟨result.lhs.underlying :: more.dataset, more.threw⟩

end Arithmetic

/-! ## The loop of `rebinInner` in the arithmetic of `double` (`src/variable.cpp`) -/

/-- The element type `double` with its infinities: a number, an infinity or NaN.  Of the
arithmetic of the type, the overflow is kept: a sum, difference, product or
quotient above `DBL_MAX` in magnitude is an infinity.  A result within the
range is exact, where the type would round it, and there is one zero. -/
inductive Double where
  | nan
  | negInf
  | posInf
  | num (q : ℚ)
  deriving DecidableEq

namespace Double

/-- The largest finite `double`, `(2 - 2^-52) * 2^1023`. -/
def DBL_MAX : ℚ := (2 ^ 53 - 1) * 2 ^ 971

/-- The `double` for an exact result: an infinity beyond `DBL_MAX`. -/
def ofExact (q : ℚ) : Double :=
  if DBL_MAX < q then posInf else if q < -DBL_MAX then negInf else num q

/-- Embedding of `std::isnan`. -/
def isnan : Double → Bool
  | nan => true
  | _ => false

/-- The comparison `a < b`, false when an operand is NaN. -/
def lt : Double → Double → Bool
  | nan, _ => false
  | _, nan => false
  | _, negInf => false
  | negInf, _ => true
  | posInf, _ => false
  | num _, posInf => true
  | num a, num b => decide (a < b)

/-- The comparison `a <= b`, false when an operand is NaN. -/
def le : Double → Double → Bool
  | nan, _ => false
  | _, nan => false
  | negInf, _ => true
  | _, posInf => true
  | posInf, _ => false
  | num _, negInf => false
  | num a, num b => decide (a ≤ b)

/-- The comparison `a > b`, false when an operand is NaN. -/
def gt (a b : Double) : Bool := lt b a

/-- The negation `-a`. -/
def neg : Double → Double
  | nan => nan
  | negInf => posInf
  | posInf => negInf
  | num a => num (-a)

/-- The sum `a + b`: the sum of the two infinities is NaN. -/
def add : Double → Double → Double
  | nan, _ => nan
  | _, nan => nan
  | posInf, negInf => nan
  | negInf, posInf => nan
  | posInf, _ => posInf
  | negInf, _ => negInf
  | num _, posInf => posInf
  | num _, negInf => negInf
  | num a, num b => ofExact (a + b)

/-- The difference `a - b`. -/
def sub (a b : Double) : Double := add a (neg b)

/-- The infinity with the sign of a number that is not zero. -/
def infinityOf (q : ℚ) : Double := if 0 < q then posInf else negInf

/-- The product `a * b`: the product of an infinity and zero is NaN. -/
def mul : Double → Double → Double
  | nan, _ => nan
  | _, nan => nan
  | posInf, posInf => posInf
  | posInf, negInf => negInf
  | negInf, posInf => negInf
  | negInf, negInf => posInf
  | posInf, num b => if b = 0 then nan else infinityOf b
  | negInf, num b => if b = 0 then nan else infinityOf (-b)
  | num a, posInf => if a = 0 then nan else infinityOf a
  | num a, negInf => if a = 0 then nan else infinityOf (-a)
  | num a, num b => ofExact (a * b)

/-- The quotient `a / b`: the quotient of two infinities and the quotient of zero by zero
are NaN, the quotient of a number by an infinity is zero, and the quotient of a
number that is not zero by zero is an infinity. -/
def div : Double → Double → Double
  | nan, _ => nan
  | _, nan => nan
  | num _, posInf => num 0
  | num _, negInf => num 0
  | num a, num b => if b = 0 then (if a = 0 then nan else infinityOf a) else ofExact (a / b)
  | posInf, num b => if b < 0 then negInf else posInf
  | negInf, num b => if b < 0 then posInf else negInf
  | _, _ => nan

end Double

namespace RebinHelper

/-- The variables that change in the `while` loop of `rebinInner`, for elements of type
`double`. -/
structure DoubleState where
  iold : Nat
  inew : Nat
  newData : Nat → Double

/-- The body of the `while` loop of `rebinInner` for elements of type `double`, with the
arithmetic of `Double`. -/
def loopBodyDouble (oldData xold xnew : Nat → Double)
    (oldEdgeOffset newEdgeOffset oldOffset newOffset : Nat) (st : DoubleState) : DoubleState :=
  let xo_low := xold (oldEdgeOffset + st.iold)
  let xo_high := xold (oldEdgeOffset + st.iold + 1)
  let xn_low := xnew (newEdgeOffset + st.inew)
  let xn_high := xnew (newEdgeOffset + st.inew + 1)
  if (xn_low.isnan || xn_high.isnan) || xn_high.le xo_low then
    { st with inew := st.inew + 1 }
  else if (xo_low.isnan || xo_high.isnan) || xo_high.le xn_low then
    { st with iold := st.iold + 1 }
  else
    let delta := (if xo_high.lt xn_high then xo_high else xn_high).sub
      (if xo_low.gt xn_low then xo_low else xn_low)
    let owidth := xo_high.sub xo_low
    let newData := fun k =>
      if k = newOffset + st.inew then
        (st.newData (newOffset + st.inew)).add
          (((oldData (oldOffset + st.iold)).mul delta).div owidth)
      else st.newData k
    if xn_high.gt xo_high then
      { iold := st.iold + 1, inew := st.inew, newData := newData }
    else
      { iold := st.iold, inew := st.inew + 1, newData := newData }

/-- The value of `delta` in the body of the loop for elements of type `double`. -/
def deltaDouble (xold xnew : Nat → Double) (oldEdgeOffset newEdgeOffset : Nat)
    (st : DoubleState) : Double :=
  let xo_low := xold (oldEdgeOffset + st.iold)
  let xo_high := xold (oldEdgeOffset + st.iold + 1)
  let xn_low := xnew (newEdgeOffset + st.inew)
  let xn_high := xnew (newEdgeOffset + st.inew + 1)
  (if xo_high.lt xn_high then xo_high else xn_high).sub
    (if xo_low.gt xn_low then xo_low else xn_low)

/-- The value of `owidth` in the body of the loop for elements of type `double`. -/
def owidthDouble (xold : Nat → Double) (oldEdgeOffset : Nat) (st : DoubleState) : Double :=
  (xold (oldEdgeOffset + st.iold + 1)).sub (xold (oldEdgeOffset + st.iold))

/-- Whether the body of the loop for elements of type `double` takes its last branch, which
adds to the output. -/
def contributesDouble (xold xnew : Nat → Double) (oldEdgeOffset newEdgeOffset : Nat)
    (st : DoubleState) : Bool :=
  let xo_low := xold (oldEdgeOffset + st.iold)
  let xo_high := xold (oldEdgeOffset + st.iold + 1)
  let xn_low := xnew (newEdgeOffset + st.inew)
  let xn_high := xnew (newEdgeOffset + st.inew + 1)
  !((xn_low.isnan || xn_high.isnan) || xn_high.le xo_low) &&
    !((xo_low.isnan || xo_high.isnan) || xo_high.le xn_low)

/-- Example: the edges `-DBL_MAX, DBL_MAX` of one bin. -/
def exampleWideEdges : Nat → Double :=
  fun k => if k = 0 then Double.num (-Double.DBL_MAX) else Double.num Double.DBL_MAX

/-- Example: the edges `-∞, 0` of one bin. -/
def exampleHalfLine : Nat → Double :=
  fun k => if k = 0 then Double.negInf else Double.num 0

/-- Example: the edges `-1, 0` of one bin. -/
def exampleUnitEdges : Nat → Double :=
  fun k => if k = 0 then Double.num (-1) else Double.num 0

/-- Example: the old data `1, 1, ...` of type `double`. -/
def exampleOnes : Nat → Double := fun _ => Double.num 1

/-- Example: an output buffer of zeros of type `double`. -/
def exampleDoubleZeros : Nat → Double := fun _ => Double.num 0

end RebinHelper

/-! ## Operands of `apply` that are views of one buffer (`src/variable.cpp`) -/

namespace Storage

open Tagged (Dimensions Tag shapeVolume shapeStride viewIndices)

open core (Exception)

namespace VariableConcept

/-- Embedding of `ArithmeticHelper::apply(a, b)` for ranges `a` and `b` of one buffer:
`std::transform` goes through the positions of `a` and of `b` together and
replaces each element of `a` by `op` of it and of the element that the buffer
holds at the position of `b` by then, after the elements of `a` before it have
been written. -/
def transformShared (op : Value → Value → Value) (buffer : List Value) :
    List Nat → List Nat → List Value
  | position :: positions, source :: sources =>
    transformShared op
      (buffer.set position (op (readAt buffer position) (readAt buffer source))) positions sources
  | _, _ => buffer

/-- The part of `VariableConceptT::apply` after the test for an overlap, for a right-hand side
that is a view of the buffer of the left-hand side, or its owner: the three
cases of the dimensions, each with the two ways to read `other`.  The buffer of
`self` is the one buffer; of `other`, the positions are used. -/
def applyTransformShared (op : Value → Value → Value) (self otherT : VariableConcept) :
    Except Exception VariableConcept := do
  let dims := self.dimensions
  let other := otherT
  if self.isContiguous && containsAll dims other.dimensions then
    if other.isContiguous && dims.isContiguousIn other.dimensions then
      let a ← self.getSpan true
      let b ← otherT.getSpan false
      pure (self.withBuffer (transformShared op self.buffer (spanIndices a) (spanIndices b)))
    else
      let a ← self.getSpan true
      let b ← otherT.getView false dims
      pure (self.withBuffer (transformShared op self.buffer (spanIndices a) b.indices))
  else if containsAll dims other.dimensions then
    if other.isContiguous && dims.isContiguousIn other.dimensions then
      let a ← self.getView true dims
      let b ← otherT.getSpan false
      pure (self.withBuffer (transformShared op self.buffer a.indices (spanIndices b)))
    else
      let a ← self.getView true dims
      let b ← otherT.getView false dims
      pure (self.withBuffer (transformShared op self.buffer a.indices b.indices))
  else
    if other.isContiguous && dims.isContiguousIn other.dimensions then
      let a ← self.getView true other.dimensions
      let b ← otherT.getSpan false
      pure (self.withBuffer (transformShared op self.buffer a.indices (spanIndices b)))
    else
      let a ← self.getView true other.dimensions
      let b ← otherT.getView false other.dimensions
      pure (self.withBuffer (transformShared op self.buffer a.indices b.indices))

/-- The `try` block of `VariableConceptT<T>::apply<Op, OtherT>(other)` for a right-hand side
that is a view of the buffer of the left-hand side, or its owner.  On an
overlap the elements that the buffer holds at the positions of `other` are
copied into a new `DataModel` and `apply` is called again with the copy: the
cast of the copy to `OtherT` succeeds and the new buffer overlaps nothing, so
that call goes on to the transformation, which reads the copy.  Without an
overlap found, `std::transform` reads and writes the one buffer. -/
def applyTryShared (to_string : DType → String) (overlaps : VariableView → VariableView → Bool)
    (op : Value → Value → Value) (OtherT : DType) (self other : VariableConcept) :
    Except Exception VariableConcept := do
  let dims := self.dimensions
  let otherT ← requireT to_string OtherT other
  if self.dtype = OtherT then
    let mine ← self.getView true dims
    let theirs ← otherT.getView false dims
    if overlaps mine theirs then
      let data ← otherT.getView false otherT.dimensions
      let copy ← makeDataModel other.dimensions OtherT (data.indices.map (readAt self.buffer))
      applyTransform op self copy
    else applyTransformShared op self otherT
  else applyTransformShared op self otherT

/-- Embedding of `VariableConceptT<T>::apply<Op, OtherT>(other)` for a right-hand side that is
a view of the buffer of the left-hand side, or its owner. -/
def applyShared (to_string : DType → String) (overlaps : VariableView → VariableView → Bool)
    (op : Value → Value → Value) (OtherT : DType) (self other : VariableConcept) :
    ApplyResult :=
  match applyTryShared to_string overlaps op OtherT self other with
  | .ok result => ⟨result, none⟩
  | .error e => ⟨self, some (catchBadCast e)⟩

end VariableConcept

/-- Example: the buffer `1, 2, 3` of three doubles along `Dim::X`. -/
def exampleTriple : List Value := [Value.num 1, Value.num 2, Value.num 3]

/-- Example: the view of the elements `1` and `2` of `exampleTriple`, which can be written. -/
def exampleUpperView : VariableConcept :=
  ⟨⟨[(Dim.X, 2)]⟩, .Double,
    .ViewModel ⟨exampleTriple, 1, ⟨[(Dim.X, 2)]⟩, ⟨[(Dim.X, 3)]⟩⟩ false⟩

/-- Example: the view of the elements `0` and `1` of `exampleTriple`. -/
def exampleLowerView : VariableConcept :=
  ⟨⟨[(Dim.X, 2)]⟩, .Double,
    .ViewModel ⟨exampleTriple, 0, ⟨[(Dim.X, 2)]⟩, ⟨[(Dim.X, 3)]⟩⟩ true⟩

end Storage

/-! # Theorems -/

namespace core

open extents

/-! ## The extent table -/

theorem assign_same (dims : ExtentMap) (dim : Dim) (v : Int) :
    dims.assign dim v dim = some v := by
  simp [ExtentMap.assign]

theorem assign_other (dims : ExtentMap) (dim d : Dim) (v : Int) (h : d ≠ dim) :
    dims.assign dim v d = dims d := by
  simp [ExtentMap.assign, h]

theorem setExtent_absent (Sparse : Int) (dims : ExtentMap) (dim : Dim) (extent : Int)
    (isCoord : Bool) (h : dims dim = none) :
    setExtent Sparse dims dim extent isCoord
      = ⟨dims.assign dim (makeUnknownEdgeState Sparse extent), none⟩ := by
  simp [setExtent, h]

/-- The behaviour of `setExtent` on an entry in unknown edge state that encodes the
extent `h`. -/
theorem setExtent_unknownEdge (Sparse : Int) (dims : ExtentMap) (dim : Dim) (h extent : Int)
    (isCoord : Bool) (hh : 0 ≤ h) (hS : Sparse ≠ -h - 1) (he : extent ≠ Sparse)
    (hd : dims dim = some (-h - 1)) :
    setExtent Sparse dims dim extent isCoord =
      if extent = h then ⟨dims, none⟩
      else if extent = h + 1 ∧ isCoord = true then ⟨dims.assign dim (extent - 1), none⟩
      else if extent = h - 1 ∧ isCoord = false then ⟨dims.assign dim extent, none⟩
      else ⟨dims, some lengthMismatch⟩ := by
  have e1 : (-h - 1 = -extent - 1) = (extent = h) := by
    apply propext; constructor <;> intro <;> omega
  have e2 : (extent = - (-h - 1) - 1 + 1) = (extent = h + 1) := by
    apply propext; constructor <;> intro <;> omega
  have e3 : (extent = - (-h - 1) - 1 - 1) = (extent = h - 1) := by
    apply propext; constructor <;> intro <;> omega
  have e4 : isUnknownEdgeState Sparse (-h - 1) = true := by
    simp only [isUnknownEdgeState, Bool.and_eq_true, decide_eq_true_eq]
    exact ⟨by omega, fun hc => hS hc.symm⟩
  have e5 : ¬ (-h - 1 = Sparse) := fun hc => hS hc.symm
  simp only [setExtent, hd, he, e5, e4, isSame, oneLarger, oneSmaller, shrink, e1, e2, e3,
    ne_eq, not_false_eq_true, if_true, if_false, Bool.and_eq_true, decide_eq_true_eq,
    Bool.not_eq_true']

/-- The behaviour of `setExtent` on an entry holding the known extent `h`. -/
theorem setExtent_known (Sparse : Int) (dims : ExtentMap) (dim : Dim) (h extent : Int)
    (isCoord : Bool) (hh : 0 ≤ h) (hS : h ≠ Sparse) (he : extent ≠ Sparse)
    (hd : dims dim = some h) :
    setExtent Sparse dims dim extent isCoord =
      if (extent ≠ h ∨ isCoord = true) ∧ extent ≠ h + 1 then ⟨dims, some lengthMismatch⟩
      else ⟨dims, none⟩ := by
  have e4 : isUnknownEdgeState Sparse h = false := by
    simp only [isUnknownEdgeState, Bool.and_eq_false_imp, decide_eq_true_eq]
    intro hc; omega
  simp only [setExtent, hd, he, hS, e4, ne_eq, not_false_eq_true, if_true, if_false,
    Bool.and_eq_true, Bool.or_eq_true, decide_eq_true_eq, Bool.false_eq_true]

/-- The behaviour of `setExtent` on an entry holding the sparse sentinel. -/
theorem setExtent_sparseHeld (Sparse : Int) (dims : ExtentMap) (dim : Dim) (extent : Int)
    (isCoord : Bool) (he : 0 ≤ extent) (hS : Sparse < 0) (hS1 : Sparse ≠ -extent - 1)
    (hd : dims dim = some Sparse) :
    setExtent Sparse dims dim extent isCoord = ⟨dims.assign dim (-extent - 1), none⟩ := by
  have e0 : extent ≠ Sparse := by omega
  have e5 : ¬ (-extent - 1 = Sparse) := fun hc => hS1 hc.symm
  have e4 : isUnknownEdgeState Sparse (-extent - 1) = true := by
    simp only [isUnknownEdgeState, Bool.and_eq_true, decide_eq_true_eq]
    exact ⟨by omega, e5⟩
  simp only [setExtent, hd, makeUnknownEdgeState, e0, e4, isSame, ne_eq, not_false_eq_true,
    if_true, if_false, decide_True]

theorem makeUnknownEdgeState_of_ne (Sparse extent : Int) (h : extent ≠ Sparse) :
    makeUnknownEdgeState Sparse extent = -extent - 1 := by
  simp [makeUnknownEdgeState, h]

theorem decodeExtent_of_nonneg (Sparse v : Int) (h : 0 ≤ v) : decodeExtent Sparse v = v := by
  have : isUnknownEdgeState Sparse v = false := by
    simp only [isUnknownEdgeState, Bool.and_eq_false_imp, decide_eq_true_eq]
    intro hc; omega
  simp [decodeExtent, this]

theorem decodeExtent_encoded (Sparse h : Int) (hh : 0 ≤ h) (hS : Sparse ≠ -h - 1) :
    decodeExtent Sparse (-h - 1) = h := by
  have : isUnknownEdgeState Sparse (-h - 1) = true := by
    simp only [isUnknownEdgeState, Bool.and_eq_true, decide_eq_true_eq]
    exact ⟨by omega, fun hc => hS hc.symm⟩
  simp only [decodeExtent, this, if_true]
  omega

/-- Coordinate of extent `N + 1` first, data of extent `N` second. -/
theorem coord_then_data (Sparse : Int) (dims : ExtentMap) (d : Dim) (N : Int)
    (hN : 0 ≤ N) (hS : Sparse < 0) (hS1 : Sparse ≠ -N - 1) (hd : dims d = none) :
    setExtent Sparse (setExtent Sparse dims d (N + 1) true).dims d N false
      = if Sparse = -(N + 1) - 1
        then ⟨(dims.assign d (-(N + 1) - 1)).assign d (-N - 1), none⟩
        else ⟨(dims.assign d (-(N + 1) - 1)).assign d N, none⟩ := by
  rw [setExtent_absent _ _ _ _ _ hd, makeUnknownEdgeState_of_ne _ _ (by omega)]
  by_cases hc : Sparse = -(N + 1) - 1
  · rw [if_pos hc]
    exact setExtent_sparseHeld Sparse _ d N false hN hS hS1
      (by rw [hc]; exact assign_same _ _ _)
  · rw [if_neg hc, setExtent_unknownEdge Sparse _ d (N + 1) N false (by omega) hc (by omega)
      (assign_same _ _ _)]
    rw [if_neg (by omega), if_neg (by omega), if_pos ⟨by omega, rfl⟩]

/-- Data of extent `N` first, coordinate of extent `N + 1` second. -/
theorem data_then_coord (Sparse : Int) (dims : ExtentMap) (d : Dim) (N : Int)
    (hN : 0 ≤ N) (hS : Sparse < 0) (hS1 : Sparse ≠ -N - 1) (hd : dims d = none) :
    setExtent Sparse (setExtent Sparse dims d N false).dims d (N + 1) true
      = ⟨(dims.assign d (-N - 1)).assign d N, none⟩ := by
  rw [setExtent_absent _ _ _ _ _ hd, makeUnknownEdgeState_of_ne _ _ (by omega)]
  rw [setExtent_unknownEdge Sparse _ d N (N + 1) true hN hS1 (by omega) (assign_same _ _ _)]
  rw [if_neg (by omega), if_pos ⟨rfl, rfl⟩]
  have e : N + 1 - 1 = N := by omega
  rw [e]

/-- C1: a coordinate of extent `N + 1` and data of extent `N`, inserted for an
unseen dimension in either order, are both accepted, and `Dataset::dimensions`
then reports `N`.  The sentinel is taken negative and different from the
encoding `-N - 1` of the data extent. -/
theorem binEdge_accepted_both_orders (Sparse : Int) (dims : ExtentMap) (d : Dim) (N : Int)
    (hN : 0 ≤ N) (hS : Sparse < 0) (hS1 : Sparse ≠ -N - 1) (hd : dims d = none) :
    ((setExtent Sparse dims d (N + 1) true).threw = none ∧
      (setExtent Sparse (setExtent Sparse dims d (N + 1) true).dims d N false).threw = none ∧
      dimensionsOf Sparse
        (setExtent Sparse (setExtent Sparse dims d (N + 1) true).dims d N false).dims d
        = some N) ∧
    ((setExtent Sparse dims d N false).threw = none ∧
      (setExtent Sparse (setExtent Sparse dims d N false).dims d (N + 1) true).threw = none ∧
      dimensionsOf Sparse
        (setExtent Sparse (setExtent Sparse dims d N false).dims d (N + 1) true).dims d
        = some N) := by
  rw [coord_then_data Sparse dims d N hN hS hS1 hd, data_then_coord Sparse dims d N hN hS hS1 hd]
  rw [setExtent_absent _ _ _ _ _ hd, setExtent_absent _ _ _ _ _ hd]
  refine ⟨⟨rfl, ?_, ?_⟩, rfl, rfl, ?_⟩
  · split_ifs <;> rfl
  · split_ifs
    · simp only [dimensionsOf, assign_same, Option.map_some', decodeExtent_encoded Sparse N hN hS1]
    · simp only [dimensionsOf, assign_same, Option.map_some', decodeExtent_of_nonneg Sparse N hN]
  · simp only [dimensionsOf, assign_same, Option.map_some', decodeExtent_of_nonneg Sparse N hN]

/-- Witness for C1: `N = 3` on the empty table, with the sentinel `-2^63`. -/
theorem binEdge_accepted_both_orders_witness :
    ((setExtent (-9223372036854775808) ExtentMap.empty Dim.X (3 + 1) true).threw = none ∧
      (setExtent (-9223372036854775808)
        (setExtent (-9223372036854775808) ExtentMap.empty Dim.X (3 + 1) true).dims
        Dim.X 3 false).threw = none ∧
      dimensionsOf (-9223372036854775808)
        (setExtent (-9223372036854775808)
          (setExtent (-9223372036854775808) ExtentMap.empty Dim.X (3 + 1) true).dims
          Dim.X 3 false).dims Dim.X = some 3) ∧
    ((setExtent (-9223372036854775808) ExtentMap.empty Dim.X 3 false).threw = none ∧
      (setExtent (-9223372036854775808)
        (setExtent (-9223372036854775808) ExtentMap.empty Dim.X 3 false).dims
        Dim.X (3 + 1) true).threw = none ∧
      dimensionsOf (-9223372036854775808)
        (setExtent (-9223372036854775808)
          (setExtent (-9223372036854775808) ExtentMap.empty Dim.X 3 false).dims
          Dim.X (3 + 1) true).dims Dim.X = some 3) :=
  binEdge_accepted_both_orders (-9223372036854775808) ExtentMap.empty Dim.X 3
    (by decide) (by decide) (by decide) rfl

/-- C2: in the table reached from one without `d` by inserting data of extent `N`,
a coordinate of extent `N + 1`, or both in either order, a further non-coordinate
insertion of extent `N + 2` throws the length-mismatch error and leaves the table
(so also the value held for `d`) as it was.  The sentinel is taken negative and
different from the encodings `-N - 1` and `-N - 2` of the two inserted extents. -/
theorem oversized_data_rejected (Sparse : Int) (dims s : ExtentMap) (d : Dim) (N : Int)
    (hN : 0 ≤ N) (hS : Sparse < 0) (hS1 : Sparse ≠ -N - 1) (hS2 : Sparse ≠ -N - 2)
    (hd : dims d = none)
    (hs : s = (setExtent Sparse dims d N false).dims ∨
      s = (setExtent Sparse dims d (N + 1) true).dims ∨
      s = (setExtent Sparse (setExtent Sparse dims d (N + 1) true).dims d N false).dims ∨
      s = (setExtent Sparse (setExtent Sparse dims d N false).dims d (N + 1) true).dims) :
    (setExtent Sparse s d (N + 2) false).threw = some lengthMismatch ∧
      (setExtent Sparse s d (N + 2) false).dims = s ∧
      (setExtent Sparse s d (N + 2) false).dims d = s d := by
  have hc : ¬ Sparse = -(N + 1) - 1 := by omega
  rw [coord_then_data Sparse dims d N hN hS hS1 hd, data_then_coord Sparse dims d N hN hS hS1 hd,
    if_neg hc, setExtent_absent _ _ _ _ _ hd, setExtent_absent _ _ _ _ _ hd,
    makeUnknownEdgeState_of_ne _ _ (by omega), makeUnknownEdgeState_of_ne _ _ (by omega)] at hs
  rcases hs with hs | hs | hs | hs
  · have hh : s d = some (-N - 1) := by rw [hs]; exact assign_same _ _ _
    rw [setExtent_unknownEdge Sparse s d N (N + 2) false hN hS1 (by omega) hh]
    rw [if_neg (by omega), if_neg (by omega), if_neg (by omega)]
    exact ⟨rfl, rfl, rfl⟩
  · have hh : s d = some (-(N + 1) - 1) := by rw [hs]; exact assign_same _ _ _
    rw [setExtent_unknownEdge Sparse s d (N + 1) (N + 2) false (by omega) hc (by omega) hh]
    rw [if_neg (by omega), if_neg (by simp), if_neg (by omega)]
    exact ⟨rfl, rfl, rfl⟩
  · have hh : s d = some N := by rw [hs]; exact assign_same _ _ _
    rw [setExtent_known Sparse s d N (N + 2) false hN (by omega) (by omega) hh]
    rw [if_pos ⟨Or.inl (by omega), by omega⟩]
    exact ⟨rfl, rfl, rfl⟩
  · have hh : s d = some N := by rw [hs]; exact assign_same _ _ _
    rw [setExtent_known Sparse s d N (N + 2) false hN (by omega) (by omega) hh]
    rw [if_pos ⟨Or.inl (by omega), by omega⟩]
    exact ⟨rfl, rfl, rfl⟩

/-- Witness for C2: `N = 3`, the state reached by the coordinate alone. -/
theorem oversized_data_rejected_witness :
    (setExtent (-9223372036854775808)
        (setExtent (-9223372036854775808) ExtentMap.empty Dim.X (3 + 1) true).dims
        Dim.X (3 + 2) false).threw = some lengthMismatch ∧
      (setExtent (-9223372036854775808)
        (setExtent (-9223372036854775808) ExtentMap.empty Dim.X (3 + 1) true).dims
        Dim.X (3 + 2) false).dims
        = (setExtent (-9223372036854775808) ExtentMap.empty Dim.X (3 + 1) true).dims ∧
      (setExtent (-9223372036854775808)
        (setExtent (-9223372036854775808) ExtentMap.empty Dim.X (3 + 1) true).dims
        Dim.X (3 + 2) false).dims Dim.X
        = (setExtent (-9223372036854775808) ExtentMap.empty Dim.X (3 + 1) true).dims Dim.X :=
  oversized_data_rejected (-9223372036854775808) ExtentMap.empty
    (setExtent (-9223372036854775808) ExtentMap.empty Dim.X (3 + 1) true).dims Dim.X 3
    (by decide) (by decide) (by decide) (by decide) rfl (Or.inr (Or.inl rfl))

/-- C3: on an entry in unknown edge state that decodes to `h`, and for a non-sparse
extent `e ≥ 0`, `setExtent` (i) leaves the table as it is when `e = h`, (ii) stores
the known extent `e - 1` when `isCoord` and `e = h + 1`, (iii) stores the known
extent `e` when not `isCoord` and `e = h - 1`, and (iv) throws the length-mismatch
error in every other case. -/
theorem unknownEdge_cases (Sparse : Int) (dims : ExtentMap) (d : Dim) (held h e : Int)
    (isCoord : Bool) (hd : dims d = some held)
    (hu : isUnknownEdgeState Sparse held = true) (hh : decodeExtent Sparse held = h)
    (he : 0 ≤ e) (heS : e ≠ Sparse) :
    (e = h → setExtent Sparse dims d e isCoord = ⟨dims, none⟩) ∧
    (e = h + 1 ∧ isCoord = true →
      setExtent Sparse dims d e isCoord = ⟨dims.assign d (e - 1), none⟩ ∧
        0 ≤ e - 1 ∧ isUnknownEdgeState Sparse (e - 1) = false) ∧
    (e = h - 1 ∧ isCoord = false →
      setExtent Sparse dims d e isCoord = ⟨dims.assign d e, none⟩ ∧
        0 ≤ e ∧ isUnknownEdgeState Sparse e = false) ∧
    (¬ e = h ∧ ¬ (e = h + 1 ∧ isCoord = true) ∧ ¬ (e = h - 1 ∧ isCoord = false) →
      setExtent Sparse dims d e isCoord = ⟨dims, some lengthMismatch⟩) := by
  have hu2 := hu
  simp only [isUnknownEdgeState, Bool.and_eq_true, decide_eq_true_eq] at hu2
  obtain ⟨hneg, hne⟩ := hu2
  have hdec : h = -held - 1 := by
    rw [← hh]; simp only [decodeExtent, hu, if_true]
  have hheld : held = -h - 1 := by omega
  have hh0 : 0 ≤ h := by omega
  have hS : Sparse ≠ -h - 1 := by omega
  have key := setExtent_unknownEdge Sparse dims d h e isCoord hh0 hS heS (by rw [hd, hheld])
  have nonneg_known : ∀ v : Int, 0 ≤ v → isUnknownEdgeState Sparse v = false := by
    intro v hv
    simp only [isUnknownEdgeState, Bool.and_eq_false_imp, decide_eq_true_eq]
    intro hc; omega
  refine ⟨?_, ?_, ?_, ?_⟩
  · intro h1
    rw [key, if_pos h1]
  · intro h1
    have h0 : ¬ e = h := by omega
    rw [key, if_neg h0, if_pos h1]
    exact ⟨rfl, by omega, nonneg_known _ (by omega)⟩
  · intro h1
    have h0 : ¬ e = h := by omega
    have h2 : ¬ (e = h + 1 ∧ isCoord = true) := by
      intro hc; omega
    rw [key, if_neg h0, if_neg h2, if_pos h1]
    exact ⟨rfl, he, nonneg_known _ he⟩
  · intro h1
    rw [key, if_neg h1.1, if_neg h1.2.1, if_neg h1.2.2]

/-- Witness for C3: the entry `-4` (unknown edge state, extent `3`) receives a
coordinate of extent `4`. -/
theorem unknownEdge_cases_witness :
    ((4 : Int) = 3 → setExtent (-9223372036854775808) (ExtentMap.empty.assign Dim.X (-4)) Dim.X 4
        true = ⟨ExtentMap.empty.assign Dim.X (-4), none⟩) ∧
    ((4 : Int) = 3 + 1 ∧ true = true →
      setExtent (-9223372036854775808) (ExtentMap.empty.assign Dim.X (-4)) Dim.X 4 true
        = ⟨(ExtentMap.empty.assign Dim.X (-4)).assign Dim.X (4 - 1), none⟩ ∧
        (0 : Int) ≤ 4 - 1 ∧ isUnknownEdgeState (-9223372036854775808) (4 - 1) = false) ∧
    ((4 : Int) = 3 - 1 ∧ true = false →
      setExtent (-9223372036854775808) (ExtentMap.empty.assign Dim.X (-4)) Dim.X 4 true
        = ⟨(ExtentMap.empty.assign Dim.X (-4)).assign Dim.X 4, none⟩ ∧
        (0 : Int) ≤ 4 ∧ isUnknownEdgeState (-9223372036854775808) 4 = false) ∧
    (¬ (4 : Int) = 3 ∧ ¬ ((4 : Int) = 3 + 1 ∧ true = true) ∧ ¬ ((4 : Int) = 3 - 1 ∧ true = false) →
      setExtent (-9223372036854775808) (ExtentMap.empty.assign Dim.X (-4)) Dim.X 4 true
        = ⟨ExtentMap.empty.assign Dim.X (-4), some lengthMismatch⟩) :=
  unknownEdge_cases (-9223372036854775808) (ExtentMap.empty.assign Dim.X (-4)) Dim.X (-4) 3 4 true
    rfl (by decide) (by decide) (by decide) (by decide)

/-- C4, as the claim states it, fails: on the known extent `3` a coordinate of
extent `3` is rejected although the claim accepts `e = h`, and a coordinate of
extent `4` is accepted although the claim accepts `e = h + 1` for data only. -/
theorem known_claim_refuted :
    ¬ ((setExtent (-9223372036854775808) (ExtentMap.empty.assign Dim.X 3) Dim.X 3 true).threw
          = none ↔ ((3 : Int) = 3 ∨ (true = false ∧ (3 : Int) = 3 + 1))) ∧
    ¬ ((setExtent (-9223372036854775808) (ExtentMap.empty.assign Dim.X 3) Dim.X 4 true).threw
          = none ↔ ((4 : Int) = 3 ∨ (true = false ∧ (4 : Int) = 3 + 1))) := by
  constructor
  · rw [setExtent_known (-9223372036854775808) _ Dim.X 3 3 true (by decide) (by decide)
      (by decide) (assign_same _ _ _)]
    decide
  · rw [setExtent_known (-9223372036854775808) _ Dim.X 3 4 true (by decide) (by decide)
      (by decide) (assign_same _ _ _)]
    decide

/-- C4 (amended): on an entry holding the known extent `h`, and for a non-sparse
extent `e`, `setExtent` succeeds if and only if `e = h + 1`, or `isCoord` is false
and `e = h`; in every other case it throws the length-mismatch error; in both
cases the table, and with it the held value `h`, is left as it was. -/
theorem known_cases (Sparse : Int) (dims : ExtentMap) (d : Dim) (h e : Int) (isCoord : Bool)
    (hh : 0 ≤ h) (hS : h ≠ Sparse) (heS : e ≠ Sparse) (hd : dims d = some h) :
    ((setExtent Sparse dims d e isCoord).threw = none ↔
        (e = h + 1 ∨ (isCoord = false ∧ e = h))) ∧
    (¬ (e = h + 1 ∨ (isCoord = false ∧ e = h)) →
        (setExtent Sparse dims d e isCoord).threw = some lengthMismatch) ∧
    (setExtent Sparse dims d e isCoord).dims = dims ∧
    (setExtent Sparse dims d e isCoord).dims d = some h := by
  rw [setExtent_known Sparse dims d h e isCoord hh hS heS hd]
  by_cases hc : (e ≠ h ∨ isCoord = true) ∧ e ≠ h + 1
  · rw [if_pos hc]
    refine ⟨⟨fun h1 => by simp at h1, ?_⟩, fun _ => rfl, rfl, hd⟩
    rintro (h1 | ⟨h1, h2⟩)
    · exact absurd h1 hc.2
    · rcases hc.1 with h3 | h3
      · exact absurd h2 h3
      · rw [h1] at h3; exact absurd h3 (by decide)
  · rw [if_neg hc]
    refine ⟨⟨fun _ => ?_, fun _ => rfl⟩, fun h1 => ?_, rfl, hd⟩
    · by_cases h2 : e = h + 1
      · exact Or.inl h2
      · right
        by_cases h3 : e = h
        · cases isCoord
          · exact ⟨rfl, h3⟩
          · exact absurd ⟨Or.inr rfl, h2⟩ hc
        · exact absurd ⟨Or.inl h3, h2⟩ hc
    · exfalso
      apply hc
      constructor
      · by_cases h3 : e = h
        · right
          cases isCoord
          · exact absurd (Or.inr ⟨rfl, h3⟩) h1
          · rfl
        · exact Or.inl h3
      · exact fun h2 => h1 (Or.inl h2)

/-- Witness for C4 (amended): the known extent `3` and data of extent `4`. -/
theorem known_cases_witness :
    ((setExtent (-9223372036854775808) (ExtentMap.empty.assign Dim.X 3) Dim.X 4 false).threw
        = none ↔ ((4 : Int) = 3 + 1 ∨ (false = false ∧ (4 : Int) = 3))) ∧
    (¬ ((4 : Int) = 3 + 1 ∨ (false = false ∧ (4 : Int) = 3)) →
      (setExtent (-9223372036854775808) (ExtentMap.empty.assign Dim.X 3) Dim.X 4 false).threw
        = some lengthMismatch) ∧
    (setExtent (-9223372036854775808) (ExtentMap.empty.assign Dim.X 3) Dim.X 4 false).dims
      = ExtentMap.empty.assign Dim.X 3 ∧
    (setExtent (-9223372036854775808) (ExtentMap.empty.assign Dim.X 3) Dim.X 4 false).dims Dim.X
      = some 3 :=
  known_cases (-9223372036854775808) (ExtentMap.empty.assign Dim.X 3) Dim.X 3 4 false
    (by decide) (by decide) (by decide) (assign_same _ _ _)

/-- C5: for an extent `e ≥ 0`, with a negative sentinel that is not `-e - 1`, the value
`makeUnknownEdgeState e` is negative, is in unknown edge state and decodes to `e`;
the extent `0` is encoded as `-1`, which no known extent equals; `decodeExtent` is
the identity on non-negative extents and on the sentinel; `makeUnknownEdgeState`
maps the sentinel to itself; and the first insertion for an unseen dimension
stores `makeUnknownEdgeState e`. -/
theorem unknownEdge_encoding (Sparse : Int) (e : Int) (he : 0 ≤ e) (hS : Sparse < 0)
    (hS1 : Sparse ≠ -e - 1) :
    (makeUnknownEdgeState Sparse e < 0 ∧
      isUnknownEdgeState Sparse (makeUnknownEdgeState Sparse e) = true ∧
      decodeExtent Sparse (makeUnknownEdgeState Sparse e) = e) ∧
    (makeUnknownEdgeState Sparse 0 = -1 ∧ ∀ k : Int, 0 ≤ k → makeUnknownEdgeState Sparse 0 ≠ k) ∧
    (∀ k : Int, 0 ≤ k → decodeExtent Sparse k = k) ∧
    decodeExtent Sparse Sparse = Sparse ∧
    makeUnknownEdgeState Sparse Sparse = Sparse ∧
    (∀ (dims : ExtentMap) (d : Dim) (isCoord : Bool), dims d = none →
      (setExtent Sparse dims d e isCoord).threw = none ∧
      (setExtent Sparse dims d e isCoord).dims d = some (makeUnknownEdgeState Sparse e) ∧
      ∀ d2 : Dim, d2 ≠ d → (setExtent Sparse dims d e isCoord).dims d2 = dims d2) := by
  have hm : makeUnknownEdgeState Sparse e = -e - 1 :=
    makeUnknownEdgeState_of_ne Sparse e (by omega)
  have h0 : makeUnknownEdgeState Sparse 0 = -1 := by
    rw [makeUnknownEdgeState_of_ne Sparse 0 (by omega)]; rfl
  refine ⟨⟨?_, ?_, ?_⟩, ⟨h0, ?_⟩, ?_, ?_, ?_, ?_⟩
  · rw [hm]; omega
  · rw [hm]
    simp only [isUnknownEdgeState, Bool.and_eq_true, decide_eq_true_eq]
    exact ⟨by omega, fun hc => hS1 hc.symm⟩
  · rw [hm]; exact decodeExtent_encoded Sparse e he hS1
  · intro k hk; rw [h0]; omega
  · intro k hk; exact decodeExtent_of_nonneg Sparse k hk
  · simp [decodeExtent, isUnknownEdgeState]
  · simp [makeUnknownEdgeState]
  · intro dims d isCoord hd
    rw [setExtent_absent _ _ _ _ _ hd]
    exact ⟨rfl, assign_same _ _ _, fun d2 h2 => assign_other _ _ _ _ h2⟩

/-- Witness for C5: the extent `0` with the sentinel `-2^63`. -/
theorem unknownEdge_encoding_witness :
    (makeUnknownEdgeState (-9223372036854775808) 0 < 0 ∧
      isUnknownEdgeState (-9223372036854775808) (makeUnknownEdgeState (-9223372036854775808) 0)
        = true ∧
      decodeExtent (-9223372036854775808) (makeUnknownEdgeState (-9223372036854775808) 0) = 0) ∧
    (makeUnknownEdgeState (-9223372036854775808) 0 = -1 ∧
      ∀ k : Int, 0 ≤ k → makeUnknownEdgeState (-9223372036854775808) 0 ≠ k) ∧
    (∀ k : Int, 0 ≤ k → decodeExtent (-9223372036854775808) k = k) ∧
    decodeExtent (-9223372036854775808) (-9223372036854775808) = -9223372036854775808 ∧
    makeUnknownEdgeState (-9223372036854775808) (-9223372036854775808) = -9223372036854775808 ∧
    (∀ (dims : ExtentMap) (d : Dim) (isCoord : Bool), dims d = none →
      (setExtent (-9223372036854775808) dims d 0 isCoord).threw = none ∧
      (setExtent (-9223372036854775808) dims d 0 isCoord).dims d
        = some (makeUnknownEdgeState (-9223372036854775808) 0) ∧
      ∀ d2 : Dim, d2 ≠ d → (setExtent (-9223372036854775808) dims d 0 isCoord).dims d2 = dims d2) :=
  unknownEdge_encoding (-9223372036854775808) 0 (by decide) (by decide) (by decide)

theorem assign_assign (dims : ExtentMap) (dim : Dim) (a b : Int) :
    (dims.assign dim a).assign dim b = dims.assign dim b := by
  funext d
  by_cases h : d = dim <;> simp [ExtentMap.assign, h]

/-- C6: for an unseen dimension, a coordinate of extent `c` followed by data of
extent `e` is accepted if and only if the data followed by the coordinate is
accepted (namely when `e = c` or `e = c - 1`), and when they are accepted the two
orders leave the same table, so the same encoded value for `d`.  The sentinel is
taken negative and different from the encodings of `c` and `e`. -/
theorem coord_data_order_independent (Sparse : Int) (dims : ExtentMap) (d : Dim) (c e : Int)
    (hc : 0 ≤ c) (he : 0 ≤ e) (hS : Sparse < 0) (hSc : Sparse ≠ -c - 1) (hSe : Sparse ≠ -e - 1)
    (hd : dims d = none) :
    (((setExtent Sparse dims d c true).threw = none ∧
        (setExtent Sparse (setExtent Sparse dims d c true).dims d e false).threw = none) ↔
      ((setExtent Sparse dims d e false).threw = none ∧
        (setExtent Sparse (setExtent Sparse dims d e false).dims d c true).threw = none)) ∧
    ((setExtent Sparse (setExtent Sparse dims d c true).dims d e false).threw = none ↔
      (e = c ∨ e = c - 1)) ∧
    ((setExtent Sparse (setExtent Sparse dims d c true).dims d e false).threw = none →
      (setExtent Sparse (setExtent Sparse dims d c true).dims d e false).dims
        = (setExtent Sparse (setExtent Sparse dims d e false).dims d c true).dims ∧
      (setExtent Sparse (setExtent Sparse dims d c true).dims d e false).dims d
        = (setExtent Sparse (setExtent Sparse dims d e false).dims d c true).dims d) := by
  rw [setExtent_absent _ _ _ _ _ hd, setExtent_absent _ _ _ _ _ hd,
    makeUnknownEdgeState_of_ne _ _ (by omega), makeUnknownEdgeState_of_ne _ _ (by omega)]
  rw [setExtent_unknownEdge Sparse _ d c e false hc hSc (by omega) (assign_same _ _ _),
    setExtent_unknownEdge Sparse _ d e c true he hSe (by omega) (assign_same _ _ _)]
  by_cases h1 : e = c
  · subst h1
    simp
  · have h1s : ¬ c = e := fun h => h1 h.symm
    by_cases h2 : e = c - 1
    · have h3 : c = e + 1 := by omega
      have h4 : ¬ e = c + 1 := by omega
      have h5 : c - 1 = e := by omega
      simp only [h1, h1s, h3, h4, if_false, if_true, false_and, true_and, and_self, and_true,
        Bool.false_eq_true, and_false]
      rw [assign_assign, assign_assign]
      simp
    · have h3 : ¬ c = e + 1 := by omega
      simp [h1, h1s, h2, h3]

/-- Witness for C6: coordinate of extent `4` and data of extent `3`. -/
theorem coord_data_order_independent_witness :
    (((setExtent (-9223372036854775808) ExtentMap.empty Dim.X 4 true).threw = none ∧
        (setExtent (-9223372036854775808)
          (setExtent (-9223372036854775808) ExtentMap.empty Dim.X 4 true).dims
          Dim.X 3 false).threw = none) ↔
      ((setExtent (-9223372036854775808) ExtentMap.empty Dim.X 3 false).threw = none ∧
        (setExtent (-9223372036854775808)
          (setExtent (-9223372036854775808) ExtentMap.empty Dim.X 3 false).dims
          Dim.X 4 true).threw = none)) ∧
    ((setExtent (-9223372036854775808)
        (setExtent (-9223372036854775808) ExtentMap.empty Dim.X 4 true).dims
        Dim.X 3 false).threw = none ↔ ((3 : Int) = 4 ∨ (3 : Int) = 4 - 1)) ∧
    ((setExtent (-9223372036854775808)
        (setExtent (-9223372036854775808) ExtentMap.empty Dim.X 4 true).dims
        Dim.X 3 false).threw = none →
      (setExtent (-9223372036854775808)
        (setExtent (-9223372036854775808) ExtentMap.empty Dim.X 4 true).dims Dim.X 3 false).dims
        = (setExtent (-9223372036854775808)
          (setExtent (-9223372036854775808) ExtentMap.empty Dim.X 3 false).dims
          Dim.X 4 true).dims ∧
      (setExtent (-9223372036854775808)
        (setExtent (-9223372036854775808) ExtentMap.empty Dim.X 4 true).dims
        Dim.X 3 false).dims Dim.X
        = (setExtent (-9223372036854775808)
          (setExtent (-9223372036854775808) ExtentMap.empty Dim.X 3 false).dims
          Dim.X 4 true).dims Dim.X) :=
  coord_data_order_independent (-9223372036854775808) ExtentMap.empty Dim.X 4 3
    (by decide) (by decide) (by decide) (by decide) (by decide) rfl

/-! ## `Dataset::setData` followed by `Dataset::erase` -/

/-- C7, as the claim states it, fails.  First: after `setCoord` with a coordinate of
extent `4` for `X` and again with one of extent `5` (both succeed), the table holds
the known extent `4`; inserting data `a` along the unreferenced dimension `Y` and
erasing it succeeds, but the rebuilt table holds `-6`, so `dimensions()` reports
`5` instead of `4`.  Second: after `setLabels` with extent `4` and `setData` with
extent `3` along `X` (both succeed), inserting and erasing data `b` along `Y` makes
`erase` throw the length-mismatch error. -/
theorem setData_erase_claim_refuted :
    ((Dataset.setCoord (-9223372036854775808) Dataset.empty Dim.X ⟨⟨[(Dim.X, 4)]⟩⟩).threw = none ∧
      (Dataset.setCoord (-9223372036854775808)
        (Dataset.setCoord (-9223372036854775808) Dataset.empty Dim.X ⟨⟨[(Dim.X, 4)]⟩⟩).dataset
        Dim.X ⟨⟨[(Dim.X, 5)]⟩⟩).threw = none ∧
      (Dataset.setData (-9223372036854775808)
        (Dataset.setCoord (-9223372036854775808)
          (Dataset.setCoord (-9223372036854775808) Dataset.empty Dim.X ⟨⟨[(Dim.X, 4)]⟩⟩).dataset
          Dim.X ⟨⟨[(Dim.X, 5)]⟩⟩).dataset "a" ⟨⟨[(Dim.Y, 2)]⟩⟩).threw = none ∧
      (Dataset.erase (-9223372036854775808)
        (Dataset.setData (-9223372036854775808)
          (Dataset.setCoord (-9223372036854775808)
            (Dataset.setCoord (-9223372036854775808) Dataset.empty Dim.X ⟨⟨[(Dim.X, 4)]⟩⟩).dataset
            Dim.X ⟨⟨[(Dim.X, 5)]⟩⟩).dataset "a" ⟨⟨[(Dim.Y, 2)]⟩⟩).dataset "a").threw = none ∧
      (Dataset.setCoord (-9223372036854775808)
          (Dataset.setCoord (-9223372036854775808) Dataset.empty Dim.X ⟨⟨[(Dim.X, 4)]⟩⟩).dataset
          Dim.X ⟨⟨[(Dim.X, 5)]⟩⟩).dataset.m_dims Dim.X = some 4 ∧
      (Dataset.erase (-9223372036854775808)
        (Dataset.setData (-9223372036854775808)
          (Dataset.setCoord (-9223372036854775808)
            (Dataset.setCoord (-9223372036854775808) Dataset.empty Dim.X ⟨⟨[(Dim.X, 4)]⟩⟩).dataset
            Dim.X ⟨⟨[(Dim.X, 5)]⟩⟩).dataset "a" ⟨⟨[(Dim.Y, 2)]⟩⟩).dataset "a").dataset.m_dims
          Dim.X = some (-6) ∧
      Dataset.dimensions (-9223372036854775808)
        (Dataset.erase (-9223372036854775808)
          (Dataset.setData (-9223372036854775808)
            (Dataset.setCoord (-9223372036854775808)
              (Dataset.setCoord (-9223372036854775808) Dataset.empty Dim.X
                ⟨⟨[(Dim.X, 4)]⟩⟩).dataset
              Dim.X ⟨⟨[(Dim.X, 5)]⟩⟩).dataset "a" ⟨⟨[(Dim.Y, 2)]⟩⟩).dataset "a").dataset
          Dim.X = some 5) ∧
    ((Dataset.setLabels (-9223372036854775808) Dataset.empty "l" ⟨⟨[(Dim.X, 4)]⟩⟩).threw = none ∧
      (Dataset.setData (-9223372036854775808)
        (Dataset.setLabels (-9223372036854775808) Dataset.empty "l" ⟨⟨[(Dim.X, 4)]⟩⟩).dataset
        "a" ⟨⟨[(Dim.X, 3)]⟩⟩).threw = none ∧
      (Dataset.setData (-9223372036854775808)
        (Dataset.setData (-9223372036854775808)
          (Dataset.setLabels (-9223372036854775808) Dataset.empty "l" ⟨⟨[(Dim.X, 4)]⟩⟩).dataset
          "a" ⟨⟨[(Dim.X, 3)]⟩⟩).dataset "b" ⟨⟨[(Dim.Y, 2)]⟩⟩).threw = none ∧
      (Dataset.erase (-9223372036854775808)
        (Dataset.setData (-9223372036854775808)
          (Dataset.setData (-9223372036854775808)
            (Dataset.setLabels (-9223372036854775808) Dataset.empty "l" ⟨⟨[(Dim.X, 4)]⟩⟩).dataset
            "a" ⟨⟨[(Dim.X, 3)]⟩⟩).dataset "b" ⟨⟨[(Dim.Y, 2)]⟩⟩).dataset "b").threw
        = some extents.lengthMismatch) := by
  decide

theorem setExtent_other (Sparse : Int) (dims : ExtentMap) (dim d : Dim) (extent : Int)
    (isCoord : Bool) (h : d ≠ dim) :
    (setExtent Sparse dims dim extent isCoord).dims d = dims d := by
  unfold setExtent
  split
  · exact assign_other _ _ _ _ h
  · simp only []
    repeat' split
    all_goals simp [ExtentMap.assign, h]

theorem extent_isSome_of_mem (dims : Dimensions) (p : Dim × Int) (hp : p ∈ dims.shape) :
    (dims.extent p.1).isSome = true := by
  unfold Dimensions.extent
  rw [Option.isSome_map', List.find?_isSome]
  exact ⟨p, hp, by simp⟩

theorem mem_of_extent_isSome (dims : Dimensions) (d : Dim)
    (h : (dims.extent d).isSome = true) : ∃ e, (d, e) ∈ dims.shape := by
  unfold Dimensions.extent at h
  rw [Option.isSome_map', List.find?_isSome] at h
  obtain ⟨p, hp, hpd⟩ := h
  have : p.1 = d := by simpa using hpd
  exact ⟨p.2, by rw [← this]; exact hp⟩

theorem setDimsLoop_other (Sparse : Int) (dims : Dimensions) (coordDim d : Dim)
    (labels : List Dim) (tmp : ExtentMap) (h : d ∉ labels) :
    (setDimsLoop Sparse dims coordDim labels tmp).dims d = tmp d := by
  induction labels generalizing tmp with
  | nil => rfl
  | cons dim rest ih =>
    have h1 : d ≠ dim := fun hc => h (by rw [hc]; exact List.mem_cons_self _ _)
    have h2 : d ∉ rest := fun hc => h (List.mem_cons_of_mem _ hc)
    unfold setDimsLoop
    split
    · rfl
    · rename_i e he
      have key := setExtent_other Sparse tmp dim d e (decide (dim = coordDim)) h1
      split
      · rename_i tmp1 heq
        rw [ih tmp1 h2]
        rw [heq] at key
        exact key
      · rename_i tmp1 msg heq
        rw [heq] at key
        exact key

theorem setDimsLoop_fresh (Sparse : Int) (dims : Dimensions) (coordDim : Dim)
    (labels : List Dim) (tmp : ExtentMap) (hnodup : labels.Nodup)
    (hfresh : ∀ l ∈ labels, tmp l = none)
    (hext : ∀ l ∈ labels, (dims.extent l).isSome = true) :
    (setDimsLoop Sparse dims coordDim labels tmp).threw = none := by
  induction labels generalizing tmp with
  | nil => rfl
  | cons dim rest ih =>
    obtain ⟨e, he⟩ := Option.isSome_iff_exists.mp (hext dim (List.mem_cons_self _ _))
    have hdim : tmp dim = none := hfresh dim (List.mem_cons_self _ _)
    have hnd := List.nodup_cons.mp hnodup
    unfold setDimsLoop
    simp only [he, setExtent_absent _ _ _ _ _ hdim]
    apply ih _ hnd.2
    · intro l hl
      have : l ≠ dim := fun hc => hnd.1 (by rw [← hc]; exact hl)
      rw [assign_other _ _ _ _ this]
      exact hfresh l (List.mem_cons_of_mem _ hl)
    · exact fun l hl => hext l (List.mem_cons_of_mem _ hl)

theorem denseLabels_subset (Sparse : Int) (dims : Dimensions) (d : Dim)
    (h : d ∈ dims.denseLabels Sparse) : (dims.extent d).isSome = true := by
  unfold Dimensions.denseLabels at h
  obtain ⟨p, hp, hpd⟩ := List.mem_map.mp h
  rw [← hpd]
  exact extent_isSome_of_mem dims p (List.mem_filter.mp hp).1

theorem sparseDim_mem (Sparse : Int) (dims : Dimensions) (h : dims.sparse Sparse = true) :
    (dims.extent (dims.sparseDim Sparse)).isSome = true := by
  unfold Dimensions.sparse at h
  obtain ⟨p, hp, hps⟩ := List.any_eq_true.mp h
  unfold Dimensions.sparseDim
  cases hf : dims.shape.find? (fun p => decide (p.2 = Sparse)) with
  | none =>
    rw [List.find?_eq_none] at hf
    exact absurd hps (hf p hp)
  | some q => exact extent_isSome_of_mem dims q (List.mem_of_find?_eq_some hf)

theorem setDimsTable_other (Sparse : Int) (t t1 : ExtentMap) (dims : Dimensions)
    (coordDim d : Dim) (hok : setDimsTable Sparse t dims coordDim = .ok t1)
    (hd : (dims.extent d).isSome = false) : t1 d = t d := by
  have hnot : d ∉ dims.denseLabels Sparse := by
    intro hc
    rw [denseLabels_subset Sparse dims d hc] at hd
    exact absurd hd (by decide)
  have hloop := setDimsLoop_other Sparse dims coordDim d (dims.denseLabels Sparse) t hnot
  unfold setDimsTable at hok
  split at hok
  · exact absurd hok (by simp)
  · rename_i tmp heq
    rw [heq] at hloop
    split at hok
    · rename_i hsp
      have hne : d ≠ dims.sparseDim Sparse := by
        intro hc
        rw [hc, sparseDim_mem Sparse dims hsp] at hd
        exact absurd hd (by decide)
      have key := setExtent_other Sparse tmp (dims.sparseDim Sparse) d Sparse false hne
      split at hok
      · exact absurd hok (by simp)
      · rename_i tmp1 heq1
        rw [heq1] at key
        cases hok
        exact key.trans hloop
    · cases hok
      exact hloop

theorem rebuildLoop_other (Sparse : Int) (d : Dim) (entries : List (Option Dimensions × Dim))
    (ds : Dataset) (hok : (rebuildLoop Sparse entries ds).threw = none)
    (href : ∀ entry ∈ entries, ∀ dims, entry.1 = some dims → (dims.extent d).isSome = false) :
    (rebuildLoop Sparse entries ds).dataset.m_dims d = ds.m_dims d := by
  induction entries generalizing ds with
  | nil => rfl
  | cons entry rest ih =>
    obtain ⟨od, cd⟩ := entry
    cases od with
    | none => exact absurd hok (by simp [rebuildLoop])
    | some dims =>
      have hfirst := href (some dims, cd) (List.mem_cons_self _ _) dims rfl
      have hrest : ∀ entry ∈ rest, ∀ dims, entry.1 = some dims →
          (dims.extent d).isSome = false :=
        fun entry he => href entry (List.mem_cons_of_mem _ he)
      unfold rebuildLoop at hok ⊢
      unfold Dataset.setDims at hok ⊢
      cases htab : setDimsTable Sparse ds.m_dims dims cd with
      | error msg =>
        simp [htab] at hok
      | ok tmp =>
        rw [htab] at hok
        rw [ih _ hok hrest]
        exact setDimsTable_other Sparse ds.m_dims tmp dims cd d htab hfirst

theorem setDimsTable_fresh (Sparse : Int) (t : ExtentMap) (dims : Dimensions) (coordDim : Dim)
    (hnodup : (dims.shape.map Prod.fst).Nodup) (hdense : dims.sparse Sparse = false)
    (hfresh : ∀ p ∈ dims.shape, t p.1 = none) :
    ∃ t1, setDimsTable Sparse t dims coordDim = .ok t1 := by
  have hnd : (dims.denseLabels Sparse).Nodup := by
    unfold Dimensions.denseLabels
    exact List.Nodup.sublist (List.Sublist.map _ (List.filter_sublist _)) hnodup
  have hfr : ∀ l ∈ dims.denseLabels Sparse, t l = none := by
    intro l hl
    obtain ⟨e, he⟩ := mem_of_extent_isSome dims l (denseLabels_subset Sparse dims l hl)
    exact hfresh (l, e) he
  have key := setDimsLoop_fresh Sparse dims coordDim (dims.denseLabels Sparse) t hnd hfr
    (fun l hl => denseLabels_subset Sparse dims l hl)
  unfold setDimsTable
  split
  · rename_i msg heq
    rw [heq] at key
    exact absurd key (by simp)
  · rename_i tmp heq
    rw [hdense]
    exact ⟨tmp, by simp⟩

theorem eraseKey_of_absent {V : Type} (name : String) (m : List (String × V))
    (h : findItem name m = none) : eraseKey name m = m := by
  unfold findItem at h
  rw [Option.map_eq_none', List.find?_eq_none] at h
  unfold eraseKey
  rw [List.filter_eq_self]
  intro p hp
  have := h p hp
  simpa using this

theorem insertOrAssign_of_absent {V : Type} (name : String) (v : V) (m : List (String × V))
    (h : findItem name m = none) : insertOrAssign name v m = m ++ [(name, v)] := by
  induction m with
  | nil => rfl
  | cons p rest ih =>
    obtain ⟨k, w⟩ := p
    unfold findItem at h ih
    by_cases hk : k = name
    · simp [List.find?, hk] at h
    · have h2 : (List.find? (fun p => decide (p.1 = name)) rest).map Prod.snd = none := by
        simpa [List.find?, hk] using h
      simp only [insertOrAssign, hk, if_false, List.cons_append, ih h2]

theorem erase_after_assign (name : String) (data : Variable) (m : List (String × DatasetData))
    (h : findItem name m = none) : eraseKey name (assignData name data m) = m := by
  unfold assignData
  rw [h]
  simp only
  rw [insertOrAssign_of_absent name _ m h]
  unfold eraseKey
  rw [List.filter_append]
  have := eraseKey_of_absent name m h
  unfold eraseKey at this
  rw [this]
  simp

theorem contains_after_assign (name : String) (data : Variable)
    (m : List (String × DatasetData)) (h : findItem name m = none) :
    (findItem name (assignData name data m)).isSome = true := by
  unfold assignData
  rw [h]
  simp only
  rw [insertOrAssign_of_absent name _ m h]
  unfold findItem at h ⊢
  rw [Option.map_eq_none'] at h
  rw [List.find?_append, h]
  simp

theorem rebuildDims_ignores_table (Sparse : Int) (ds : Dataset) (t : ExtentMap) :
    Dataset.rebuildDims Sparse { ds with m_dims := t } = Dataset.rebuildDims Sparse ds := rfl

theorem fresh_of_unreferenced (Sparse : Int) (ds : Dataset) (d : Dim)
    (hok : (Dataset.rebuildDims Sparse ds).threw = none)
    (href : ds.references d = false) :
    (Dataset.rebuildDims Sparse ds).dataset.m_dims d = none := by
  unfold Dataset.rebuildDims at hok ⊢
  rw [rebuildLoop_other Sparse d _ _ hok]
  · rfl
  · intro entry he dims hdims
    unfold Dataset.references at href
    rw [List.any_eq_false] at href
    have := href entry he
    rw [hdims] at this
    simpa using this

/-- C7 (amended): on a dataset whose extent table is the one `rebuildDims` computes
from its members, for a name that is not contained and dense data whose dimensions
no member references, `setData` followed by `erase` succeeds and leaves `m_dims`,
hence `dimensions()`, as it was before the `setData`. -/
theorem setData_erase_restores (Sparse : Int) (ds : Dataset) (name : String) (data : Variable)
    (hok : (Dataset.rebuildDims Sparse ds).threw = none)
    (htable : (Dataset.rebuildDims Sparse ds).dataset.m_dims = ds.m_dims)
    (hname : ds.contains name = false)
    (hnodup : (data.dims.shape.map Prod.fst).Nodup)
    (hdense : data.dims.sparse Sparse = false)
    (href : ∀ p ∈ data.dims.shape, ds.references p.1 = false) :
    (Dataset.setData Sparse ds name data).threw = none ∧
    (Dataset.erase Sparse (Dataset.setData Sparse ds name data).dataset name).threw = none ∧
    (Dataset.erase Sparse (Dataset.setData Sparse ds name data).dataset name).dataset.m_dims
      = ds.m_dims ∧
    Dataset.dimensions Sparse
        (Dataset.erase Sparse (Dataset.setData Sparse ds name data).dataset name).dataset
      = Dataset.dimensions Sparse ds := by
  have hfresh : ∀ p ∈ data.dims.shape, ds.m_dims p.1 = none := by
    intro p hp
    rw [← htable]
    exact fresh_of_unreferenced Sparse ds p.1 hok (href p hp)
  obtain ⟨t1, ht1⟩ := setDimsTable_fresh Sparse ds.m_dims data.dims Dim.Invalid hnodup hdense hfresh
  have habsent : findItem name ds.m_data = none := by
    unfold Dataset.contains at hname
    cases h : findItem name ds.m_data with
    | none => rfl
    | some v => rw [h] at hname; exact absurd hname (by simp)
  have hset : Dataset.setData Sparse ds name data
      = ⟨{ ds with m_dims := t1, m_data := assignData name data ds.m_data }, none⟩ := by
    unfold Dataset.setData Dataset.setDims
    rw [ht1]
    simp only [habsent]
  have herase : Dataset.erase Sparse (Dataset.setData Sparse ds name data).dataset name
      = Dataset.rebuildDims Sparse ds := by
    rw [hset]
    unfold Dataset.erase Dataset.contains
    simp only [contains_after_assign name data ds.m_data habsent, if_true,
      erase_after_assign name data ds.m_data habsent]
    exact rebuildDims_ignores_table Sparse ds t1
  refine ⟨by rw [hset], by rw [herase]; exact hok, by rw [herase]; exact htable, ?_⟩
  unfold Dataset.dimensions
  rw [herase, htable]

/-- Witness for C7 (amended): a dataset holding a bin-edge coordinate of extent `4`
and data of extent `3` along `X`; data `b` along `Y` are inserted and erased. -/
theorem setData_erase_restores_witness :
    (Dataset.setData (-9223372036854775808)
      ⟨ExtentMap.empty.assign Dim.X 3, [(Dim.X, ⟨⟨[(Dim.X, 4)]⟩⟩)], [], [], [],
        [("a", ⟨some ⟨⟨[(Dim.X, 3)]⟩⟩, none, [], []⟩)]⟩ "b" ⟨⟨[(Dim.Y, 2)]⟩⟩).threw = none ∧
    (Dataset.erase (-9223372036854775808) (Dataset.setData (-9223372036854775808)
      ⟨ExtentMap.empty.assign Dim.X 3, [(Dim.X, ⟨⟨[(Dim.X, 4)]⟩⟩)], [], [], [],
        [("a", ⟨some ⟨⟨[(Dim.X, 3)]⟩⟩, none, [], []⟩)]⟩ "b" ⟨⟨[(Dim.Y, 2)]⟩⟩).dataset
      "b").threw = none ∧
    (Dataset.erase (-9223372036854775808) (Dataset.setData (-9223372036854775808)
      ⟨ExtentMap.empty.assign Dim.X 3, [(Dim.X, ⟨⟨[(Dim.X, 4)]⟩⟩)], [], [], [],
        [("a", ⟨some ⟨⟨[(Dim.X, 3)]⟩⟩, none, [], []⟩)]⟩ "b" ⟨⟨[(Dim.Y, 2)]⟩⟩).dataset
      "b").dataset.m_dims = ExtentMap.empty.assign Dim.X 3 ∧
    Dataset.dimensions (-9223372036854775808)
      (Dataset.erase (-9223372036854775808) (Dataset.setData (-9223372036854775808)
        ⟨ExtentMap.empty.assign Dim.X 3, [(Dim.X, ⟨⟨[(Dim.X, 4)]⟩⟩)], [], [], [],
          [("a", ⟨some ⟨⟨[(Dim.X, 3)]⟩⟩, none, [], []⟩)]⟩ "b" ⟨⟨[(Dim.Y, 2)]⟩⟩).dataset
        "b").dataset
      = Dataset.dimensions (-9223372036854775808)
        ⟨ExtentMap.empty.assign Dim.X 3, [(Dim.X, ⟨⟨[(Dim.X, 4)]⟩⟩)], [], [], [],
          [("a", ⟨some ⟨⟨[(Dim.X, 3)]⟩⟩, none, [], []⟩)]⟩ :=
  setData_erase_restores (-9223372036854775808)
    ⟨ExtentMap.empty.assign Dim.X 3, [(Dim.X, ⟨⟨[(Dim.X, 4)]⟩⟩)], [], [], [],
      [("a", ⟨some ⟨⟨[(Dim.X, 3)]⟩⟩, none, [], []⟩)]⟩ "b" ⟨⟨[(Dim.Y, 2)]⟩⟩
    (by decide)
    (by funext d; cases d <;> decide)
    (by decide) (by decide) (by decide) (by decide)

/-! ## Item access and iteration -/

theorem items_names (ds : Dataset) :
    ds.items.map DataProxy.name = ds.m_data.map Prod.fst := by
  unfold Dataset.items
  rw [List.map_map]
  rfl

theorem setCoord_m_data (Sparse : Int) (ds : Dataset) (dim : Dim) (coord : Variable) :
    (ds.setCoord Sparse dim coord).dataset.m_data = ds.m_data := by
  unfold Dataset.setCoord expectNotSparse Dataset.setDims
  split
  · rfl
  · cases setDimsTable Sparse ds.m_dims coord.dims dim <;> rfl

theorem setLabels_m_data (Sparse : Int) (ds : Dataset) (labelName : String)
    (labels : Variable) :
    (ds.setLabels Sparse labelName labels).dataset.m_data = ds.m_data := by
  unfold Dataset.setLabels expectNotSparse Dataset.setDims
  split
  · rfl
  · cases setDimsTable Sparse ds.m_dims labels.dims Dim.Invalid <;> rfl

theorem setAttr_m_data (Sparse : Int) (ds : Dataset) (attrName : String) (attr : Variable) :
    (ds.setAttr Sparse attrName attr).dataset.m_data = ds.m_data := by
  unfold Dataset.setAttr expectNotSparse Dataset.setDims
  split
  · rfl
  · cases setDimsTable Sparse ds.m_dims attr.dims Dim.Invalid <;> rfl

/-- C20: iteration over a `Dataset` or its proxy ranges over the data items only.
`setCoord`, `setLabels` and `setAttr` leave the data items as they are, so a
dataset holding nothing else has an empty range (`begin() == end()`), is `empty()`
and has `size()` 0; and a dataset with `k` data items, whose names are the distinct
keys of `m_data`, is iterated in exactly `k` steps that visit each item name
exactly once. -/
theorem iteration_over_data_items (Sparse : Int) (ds : Dataset) (k : Nat)
    (hk : ds.m_data.length = k) (hkeys : (ds.m_data.map Prod.fst).Nodup) :
    (∀ (dim : Dim) (v : Variable),
      (ds.setCoord Sparse dim v).dataset.m_data = ds.m_data) ∧
    (∀ (name : String) (v : Variable),
      (ds.setLabels Sparse name v).dataset.m_data = ds.m_data ∧
      (ds.setAttr Sparse name v).dataset.m_data = ds.m_data) ∧
    (k = 0 → ds.items = [] ∧ ds.isEmpty = true ∧ ds.size = 0 ∧
      (DatasetConstProxy.ofDataset ds).items = [] ∧
      (DatasetConstProxy.ofDataset ds).empty = true ∧
      (DatasetConstProxy.ofDataset ds).size = 0) ∧
    (ds.items.length = k ∧ ds.size = k ∧
      (DatasetConstProxy.ofDataset ds).items.length = k ∧
      (DatasetConstProxy.ofDataset ds).size = k) ∧
    ((DatasetConstProxy.ofDataset ds).items = ds.items ∧
      ds.items.map DataProxy.name = ds.m_data.map Prod.fst ∧
      (ds.items.map DataProxy.name).Nodup ∧
      ∀ name, ds.contains name = true → (ds.items.map DataProxy.name).count name = 1) := by
  have hlen : ds.items.length = k := by
    unfold Dataset.items
    rw [List.length_map, hk]
  have hnames := items_names ds
  refine ⟨fun dim v => setCoord_m_data Sparse ds dim v,
    fun name v => ⟨setLabels_m_data Sparse ds name v, setAttr_m_data Sparse ds name v⟩,
    ?_, ⟨hlen, hk, hlen, hlen⟩, rfl, hnames, by rw [hnames]; exact hkeys, ?_⟩
  · intro h0
    have hnil : ds.m_data = [] := List.length_eq_zero.mp (hk.trans h0)
    have hitems : ds.items = [] := by unfold Dataset.items; rw [hnil]; rfl
    have hsize : ds.size = 0 := by unfold Dataset.size; rw [hnil]; rfl
    refine ⟨hitems, ?_, hsize, hitems, ?_, ?_⟩
    · unfold Dataset.isEmpty; rw [hsize]; rfl
    · unfold DatasetConstProxy.empty DatasetConstProxy.size
      show decide (ds.items.length = 0) = true
      rw [hitems]; rfl
    · show ds.items.length = 0
      rw [hitems]; rfl
  · intro name hc
    rw [hnames]
    apply List.count_eq_one_of_mem hkeys
    unfold Dataset.contains findItem at hc
    cases hf : ds.m_data.find? (fun p => decide (p.1 = name)) with
    | none => rw [hf] at hc; exact absurd hc (by simp)
    | some entry =>
      have h1 := List.mem_of_find?_eq_some hf
      have h2 := List.find?_some hf
      have h3 : entry.1 = name := by simpa using h2
      rw [← h3]
      exact List.mem_map_of_mem _ h1

/-- Witness for C20: the dataset with the two data items `a` and `b`. -/
theorem iteration_over_data_items_witness :
    exampleDataset.items.length = 2 ∧
      exampleDataset.items.map DataProxy.name = ["a", "b"] ∧
      (exampleDataset.items.map DataProxy.name).Nodup :=
  ⟨(iteration_over_data_items (-9223372036854775808) exampleDataset 2 rfl
      (by decide)).2.2.2.1.1,
    (iteration_over_data_items (-9223372036854775808) exampleDataset 2 rfl
      (by decide)).2.2.2.2.2.1,
    (iteration_over_data_items (-9223372036854775808) exampleDataset 2 rfl
      (by decide)).2.2.2.2.2.2.1⟩

/-! ## Slicing a dataset proxy -/

end core

namespace Tagged

/-! ## Insertion into the tag-based `Dataset` -/

/-- The loop over `j` of `mergeDimensions` stops at the first pair with the label. -/
theorem mergeDimension_find (cD : Nat → Dim) (vars : List Variable) (m : Dimensions)
    (d : Dim) (size : Int) (coordDim : Dim) (T : List (Dim × Int)) :
    mergeDimension cD vars m d size coordDim T =
      match T.find? (fun p => decide (p.1 = d)) with
      | none => (m.add d size, none)
      | some p => mergeDimension cD vars m d size coordDim [(d, p.2)] := by
  induction T with
  | nil => rfl
  | cons p rest ih =>
    obtain ⟨label, held⟩ := p
    by_cases h : label = d
    · subst h
      simp [mergeDimension]
    · have step : mergeDimension cD vars m d size coordDim ((label, held) :: rest)
          = mergeDimension cD vars m d size coordDim rest := by
        simp only [mergeDimension, h, if_false]
      rw [step, List.find?_cons_of_neg _ (by simpa using h)]
      exact ih

theorem mergeDimension_of_extent_none (cD : Nat → Dim) (vars : List Variable) (m : Dimensions)
    (d : Dim) (size : Int) (coordDim : Dim) (h : m.extent d = none) :
    mergeDimension cD vars m d size coordDim m.shape = (m.add d size, none) := by
  rw [mergeDimension_find]
  unfold Dimensions.extent at h
  rw [Option.map_eq_none'] at h
  rw [h]

theorem mergeDimension_of_extent_some (cD : Nat → Dim) (vars : List Variable) (m : Dimensions)
    (d : Dim) (size held : Int) (coordDim : Dim) (h : m.extent d = some held) :
    mergeDimension cD vars m d size coordDim m.shape
      = mergeDimension cD vars m d size coordDim [(d, held)] := by
  rw [mergeDimension_find]
  unfold Dimensions.extent at h
  rw [Option.map_eq_some'] at h
  obtain ⟨p, hp, hp2⟩ := h
  rw [hp]
  simp only [hp2]

theorem mem_of_extent (m : Dimensions) (d : Dim) (held : Int) (h : m.extent d = some held) :
    (d, held) ∈ m.shape := by
  unfold Dimensions.extent at h
  rw [Option.map_eq_some'] at h
  obtain ⟨p, hp, hp2⟩ := h
  have h1 := List.find?_some hp
  have h2 := List.mem_of_find?_eq_some hp
  have h3 : p.1 = d := by simpa using h1
  obtain ⟨a, b⟩ := p
  simp only at h3 hp2
  rw [← h3, ← hp2]
  exact h2

theorem extent_add_self (m : Dimensions) (d : Dim) (size : Int) (h : m.extent d = none) :
    (m.add d size).extent d = some size := by
  unfold Dimensions.extent at h ⊢
  rw [Option.map_eq_none'] at h
  simp [Dimensions.add, List.find?_append, h]

theorem extent_add_other (m : Dimensions) (d e : Dim) (size : Int) (h : e ≠ d) :
    (m.add e size).extent d = m.extent d := by
  unfold Dimensions.extent
  have hd : decide (e = d) = false := by simpa using h
  cases hf : m.shape.find? (fun p => decide (p.1 = d)) with
  | none => simp [Dimensions.add, List.find?_append, hf, hd]
  | some p => simp [Dimensions.add, List.find?_append, hf]

theorem find_resizeShape_other (d e : Dim) (size : Int) (h : e ≠ d) (T : List (Dim × Int)) :
    (resizeShape e size T).find? (fun p => decide (p.1 = d))
      = T.find? (fun p => decide (p.1 = d)) := by
  induction T with
  | nil => rfl
  | cons p rest ih =>
    obtain ⟨label, extent⟩ := p
    by_cases hl : label = e
    · subst hl
      have hd : decide (label = d) = false := by simpa using h
      simp [resizeShape, List.find?_cons, hd]
    · by_cases hl2 : label = d
      · subst hl2
        simp [resizeShape, hl, List.find?_cons]
      · have hd : decide (label = d) = false := by simpa using hl2
        simp only [resizeShape, hl, if_false, List.find?_cons, hd]
        exact ih

theorem extent_resize_other (m : Dimensions) (d e : Dim) (size : Int) (h : e ≠ d) :
    (m.resize e size).extent d = m.extent d := by
  unfold Dimensions.extent Dimensions.resize
  rw [find_resizeShape_other d e size h]

theorem extent_resize_self (m : Dimensions) (d : Dim) (size held : Int)
    (h : m.extent d = some held) : (m.resize d size).extent d = some size := by
  unfold Dimensions.extent Dimensions.resize at *
  obtain ⟨T⟩ := m
  simp only at h ⊢
  induction T with
  | nil => simp at h
  | cons p rest ih =>
    obtain ⟨label, extent⟩ := p
    by_cases hl : label = d
    · simp [resizeShape, hl]
    · have hd : decide (label = d) = false := by simpa using hl
      simp only [List.find?_cons, hd] at h
      simp only [resizeShape, hl, if_false, List.find?_cons, hd]
      exact ih h

theorem mem_resizeShape_other (d : Dim) (size : Int) (T : List (Dim × Int)) (q : Dim × Int)
    (hq : q ∈ resizeShape d size T) (hne : q.1 ≠ d) : q ∈ T := by
  induction T with
  | nil => simp [resizeShape] at hq
  | cons p rest ih =>
    obtain ⟨label, extent⟩ := p
    by_cases hl : label = d
    · simp only [resizeShape, hl, if_true, List.mem_cons] at hq
      rcases hq with hq | hq
      · rw [hq] at hne
        exact absurd rfl hne
      · exact List.mem_cons_of_mem _ hq
    · simp only [resizeShape, hl, if_false, List.mem_cons] at hq
      rcases hq with hq | hq
      · rw [hq]
        exact List.mem_cons_self _ _
      · exact List.mem_cons_of_mem _ (ih hq)

/-- Merging a dimension other than `d` leaves the extent that the table holds for `d`,
whatever the outcome. -/
theorem mergeDimension_extent_other (cD : Nat → Dim) (vars : List Variable) (m : Dimensions)
    (d e : Dim) (size : Int) (coordDim : Dim) (h : e ≠ d) (T : List (Dim × Int)) :
    (mergeDimension cD vars m e size coordDim T).1.extent d = m.extent d := by
  rw [mergeDimension_find]
  cases T.find? (fun p => decide (p.1 = e)) with
  | none => exact extent_add_other m d e size h
  | some p =>
    simp only [mergeDimension, if_true]
    split_ifs
    all_goals first | rfl | exact extent_resize_other m d e size h

/-- Merging a dimension other than `d` whose extent is the one that the table holds for it, if
it holds one: the table stays as it is or the dimension is added. -/
theorem mergeDimension_matching (cD : Nat → Dim) (vars : List Variable) (m : Dimensions)
    (e : Dim) (size : Int) (coordDim : Dim)
    (hq : ∀ q ∈ m.shape, q.1 = e → q.2 = size) :
    mergeDimension cD vars m e size coordDim m.shape = (m, none) ∨
      mergeDimension cD vars m e size coordDim m.shape = (m.add e size, none) := by
  rw [mergeDimension_find]
  cases hf : m.shape.find? (fun p => decide (p.1 = e)) with
  | none => exact Or.inr rfl
  | some p =>
    left
    have h1 : p.1 = e := by simpa using List.find?_some hf
    have h2 := hq p (List.mem_of_find?_eq_some hf) h1
    simp [mergeDimension, h2]

theorem mergeLoop_append (cD : Nat → Dim) (vars : List Variable) (coordDim : Dim)
    (A B : List (Dim × Int)) (m : Dimensions) :
    mergeLoop cD vars coordDim (A ++ B) m =
      match mergeLoop cD vars coordDim A m with
      | (m1, none) => mergeLoop cD vars coordDim B m1
      | (m1, some msg) => (m1, some msg) := by
  induction A generalizing m with
  | nil => rfl
  | cons p rest ih =>
    obtain ⟨e, s⟩ := p
    simp only [List.cons_append, mergeLoop]
    rcases hm : mergeDimension cD vars m e s coordDim m.shape with ⟨m1, _ | msg⟩
    · simp only []
      exact ih m1
    · rfl

/-- Merging dimensions other than `d` that match the table: all are merged, the extent of
`d` stays, and every pair of the new table is one of the old table or one of
the dimensions merged. -/
theorem mergeLoop_others (cD : Nat → Dim) (vars : List Variable) (coordDim d : Dim)
    (S : List (Dim × Int)) (m : Dimensions) (hS : (S.map Prod.fst).Nodup)
    (hd : ∀ p ∈ S, p.1 ≠ d)
    (hcompat : ∀ p ∈ S, ∀ q ∈ m.shape, q.1 = p.1 → q.2 = p.2) :
    ∃ m1, mergeLoop cD vars coordDim S m = (m1, none) ∧ m1.extent d = m.extent d ∧
      ∀ q ∈ m1.shape, q ∈ m.shape ∨ q ∈ S := by
  induction S generalizing m with
  | nil => exact ⟨m, rfl, rfl, fun q hq => Or.inl hq⟩
  | cons p rest ih =>
    obtain ⟨e, s⟩ := p
    rw [List.map_cons, List.nodup_cons] at hS
    have he : e ≠ d := hd (e, s) (List.mem_cons_self _ _)
    have hrest : ∀ p ∈ rest, p.1 ≠ e := fun p hp hc =>
      hS.1 (List.mem_map.2 ⟨p, hp, hc⟩)
    have key : ∀ m0 : Dimensions, mergeDimension cD vars m e s coordDim m.shape = (m0, none) →
        m0.extent d = m.extent d → (∀ q ∈ m0.shape, q ∈ m.shape ∨ q = (e, s)) →
        ∃ m1, mergeLoop cD vars coordDim ((e, s) :: rest) m = (m1, none) ∧
          m1.extent d = m.extent d ∧ ∀ q ∈ m1.shape, q ∈ m.shape ∨ q ∈ (e, s) :: rest := by
      intro m0 h0 hext hmem
      obtain ⟨m1, g1, g2, g3⟩ := ih m0 hS.2
        (fun p hp => hd p (List.mem_cons_of_mem _ hp))
        (fun p hp q hq hqp => by
          rcases hmem q hq with hq2 | hq2
          · exact hcompat p (List.mem_cons_of_mem _ hp) q hq2 hqp
          · rw [hq2] at hqp
            exact absurd hqp.symm (hrest p hp))
      refine ⟨m1, ?_, g2.trans hext, ?_⟩
      · simp only [mergeLoop, h0]
        exact g1
      · intro q hq
        rcases g3 q hq with h | h
        · rcases hmem q h with h2 | h2
          · exact Or.inl h2
          · exact Or.inr (h2 ▸ List.mem_cons_self _ _)
        · exact Or.inr (List.mem_cons_of_mem _ h)
    rcases mergeDimension_matching cD vars m e s coordDim
      (fun q hq hqe => hcompat (e, s) (List.mem_cons_self _ _) q hq hqe) with h | h
    · exact key m h rfl (fun q hq => Or.inl hq)
    · refine key (m.add e s) h (extent_add_other m d e s he) (fun q hq => ?_)
      simp only [Dimensions.add, List.mem_append, List.mem_singleton] at hq
      exact hq

/-- Merging the dimensions of a variable that has the dimension `d` once, with extent `size`,
and whose other dimensions match the table: when the step for `d` succeeds and
takes the extent held for `d` from `before` to `after`, all dimensions are
merged, the table holds `after` for `d`, and every other pair of the new table
is one of the old table or one of the dimensions merged. -/
theorem mergeLoop_with (cD : Nat → Dim) (vars : List Variable) (coordDim d : Dim) (size : Int)
    (S : List (Dim × Int)) (m : Dimensions) (before after : Option Int)
    (hS : (S.map Prod.fst).Nodup) (hmem : (d, size) ∈ S)
    (hcompat : ∀ p ∈ S, p.1 ≠ d → ∀ q ∈ m.shape, q.1 = p.1 → q.2 = p.2)
    (hm : m.extent d = before)
    (hstep : ∀ m1 : Dimensions, m1.extent d = before →
      ∃ m2, mergeDimension cD vars m1 d size coordDim m1.shape = (m2, none) ∧
        m2.extent d = after ∧ ∀ q ∈ m2.shape, q.1 ≠ d → q ∈ m1.shape) :
    ∃ m3, mergeLoop cD vars coordDim S m = (m3, none) ∧ m3.extent d = after ∧
      ∀ q ∈ m3.shape, q.1 ≠ d → q ∈ m.shape ∨ q ∈ S := by
  obtain ⟨pre, post, rfl⟩ := List.append_of_mem hmem
  rw [List.map_append, List.map_cons, List.nodup_append] at hS
  obtain ⟨hpreN, hpostN, hdisj⟩ := hS
  rw [List.nodup_cons] at hpostN
  have hpre_d : ∀ p ∈ pre, p.1 ≠ d := fun p hp hc =>
    hdisj (List.mem_map.2 ⟨p, hp, rfl⟩) (by rw [hc]; exact List.mem_cons_self _ _)
  have hpost_d : ∀ p ∈ post, p.1 ≠ d := fun p hp hc =>
    hpostN.1 (List.mem_map.2 ⟨p, hp, hc⟩)
  have hpre_post : ∀ p ∈ pre, ∀ q ∈ post, q.1 ≠ p.1 := fun p hp q hq hc =>
    hdisj (List.mem_map.2 ⟨p, hp, rfl⟩)
      (List.mem_cons_of_mem _ (List.mem_map.2 ⟨q, hq, hc⟩))
  obtain ⟨m1, a1, a2, a3⟩ := mergeLoop_others cD vars coordDim d pre m hpreN hpre_d
    (fun p hp q hq hqp => hcompat p (List.mem_append_left _ hp) (hpre_d p hp) q hq hqp)
  obtain ⟨m2, b1, b2, b3⟩ := hstep m1 (a2.trans hm)
  obtain ⟨m3, c1, c2, c3⟩ := mergeLoop_others cD vars coordDim d post m2 hpostN.2 hpost_d
    (fun p hp q hq hqp => by
      have hqd : q.1 ≠ d := by rw [hqp]; exact hpost_d p hp
      rcases a3 q (b3 q hq hqd) with h | h
      · exact hcompat p (List.mem_append_right _ (List.mem_cons_of_mem _ hp)) (hpost_d p hp)
          q h hqp
      · exact absurd hqp.symm (hpre_post q h p hp))
  refine ⟨m3, ?_, c2.trans b2, ?_⟩
  · rw [mergeLoop_append, a1]
    simp only [mergeLoop, b1]
    exact c1
  · intro q hq hqd
    rcases c3 q hq with h | h
    · rcases a3 q (b3 q h hqd) with h2 | h2
      · exact Or.inl h2
      · exact Or.inr (List.mem_append_left _ h2)
    · exact Or.inr (List.mem_append_right _ (List.mem_cons_of_mem _ h))

/-- A variable with extent `N + 2` along `d` that is not the dimension-coordinate of `d` is not
merged into a table that holds `N` for `d`, whatever its other dimensions are. -/
theorem mergeLoop_oversized (cD : Nat → Dim) (vars : List Variable) (coordDim d : Dim) (N : Int)
    (hcd : coordDim ≠ d) (S : List (Dim × Int)) :
    ∀ m : Dimensions, m.extent d = some N → Dimensions.extent ⟨S⟩ d = some (N + 2) →
      (mergeLoop cD vars coordDim S m).2 ≠ none := by
  induction S with
  | nil =>
    intro m _ hS
    simp [Dimensions.extent] at hS
  | cons p rest ih =>
    obtain ⟨e, s⟩ := p
    intro m hm hS
    by_cases he : e = d
    · subst he
      have hs : s = N + 2 := by simpa [Dimensions.extent] using hS
      subst hs
      have e1 : ¬ N = N + 2 := by omega
      have e2 : ¬ N = N + 2 + 1 := by omega
      have e3 : ¬ e = coordDim := fun h => hcd h.symm
      simp [mergeLoop, mergeDimension_of_extent_some cD vars m e (N + 2) N coordDim hm,
        mergeDimension, e1, e2, e3]
    · have hS2 : Dimensions.extent ⟨rest⟩ d = some (N + 2) := by
        have hd : decide (e = d) = false := by simpa using he
        simpa [Dimensions.extent, List.find?_cons, hd] using hS
      have hext := mergeDimension_extent_other cD vars m d e s coordDim he m.shape
      simp only [mergeLoop]
      rcases hmd : mergeDimension cD vars m e s coordDim m.shape with ⟨m1, _ | msg⟩
      · simp only []
        rw [hmd] at hext
        exact ih m1 (hext.trans hm) hS2
      · simp

/-- Insertion of a variable that passes the duplicate checks: the outcome is that of merging
its dimensions. -/
theorem insert_of_checks (cD : Nat → Dim) (ds : Dataset) (v : Variable)
    (hcoord : v.isCoord = true → count ds v.tag = 0)
    (hdata : v.isCoord = false → ds.m_variables.any (fun item =>
      decide (item.tag = v.tag) && decide (item.name = v.name)) = false) :
    Dataset.insert cD ds v =
      match mergeLoop cD ds.m_variables (cD v.tag.value) v.dimensions.shape ds.m_dimensions with
      | (m1, some msg) => ⟨{ ds with m_dimensions := m1 }, some msg⟩
      | (m1, none) => ⟨⟨m1, ds.m_variables ++ [v]⟩, none⟩ := by
  have h1 : ¬ (v.isCoord = true ∧ count ds v.tag ≠ 0) := fun h => h.2 (hcoord h.1)
  have h2 : ¬ (v.isCoord = false ∧ ds.m_variables.any (fun item =>
      decide (item.tag = v.tag) && decide (item.name = v.name)) = true) := by
    intro h
    rw [hdata h.1] at h
    exact absurd h.2 (by decide)
  unfold Dataset.insert
  rw [if_neg h1, if_neg h2]
  unfold Dataset.mergeDimensions
  rcases hm : mergeLoop cD ds.m_variables (cD v.tag.value) v.dimensions.shape ds.m_dimensions
    with ⟨m1, _ | msg⟩ <;> rfl

theorem count_append_single (ds : Dataset) (w : Variable) (tag : Tag) (m : Dimensions)
    (h : w.tag ≠ tag) : count ⟨m, ds.m_variables ++ [w]⟩ tag = count ds tag := by
  simp [count, List.filter_append, h]

theorem any_append_single (vars : List Variable) (w v : Variable) (h : w.tag ≠ v.tag) :
    (vars ++ [w]).any (fun item => decide (item.tag = v.tag) && decide (item.name = v.name))
      = vars.any (fun item => decide (item.tag = v.tag) && decide (item.name = v.name)) := by
  simp [List.any_append, h]

theorem tag_ne_of_isCoord (v w : Variable) (hv : v.isCoord = true) (hw : w.isCoord = false) :
    v.tag ≠ w.tag := by
  intro h
  unfold Variable.isCoord at hv hw
  rw [h] at hv
  rw [hv] at hw
  exact absurd hw (by decide)

theorem canShrink_coord_only (cD : Nat → Dim) (vars : List Variable) (vc : Variable) (d : Dim)
    (hvars : ∀ v ∈ vars, v.dimensions.contains d = false) (hc : cD vc.tag.value = d) :
    canShrink cD (vars ++ [vc]) d = true := by
  unfold canShrink
  rw [List.all_eq_true]
  intro v hv
  rcases List.mem_append.mp hv with h | h
  · simp [hvars v h]
  · rw [List.mem_singleton.mp h]
    simp [hc]

/-- Data of extent `N + 2` along `d` are refused by a dataset whose table holds `N`
for `d`, whatever their other dimensions are. -/
theorem insert_oversized (cD : Nat → Dim) (ds : Dataset) (v2 : Variable) (d : Dim) (N : Int)
    (hm : ds.m_dimensions.extent d = some N)
    (h1 : v2.isCoord = false) (h2 : cD v2.tag.value ≠ d)
    (h3 : v2.dimensions.extent d = some (N + 2)) :
    (Dataset.insert cD ds v2).threw ≠ none := by
  by_cases hdup : ds.m_variables.any (fun item =>
      decide (item.tag = v2.tag) && decide (item.name = v2.name)) = true
  · unfold Dataset.insert
    rw [if_neg (fun h => absurd h.1 (by rw [h1]; decide)), if_pos ⟨h1, hdup⟩]
    simp
  · rw [insert_of_checks cD ds v2 (fun h => absurd h (by rw [h1]; decide))
      (fun _ => by simpa using hdup)]
    have key := mergeLoop_oversized cD ds.m_variables (cD v2.tag.value) d N h2
      v2.dimensions.shape ds.m_dimensions hm h3
    rcases hml : mergeLoop cD ds.m_variables (cD v2.tag.value) v2.dimensions.shape
      ds.m_dimensions with ⟨m1, _ | msg⟩
    · rw [hml] at key
      exact absurd rfl key
    · simp

theorem extent_none_of_contains_false (dims : Dimensions) (d : Dim)
    (h : dims.contains d = false) : dims.extent d = none := by
  unfold Dimensions.contains at h
  unfold Dimensions.extent
  rw [List.any_eq_false] at h
  rw [Option.map_eq_none', List.find?_eq_none]
  exact fun p hp => by simpa using h p hp

/-- C8: in the tag-based `Dataset`, for a dimension `d` that is not in `m_dimensions`
and on which no variable depends, inserting the dimension-coordinate of `d` with
extent `N + 1` along `d` and data with extent `N` along `d`, in either order,
succeeds and leaves `m_dimensions[d] = N`; data with extent `N + 2` along `d`
inserted afterwards are refused.  The coordinate and the data may have other
dimensions, each once: on these they have the extent that the dataset holds, if
it holds one, and the same extent as each other, and they pass the duplicate
checks of `insert`.  The refused data may have any other dimensions. -/
theorem tagged_binEdge_insertion (cD : Nat → Dim) (ds : Dataset) (d : Dim) (N : Int)
    (vc vd v2 : Variable) (_hN : 0 ≤ N)
    (hd : ds.m_dimensions.contains d = false)
    (hvars : ∀ v ∈ ds.m_variables, v.dimensions.contains d = false)
    (hc1 : vc.isCoord = true) (hc2 : cD vc.tag.value = d)
    (hc3 : vc.dimensions.extent d = some (N + 1)) (hc4 : count ds vc.tag = 0)
    (hc5 : (vc.dimensions.shape.map Prod.fst).Nodup)
    (hd1 : vd.isCoord = false) (hd2 : cD vd.tag.value ≠ d)
    (hd3 : vd.dimensions.extent d = some N)
    (hd4 : ds.m_variables.any (fun item =>
      decide (item.tag = vd.tag) && decide (item.name = vd.name)) = false)
    (hd5 : (vd.dimensions.shape.map Prod.fst).Nodup)
    (hcm : ∀ p ∈ vc.dimensions.shape, p.1 ≠ d →
      ∀ q ∈ ds.m_dimensions.shape, q.1 = p.1 → q.2 = p.2)
    (hdm : ∀ p ∈ vd.dimensions.shape, p.1 ≠ d →
      ∀ q ∈ ds.m_dimensions.shape, q.1 = p.1 → q.2 = p.2)
    (hcd : ∀ p ∈ vc.dimensions.shape, p.1 ≠ d →
      ∀ q ∈ vd.dimensions.shape, q.1 = p.1 → q.2 = p.2)
    (h21 : v2.isCoord = false) (h22 : cD v2.tag.value ≠ d)
    (h23 : v2.dimensions.extent d = some (N + 2)) :
    ((Dataset.insert cD ds vc).threw = none ∧
      (Dataset.insert cD (Dataset.insert cD ds vc).dataset vd).threw = none ∧
      (Dataset.insert cD (Dataset.insert cD ds vc).dataset vd).dataset.m_dimensions.extent d
        = some N ∧
      (Dataset.insert cD
        (Dataset.insert cD (Dataset.insert cD ds vc).dataset vd).dataset v2).threw ≠ none) ∧
    ((Dataset.insert cD ds vd).threw = none ∧
      (Dataset.insert cD (Dataset.insert cD ds vd).dataset vc).threw = none ∧
      (Dataset.insert cD (Dataset.insert cD ds vd).dataset vc).dataset.m_dimensions.extent d
        = some N ∧
      (Dataset.insert cD
        (Dataset.insert cD (Dataset.insert cD ds vd).dataset vc).dataset v2).threw ≠ none) := by
  have hnone := extent_none_of_contains_false ds.m_dimensions d hd
  have htag : vc.tag ≠ vd.tag := tag_ne_of_isCoord vc vd hc1 hd1
  have hcF : ¬ vc.isCoord = false := by rw [hc1]; decide
  have hdT : ¬ vd.isCoord = true := by rw [hd1]; decide
  have hcmem := mem_of_extent vc.dimensions d (N + 1) hc3
  have hdmem := mem_of_extent vd.dimensions d N hd3
  have stepAdd : ∀ (vars : List Variable) (coordDim : Dim) (size : Int) (m1 : Dimensions),
      m1.extent d = none →
      ∃ m2, mergeDimension cD vars m1 d size coordDim m1.shape = (m2, none) ∧
        m2.extent d = some size ∧ ∀ q ∈ m2.shape, q.1 ≠ d → q ∈ m1.shape := by
    intro vars coordDim size m1 h
    refine ⟨m1.add d size, mergeDimension_of_extent_none cD vars m1 d size coordDim h,
      extent_add_self m1 d size h, ?_⟩
    intro q hq hqd
    simp only [Dimensions.add, List.mem_append, List.mem_singleton] at hq
    rcases hq with hq | hq
    · exact hq
    · rw [hq] at hqd
      exact absurd rfl hqd
  -- the coordinate first
  obtain ⟨M1, a1, a2, a3⟩ := mergeLoop_with cD ds.m_variables (cD vc.tag.value) d (N + 1)
    vc.dimensions.shape ds.m_dimensions none (some (N + 1)) hc5 hcmem hcm hnone
    (stepAdd _ _ _)
  have A1 : Dataset.insert cD ds vc = ⟨⟨M1, ds.m_variables ++ [vc]⟩, none⟩ := by
    rw [insert_of_checks cD ds vc (fun _ => hc4) (fun h => absurd h hcF), a1]
  have stepShrink : ∀ m1 : Dimensions, m1.extent d = some (N + 1) →
      ∃ m2, mergeDimension cD (ds.m_variables ++ [vc]) m1 d N (cD vd.tag.value) m1.shape
          = (m2, none) ∧
        m2.extent d = some N ∧ ∀ q ∈ m2.shape, q.1 ≠ d → q ∈ m1.shape := by
    intro m1 h
    refine ⟨m1.resize d N, ?_, extent_resize_self m1 d N (N + 1) h,
      fun q hq hqd => mem_resizeShape_other d N m1.shape q hq hqd⟩
    rw [mergeDimension_of_extent_some cD _ m1 d N (N + 1) _ h]
    have e1 : ¬ N + 1 = N := by omega
    have e3 : ¬ d = cD vd.tag.value := fun h => hd2 h.symm
    simp only [mergeDimension, if_true, e1, e3, if_false, true_and,
      canShrink_coord_only cD ds.m_variables vc d hvars hc2]
  obtain ⟨M2, b1, b2, -⟩ := mergeLoop_with cD (ds.m_variables ++ [vc]) (cD vd.tag.value) d N
    vd.dimensions.shape M1 (some (N + 1)) (some N) hd5 hdmem
    (fun p hp hpd q hq hqp => by
      have hqd : q.1 ≠ d := by rw [hqp]; exact hpd
      rcases a3 q hq hqd with h | h
      · exact hdm p hp hpd q h hqp
      · exact (hcd q h hqd p hp hqp.symm).symm)
    a2 stepShrink
  have A2 : Dataset.insert cD ⟨M1, ds.m_variables ++ [vc]⟩ vd
      = ⟨⟨M2, ds.m_variables ++ [vc] ++ [vd]⟩, none⟩ := by
    rw [insert_of_checks cD _ vd (fun h => absurd h hdT)
      (fun _ => by rw [any_append_single _ vc vd htag]; exact hd4)]
    simp only []
    rw [b1]
  -- the data first
  obtain ⟨K1, c1, c2, c3⟩ := mergeLoop_with cD ds.m_variables (cD vd.tag.value) d N
    vd.dimensions.shape ds.m_dimensions none (some N) hd5 hdmem hdm hnone (stepAdd _ _ _)
  have B1 : Dataset.insert cD ds vd = ⟨⟨K1, ds.m_variables ++ [vd]⟩, none⟩ := by
    rw [insert_of_checks cD ds vd (fun h => absurd h hdT) (fun _ => hd4), c1]
  have stepEdge : ∀ m1 : Dimensions, m1.extent d = some N →
      ∃ m2, mergeDimension cD (ds.m_variables ++ [vd]) m1 d (N + 1) (cD vc.tag.value) m1.shape
          = (m2, none) ∧
        m2.extent d = some N ∧ ∀ q ∈ m2.shape, q.1 ≠ d → q ∈ m1.shape := by
    intro m1 h
    refine ⟨m1, ?_, h, fun q hq _ => hq⟩
    rw [mergeDimension_of_extent_some cD _ m1 d (N + 1) N _ h]
    have e1 : ¬ N = N + 1 := by omega
    have e2 : N = N + 1 - 1 := by omega
    simp only [mergeDimension, if_true, e1, hc2, if_false]
    rw [if_pos e2]
  obtain ⟨K2, d1, d2, -⟩ := mergeLoop_with cD (ds.m_variables ++ [vd]) (cD vc.tag.value) d
    (N + 1) vc.dimensions.shape K1 (some N) (some N) hc5 hcmem
    (fun p hp hpd q hq hqp => by
      have hqd : q.1 ≠ d := by rw [hqp]; exact hpd
      rcases c3 q hq hqd with h | h
      · exact hcm p hp hpd q h hqp
      · exact hcd p hp hpd q h hqp)
    c2 stepEdge
  have B2 : Dataset.insert cD ⟨K1, ds.m_variables ++ [vd]⟩ vc
      = ⟨⟨K2, ds.m_variables ++ [vd] ++ [vc]⟩, none⟩ := by
    rw [insert_of_checks cD _ vc
      (fun _ => by rw [count_append_single ds vd vc.tag _ (fun h => htag h.symm)]; exact hc4)
      (fun h => absurd h hcF)]
    simp only []
    rw [d1]
  rw [A1, B1]
  simp only []
  rw [A2, B2]
  simp only []
  exact ⟨⟨trivial, trivial, b2, insert_oversized cD _ v2 d N b2 h21 h22 h23⟩, trivial, trivial,
    d2, insert_oversized cD _ v2 d N d2 h21 h22 h23⟩

/-- Witness for C8: `Coord::Tof` with `4` edges and `Data::Value` with `2` spectra of `3` bins
are inserted into a dataset that holds data with `2` entries along
`Dim::Spectrum`. -/
theorem tagged_binEdge_insertion_witness :
    ((Dataset.insert exampleCoordDimension exampleSpectrumDataset exampleTofEdges).threw
        = none ∧
      (Dataset.insert exampleCoordDimension
        (Dataset.insert exampleCoordDimension exampleSpectrumDataset exampleTofEdges).dataset
        exampleSpectra).threw = none ∧
      (Dataset.insert exampleCoordDimension
        (Dataset.insert exampleCoordDimension exampleSpectrumDataset exampleTofEdges).dataset
        exampleSpectra).dataset.m_dimensions.extent Dim.Tof = some 3 ∧
      (Dataset.insert exampleCoordDimension
        (Dataset.insert exampleCoordDimension
          (Dataset.insert exampleCoordDimension exampleSpectrumDataset exampleTofEdges).dataset
          exampleSpectra).dataset exampleOversizedSpectra).threw ≠ none) ∧
    ((Dataset.insert exampleCoordDimension exampleSpectrumDataset exampleSpectra).threw
        = none ∧
      (Dataset.insert exampleCoordDimension
        (Dataset.insert exampleCoordDimension exampleSpectrumDataset exampleSpectra).dataset
        exampleTofEdges).threw = none ∧
      (Dataset.insert exampleCoordDimension
        (Dataset.insert exampleCoordDimension exampleSpectrumDataset exampleSpectra).dataset
        exampleTofEdges).dataset.m_dimensions.extent Dim.Tof = some 3 ∧
      (Dataset.insert exampleCoordDimension
        (Dataset.insert exampleCoordDimension
          (Dataset.insert exampleCoordDimension exampleSpectrumDataset exampleSpectra).dataset
          exampleTofEdges).dataset exampleOversizedSpectra).threw ≠ none) :=
  tagged_binEdge_insertion exampleCoordDimension exampleSpectrumDataset Dim.Tof 3
    exampleTofEdges exampleSpectra exampleOversizedSpectra (by decide) (by decide) (by decide)
    (by decide) (by decide) (by decide) (by decide) (by decide) (by decide) (by decide)
    (by decide) (by decide) (by decide) (by decide) (by decide) (by decide) (by decide)
    (by decide) (by decide)

end Tagged

namespace RebinHelper

/-! ## Rebinning of one row -/

theorem overlap_of_le_left (a b lo hi : ℚ) (h : hi ≤ a) : overlap a b lo hi = 0 := by
  unfold overlap
  apply max_eq_left
  have h1 : min b hi ≤ hi := min_le_right _ _
  have h2 : a ≤ max a lo := le_max_left _ _
  linarith

theorem overlap_of_le_right (a b lo hi : ℚ) (h : b ≤ lo) : overlap a b lo hi = 0 := by
  unfold overlap
  apply max_eq_left
  have h1 : min b hi ≤ b := min_le_left _ _
  have h2 : lo ≤ max a lo := le_max_right _ _
  linarith

theorem overlap_of_overlapping (a b lo hi : ℚ) (hab : a < b) (hlh : lo < hi)
    (h1 : a < hi) (h2 : lo < b) :
    overlap a b lo hi = (if b < hi then b else hi) - (if lo < a then a else lo) := by
  unfold overlap
  have e1 : min b hi = if b < hi then b else hi := by
    split_ifs with h
    · exact min_eq_left h.le
    · exact min_eq_right (not_lt.mp h)
  have e2 : max a lo = if lo < a then a else lo := by
    split_ifs with h
    · exact max_eq_left h.le
    · exact max_eq_right (not_lt.mp h)
  rw [e1, e2]
  apply max_eq_right
  split_ifs <;> linarith

theorem mono_of_strict (n : Nat) (x : Nat → ℚ) (h : ∀ i, i < n → x i < x (i + 1))
    (a b : Nat) (hab : a ≤ b) (hb : b ≤ n) : x a ≤ x b := by
  induction b with
  | zero =>
    have : a = 0 := by omega
    rw [this]
  | succ k ih =>
    by_cases hk : a = k + 1
    · rw [hk]
    · have h1 := ih (by omega) (by omega)
      have h2 := h k (by omega)
      linarith

theorem share_of_le_left (x y v : Nat → ℚ) (i j : Nat) (h : y (j + 1) ≤ x i) :
    share x y v i j = 0 := by
  unfold share
  rw [overlap_of_le_left _ _ _ _ h]
  simp

theorem share_of_le_right (x y v : Nat → ℚ) (i j : Nat) (h : x (i + 1) ≤ y j) :
    share x y v i j = 0 := by
  unfold share
  rw [overlap_of_le_right _ _ _ _ h]
  simp

/-- The body of the loop on a row of numbers, in terms of the edges `x`, `y`. -/
theorem loopBody_eq (oldSize newSize : Nat) (oldData xold xnew : Span)
    (eo en oo no : Nat) (x y v : Nat → ℚ)
    (hin : RowInput oldSize newSize oldData xold xnew eo en oo x y v)
    (st : LoopState) (hi : st.iold < oldSize) (hj : st.inew < newSize) :
    loopBody oldData xold xnew eo en oo no st =
      if y (st.inew + 1) ≤ x st.iold then { st with inew := st.inew + 1 }
      else if x (st.iold + 1) ≤ y st.inew then { st with iold := st.iold + 1 }
      else if x (st.iold + 1) < y (st.inew + 1) then
        ⟨st.iold + 1, st.inew, st.newData.set (no + st.inew)
          ((st.newData (no + st.inew)).add (Value.num (share x y v st.iold st.inew)))⟩
      else
        ⟨st.iold, st.inew + 1, st.newData.set (no + st.inew)
          ((st.newData (no + st.inew)).add (Value.num (share x y v st.iold st.inew)))⟩ := by
  have r1 : xold (eo + st.iold) = Value.num (x st.iold) := hin.xold_eq _ hi.le
  have r2 : xold (eo + st.iold + 1) = Value.num (x (st.iold + 1)) := hin.xold_eq (st.iold + 1) hi
  have r3 : xnew (en + st.inew) = Value.num (y st.inew) := hin.xnew_eq _ hj.le
  have r4 : xnew (en + st.inew + 1) = Value.num (y (st.inew + 1)) :=
    hin.xnew_eq (st.inew + 1) hj
  have r5 : oldData (oo + st.iold) = Value.num (v st.iold) := hin.old_eq _ hi
  have hx := hin.x_strict _ hi
  have hy := hin.y_strict _ hj
  unfold loopBody
  simp only [r1, r2, r3, r4, r5, Value.isnan, Value.le, Value.lt, Value.gt, Bool.or_self,
    Bool.false_or, decide_eq_true_eq]
  by_cases c1 : y (st.inew + 1) ≤ x st.iold
  · rw [if_pos c1, if_pos c1]
  · rw [if_neg c1, if_neg c1]
    by_cases c2 : x (st.iold + 1) ≤ y st.inew
    · rw [if_pos c2, if_pos c2]
    · rw [if_neg c2, if_neg c2]
      have hw : x (st.iold + 1) - x st.iold ≠ 0 := by
        intro h; linarith
      have hov := overlap_of_overlapping (x st.iold) (x (st.iold + 1)) (y st.inew)
        (y (st.inew + 1)) hx hy (not_le.mp c1) (not_le.mp c2)
      have hval : (((Value.num (v st.iold)).mul
          ((if x (st.iold + 1) < y (st.inew + 1) then Value.num (x (st.iold + 1))
              else Value.num (y (st.inew + 1))).sub
            (if y st.inew < x st.iold then Value.num (x st.iold)
              else Value.num (y st.inew)))).div
          ((Value.num (x (st.iold + 1))).sub (Value.num (x st.iold))))
          = Value.num (share x y v st.iold st.inew) := by
        unfold share
        rw [hov]
        split_ifs <;> simp [Value.sub, Value.mul, Value.div, hw]
      simp only [hval]

/-- A sum over the old bins changes by `extra` when the term of bin `i` does. -/
theorem sum_range_step (n i : Nat) (hi : i < n) (f g : Nat → ℚ) (extra : ℚ)
    (h : ∀ i2, i2 < n → g i2 = f i2 + if i2 = i then extra else 0) :
    ∑ i2 in Finset.range n, g i2 = (∑ i2 in Finset.range n, f i2) + extra := by
  have h1 : ∑ i2 in Finset.range n, g i2
      = ∑ i2 in Finset.range n, (f i2 + if i2 = i then extra else 0) :=
    Finset.sum_congr rfl (fun i2 hi2 => h i2 (Finset.mem_range.mp hi2))
  rw [h1, Finset.sum_add_distrib, Finset.sum_ite_eq' (Finset.range n) i (fun _ => extra)]
  simp [hi]

theorem settled_skip_new (n : Nat) (x y v : Nat → ℚ)
    (hx : ∀ i, i < n → x i < x (i + 1)) (i j k : Nat)
    (hdis : y (j + 1) ≤ x i) :
    settled x y v n i (j + 1) k = settled x y v n i j k := by
  unfold settled
  apply Finset.sum_congr rfl
  intro i2 hi2
  have hi2n : i2 < n := Finset.mem_range.mp hi2
  by_cases c1 : i2 < i ∨ k < j
  · have c2 : i2 < i ∨ k < j + 1 := by omega
    rw [if_pos c1, if_pos c2]
  · rw [if_neg c1]
    by_cases c2 : i2 < i ∨ k < j + 1
    · rw [if_pos c2]
      have hk : k = j := by omega
      have hmono := mono_of_strict n x hx i i2 (by omega) hi2n.le
      rw [hk]
      exact share_of_le_left x y v i2 j (le_trans hdis hmono)
    · rw [if_neg c2]

theorem settled_skip_old (n m : Nat) (x y v : Nat → ℚ)
    (hy : ∀ j, j < m → y j < y (j + 1)) (i j k : Nat) (hk : k < m)
    (hdis : x (i + 1) ≤ y j) :
    settled x y v n (i + 1) j k = settled x y v n i j k := by
  unfold settled
  apply Finset.sum_congr rfl
  intro i2 _
  by_cases c1 : i2 < i ∨ k < j
  · have c2 : i2 < i + 1 ∨ k < j := by omega
    rw [if_pos c1, if_pos c2]
  · rw [if_neg c1]
    by_cases c2 : i2 < i + 1 ∨ k < j
    · rw [if_pos c2]
      have hi2 : i2 = i := by omega
      have hmono := mono_of_strict m y hy j k (by omega) hk.le
      rw [hi2]
      exact share_of_le_right x y v i k (le_trans hdis hmono)
    · rw [if_neg c2]

theorem settled_advance_old (n m : Nat) (x y v : Nat → ℚ)
    (hy : ∀ j, j < m → y j < y (j + 1)) (i j k : Nat) (hi : i < n) (hk : k < m)
    (hend : x (i + 1) < y (j + 1)) :
    settled x y v n (i + 1) j k
      = settled x y v n i j k + if k = j then share x y v i j else 0 := by
  unfold settled
  apply sum_range_step n i hi
  intro i2 _
  by_cases c1 : i2 < i ∨ k < j
  · have c2 : i2 < i + 1 ∨ k < j := by omega
    have c3 : ¬ (i2 = i ∧ k = j) := by omega
    rw [if_pos c1, if_pos c2]
    by_cases c4 : i2 = i
    · have c5 : ¬ k = j := fun h => c3 ⟨c4, h⟩
      rw [if_pos c4, if_neg c5, add_zero]
    · rw [if_neg c4, add_zero]
  · rw [if_neg c1, zero_add]
    by_cases c2 : i2 < i + 1 ∨ k < j
    · have hi2 : i2 = i := by omega
      rw [if_pos c2, if_pos hi2, hi2]
      by_cases c5 : k = j
      · rw [if_pos c5, c5]
      · rw [if_neg c5]
        have hmono := mono_of_strict m y hy (j + 1) k (by omega) hk.le
        exact share_of_le_right x y v i k (le_trans hend.le hmono)
    · have hi2 : ¬ i2 = i := by omega
      rw [if_neg c2, if_neg hi2]

theorem settled_advance_new (n : Nat) (x y v : Nat → ℚ)
    (hx : ∀ i, i < n → x i < x (i + 1)) (i j k : Nat) (hi : i < n)
    (hend : y (j + 1) ≤ x (i + 1)) :
    settled x y v n i (j + 1) k
      = settled x y v n i j k + if k = j then share x y v i j else 0 := by
  unfold settled
  apply sum_range_step n i hi
  intro i2 hi2n
  by_cases c1 : i2 < i ∨ k < j
  · have c2 : i2 < i ∨ k < j + 1 := by omega
    have c3 : ¬ (i2 = i ∧ k = j) := by omega
    rw [if_pos c1, if_pos c2]
    by_cases c4 : i2 = i
    · have c5 : ¬ k = j := fun h => c3 ⟨c4, h⟩
      rw [if_pos c4, if_neg c5, add_zero]
    · rw [if_neg c4, add_zero]
  · rw [if_neg c1, zero_add]
    by_cases c2 : i2 < i ∨ k < j + 1
    · have hkj : k = j := by omega
      rw [if_pos c2, if_pos hkj, hkj]
      by_cases c4 : i2 = i
      · rw [if_pos c4, c4]
      · rw [if_neg c4]
        have hmono := mono_of_strict n x hx (i + 1) i2 (by omega) (by omega)
        exact share_of_le_left x y v i2 j (le_trans hend hmono)
    · have hkj : ¬ k = j := by omega
      rw [if_neg c2, if_neg hkj]
      by_cases c4 : i2 = i
      · rw [if_pos c4]
      · rw [if_neg c4]

theorem set_same (span : Span) (index : Nat) (value : Value) :
    span.set index value index = value := by
  simp [Span.set]

theorem set_other (span : Span) (index k : Nat) (value : Value) (h : k ≠ index) :
    span.set index value k = span k := by
  simp [Span.set, h]

/-- The invariant after the contributing branch, whichever cursor advances. -/
theorem invariant_after_add (n m no : Nat) (x y v : Nat → ℚ) (initial : Span)
    (st : LoopState) (i2 j2 : Nat) (hi2 : i2 ≤ n) (hj2 : j2 ≤ m) (hj : st.inew < m)
    (hinv : LoopInvariant n m no x y v initial st)
    (hstep : ∀ k, k < m → settled x y v n i2 j2 k
      = settled x y v n st.iold st.inew k
        + if k = st.inew then share x y v st.iold st.inew else 0) :
    LoopInvariant n m no x y v initial
      ⟨i2, j2, st.newData.set (no + st.inew)
        ((st.newData (no + st.inew)).add (Value.num (share x y v st.iold st.inew)))⟩ := by
  refine ⟨hi2, hj2, ?_, ?_⟩
  · intro k hk
    show (st.newData.set _ _) (no + k) = _
    by_cases c : k = st.inew
    · rw [c, set_same, hinv.row _ hj, hstep _ hj, if_pos rfl]
      rfl
    · rw [set_other _ _ _ _ (by omega), hinv.row k hk, hstep k hk, if_neg c, add_zero]
  · intro k hk
    show (st.newData.set _ _) k = _
    rw [set_other _ _ _ _ (by omega)]
    exact hinv.frame k hk

/-- One iteration of the loop keeps the invariant and advances exactly one cursor
by one. -/
theorem loopBody_invariant (n m : Nat) (oldData xold xnew : Span) (eo en oo no : Nat)
    (x y v : Nat → ℚ) (initial : Span)
    (hin : RowInput n m oldData xold xnew eo en oo x y v)
    (st : LoopState) (hi : st.iold < n) (hj : st.inew < m)
    (hinv : LoopInvariant n m no x y v initial st) :
    LoopInvariant n m no x y v initial (loopBody oldData xold xnew eo en oo no st) ∧
      (loopBody oldData xold xnew eo en oo no st).iold
        + (loopBody oldData xold xnew eo en oo no st).inew = st.iold + st.inew + 1 := by
  rw [loopBody_eq n m oldData xold xnew eo en oo no x y v hin st hi hj]
  by_cases c1 : y (st.inew + 1) ≤ x st.iold
  · rw [if_pos c1]
    refine ⟨⟨hinv.iold_le, hj, ?_, hinv.frame⟩, by simp only []; omega⟩
    intro k hk
    show st.newData (no + k) = _
    rw [hinv.row k hk]
    exact congrArg Value.num (settled_skip_new n x y v hin.x_strict _ _ k c1).symm
  · rw [if_neg c1]
    by_cases c2 : x (st.iold + 1) ≤ y st.inew
    · rw [if_pos c2]
      refine ⟨⟨hi, hinv.inew_le, ?_, hinv.frame⟩, by simp only []; omega⟩
      intro k hk
      show st.newData (no + k) = _
      rw [hinv.row k hk]
      exact congrArg Value.num (settled_skip_old n m x y v hin.y_strict _ _ k hk c2).symm
    · rw [if_neg c2]
      by_cases c3 : x (st.iold + 1) < y (st.inew + 1)
      · rw [if_pos c3]
        refine ⟨invariant_after_add n m no x y v initial st _ _ hi hinv.inew_le hj hinv ?_,
          by simp only []; omega⟩
        intro k hk
        exact settled_advance_old n m x y v hin.y_strict _ _ k hi hk c3
      · rw [if_neg c3]
        refine ⟨invariant_after_add n m no x y v initial st _ _ hinv.iold_le hj hj hinv ?_,
          by simp only []; omega⟩
        intro k _
        exact settled_advance_new n x y v hin.x_strict _ _ k hi (not_lt.mp c3)

/-- The loop keeps the invariant, and with fuel for the remaining cursor positions
it ends because its condition is false. -/
theorem whileLoop_invariant (n m : Nat) (oldData xold xnew : Span) (eo en oo no : Nat)
    (x y v : Nat → ℚ) (initial : Span)
    (hin : RowInput n m oldData xold xnew eo en oo x y v)
    (fuel : Nat) (st : LoopState) (hinv : LoopInvariant n m no x y v initial st)
    (hfuel : (n - st.iold) + (m - st.inew) ≤ fuel) :
    LoopInvariant n m no x y v initial
        (whileLoop n m oldData xold xnew eo en oo no fuel st) ∧
      loopCondition n m (whileLoop n m oldData xold xnew eo en oo no fuel st) = false := by
  induction fuel generalizing st with
  | zero =>
    refine ⟨hinv, ?_⟩
    have h1 := hinv.iold_le
    have h2 := hinv.inew_le
    simp only [whileLoop, loopCondition, Bool.and_eq_false_imp, decide_eq_true_eq,
      decide_eq_false_iff_not]
    intro h
    omega
  | succ fuel ih =>
    unfold whileLoop
    by_cases hc : loopCondition n m st = true
    · rw [if_pos hc]
      simp only [loopCondition, Bool.and_eq_true, decide_eq_true_eq] at hc
      obtain ⟨hinv2, hsum⟩ :=
        loopBody_invariant n m oldData xold xnew eo en oo no x y v initial hin st hc.1 hc.2 hinv
      apply ih _ hinv2
      have h1 := hinv2.iold_le
      have h2 := hinv2.inew_le
      omega
    · rw [if_neg hc]
      exact ⟨hinv, by simpa using hc⟩

theorem settled_zero (n : Nat) (x y v : Nat → ℚ) (k : Nat) : settled x y v n 0 0 k = 0 := by
  unfold settled
  apply Finset.sum_eq_zero
  intro i2 _
  rw [if_neg (by omega)]

theorem settled_final (n m : Nat) (x y v : Nat → ℚ) (i j k : Nat) (hk : k < m)
    (hend : ¬ (i < n ∧ j < m)) (hi : i ≤ n) (hj : j ≤ m) :
    settled x y v n i j k = ∑ i2 in Finset.range n, share x y v i2 k := by
  unfold settled
  apply Finset.sum_congr rfl
  intro i2 hi2
  have := Finset.mem_range.mp hi2
  rw [if_pos (by omega)]

/-- One iteration of the loop, whatever the input holds, writes at most to the
element of the current new bin. -/
theorem loopBody_frame (oldData xold xnew : Span) (eo en oo no : Nat) (st : LoopState)
    (k : Nat) (hk : k ≠ no + st.inew) :
    (loopBody oldData xold xnew eo en oo no st).newData k = st.newData k := by
  unfold loopBody
  simp only []
  split_ifs <;> first | rfl | exact set_other _ _ _ _ hk

theorem whileLoop_frame (n m : Nat) (oldData xold xnew : Span) (eo en oo no : Nat)
    (fuel : Nat) (st : LoopState) (k : Nat) (hk : k < no ∨ no + m ≤ k) :
    (whileLoop n m oldData xold xnew eo en oo no fuel st).newData k = st.newData k := by
  induction fuel generalizing st with
  | zero => rfl
  | succ fuel ih =>
    unfold whileLoop
    by_cases hc : loopCondition n m st = true
    · rw [if_pos hc, ih]
      simp only [loopCondition, Bool.and_eq_true, decide_eq_true_eq] at hc
      exact loopBody_frame oldData xold xnew eo en oo no st k (by omega)
    · rw [if_neg hc]

/-- Whatever the input holds, one iteration of the loop advances exactly one cursor
by one. -/
theorem loopBody_advances (oldData xold xnew : Span) (eo en oo no : Nat) (st : LoopState) :
    (loopBody oldData xold xnew eo en oo no st).iold
        + (loopBody oldData xold xnew eo en oo no st).inew = st.iold + st.inew + 1 ∧
      st.iold ≤ (loopBody oldData xold xnew eo en oo no st).iold ∧
      st.inew ≤ (loopBody oldData xold xnew eo en oo no st).inew := by
  unfold loopBody
  simp only []
  split_ifs <;> simp only [] <;> omega

/-- Whatever the input holds, the loop has ended by itself (its condition is false)
when the fuel covers the remaining cursor positions, as it does in `rebinRow`. -/
theorem whileLoop_ends (n m : Nat) (oldData xold xnew : Span) (eo en oo no : Nat)
    (fuel : Nat) (st : LoopState) (hfuel : (n - st.iold) + (m - st.inew) ≤ fuel) :
    loopCondition n m (whileLoop n m oldData xold xnew eo en oo no fuel st) = false := by
  induction fuel generalizing st with
  | zero =>
    simp only [whileLoop, loopCondition, Bool.and_eq_false_imp, decide_eq_true_eq,
      decide_eq_false_iff_not]
    intro h
    omega
  | succ fuel ih =>
    unfold whileLoop
    by_cases hc : loopCondition n m st = true
    · rw [if_pos hc]
      simp only [loopCondition, Bool.and_eq_true, decide_eq_true_eq] at hc
      have h := loopBody_advances oldData xold xnew eo en oo no st
      apply ih
      omega
    · rw [if_neg hc]
      simpa using hc

/-- Rebinning row `c` leaves every element outside `[c * newSize, (c + 1) * newSize)`
as it was. -/
theorem rebinRow_frame (n m : Nat) (jointOld jointNew : Bool) (oldData xold xnew : Span)
    (c : Nat) (newData : Span) (k : Nat) (hk : k < c * m ∨ c * m + m ≤ k) :
    rebinRow n m jointOld jointNew oldData xold xnew c newData k = newData k := by
  unfold rebinRow
  exact whileLoop_frame n m oldData xold xnew _ _ _ _ _ _ k hk

/-- The result of rebinning row `c`: every new bin holds the sum of the shares of
the old bins, given that the row held zeros. -/
theorem rebinRow_row (n m : Nat) (jointOld jointNew : Bool) (oldData xold xnew : Span)
    (c : Nat) (newData : Span) (x y v : Nat → ℚ)
    (hin : RowInput n m oldData xold xnew (if jointOld then 0 else c * (n + 1))
      (if jointNew then 0 else c * (m + 1)) (c * n) x y v)
    (hzero : ∀ k, k < m → newData (c * m + k) = Value.num 0) (k : Nat) (hk : k < m) :
    rebinRow n m jointOld jointNew oldData xold xnew c newData (c * m + k)
      = Value.num (∑ i in Finset.range n, share x y v i k) := by
  have hinit : LoopInvariant n m (c * m) x y v newData ⟨0, 0, newData⟩ :=
    ⟨Nat.zero_le _, Nat.zero_le _,
      fun k hk => by rw [settled_zero]; exact hzero k hk, fun _ _ => rfl⟩
  obtain ⟨hinv, hend⟩ := whileLoop_invariant n m oldData xold xnew _ _ _ (c * m) x y v newData
    hin (n + m) ⟨0, 0, newData⟩ hinit (by simp)
  unfold rebinRow
  rw [hinv.row k hk]
  apply congrArg
  apply settled_final n m x y v _ _ k hk _ hinv.iold_le hinv.inew_le
  intro h
  simp only [loopCondition, Bool.and_eq_false_imp, decide_eq_true_eq,
    decide_eq_false_iff_not] at hend
  exact hend h.1 h.2

theorem rows_disjoint (m c c2 k : Nat) (hne : c2 ≠ c) (hk : k < m) :
    c * m + k < c2 * m ∨ c2 * m + m ≤ c * m + k := by
  rcases Nat.lt_or_gt_of_ne hne with h | h
  · right
    have : (c2 + 1) * m ≤ c * m := Nat.mul_le_mul_right m h
    rw [Nat.succ_mul] at this
    omega
  · left
    have : (c + 1) * m ≤ c2 * m := Nat.mul_le_mul_right m h
    rw [Nat.succ_mul] at this
    omega

theorem rebinRows_untouched (n m : Nat) (jointOld jointNew : Bool) (oldData xold xnew : Span)
    (newData : Span) (count c k : Nat) (hc : count ≤ c) (hk : k < m) :
    (List.range count).foldl
        (fun data c2 => rebinRow n m jointOld jointNew oldData xold xnew c2 data) newData
        (c * m + k) = newData (c * m + k) := by
  induction count with
  | zero => rfl
  | succ count ih =>
    rw [List.range_succ, List.foldl_append]
    simp only [List.foldl_cons, List.foldl_nil]
    rw [rebinRow_frame n m jointOld jointNew oldData xold xnew count _ _
      (rows_disjoint m c count k (by omega) hk)]
    exact ih (by omega)

/-- Every row of the result of all the rows: the sum of the shares. -/
theorem rebinRows_row (n m : Nat) (jointOld jointNew : Bool) (oldData xold xnew : Span)
    (newData : Span) (count c : Nat) (x y v : Nat → ℚ) (hc : c < count)
    (hin : RowInput n m oldData xold xnew (if jointOld then 0 else c * (n + 1))
      (if jointNew then 0 else c * (m + 1)) (c * n) x y v)
    (hzero : ∀ k, k < m → newData (c * m + k) = Value.num 0) (k : Nat) (hk : k < m) :
    (List.range count).foldl
        (fun data c2 => rebinRow n m jointOld jointNew oldData xold xnew c2 data) newData
        (c * m + k) = Value.num (∑ i in Finset.range n, share x y v i k) := by
  induction count with
  | zero => omega
  | succ count ih =>
    rw [List.range_succ, List.foldl_append]
    simp only [List.foldl_cons, List.foldl_nil]
    by_cases hcc : c = count
    · subst hcc
      apply rebinRow_row n m jointOld jointNew oldData xold xnew c _ x y v hin _ k hk
      intro k2 hk2
      rw [rebinRows_untouched n m jointOld jointNew oldData xold xnew newData c c k2
        (le_refl _) hk2]
      exact hzero k2 hk2
    · rw [rebinRow_frame n m jointOld jointNew oldData xold xnew count _ _
        (rows_disjoint m c count k (fun h => hcc h.symm) hk)]
      exact ih (by omega)

/-- C10: for a row `c` of `rebinInner` whose old edges `x 0 < ... < x oldSize` and
new edges `y 0 < ... < y newSize` are numbers (no NaN) and increase strictly, whose
old data are the numbers `v i`, and whose output is zero at the start, the call
returns, and new bin `j` of the row holds the sum over the old bins `i` of
`v i * max 0 (min (x (i+1)) (y (j+1)) - max (x i) (y j)) / (x (i+1) - x i)`. -/
theorem rebinInner_apportions (oldSize newSize volume : Nat) (jointOld jointNew : Bool)
    (oldData newData xold xnew : Span) (c : Nat) (x y v : Nat → ℚ)
    (hsize : 0 < oldSize) (hc : c < volume / oldSize)
    (hxold : ∀ k, k ≤ oldSize →
      xold ((if jointOld then 0 else c * (oldSize + 1)) + k) = Value.num (x k))
    (hxnew : ∀ k, k ≤ newSize →
      xnew ((if jointNew then 0 else c * (newSize + 1)) + k) = Value.num (y k))
    (hold : ∀ i, i < oldSize → oldData (c * oldSize + i) = Value.num (v i))
    (hx : ∀ i, i < oldSize → x i < x (i + 1))
    (hy : ∀ j, j < newSize → y j < y (j + 1))
    (hzero : ∀ j, j < newSize → newData (c * newSize + j) = Value.num 0) :
    ∃ out, rebinInner oldSize newSize volume jointOld jointNew oldData newData xold xnew
        = some out ∧
      ∀ j, j < newSize → out (c * newSize + j)
        = Value.num (∑ i in Finset.range oldSize,
            v i * max 0 (min (x (i + 1)) (y (j + 1)) - max (x i) (y j)) / (x (i + 1) - x i)) := by
  refine ⟨_, by unfold rebinInner; rw [if_neg (by omega)], ?_⟩
  intro j hj
  exact rebinRows_row oldSize newSize jointOld jointNew oldData xold xnew newData
    (volume / oldSize) c x y v hc ⟨hxold, hxnew, hold, hx, hy⟩ hzero j hj

/-- Witness for C10: the two old bins `[0, 1]`, `[1, 2]` holding `1` and `2` are
rebinned to the one new bin `[0, 2]`. -/
theorem rebinInner_apportions_witness :
    ∃ out, rebinInner 2 1 2 true true exampleOldData exampleZeros exampleOldEdges
        exampleNewEdges = some out ∧
      ∀ j, j < 1 → out (0 * 1 + j)
        = Value.num (∑ i in Finset.range 2,
            exampleOldValue i * max 0 (min (exampleOldEdge (i + 1)) (exampleNewEdge (j + 1))
              - max (exampleOldEdge i) (exampleNewEdge j))
              / (exampleOldEdge (i + 1) - exampleOldEdge i)) :=
  rebinInner_apportions 2 1 2 true true exampleOldData exampleZeros exampleOldEdges
    exampleNewEdges 0 exampleOldEdge exampleNewEdge exampleOldValue
    (by decide) (by decide)
    (fun k _ => by simp [exampleOldEdges])
    (fun k _ => by simp [exampleNewEdges])
    (fun i _ => by simp [exampleOldData])
    (fun i _ => by simp [exampleOldEdge])
    (fun j _ => by simp [exampleNewEdge])
    (fun j _ => rfl)

/-- The overlap with a new bin is the growth of the clamped edge over that bin. -/
theorem overlap_eq_clamp_sub (a b lo hi : ℚ) (hab : a ≤ b) (hlh : lo ≤ hi) :
    overlap a b lo hi = min b (max a hi) - min b (max a lo) := by
  unfold overlap
  simp only [min_def, max_def]
  split_ifs <;> linarith

/-- The overlaps of an old bin `[a, b]` with the new bins add up to its width when the
new edges cover it. -/
theorem sum_overlap_of_covered (m : Nat) (y : Nat → ℚ) (a b : ℚ) (hab : a ≤ b)
    (hy : ∀ j, j < m → y j ≤ y (j + 1)) (hlow : y 0 ≤ a) (hhigh : b ≤ y m) :
    ∑ j in Finset.range m, overlap a b (y j) (y (j + 1)) = b - a := by
  have h1 : ∑ j in Finset.range m, overlap a b (y j) (y (j + 1))
      = ∑ j in Finset.range m, (min b (max a (y (j + 1))) - min b (max a (y j))) :=
    Finset.sum_congr rfl fun j hj =>
      overlap_eq_clamp_sub a b _ _ hab (hy j (Finset.mem_range.mp hj))
  rw [h1, Finset.sum_range_sub (fun j => min b (max a (y j)))]
  have e1 : max a (y m) = y m := max_eq_right (le_trans hab hhigh)
  have e2 : max a (y 0) = a := max_eq_left hlow
  rw [e1, e2, min_eq_left hhigh, min_eq_right hab]

theorem sumRow_of_num (span : Span) (offset size : Nat) (f : Nat → ℚ)
    (h : ∀ k, k < size → span (offset + k) = Value.num (f k)) :
    sumRow span offset size = Value.num (∑ k in Finset.range size, f k) := by
  unfold sumRow
  induction size with
  | zero => rfl
  | succ size ih =>
    rw [List.range_succ, List.foldl_append, ih (fun k hk => h k (by omega)),
      Finset.sum_range_succ]
    simp only [List.foldl_cons, List.foldl_nil, h size (by omega), Value.add]

/-- The shares of the old bins, summed over all new bins, give back the old data. -/
theorem sum_share_of_covered (n m : Nat) (x y v : Nat → ℚ)
    (hx : ∀ i, i < n → x i < x (i + 1)) (hy : ∀ j, j < m → y j < y (j + 1))
    (hlow : y 0 ≤ x 0) (hhigh : x n ≤ y m) :
    ∑ j in Finset.range m, ∑ i in Finset.range n, share x y v i j
      = ∑ i in Finset.range n, v i := by
  rw [Finset.sum_comm]
  apply Finset.sum_congr rfl
  intro i hi
  have hin : i < n := Finset.mem_range.mp hi
  have hw : x (i + 1) - x i ≠ 0 := by
    have := hx i hin
    intro h; linarith
  have h1 : ∑ j in Finset.range m, share x y v i j
      = v i * (∑ j in Finset.range m, overlap (x i) (x (i + 1)) (y j) (y (j + 1)))
        / (x (i + 1) - x i) := by
    unfold share
    rw [Finset.mul_sum, Finset.sum_div]
  rw [h1, sum_overlap_of_covered m y (x i) (x (i + 1)) (hx i hin).le
    (fun j hj => (hy j hj).le)
    (le_trans hlow (mono_of_strict n x hx 0 i (Nat.zero_le _) hin.le))
    (le_trans (mono_of_strict n x hx (i + 1) n hin (le_refl _)) hhigh)]
  field_simp

/-- C9: for a row `c` of `rebinInner` with strictly increasing old edges
`x 0 < ... < x oldSize` and new edges `y 0 < ... < y newSize` that cover the old
range (`y 0 ≤ x 0` and `x oldSize ≤ y newSize`), numbers throughout and the output
zero at the start, the call returns and the sum of the `newSize` output bins of the
row equals the sum of its `oldSize` input bins. -/
theorem rebinInner_conserves (oldSize newSize volume : Nat) (jointOld jointNew : Bool)
    (oldData newData xold xnew : Span) (c : Nat) (x y v : Nat → ℚ)
    (hsize : 0 < oldSize) (hc : c < volume / oldSize)
    (hxold : ∀ k, k ≤ oldSize →
      xold ((if jointOld then 0 else c * (oldSize + 1)) + k) = Value.num (x k))
    (hxnew : ∀ k, k ≤ newSize →
      xnew ((if jointNew then 0 else c * (newSize + 1)) + k) = Value.num (y k))
    (hold : ∀ i, i < oldSize → oldData (c * oldSize + i) = Value.num (v i))
    (hx : ∀ i, i < oldSize → x i < x (i + 1))
    (hy : ∀ j, j < newSize → y j < y (j + 1))
    (hlow : y 0 ≤ x 0) (hhigh : x oldSize ≤ y newSize)
    (hzero : ∀ j, j < newSize → newData (c * newSize + j) = Value.num 0) :
    ∃ out, rebinInner oldSize newSize volume jointOld jointNew oldData newData xold xnew
        = some out ∧
      sumRow out (c * newSize) newSize = sumRow oldData (c * oldSize) oldSize ∧
      sumRow oldData (c * oldSize) oldSize = Value.num (∑ i in Finset.range oldSize, v i) := by
  refine ⟨_, by unfold rebinInner; rw [if_neg (by omega)], ?_, ?_⟩
  · rw [sumRow_of_num oldData (c * oldSize) oldSize v hold,
      sumRow_of_num _ (c * newSize) newSize
        (fun j => ∑ i in Finset.range oldSize, share x y v i j)
        (fun j hj => rebinRows_row oldSize newSize jointOld jointNew oldData xold xnew newData
          (volume / oldSize) c x y v hc ⟨hxold, hxnew, hold, hx, hy⟩ hzero j hj),
      sum_share_of_covered oldSize newSize x y v hx hy hlow hhigh]
  · exact sumRow_of_num oldData (c * oldSize) oldSize v hold

/-- Witness for C9: the two old bins `[0, 1]`, `[1, 2]` holding `1` and `2` are
rebinned to the one new bin `[0, 2]`. -/
theorem rebinInner_conserves_witness :
    ∃ out, rebinInner 2 1 2 true true exampleOldData exampleZeros exampleOldEdges
        exampleNewEdges = some out ∧
      sumRow out (0 * 1) 1 = sumRow exampleOldData (0 * 2) 2 ∧
      sumRow exampleOldData (0 * 2) 2
        = Value.num (∑ i in Finset.range 2, exampleOldValue i) :=
  rebinInner_conserves 2 1 2 true true exampleOldData exampleZeros exampleOldEdges
    exampleNewEdges 0 exampleOldEdge exampleNewEdge exampleOldValue
    (by decide) (by decide)
    (fun k _ => by simp [exampleOldEdges])
    (fun k _ => by simp [exampleNewEdges])
    (fun i _ => by simp [exampleOldData])
    (fun i _ => by simp [exampleOldEdge])
    (fun j _ => by simp [exampleNewEdge])
    (by simp [exampleNewEdge, exampleOldEdge])
    (by simp [exampleNewEdge, exampleOldEdge])
    (fun j _ => rfl)

end RebinHelper

namespace Storage

open Tagged (Dimensions Tag shapeVolume shapeStride viewIndices)

open core (Exception)

open VariableConcept

/-! ## Construction, cloning and reshaping of concepts -/

theorem makeDataModel_ok_iff (dims : Dimensions) (dtype : DType) (model : List Value)
    (c : VariableConcept) :
    makeDataModel dims dtype model = .ok c ↔
      dims.volume = model.length ∧ c = ⟨dims, dtype, .DataModel model⟩ := by
  unfold makeDataModel
  by_cases h : dims.volume = (model.length : Int)
  · simp [h, eq_comm]
  · simp [h]

theorem makeViewModel_ok_iff (dims : Dimensions) (dtype : DType) (model : VariableView)
    (isConst : Bool) (c : VariableConcept) :
    makeViewModel dims dtype model isConst = .ok c ↔
      dims.volume = model.size ∧ c = ⟨dims, dtype, .ViewModel model isConst⟩ := by
  unfold makeViewModel
  by_cases h : dims.volume = model.size
  · simp [h, eq_comm]
  · simp [h]

theorem cloneWith_ok (self c : VariableConcept) (dims : Dimensions)
    (h : self.cloneWith dims = .ok c) :
    c.isView = false ∧ c.dimensions = dims ∧ c.dimensions.volume = c.size := by
  unfold cloneWith at h
  cases hm : self.m_model with
  | DataModel m =>
    rw [hm] at h
    simp only at h
    obtain ⟨hv, rfl⟩ := (makeDataModel_ok_iff _ _ _ _).1 h
    exact ⟨rfl, rfl, hv⟩
  | ViewModel m isConst =>
    rw [hm] at h
    simp at h

theorem cloneWith_dataModel (self : VariableConcept) (dims : Dimensions)
    (hview : self.isView = false) (hvol : 0 ≤ dims.volume) :
    self.cloneWith dims
      = .ok ⟨dims, self.m_dtype, .DataModel (List.replicate dims.volume.toNat (Value.num 0))⟩ := by
  unfold cloneWith
  cases hm : self.m_model with
  | DataModel m =>
    simp only
    exact (makeDataModel_ok_iff _ _ _ _).2 ⟨by simp [Int.toNat_of_nonneg hvol], rfl⟩
  | ViewModel m isConst => simp [isView, hm] at hview

/-- Claim C12: the constructor of `DataModel` fails when the size of the buffer differs
from the volume of the dimensions and succeeds otherwise, and a `DataModel` that
comes from the constructor, from `clone()`, from `clone(dims)` or from
`Variable::setDimensions` on a variable whose `DataModel` satisfies it holds as many
elements as the volume of its dimensions; `setDimensions` to dimensions of
non-negative volume succeeds. -/
theorem dataModel_size_is_volume (dims : Dimensions) (dtype : DType) (model : List Value) :
    (dims.volume ≠ model.length →
      makeDataModel dims dtype model = .error (.RuntimeError sizeMismatch)) ∧
    (dims.volume = model.length →
      makeDataModel dims dtype model = .ok ⟨dims, dtype, .DataModel model⟩) ∧
    (∀ c, makeDataModel dims dtype model = .ok c →
      c.isView = false ∧ c.dimensions = dims ∧ c.dimensions.volume = c.size) ∧
    (∀ self c : VariableConcept, self.isView = false → self.clone = .ok c →
      c.isView = false ∧ c.dimensions = self.dimensions ∧ c.dimensions.volume = c.size) ∧
    (∀ self c : VariableConcept, self.isView = false → self.cloneWith dims = .ok c →
      c.isView = false ∧ c.dimensions = dims ∧ c.dimensions.volume = c.size) ∧
    (∀ v v2 : Variable, v.m_object.isView = false →
      v.m_object.dimensions.volume = v.m_object.size → v.setDimensions dims = .ok v2 →
      v2.m_object.isView = false ∧ v2.dimensions = dims ∧
        v2.m_object.dimensions.volume = v2.m_object.size) ∧
    (∀ v : Variable, v.m_object.isView = false → 0 ≤ dims.volume →
      ∃ v2, v.setDimensions dims = .ok v2) := by
  refine ⟨?_, ?_, ?_, ?_, ?_, ?_, ?_⟩
  · intro h
    simp [makeDataModel, h]
  · intro h
    simp [makeDataModel, h]
  · intro c h
    obtain ⟨hv, rfl⟩ := (makeDataModel_ok_iff _ _ _ _).1 h
    exact ⟨rfl, rfl, hv⟩
  · intro self c hview h
    unfold clone at h
    cases hm : self.m_model with
    | DataModel m =>
      rw [hm] at h
      simp only at h
      obtain ⟨hv, rfl⟩ := (makeDataModel_ok_iff _ _ _ _).1 h
      exact ⟨rfl, rfl, hv⟩
    | ViewModel m isConst => simp [isView, hm] at hview
  · intro self c _ h
    exact cloneWith_ok self c dims h
  · intro v v2 hview hinv h
    unfold Variable.setDimensions at h
    by_cases hvol : dims.volume = v.m_object.dimensions.volume
    · rw [if_pos hvol] at h
      by_cases hd : dims ≠ v.m_object.dimensions
      · rw [if_pos hd] at h
        cases h
        refine ⟨?_, rfl, ?_⟩
        · simpa [isView] using hview
        · simp only [VariableConcept.dimensions, VariableConcept.size] at hinv ⊢
          rw [hvol]
          exact hinv
      · rw [if_neg hd] at h
        cases h
        have hd2 : dims = v.m_object.dimensions := not_not.1 hd
        exact ⟨hview, hd2.symm, hinv⟩
    · rw [if_neg hvol] at h
      cases hc : v.m_object.cloneWith dims with
      | error e => rw [hc] at h; cases h
      | ok c =>
        rw [hc] at h
        cases h
        exact cloneWith_ok _ _ _ hc
  · intro v hview hvol
    unfold Variable.setDimensions
    by_cases hv : dims.volume = v.m_object.dimensions.volume
    · rw [if_pos hv]
      by_cases hd : dims ≠ v.m_object.dimensions
      · rw [if_pos hd]; exact ⟨_, rfl⟩
      · rw [if_neg hd]; exact ⟨_, rfl⟩
    · rw [if_neg hv, cloneWith_dataModel _ _ hview hvol]
      exact ⟨_, rfl⟩

theorem requireMutable_cases (self : VariableConcept) (nonConst : Bool) :
    (self.requireMutable nonConst = .ok ⟨⟩ ∧ (nonConst && self.isConstView) = false) ∨
    (self.requireMutable nonConst
        = .error (.RuntimeError "View is const, cannot get mutable range of data.") ∧
      (nonConst && self.isConstView) = true) := by
  unfold requireMutable
  cases h : (nonConst && self.isConstView) <;> simp

theorem getReshaped_cases (self : VariableConcept) (nonConst : Bool) (dims : Dimensions) :
    ((nonConst && self.isConstView) = false ∧
      ∃ view, self.getReshaped nonConst dims = .ok view ∧ view.size = dims.volume) ∨
    ((nonConst && self.isConstView) = true ∧
      self.getReshaped nonConst dims
        = .error (.RuntimeError "View is const, cannot get mutable range of data.")) := by
  unfold getReshaped
  rcases requireMutable_cases self nonConst with ⟨h, hc⟩ | ⟨h, hc⟩
  · left
    refine ⟨hc, ?_⟩
    rw [h]
    cases self.m_model with
    | DataModel m => exact ⟨_, rfl, rfl⟩
    | ViewModel m isConst => exact ⟨_, rfl, rfl⟩
  · right
    refine ⟨hc, ?_⟩
    rw [h]
    rfl

/-- Claim C13: `VariableConceptT::reshape(dims)` throws 'Cannot reshape to dimensions with
different volume' exactly when the volume of `dims` differs from the volume of the
dimensions of the concept; a result has the dimensions `dims` and holds as many
elements as their volume, which is the number of elements of a concept that
holds as many elements as the volume of its dimensions; and with equal volumes
there is a result, unless the overload for mutable data is called on a view of
constant elements. -/
theorem reshape_volume (self : VariableConcept) (nonConst : Bool) (dims : Dimensions) :
    (self.reshape nonConst dims = .error (.RuntimeError reshapeMismatch) ↔
      dims.volume ≠ self.dimensions.volume) ∧
    (∀ result, self.reshape nonConst dims = .ok result →
      result.dimensions = dims ∧ result.size = dims.volume ∧
        (self.dimensions.volume = self.size → result.size = self.size)) ∧
    (dims.volume = self.dimensions.volume → (nonConst && self.isConstView) = false →
      ∃ result, self.reshape nonConst dims = .ok result) := by
  have key : dims.volume = self.dimensions.volume →
      ((nonConst && self.isConstView) = false ∧ ∃ view,
        self.reshape nonConst dims = .ok ⟨dims, self.m_dtype, .ViewModel view (!nonConst)⟩ ∧
          view.size = dims.volume) ∨
      ((nonConst && self.isConstView) = true ∧ self.reshape nonConst dims
        = .error (.RuntimeError "View is const, cannot get mutable range of data.")) := by
    intro hv
    have hv2 : ¬ self.m_dimensions.volume ≠ dims.volume := by
      simpa [VariableConcept.dimensions, eq_comm] using hv
    unfold reshape
    rw [if_neg hv2]
    rcases getReshaped_cases self nonConst dims with ⟨hc, view, h, hs⟩ | ⟨hc, h⟩
    · left
      refine ⟨hc, view, ?_, hs⟩
      rw [h]
      exact (makeViewModel_ok_iff _ _ _ _ _).2 ⟨hs.symm, rfl⟩
    · right
      refine ⟨hc, ?_⟩
      rw [h]
      rfl
  refine ⟨⟨?_, ?_⟩, ?_, ?_⟩
  · intro h hv
    rcases key hv with ⟨_, view, h2, _⟩ | ⟨_, h2⟩
    · rw [h2] at h; cases h
    · rw [h2] at h
      have h3 := Exception.RuntimeError.inj (Except.error.inj h)
      revert h3
      decide
  · intro hv
    have hv2 : self.m_dimensions.volume ≠ dims.volume := by
      simpa [VariableConcept.dimensions, eq_comm] using hv
    unfold reshape
    rw [if_pos hv2]
  · intro result h
    by_cases hv : dims.volume = self.dimensions.volume
    · rcases key hv with ⟨_, view, h2, hs⟩ | ⟨_, h2⟩
      · rw [h2] at h
        cases h
        refine ⟨rfl, hs, ?_⟩
        intro hinv
        rw [← hinv, ← hv]
        exact hs
      · rw [h2] at h; cases h
    · have hv2 : self.m_dimensions.volume ≠ dims.volume := by
        simpa [VariableConcept.dimensions, eq_comm] using hv
      unfold reshape at h
      rw [if_pos hv2] at h
      cases h
  · intro hv hc
    rcases key hv with ⟨_, view, h2, _⟩ | ⟨hc2, _⟩
    · exact ⟨_, h2⟩
    · rw [hc] at hc2; cases hc2

/-! ## Arithmetic between concepts of different element types -/

/-- Claim C15: `VariableConceptT<T>::apply<Op, OtherT>(other)` for an `other` whose
element type is not `OtherT` throws a `TypeError` with the message 'Expected item
dtype ' followed by the name of `OtherT`, ', got ', the name of the element type
of `other` and a full stop, and the left-hand side is the one before the call. -/
theorem apply_wrong_dtype (to_string : DType → String)
    (overlaps : VariableView → VariableView → Bool) (op : Value → Value → Value)
    (OtherT : DType) (self other : VariableConcept) (h : other.dtype ≠ OtherT) :
    VariableConcept.apply to_string overlaps op OtherT self other
      = ⟨self, some (.TypeError
          ("Expected item dtype " ++ to_string OtherT ++ ", got " ++ to_string other.dtype
            ++ "."))⟩ := by
  have h1 : requireT to_string OtherT other = .error (.TypeError
      ("Expected item dtype " ++ to_string OtherT ++ ", got " ++ to_string other.dtype
        ++ ".")) := by
    unfold requireT
    rw [if_neg h]
  have h2 : applyTry to_string overlaps op OtherT self other = .error (.TypeError
      ("Expected item dtype " ++ to_string OtherT ++ ", got " ++ to_string other.dtype
        ++ ".")) := by
    unfold applyTry
    rw [h1]
    rfl
  unfold VariableConcept.apply
  rw [h2]
  rfl

/-- Witness of C15: adding 64 bit integers to doubles where doubles are expected. -/
theorem apply_wrong_dtype_witness :
    exampleInts.dtype ≠ DType.Double ∧
    VariableConcept.apply exampleToString (fun _ _ => false) Value.add DType.Double
        exampleDoubles.m_object exampleInts
      = ⟨exampleDoubles.m_object,
          some (.TypeError "Expected item dtype double, got int64.")⟩ :=
  ⟨by decide,
    apply_wrong_dtype exampleToString (fun _ _ => false) Value.add DType.Double
      exampleDoubles.m_object exampleInts (by decide)⟩

/-! ## Reshaping a temporary variable or a slice -/

/-- Claim C14, the input at which the code differs: the variable of the doubles 1, 2 along
`Dim::X` is reshaped to three elements along `Dim::Y`.  `Variable::reshape(dims)
&&` does not throw but returns three zeros, and so does
`ConstVariableSlice::reshape(dims)` of the slice of the first element, while
`VariableConceptT::reshape` throws for the same dimensions. -/
theorem reshape_temporary_changes_volume :
    exampleDoubles.dimensions.volume = 2 ∧
    (⟨[(Dim.Y, 3)]⟩ : Dimensions).volume = 3 ∧
    exampleDoubles.reshape ⟨[(Dim.Y, 3)]⟩
      = .ok ⟨⟨18⟩, ⟨0⟩, "v", ⟨⟨[(Dim.Y, 3)]⟩, .Double,
          .DataModel [Value.num 0, Value.num 0, Value.num 0]⟩⟩ ∧
    (∃ slice, exampleDoubles.slice Dim.X 0 1 = .ok slice ∧ slice.dimensions.volume = 1 ∧
      slice.reshape exampleToString ⟨[(Dim.Y, 3)]⟩
        = .ok ⟨⟨18⟩, ⟨0⟩, "v", ⟨⟨[(Dim.Y, 3)]⟩, .Double,
            .DataModel [Value.num 0, Value.num 0, Value.num 0]⟩⟩) ∧
    exampleDoubles.m_object.reshape false ⟨[(Dim.Y, 3)]⟩
      = .error (.RuntimeError reshapeMismatch) := by
  refine ⟨by decide, by decide, by rfl, ⟨_, rfl, by decide, by rfl⟩, by rfl⟩

/-! ## Dimensions of a slice -/

theorem erase_labels (dims : Dimensions) (dim : Dim) :
    (dims.erase dim).labels = dims.labels.filter (fun d => decide (d ≠ dim)) := by
  simp only [Tagged.Dimensions.erase, Tagged.Dimensions.labels, List.filter_map]
  rfl

theorem erase_contains (dims : Dimensions) (dim : Dim) : (dims.erase dim).contains dim = false := by
  simp [Tagged.Dimensions.erase, Tagged.Dimensions.contains]

theorem find_filter_ne (dim d : Dim) (h : d ≠ dim) (shape : List (Dim × Int)) :
    (shape.filter (fun p => decide (p.1 ≠ dim))).find? (fun p => decide (p.1 = d))
      = shape.find? (fun p => decide (p.1 = d)) := by
  induction shape with
  | nil => rfl
  | cons p rest ih =>
    by_cases hp : p.1 = dim
    · have hd : ¬ p.1 = d := fun h2 => h (h2 ▸ hp)
      have h1 : decide (p.1 ≠ dim) = false := by simp [hp]
      have h2 : decide (p.1 = d) = false := by simp [hd]
      simp only [List.filter_cons, List.find?_cons, h1, h2]
      exact ih
    · have h1 : decide (p.1 ≠ dim) = true := by simp [hp]
      by_cases hd : p.1 = d
      · have h2 : decide (p.1 = d) = true := by simp [hd]
        simp only [List.filter_cons, List.find?_cons, h1, h2, if_true]
      · have h2 : decide (p.1 = d) = false := by simp [hd]
        simp only [List.filter_cons, List.find?_cons, h1, h2, if_true]
        exact ih

theorem erase_extent (dims : Dimensions) (dim d : Dim) (h : d ≠ dim) :
    (dims.erase dim).extent d = dims.extent d := by
  simp only [Tagged.Dimensions.erase, Tagged.Dimensions.extent]
  rw [find_filter_ne dim d h]

theorem resizeShape_labels (dim : Dim) (size : Int) (shape : List (Dim × Int)) :
    (Tagged.resizeShape dim size shape).map Prod.fst = shape.map Prod.fst := by
  induction shape with
  | nil => rfl
  | cons p rest ih =>
    obtain ⟨label, extent⟩ := p
    unfold Tagged.resizeShape
    by_cases hp : label = dim
    · rw [if_pos hp]; rfl
    · rw [if_neg hp, List.map_cons, List.map_cons, ih]

theorem resizeShape_find (dim d : Dim) (size : Int) (shape : List (Dim × Int)) :
    ((Tagged.resizeShape dim size shape).find? (fun p => decide (p.1 = d))).map Prod.snd
      = if d = dim ∧ (shape.any (fun p => decide (p.1 = dim))) = true then some size
        else (shape.find? (fun p => decide (p.1 = d))).map Prod.snd := by
  induction shape with
  | nil => simp [Tagged.resizeShape]
  | cons p rest ih =>
    obtain ⟨label, extent⟩ := p
    unfold Tagged.resizeShape
    by_cases hp : label = dim
    · rw [if_pos hp]
      by_cases hd : d = dim
      · subst hd; subst hp
        simp
      · have : ¬ label = d := fun h2 => hd (h2 ▸ hp)
        simp [hd, this]
    · rw [if_neg hp]
      by_cases hd : label = d
      · have hdd : ¬ d = dim := fun h2 => hp (hd.trans h2)
        simp [hd, hdd]
      · have h2 : decide (label = d) = false := by simp [hd]
        have h3 : decide (label = dim) = false := by simp [hp]
        simp only [List.find?_cons, h2, ih, List.any_cons, h3, Bool.false_or]

theorem resize_labels (dims : Dimensions) (dim : Dim) (size : Int) :
    (dims.resize dim size).labels = dims.labels :=
  resizeShape_labels dim size dims.shape

theorem resize_extent (dims : Dimensions) (dim d : Dim) (size : Int) :
    (dims.resize dim size).extent d
      = if d = dim ∧ dims.contains dim = true then some size else dims.extent d :=
  resizeShape_find dim d size dims.shape

theorem makeView_ok (self : VariableConcept) (nonConst : Bool) (dim : Dim) (begin end_ : Int) :
    ∃ view, self.makeView nonConst dim begin end_
        = .ok ⟨self.makeViewDims dim begin end_, self.m_dtype,
            .ViewModel view (!(nonConst && !self.isConstView))⟩ ∧
      self.getViewAt (nonConst && !self.isConstView) (self.makeViewDims dim begin end_) dim begin
        = .ok view ∧
      view.m_targetDimensions = self.makeViewDims dim begin end_ := by
  have hm : self.requireMutable (nonConst && !self.isConstView) = .ok ⟨⟩ := by
    unfold requireMutable
    cases nonConst <;> cases self.isConstView <;> rfl
  have hv : ∃ view, self.getViewAt (nonConst && !self.isConstView)
      (self.makeViewDims dim begin end_) dim begin = .ok view ∧
      view.m_targetDimensions = self.makeViewDims dim begin end_ := by
    unfold getViewAt
    rw [hm]
    cases self.m_model with
    | DataModel m => exact ⟨_, rfl, rfl⟩
    | ViewModel m isConst => exact ⟨_, rfl, rfl⟩
  obtain ⟨view, h1, h2⟩ := hv
  refine ⟨view, ?_, h1, h2⟩
  unfold makeView
  simp only [h1]
  exact (makeViewModel_ok_iff _ _ _ _ _).2 ⟨by rw [VariableView.size, h2], rfl⟩

theorem sliceExtentsLoop_append (start : Option core.ExtentMap) (slices : core.SliceList)
    (slice : core.Slice) (extent : Int) :
    core.sliceExtentsLoop start (slices ++ [(slice, extent)])
      = (core.sliceExtentsLoop start slices).bind (fun base => core.sliceExtents base slice) := by
  induction slices generalizing start with
  | nil =>
    cases start with
    | none => rfl
    | some base => simp [core.sliceExtentsLoop]
  | cons head rest ih =>
    cases start with
    | none => rfl
    | some base =>
      obtain ⟨s, e⟩ := head
      simp only [List.cons_append, core.sliceExtentsLoop]
      exact ih _

/-- Claim C17: `VariableConceptT::makeView(dim, begin, end)` returns a view; with `end =
-1` its dimensions are those of the concept without `dim`, the other labels in
their order and with their extents, and otherwise they are those of the concept
with the extent `end - begin` for `dim`.  And where `DatasetConstProxy::dimensions`
of a view gives a table that holds the dimension of a further slice, it gives for
the view with that slice added the same table, but without the dimension for a
single index and with `end - begin` for a range. -/
theorem slicing_dimensions (self : VariableConcept) (nonConst : Bool) (dim : Dim)
    (begin end_ : Int) (Sparse : Int) (view : core.DatasetConstProxy) (slice : core.Slice)
    (extent : Int) :
    (∃ result, self.makeView nonConst dim begin end_ = .ok result ∧
      (end_ = -1 →
        result.dimensions.labels = self.dimensions.labels.filter (fun d => decide (d ≠ dim)) ∧
        result.dimensions.contains dim = false ∧
        ∀ d, d ≠ dim → result.dimensions.extent d = self.dimensions.extent d) ∧
      (end_ ≠ -1 →
        result.dimensions.labels = self.dimensions.labels ∧
        (self.dimensions.contains dim = true →
          result.dimensions.extent dim = some (end_ - begin)) ∧
        ∀ d, d ≠ dim → result.dimensions.extent d = self.dimensions.extent d)) ∧
    (∀ base, view.dimensions Sparse = some base → base slice.m_dim ≠ none →
      ∃ sliced,
        core.DatasetConstProxy.dimensions Sparse
            ⟨view.m_dataset, view.m_items, view.m_slices ++ [(slice, extent)]⟩ = some sliced ∧
        (slice.m_end = -1 → sliced slice.m_dim = none) ∧
        (slice.m_end ≠ -1 → sliced slice.m_dim = some (slice.m_end - slice.m_begin)) ∧
        ∀ d, d ≠ slice.m_dim → sliced d = base d) := by
  constructor
  · obtain ⟨v, h, -, -⟩ := makeView_ok self nonConst dim begin end_
    refine ⟨_, h, ?_, ?_⟩
    · intro he
      have hd : self.makeViewDims dim begin end_ = self.m_dimensions.erase dim := by
        unfold makeViewDims; rw [if_pos he]
      simp only [VariableConcept.dimensions, hd]
      exact ⟨erase_labels _ _, erase_contains _ _, fun d h2 => erase_extent _ _ _ h2⟩
    · intro he
      have hd : self.makeViewDims dim begin end_ = self.m_dimensions.resize dim (end_ - begin) := by
        unfold makeViewDims; rw [if_neg he]
      simp only [VariableConcept.dimensions, hd]
      refine ⟨resize_labels _ _ _, ?_, ?_⟩
      · intro hc
        rw [resize_extent, if_pos ⟨rfl, hc⟩]
      · intro d h2
        rw [resize_extent, if_neg (fun h3 => h2 h3.1)]
  · intro base hb hdim
    unfold core.DatasetConstProxy.dimensions at hb ⊢
    simp only
    rw [sliceExtentsLoop_append, hb, Option.some_bind]
    unfold core.sliceExtents
    cases hx : base slice.m_dim with
    | none => exact absurd hx hdim
    | some x =>
      simp only
      by_cases hr : slice.m_end = -1
      · have hr2 : (!slice.isRange) = true := by simp [core.Slice.isRange, hr]
        rw [if_pos hr2]
        refine ⟨_, rfl, ?_, ?_, ?_⟩
        · intro _; simp
        · intro h2; exact absurd hr h2
        · intro d hd; simp [hd]
      · have hr2 : ¬ (!slice.isRange) = true := by simp [core.Slice.isRange, hr]
        rw [if_neg hr2]
        refine ⟨_, rfl, ?_, ?_, ?_⟩
        · intro h2; exact absurd h2 hr
        · intro _; simp [core.ExtentMap.assign]
        · intro d hd; simp [core.ExtentMap.assign, hd]

/-! ## The positions that a view visits -/

theorem shapeVolume_cons (label : Dim) (extent : Nat) (rest : List (Dim × Nat)) :
    shapeVolume ((label, extent) :: rest) = extent * shapeVolume rest := by
  simp [shapeVolume]

theorem viewIndices_length (parent : List (Dim × Nat)) (target : List (Dim × Nat))
    (offset : Nat) : (viewIndices parent offset target).length = shapeVolume target := by
  induction target generalizing offset with
  | nil => rfl
  | cons p rest ih =>
    obtain ⟨label, extent⟩ := p
    have hf : (List.length ∘ fun t =>
        viewIndices parent (offset + t * shapeStride label parent) rest)
        = fun _ => shapeVolume rest := by
      funext t
      exact ih _
    simp only [viewIndices, List.length_flatMap, shapeVolume_cons]
    rw [hf]
    simp

theorem viewIndices_shift (parent : List (Dim × Nat)) (target : List (Dim × Nat))
    (offset : Nat) :
    viewIndices parent offset target = (viewIndices parent 0 target).map (fun p => offset + p) := by
  induction target generalizing offset with
  | nil => rfl
  | cons p rest ih =>
    obtain ⟨label, extent⟩ := p
    simp only [viewIndices, List.map_flatMap, Nat.zero_add]
    congr 1
    funext t
    rw [ih (offset + t * shapeStride label parent), ih (t * shapeStride label parent),
      List.map_map]
    congr 1
    funext p
    simp [Nat.add_assoc]

theorem shapeStride_append (label : Dim) (extent : Nat) (pre rest : List (Dim × Nat))
    (h : label ∉ pre.map Prod.fst) :
    shapeStride label (pre ++ (label, extent) :: rest) = shapeVolume rest := by
  induction pre with
  | nil => simp [shapeStride]
  | cons q pre ih =>
    obtain ⟨l, e⟩ := q
    have hl : ¬ l = label := fun h2 => h (by simp [h2])
    have h3 : label ∉ pre.map Prod.fst := fun h2 => h (by simp [h2])
    simp only [List.cons_append, shapeStride, if_neg hl]
    exact ih h3

theorem flatMap_range (m : Nat) (extent offset : Nat) :
    (List.range extent).flatMap (fun t => List.range' (offset + t * m) m)
      = List.range' offset (extent * m) := by
  induction extent with
  | zero => simp
  | succ n ih =>
    rw [List.range_succ, List.flatMap_append, ih]
    simp only [List.flatMap_cons, List.flatMap_nil, List.append_nil]
    rw [List.range'_append_1, Nat.succ_mul, Nat.add_comm]

theorem viewIndices_suffix (pre target : List (Dim × Nat)) (offset : Nat)
    (h : ((pre ++ target).map Prod.fst).Nodup) :
    viewIndices (pre ++ target) offset target = List.range' offset (shapeVolume target) := by
  induction target generalizing pre offset with
  | nil => simp [viewIndices, shapeVolume]
  | cons p rest ih =>
    obtain ⟨label, extent⟩ := p
    have hl : label ∉ pre.map Prod.fst := by
      intro hmem
      rw [List.map_append, List.nodup_append] at h
      exact h.2.2 hmem (by simp)
    have hs : shapeStride label (pre ++ (label, extent) :: rest) = shapeVolume rest :=
      shapeStride_append label extent pre rest hl
    have hrest : ∀ o, viewIndices (pre ++ (label, extent) :: rest) o rest
        = List.range' o (shapeVolume rest) := by
      intro o
      have h2 := ih (pre ++ [(label, extent)]) o (by simpa using h)
      simpa using h2
    simp only [viewIndices, hs, hrest]
    rw [flatMap_range, shapeVolume_cons]

theorem viewIndices_self (shape : List (Dim × Nat)) (offset : Nat)
    (h : (shape.map Prod.fst).Nodup) :
    viewIndices shape offset shape = List.range' offset (shapeVolume shape) :=
  viewIndices_suffix [] shape offset h

/-! ## Equality of variables and slices -/

theorem natShape_labels (dims : Dimensions) : dims.natShape.map Prod.fst = dims.labels := by
  simp [Tagged.Dimensions.natShape, Tagged.Dimensions.labels, List.map_map, Function.comp_def]

theorem natShape_volume (dims : Dimensions) (h : ∀ p ∈ dims.shape, 0 ≤ p.2) :
    (shapeVolume dims.natShape : Int) = dims.volume := by
  obtain ⟨shape⟩ := dims
  simp only [Tagged.Dimensions.natShape, Tagged.Dimensions.volume, shapeVolume] at h ⊢
  induction shape with
  | nil => simp
  | cons p rest ih =>
    have hp : 0 ≤ p.2 := h p (by simp)
    have hr := ih (fun q hq => h q (by simp [hq]))
    simp only [List.map_cons, List.prod_cons, Nat.cast_mul, List.map_map] at hr ⊢
    rw [hr, Int.toNat_of_nonneg hp]

theorem valid_iff (self : VariableConcept) :
    self.valid = true ↔
      (∀ p ∈ self.dimensions.shape, 0 ≤ p.2) ∧ self.dimensions.labels.Nodup ∧
        self.dimensions.volume = self.size := by
  simp [VariableConcept.valid, and_assoc]

theorem valid_volume (self : VariableConcept) (h : self.valid = true) :
    self.size.toNat = shapeVolume self.dimensions.natShape := by
  obtain ⟨h1, -, h3⟩ := (valid_iff self).1 h
  rw [← h3, ← natShape_volume _ h1]
  simp

theorem map_range' (buffer : List Value) (offset n : Nat) :
    (List.range' offset n).map (readAt buffer)
      = (List.range n).map (fun i => readAt buffer (offset + i)) := by
  rw [List.range'_eq_map_range, List.map_map]
  rfl

theorem span_elements (self : VariableConcept) (h : self.valid = true)
    (hc : self.isContiguous = true) :
    (⟨self.dataOffset, self.size⟩ : GslSpan).elements self.buffer = self.values := by
  have hv := valid_volume self h
  obtain ⟨-, h2, -⟩ := (valid_iff self).1 h
  unfold GslSpan.elements
  simp only [hv]
  cases hm : self.m_model with
  | DataModel m =>
    simp only [VariableConcept.values, hm, VariableConcept.dataOffset, VariableConcept.buffer,
      VariableView.elements, VariableView.indices, makeVariableView]
    rw [show (0 : Int).toNat = 0 from rfl,
      viewIndices_self _ _ (by rw [natShape_labels]; exact h2), map_range']
    rfl
  | ViewModel v isConst =>
    have hc2 : viewIndices v.m_dimensions.natShape 0 self.m_dimensions.natShape
        = List.range' 0 (shapeVolume self.m_dimensions.natShape) := by
      simpa [VariableConcept.isContiguous, hm, Tagged.Dimensions.isContiguousIn] using hc
    simp only [VariableConcept.values, hm, VariableConcept.dataOffset, VariableConcept.buffer,
      VariableView.elements, VariableView.indices, VariableView.retarget]
    rw [viewIndices_shift, hc2, List.map_map, ← List.range_eq_range']
    rfl

theorem getSpan_of_contiguous (self : VariableConcept) (hc : self.isContiguous = true) :
    self.getSpan false = .ok ⟨self.dataOffset, self.size⟩ := by
  unfold getSpan requireMutable requireContiguous
  simp [hc]
  rfl

theorem getView_values (self : VariableConcept) :
    ∃ view, self.getView false self.dimensions = .ok view ∧ view.elements = self.values := by
  unfold getView requireMutable
  cases hm : self.m_model with
  | DataModel m => exact ⟨_, rfl, by simp [VariableConcept.values, hm, VariableConcept.dimensions]⟩
  | ViewModel v isConst =>
    exact ⟨_, rfl, by simp [VariableConcept.values, hm, VariableConcept.dimensions]⟩

theorem eq_equal_values (to_string : DType → String) (a b : VariableConcept)
    (ha : a.valid = true) (hb : b.valid = true) (hd : a.dimensions = b.dimensions)
    (ht : a.dtype = b.dtype) : a.eq to_string b = .ok (equal a.values b.values) := by
  have hr : requireT to_string a.dtype b = .ok b := by
    unfold requireT
    rw [if_pos ht.symm]
  obtain ⟨va, hva, hea⟩ := getView_values a
  obtain ⟨vb, hvb, heb⟩ := getView_values b
  rw [← hd] at hvb
  unfold VariableConcept.eq
  rw [if_neg (not_not.2 hd), if_neg (not_not.2 ht), hr]
  simp only [Except.bind, bind]
  by_cases hca : a.isContiguous = true
  · by_cases hcb : (b.isContiguous && a.dimensions.isContiguousIn b.dimensions) = true
    · have hcb2 : b.isContiguous = true := by
        cases h : b.isContiguous
        · rw [h] at hcb; cases hcb
        · rfl
      simp only [hca, hcb, if_true]
      rw [getSpan_of_contiguous a hca, getSpan_of_contiguous b hcb2]
      simp only [Except.bind, bind, pure, Except.pure]
      rw [span_elements a ha hca, span_elements b hb hcb2]
    · simp only [hca, hcb, if_true]
      rw [getSpan_of_contiguous a hca, hvb]
      simp only [Except.bind, bind, pure, Except.pure]
      rw [span_elements a ha hca, heb]
      rfl
  · by_cases hcb : (b.isContiguous && a.dimensions.isContiguousIn b.dimensions) = true
    · have hcb2 : b.isContiguous = true := by
        cases h : b.isContiguous
        · rw [h] at hcb; cases hcb
        · rfl
      simp only [hca, hcb, if_true]
      rw [getSpan_of_contiguous b hcb2, hva]
      simp only [Except.bind, bind, pure, Except.pure]
      rw [span_elements b hb hcb2, hea]
      rfl
    · simp only [hca, hcb]
      rw [hva, hvb]
      simp only [Except.bind, bind, pure, Except.pure]
      rw [hea, heb]
      rfl

theorem equal_iff (xs ys : List Value) :
    equal xs ys = true ↔ List.Forall₂ (fun x y => Value.eq x y = true) xs ys := by
  induction xs generalizing ys with
  | nil =>
    cases ys with
    | nil => simp [equal]
    | cons y ys => simp [equal]
  | cons x xs ih =>
    cases ys with
    | nil => simp [equal]
    | cons y ys => simp [equal, ih]

theorem operand_dimensions (a : Operand) : a.dimensions = a.data.dimensions := by
  cases a <;> rfl

/-- Claim C11: for variables and slices `a` and `b` whose data are valid, `a == b` is true
exactly when the names, the units, the tags and the dimensions are equal and the
data have equal dimensions, equal element types and, element by element in the
order of the dimensions, equal values; `a == b` always has a result, and `a != b`
is its negation. -/
theorem equality_is_deep (to_string : DType → String) (a b : Operand)
    (ha : a.data.valid = true) (hb : b.data.valid = true) :
    (equals to_string a b = .ok true ↔
      a.name = b.name ∧ a.unit = b.unit ∧ a.tag = b.tag ∧ a.dimensions = b.dimensions ∧
        a.data.dimensions = b.data.dimensions ∧ a.data.dtype = b.data.dtype ∧
        List.Forall₂ (fun x y => Value.eq x y = true) a.data.values b.data.values) ∧
    (∃ same, equals to_string a b = .ok same ∧ notEquals to_string a b = .ok (!same)) := by
  have hne : ∀ same, equals to_string a b = .ok same →
      notEquals to_string a b = .ok (!same) := by
    intro same h
    unfold notEquals
    rw [h]
    rfl
  have hfalse : equals to_string a b = .ok false →
      (equals to_string a b = .ok true ↔ False) := by
    intro h
    rw [h]
    simp
  unfold equals at hfalse ⊢
  by_cases h1 : a.name = b.name
  swap
  · rw [if_pos h1] at hfalse ⊢
    exact ⟨by simp [h1], false, rfl, hne false (by unfold equals; rw [if_pos h1])⟩
  rw [if_neg (not_not.2 h1)] at hfalse ⊢
  by_cases h2 : a.unit = b.unit
  swap
  · rw [if_pos h2] at hfalse ⊢
    exact ⟨by simp [h2],
      false, rfl, hne false (by unfold equals; rw [if_neg (not_not.2 h1), if_pos h2])⟩
  rw [if_neg (not_not.2 h2)] at hfalse ⊢
  by_cases h3 : a.tag = b.tag
  swap
  · rw [if_pos h3] at hfalse ⊢
    exact ⟨by simp [h3], false, rfl, hne false (by
      unfold equals; rw [if_neg (not_not.2 h1), if_neg (not_not.2 h2), if_pos h3])⟩
  rw [if_neg (not_not.2 h3)] at hfalse ⊢
  by_cases h4 : a.dimensions = b.dimensions
  swap
  · have h4b : (!decide (a.dimensions = b.dimensions)) = true := by simp [h4]
    rw [if_pos h4b] at hfalse ⊢
    exact ⟨by simp [h4], false, rfl, hne false (by
      unfold equals
      rw [if_neg (not_not.2 h1), if_neg (not_not.2 h2), if_neg (not_not.2 h3), if_pos h4b])⟩
  have h4b : ¬ (!decide (a.dimensions = b.dimensions)) = true := by simp [h4]
  rw [if_neg h4b] at hfalse ⊢
  have hstep : ∀ same, a.data.eq to_string b.data = .ok same →
      equals to_string a b = .ok same := by
    intro same h
    unfold equals
    rw [if_neg (not_not.2 h1), if_neg (not_not.2 h2), if_neg (not_not.2 h3), if_neg h4b, h]
  have h5 : a.data.dimensions = b.data.dimensions := by
    rw [← operand_dimensions, ← operand_dimensions]
    exact h4
  by_cases h6 : a.data.dtype = b.data.dtype
  swap
  · have h7 : a.data.eq to_string b.data = .ok false := by
      unfold VariableConcept.eq
      rw [if_neg (not_not.2 h5), if_pos h6]
    rw [h7]
    exact ⟨by simp [h6], false, rfl, hne false (hstep false h7)⟩
  have h7 := eq_equal_values to_string a.data b.data ha hb h5 h6
  rw [h7]
  refine ⟨?_, _, rfl, hne _ (hstep _ h7)⟩
  rw [Except.ok.injEq, equal_iff]
  simp [h1, h2, h3, h4, h5, h6]

/-- Witness of C11: a variable of two doubles compared with itself. -/
theorem equality_is_deep_witness :
    exampleDoubles.data.valid = true ∧
    (equals exampleToString (.ofVariable exampleDoubles) (.ofVariable exampleDoubles) = .ok true ↔
      exampleDoubles.name = exampleDoubles.name ∧ exampleDoubles.unit = exampleDoubles.unit ∧
        exampleDoubles.tag = exampleDoubles.tag ∧
        exampleDoubles.dimensions = exampleDoubles.dimensions ∧
        exampleDoubles.data.dimensions = exampleDoubles.data.dimensions ∧
        exampleDoubles.data.dtype = exampleDoubles.data.dtype ∧
        List.Forall₂ (fun x y => Value.eq x y = true) exampleDoubles.data.values
          exampleDoubles.data.values) ∧
    (∃ same, equals exampleToString (.ofVariable exampleDoubles) (.ofVariable exampleDoubles)
        = .ok same ∧
      notEquals exampleToString (.ofVariable exampleDoubles) (.ofVariable exampleDoubles)
        = .ok (!same)) :=
  ⟨by decide,
    equality_is_deep exampleToString (.ofVariable exampleDoubles) (.ofVariable exampleDoubles)
      (by decide) (by decide)⟩

/-! ## Copying between concepts -/

theorem readAt_set (buffer : List Value) (position q : Nat) (x : Value) :
    readAt (buffer.set position x) q
      = if q = position ∧ position < buffer.length then x else readAt buffer q := by
  unfold readAt
  rw [List.getD_eq_getElem?_getD, List.getD_eq_getElem?_getD, List.getElem?_set]
  by_cases h : position = q
  · subst h
    by_cases h2 : position < buffer.length
    · simp [h2]
    · simp [h2, List.getElem?_eq_none (Nat.le_of_not_lt h2)]
  · have h3 : ¬ q = position := fun h4 => h h4.symm
    simp [h, h3]

theorem writeAll_length (buffer : List Value) (positions : List Nat) (xs : List Value) :
    (writeAll buffer positions xs).length = buffer.length := by
  induction positions generalizing buffer xs with
  | nil => cases xs <;> rfl
  | cons p ps ih =>
    cases xs with
    | nil => rfl
    | cons x xs =>
      simp only [writeAll]
      rw [ih, List.length_set]

theorem readAt_writeAll (f : Nat → Value) (buffer : List Value) (positions : List Nat) (q : Nat)
    (hq : q < buffer.length) :
    readAt (writeAll buffer positions (positions.map f)) q
      = if q ∈ positions then f q else readAt buffer q := by
  induction positions generalizing buffer with
  | nil => simp [writeAll]
  | cons p ps ih =>
    simp only [List.map_cons, writeAll]
    rw [ih _ (by rw [List.length_set]; exact hq), readAt_set]
    by_cases h1 : q ∈ ps
    · simp [h1]
    · by_cases h2 : q = p
      · subst h2
        simp [h1, hq]
      · simp [h1, h2]

theorem ext_readAt (xs ys : List Value) (hlen : xs.length = ys.length)
    (h : ∀ q, q < xs.length → readAt xs q = readAt ys q) : xs = ys := by
  apply List.ext_getElem hlen
  intro q h1 h2
  have h3 := h q h1
  unfold readAt at h3
  rw [List.getD_eq_getElem _ _ h1, List.getD_eq_getElem _ _ h2] at h3
  exact h3

theorem map_readAt_range (xs : List Value) : (List.range xs.length).map (readAt xs) = xs := by
  apply List.ext_getElem (by simp)
  intro q h1 h2
  simp [readAt, List.getElem?_eq_getElem h2]

theorem writeAll_full (buffer xs : List Value) (h : xs.length = buffer.length) :
    writeAll buffer (List.range' 0 xs.length) xs = xs := by
  have hx : xs = (List.range' 0 xs.length).map (readAt xs) := by
    rw [← List.range_eq_range', map_readAt_range]
  apply ext_readAt _ _ (by rw [writeAll_length, h])
  intro q hq
  rw [writeAll_length] at hq
  have h2 := readAt_writeAll (readAt xs) buffer (List.range' 0 xs.length) q hq
  rw [← hx] at h2
  rw [h2, if_pos]
  rw [List.mem_range'_1]
  omega

theorem setDimensions_dataModel (var : Variable) (D : Dimensions) (dtype : DType)
    (b : List Value) (dims : Dimensions) (hobj : var.m_object = ⟨D, dtype, .DataModel b⟩)
    (hlen : D.volume = b.length) (hvol : 0 ≤ dims.volume) :
    ∃ buffer, var.setDimensions dims
        = .ok ⟨var.m_tag, var.m_unit, var.m_name, ⟨dims, dtype, .DataModel buffer⟩⟩ ∧
      (buffer.length : Int) = dims.volume := by
  obtain ⟨tag, unit, name, object⟩ := var
  simp only at hobj
  subst hobj
  unfold Variable.setDimensions
  by_cases hv : dims.volume = D.volume
  · refine ⟨b, ?_, by rw [hv, hlen]⟩
    simp only [VariableConcept.dimensions]
    rw [if_pos hv]
    by_cases hd : dims = D
    · subst hd
      simp
    · simp [hd]
  · refine ⟨List.replicate dims.volume.toNat (Value.num 0), ?_, by
      simp [Int.toNat_of_nonneg hvol]⟩
    simp only [VariableConcept.dimensions]
    rw [if_neg hv,
      cloneWith_dataModel (⟨D, dtype, .DataModel b⟩ : VariableConcept) dims rfl hvol]
    rfl

theorem viewIndices_of_contiguous (dims parent : Dimensions) (position : Nat)
    (h : dims.isContiguousIn parent = true) :
    viewIndices parent.natShape position dims.natShape
      = List.range' position (shapeVolume dims.natShape) := by
  have h2 : viewIndices parent.natShape 0 dims.natShape
      = List.range' 0 (shapeVolume dims.natShape) := by
    simpa [Tagged.Dimensions.isContiguousIn] using h
  rw [viewIndices_shift, h2, List.range'_eq_map_range, List.range'_eq_map_range, List.map_map]
  apply List.map_congr_left
  intro a _
  simp

theorem copy_into_dataModel (to_string : DType → String) (D : Dimensions) (dtype : DType)
    (buffer : List Value) (other : VariableConcept) (dim : Dim)
    (offset otherBegin otherEnd : Int) (iterDims : Dimensions) (position : Nat)
    (xs : List Value)
    (hiter : iterDims = if D.contains dim then D.resize dim (otherEnd - otherBegin) else D)
    (hdtype : other.dtype = dtype)
    (hspan : ∃ span, (⟨D, dtype, .DataModel buffer⟩ : VariableConcept).getSpanAt true dim offset
        (offset + (otherEnd - otherBegin)) = .ok span ∧ span.first.toNat = position)
    (hview : (if D.contains dim then offset * D.offset dim else offset * D.volume).toNat
      = position)
    (hsrcView : ∃ view, other.getViewAt false iterDims dim otherBegin = .ok view ∧
      view.elements = xs)
    (hsrcSpan : (other.isContiguous && iterDims.isContiguousIn other.dimensions) = true →
      ∃ span, other.getSpanAt false dim otherBegin otherEnd = .ok span ∧
        span.elements other.buffer = xs)
    (hlen : xs.length = shapeVolume iterDims.natShape) :
    VariableConcept.copy to_string ⟨D, dtype, .DataModel buffer⟩ other dim offset otherBegin
        otherEnd
      = .ok ⟨D, dtype, .DataModel
          (writeAll buffer (viewIndices D.natShape position iterDims.natShape) xs)⟩ := by
  have hreq : requireT to_string dtype other = .ok other := by
    unfold requireT
    rw [if_pos hdtype]
  obtain ⟨ov, hov, hovx⟩ := hsrcView
  obtain ⟨span, hsp, hfirst⟩ := hspan
  unfold VariableConcept.copy
  simp only [VariableConcept.dimensions, VariableConcept.dtype] at hiter hsrcSpan hsp ⊢
  rw [← hiter, hreq]
  simp only [bind, Except.bind, hov]
  have hcont : (⟨D, dtype, .DataModel buffer⟩ : VariableConcept).isContiguous = true := rfl
  rw [hcont, Bool.true_and]
  by_cases hc : iterDims.isContiguousIn D = true
  · rw [if_pos hc, hsp]
    simp only
    have hpos : List.range' span.first.toNat xs.length
        = viewIndices D.natShape position iterDims.natShape := by
      rw [viewIndices_of_contiguous _ _ _ hc, hfirst, hlen]
    by_cases hs : (other.isContiguous && iterDims.isContiguousIn other.m_dimensions) = true
    · obtain ⟨s, hs1, hs2⟩ := hsrcSpan hs
      rw [if_pos hs, hs1]
      simp only [hs2, hpos]
      rfl
    · rw [if_neg hs]
      simp only [hovx, hpos]
      rfl
  · rw [if_neg hc]
    have hgv : (⟨D, dtype, .DataModel buffer⟩ : VariableConcept).getViewAt true iterDims dim offset
        = .ok (makeVariableView buffer
            (if D.contains dim then offset * D.offset dim else offset * D.volume) iterDims D) :=
      rfl
    rw [hgv]
    simp only
    have hidx : (makeVariableView buffer
        (if D.contains dim then offset * D.offset dim else offset * D.volume) iterDims D).indices
        = viewIndices D.natShape position iterDims.natShape := by
      simp only [VariableView.indices, makeVariableView, hview]
    by_cases hs : (other.isContiguous && iterDims.isContiguousIn other.m_dimensions) = true
    · obtain ⟨s, hs1, hs2⟩ := hsrcSpan hs
      rw [if_pos hs, hs1]
      simp only [hs2, hidx]
      rfl
    · rw [if_neg hs]
      simp only [hovx, hidx]
      rfl

/-! ## Splitting a variable and joining the parts -/

theorem contains_iff_mem_labels (dims : Dimensions) (dim : Dim) :
    dims.contains dim = true ↔ dim ∈ dims.labels := by
  simp [Tagged.Dimensions.contains, Tagged.Dimensions.labels]

theorem resizeShape_nonneg (dim : Dim) (size : Int) (hsize : 0 ≤ size) (shape : List (Dim × Int))
    (h : ∀ p ∈ shape, 0 ≤ p.2) : ∀ p ∈ Tagged.resizeShape dim size shape, 0 ≤ p.2 := by
  induction shape with
  | nil => intro p hp; simp [Tagged.resizeShape] at hp
  | cons q rest ih =>
    obtain ⟨label, extent⟩ := q
    intro p hp
    unfold Tagged.resizeShape at hp
    by_cases hl : label = dim
    · rw [if_pos hl] at hp
      rcases List.mem_cons.1 hp with h1 | h1
      · rw [h1]; exact hsize
      · exact h p (List.mem_cons_of_mem _ h1)
    · rw [if_neg hl] at hp
      rcases List.mem_cons.1 hp with h1 | h1
      · rw [h1]; exact h (label, extent) (List.mem_cons_self _ _)
      · exact ih (fun r hr => h r (List.mem_cons_of_mem _ hr)) p h1

theorem volume_nonneg (dims : Dimensions) (h : ∀ p ∈ dims.shape, 0 ≤ p.2) : 0 ≤ dims.volume := by
  rw [← natShape_volume dims h]
  exact Int.natCast_nonneg _

theorem slice_dataModel (var : Variable) (D : Dimensions) (dtype : DType) (b : List Value)
    (dim : Dim) (begin end_ : Int) (hobj : var.m_object = ⟨D, dtype, .DataModel b⟩)
    (hdim : D.contains dim = true) (hend : end_ ≠ -1) :
    var.slice dim begin end_
      = .ok ⟨var, some ⟨D.resize dim (end_ - begin), dtype,
          .ViewModel ⟨b, begin * D.offset dim, D.resize dim (end_ - begin), D⟩ true⟩⟩ := by
  unfold Variable.slice
  obtain ⟨view, h1, h2, -⟩ := makeView_ok var.m_object false dim begin end_
  rw [h1]
  have hd : var.m_object.makeViewDims dim begin end_ = D.resize dim (end_ - begin) := by
    unfold makeViewDims
    rw [if_neg hend, hobj]
  rw [hd] at h2 ⊢
  have h3 : view = ⟨b, begin * D.offset dim, D.resize dim (end_ - begin), D⟩ := by
    rw [hobj] at h2
    simp only [Bool.false_and, getViewAt, requireMutable, hdim, if_true, makeVariableView] at h2
    cases h2
    rfl
  rw [h3, hobj]
  rfl

theorem sliceVariable_dataModel (to_string : DType → String) (var : Variable) (D : Dimensions)
    (dtype : DType) (b : List Value) (dim : Dim) (begin end_ : Int)
    (hobj : var.m_object = ⟨D, dtype, .DataModel b⟩)
    (hpos : ∀ p ∈ D.shape, 0 ≤ p.2) (hnodup : D.labels.Nodup) (hlen : D.volume = b.length)
    (hinv : Dim.Invalid ∉ D.labels) (hdim : D.contains dim = true)
    (hbegin : 0 ≤ begin) (hend : begin ≤ end_) :
    sliceVariable to_string var dim begin end_
      = .ok ⟨var.m_tag, var.m_unit, var.m_name, ⟨D.resize dim (end_ - begin), dtype,
          .DataModel ((viewIndices D.natShape (begin * D.offset dim).toNat
            (D.resize dim (end_ - begin)).natShape).map (readAt b))⟩⟩ := by
  have hne : end_ ≠ -1 := by omega
  have hpos2 : ∀ p ∈ (D.resize dim (end_ - begin)).shape, 0 ≤ p.2 :=
    resizeShape_nonneg dim _ (by omega) D.shape hpos
  have hnodup2 : (D.resize dim (end_ - begin)).labels.Nodup := by
    rw [resize_labels]; exact hnodup
  have hinv2 : (D.resize dim (end_ - begin)).contains Dim.Invalid = false := by
    cases h : (D.resize dim (end_ - begin)).contains Dim.Invalid
    · rfl
    · rw [contains_iff_mem_labels, resize_labels] at h
      exact absurd h hinv
  have hinv1 : D.contains Dim.Invalid = false := by
    cases h : D.contains Dim.Invalid
    · rfl
    · rw [contains_iff_mem_labels] at h
      exact absurd h hinv
  have hclone : var.clone = .ok var := by
    unfold Variable.clone VariableConcept.clone
    rw [hobj]
    simp only
    rw [(makeDataModel_ok_iff D dtype b _).2 ⟨hlen, rfl⟩]
    obtain ⟨tag, unit, name, object⟩ := var
    simp only at hobj
    subst hobj
    rfl
  obtain ⟨buffer, hset, hbuf⟩ := setDimensions_dataModel var D dtype b
    (D.resize dim (end_ - begin)) hobj hlen (volume_nonneg _ hpos2)
  have hvol : (shapeVolume (D.resize dim (end_ - begin)).natShape : Int)
      = (D.resize dim (end_ - begin)).volume := natShape_volume _ hpos2
  unfold sliceVariable
  rw [slice_dataModel var D dtype b dim begin end_ hobj hdim hne]
  simp only [bind, Except.bind]
  unfold Variable.ofSlice
  simp only [hclone, bind, Except.bind]
  have hren : ({ var with m_tag := var.tag, m_name := var.m_name, m_unit := var.unit } : Variable)
      = var := rfl
  simp only [ConstVariableSlice.tag, ConstVariableSlice.unit, hren,
    ConstVariableSlice.dimensions, ConstVariableSlice.data, VariableConcept.dimensions, hset]
  rw [copy_into_dataModel to_string (D.resize dim (end_ - begin)) dtype buffer _ Dim.Invalid 0 0 1
    (D.resize dim (end_ - begin)) 0
    ((viewIndices D.natShape (begin * D.offset dim).toNat
      (D.resize dim (end_ - begin)).natShape).map (readAt b))]
  · simp only [pure, Except.pure]
    rw [viewIndices_self _ _ (by rw [natShape_labels]; exact hnodup2)]
    have hl : ((viewIndices D.natShape (begin * D.offset dim).toNat
        (D.resize dim (end_ - begin)).natShape).map (readAt b)).length
        = shapeVolume (D.resize dim (end_ - begin)).natShape := by
      rw [List.length_map, viewIndices_length]
    rw [← hl, writeAll_full]
    rw [hl]
    omega
  · rw [hinv2]
    rfl
  · rfl
  · refine ⟨⟨0, buffer.length⟩, ?_, rfl⟩
    simp [getSpanAt, requireMutable, requireContiguous, makeSpan, hinv2,
      VariableConcept.isConstView, VariableConcept.isView, VariableConcept.dataOffset,
      VariableConcept.size, bind, Except.bind]
  · simp
  · refine ⟨_, rfl, ?_⟩
    simp [VariableView.retargetAt, VariableView.elements, VariableView.indices, hinv1]
  · intro hs
    have hc : (D.resize dim (end_ - begin)).isContiguousIn D = true := by
      simp only [Bool.and_eq_true, VariableConcept.isContiguous] at hs
      exact hs.1
    refine ⟨⟨begin * D.offset dim, (D.resize dim (end_ - begin)).volume⟩, ?_, ?_⟩
    · simp only [Bool.and_eq_true] at hs
      simp [getSpanAt, requireMutable, requireContiguous, makeSpan, hinv2, hs.1,
        VariableConcept.isConstView, VariableConcept.isView, VariableConcept.dataOffset,
        VariableConcept.size, bind, Except.bind, VariableView.size]
    · rw [viewIndices_of_contiguous _ _ _ hc, map_range']
      simp only [GslSpan.elements, VariableConcept.buffer]
      rw [← hvol]
      rfl
  · rw [List.length_map, viewIndices_length]

theorem natShape_append (pre shape : List (Dim × Int)) :
    (⟨pre ++ shape⟩ : Dimensions).natShape
      = (⟨pre⟩ : Dimensions).natShape ++ (⟨shape⟩ : Dimensions).natShape := by
  simp [Tagged.Dimensions.natShape]

theorem natShape_cons (p : Dim × Int) (shape : List (Dim × Int)) :
    (⟨p :: shape⟩ : Dimensions).natShape = (p.1, p.2.toNat) :: (⟨shape⟩ : Dimensions).natShape := by
  simp [Tagged.Dimensions.natShape]

theorem mem_flatMap_range (parent rest : List (Dim × Nat)) (extent stride offset q t : Nat)
    (ht : t < extent) (hq : q ∈ viewIndices parent (offset + t * stride) rest) :
    q ∈ (List.range extent).flatMap (fun t => viewIndices parent (offset + t * stride) rest) := by
  rw [List.mem_flatMap]
  exact ⟨t, List.mem_range.2 ht, hq⟩

theorem split_covers (dim : Dim) (k n : Int) (hk : 0 < k) (hkn : k < n)
    (shape pre : List (Dim × Int))
    (hnodup : ((pre ++ shape).map Prod.fst).Nodup)
    (hext : (shape.find? (fun p => decide (p.1 = dim))).map Prod.snd = some n)
    (offset q : Nat) (h1 : offset ≤ q)
    (h2 : q < offset + shapeVolume (⟨shape⟩ : Dimensions).natShape) :
    q ∈ viewIndices (⟨pre ++ shape⟩ : Dimensions).natShape offset
        (⟨Tagged.resizeShape dim k shape⟩ : Dimensions).natShape ∨
    q ∈ viewIndices (⟨pre ++ shape⟩ : Dimensions).natShape
        (offset + k.toNat * shapeStride dim (⟨pre ++ shape⟩ : Dimensions).natShape)
        (⟨Tagged.resizeShape dim (n - k) shape⟩ : Dimensions).natShape := by
  induction shape generalizing pre offset with
  | nil => simp at hext
  | cons p rest ih =>
    obtain ⟨label, extent⟩ := p
    have hl : label ∉ ((⟨pre⟩ : Dimensions).natShape).map Prod.fst := by
      intro hmem
      rw [natShape_labels] at hmem
      rw [List.map_append, List.nodup_append] at hnodup
      exact hnodup.2.2 hmem (by simp)
    have hstride : shapeStride label (⟨pre ++ (label, extent) :: rest⟩ : Dimensions).natShape
        = shapeVolume (⟨rest⟩ : Dimensions).natShape := by
      rw [natShape_append, natShape_cons]
      exact shapeStride_append label _ _ _ hl
    have hsuffix : ∀ o, viewIndices (⟨pre ++ (label, extent) :: rest⟩ : Dimensions).natShape o
        (⟨rest⟩ : Dimensions).natShape
        = List.range' o (shapeVolume (⟨rest⟩ : Dimensions).natShape) := by
      intro o
      have h3 := viewIndices_suffix ((⟨pre ++ [(label, extent)]⟩ : Dimensions).natShape)
        ((⟨rest⟩ : Dimensions).natShape) o (by
          rw [← natShape_append, natShape_labels]
          simpa [Tagged.Dimensions.labels] using hnodup)
      rw [← natShape_append] at h3
      simpa using h3
    rw [natShape_cons, shapeVolume_cons] at h2
    simp only at h2
    by_cases hd : label = dim
    · subst hd
      have he : extent = n := by simpa using hext
      subst he
      have hr1 : Tagged.resizeShape label k ((label, extent) :: rest) = (label, k) :: rest := by
        simp [Tagged.resizeShape]
      have hr2 : Tagged.resizeShape label (extent - k) ((label, extent) :: rest)
          = (label, extent - k) :: rest := by
        simp [Tagged.resizeShape]
      rw [hr1, hr2, natShape_cons, natShape_cons]
      simp only [viewIndices, hstride, hsuffix]
      rw [flatMap_range, flatMap_range, List.mem_range'_1, List.mem_range'_1]
      have hsum : extent.toNat = k.toNat + (extent - k).toNat := by omega
      rw [hsum, Nat.add_mul] at h2
      omega
    · have hr : ∀ x, Tagged.resizeShape dim x ((label, extent) :: rest)
          = (label, extent) :: Tagged.resizeShape dim x rest := by
        intro x
        simp [Tagged.resizeShape, hd]
      have hext2 : (rest.find? (fun p => decide (p.1 = dim))).map Prod.snd = some n := by
        simpa [List.find?_cons, hd] using hext
      rw [hr, hr, natShape_cons, natShape_cons]
      simp only [viewIndices, hstride]
      generalize hV : shapeVolume (⟨rest⟩ : Dimensions).natShape = V at h2 hstride ⊢
      have hVpos : 0 < V := by
        rcases Nat.eq_zero_or_pos V with h0 | h0
        · rw [h0] at h2; omega
        · exact h0
      have ht : (q - offset) / V < extent.toNat := by
        rw [Nat.div_lt_iff_lt_mul hVpos]
        omega
      have hlow : offset + (q - offset) / V * V ≤ q := by
        have := Nat.div_mul_le_self (q - offset) V
        omega
      have hhigh : q < offset + (q - offset) / V * V + V := by
        have := Nat.lt_div_mul_add (a := q - offset) hVpos
        omega
      have hpre : pre ++ (label, extent) :: rest = (pre ++ [(label, extent)]) ++ rest := by
        simp
      have h4 := ih (pre ++ [(label, extent)]) (by rw [← hpre]; exact hnodup) hext2
        (offset + (q - offset) / V * V) hlow (by rw [hV]; exact hhigh)
      rw [← hpre] at h4
      rcases h4 with h5 | h5
      · left
        exact mem_flatMap_range _ _ _ V offset q _ ht h5
      · right
        apply mem_flatMap_range _ _ _ V _ q _ ht
        rw [Nat.add_right_comm]
        exact h5

theorem resizeShape_resizeShape (dim : Dim) (x y : Int) (shape : List (Dim × Int)) :
    Tagged.resizeShape dim y (Tagged.resizeShape dim x shape) = Tagged.resizeShape dim y shape := by
  induction shape with
  | nil => rfl
  | cons p rest ih =>
    obtain ⟨label, extent⟩ := p
    by_cases hl : label = dim
    · simp [Tagged.resizeShape, hl]
    · simp [Tagged.resizeShape, hl, ih]

theorem resizeShape_self (dim : Dim) (n : Int) (shape : List (Dim × Int))
    (h : (shape.find? (fun p => decide (p.1 = dim))).map Prod.snd = some n) :
    Tagged.resizeShape dim n shape = shape := by
  induction shape with
  | nil => rfl
  | cons p rest ih =>
    obtain ⟨label, extent⟩ := p
    by_cases hl : label = dim
    · have he : extent = n := by simpa [hl] using h
      simp [Tagged.resizeShape, hl, he]
    · have h2 : (rest.find? (fun p => decide (p.1 = dim))).map Prod.snd = some n := by
        simpa [List.find?_cons, hl] using h
      simp [Tagged.resizeShape, hl, ih h2]

theorem resize_resize_self (D : Dimensions) (dim : Dim) (x n : Int)
    (h : D.extent dim = some n) : (D.resize dim x).resize dim n = D := by
  obtain ⟨shape⟩ := D
  simp only [Tagged.Dimensions.resize, resizeShape_resizeShape]
  rw [resizeShape_self dim n shape h]

theorem resize_count (D : Dimensions) (dim : Dim) (x : Int) :
    (D.resize dim x).count = D.count := by
  have h := congrArg List.length (resize_labels D dim x)
  simp only [Tagged.Dimensions.labels, List.length_map] at h
  simp only [Tagged.Dimensions.count, h]

theorem contains_of_extent (D : Dimensions) (dim : Dim) (n : Int) (h : D.extent dim = some n) :
    D.contains dim = true := by
  obtain ⟨shape⟩ := D
  simp only [Tagged.Dimensions.extent, Tagged.Dimensions.contains] at h ⊢
  cases hf : shape.find? (fun p => decide (p.1 = dim)) with
  | none => rw [hf] at h; cases h
  | some p =>
    rw [List.any_eq_true]
    have h2 := List.find?_some hf
    exact ⟨p, List.mem_of_find?_eq_some hf, h2⟩

theorem concatenateCheck_ok (dims1 dims2 : Dimensions) (dim : Dim) (labels : List Dim)
    (h : ∀ d ∈ labels, d ≠ dim → dims2.contains d = true ∧ dims2.extent d = dims1.extent d) :
    concatenateCheck dims1 dims2 dim labels = .ok ⟨⟩ := by
  induction labels with
  | nil => rfl
  | cons d rest ih =>
    unfold concatenateCheck
    by_cases hd : d = dim
    · rw [if_neg (not_not.2 hd)]
      exact ih (fun e he => h e (List.mem_cons_of_mem _ he))
    · obtain ⟨h1, h2⟩ := h d (List.mem_cons_self _ _) hd
      rw [if_pos hd, h1]
      simp only [Bool.not_true, Bool.false_eq_true, if_false]
      rw [if_neg (not_not.2 h2)]
      exact ih (fun e he => h e (List.mem_cons_of_mem _ he))

theorem part_as_source (dims iterDims : Dimensions) (dtype : DType) (xs : List Value) (dim : Dim)
    (extent : Int) (hiter : iterDims = dims) (hnodup : dims.labels.Nodup)
    (hlen : xs.length = shapeVolume dims.natShape) (hdim : dims.extent dim = some extent) :
    (∃ view, (⟨dims, dtype, .DataModel xs⟩ : VariableConcept).getViewAt false iterDims dim 0
        = .ok view ∧ view.elements = xs) ∧
    ∃ span, (⟨dims, dtype, .DataModel xs⟩ : VariableConcept).getSpanAt false dim 0 extent
        = .ok span ∧ span.elements xs = xs := by
  subst hiter
  have hc := contains_of_extent _ _ _ hdim
  constructor
  · refine ⟨_, rfl, ?_⟩
    simp only [VariableView.elements, VariableView.indices, makeVariableView, hc, if_true,
      Int.zero_mul]
    rw [show (0 : Int).toNat = 0 from rfl,
      viewIndices_self _ _ (by rw [natShape_labels]; exact hnodup), ← hlen,
      ← List.range_eq_range', map_readAt_range]
  · refine ⟨⟨0, xs.length⟩, ?_, ?_⟩
    · simp [getSpanAt, requireMutable, requireContiguous, makeSpan, hc, hdim,
        VariableConcept.isConstView, VariableConcept.isView, VariableConcept.dataOffset,
        VariableConcept.size, bind, Except.bind, VariableConcept.dimensions]
    · simp only [GslSpan.elements, Int.toNat_ofNat]
      have h2 : (fun i => readAt xs ((0 : Int).toNat + i)) = readAt xs := by
        funext i
        simp
      rw [h2, map_readAt_range]

theorem toNat_mul_offset (D : Dimensions) (dim : Dim) (k : Int) (hk : 0 ≤ k) :
    (k * D.offset dim).toNat = k.toNat * shapeStride dim D.natShape := by
  obtain ⟨m, rfl⟩ := Int.eq_ofNat_of_zero_le hk
  simp only [Tagged.Dimensions.offset, Int.toNat_ofNat]
  rw [← Nat.cast_mul, Int.toNat_ofNat]

theorem getSpanAt_dataModel (D : Dimensions) (dtype : DType) (buffer : List Value) (dim : Dim)
    (begin end_ : Int) (hc : D.contains dim = true) (hne : D.extent dim ≠ some (end_ - begin)) :
    (⟨D, dtype, .DataModel buffer⟩ : VariableConcept).getSpanAt true dim begin end_
      = .ok ⟨0 + begin * D.offset dim, end_ * D.offset dim - begin * D.offset dim⟩ := by
  have h1 : (!D.contains dim && (decide (begin ≠ 0) || decide (end_ ≠ 1))) = false := by
    rw [hc]; rfl
  have h2 : (!D.contains dim || decide (D.extent dim = some (end_ - begin))) = false := by
    rw [hc]; simp [hne]
  unfold getSpanAt makeSpan
  simp only [VariableConcept.dimensions, h1, h2]
  rfl

theorem concatenate_parts (to_string : DType → String) (tag : Tag) (unit : Unit) (name : String)
    (D : Dimensions) (dtype : DType) (b : List Value) (dim : Dim) (k n : Int)
    (hpos : ∀ p ∈ D.shape, 0 ≤ p.2) (hnodup : D.labels.Nodup) (hlen : D.volume = b.length)
    (hext : D.extent dim = some n) (hk : 0 < k) (hkn : k < n) :
    concatenate to_string
        ⟨tag, unit, name, ⟨D.resize dim k, dtype, .DataModel
          ((viewIndices D.natShape 0 (D.resize dim k).natShape).map (readAt b))⟩⟩
        ⟨tag, unit, name, ⟨D.resize dim (n - k), dtype, .DataModel
          ((viewIndices D.natShape (k * D.offset dim).toNat
            (D.resize dim (n - k)).natShape).map (readAt b))⟩⟩ dim
      = .ok ⟨tag, unit, name, ⟨D, dtype, .DataModel b⟩⟩ := by
  have hc : D.contains dim = true := contains_of_extent D dim n hext
  have he1 : (D.resize dim k).extent dim = some k := by
    rw [resize_extent, if_pos ⟨rfl, hc⟩]
  have he2 : (D.resize dim (n - k)).extent dim = some (n - k) := by
    rw [resize_extent, if_pos ⟨rfl, hc⟩]
  have hc1 := contains_of_extent _ _ _ he1
  have hc2 := contains_of_extent _ _ _ he2
  have hpos1 : ∀ p ∈ (D.resize dim k).shape, 0 ≤ p.2 :=
    resizeShape_nonneg dim k (by omega) D.shape hpos
  have hpos2 : ∀ p ∈ (D.resize dim (n - k)).shape, 0 ≤ p.2 :=
    resizeShape_nonneg dim (n - k) (by omega) D.shape hpos
  have hnodup1 : (D.resize dim k).labels.Nodup := by rw [resize_labels]; exact hnodup
  have hnodup2 : (D.resize dim (n - k)).labels.Nodup := by rw [resize_labels]; exact hnodup
  generalize hxs0 : (viewIndices D.natShape 0 (D.resize dim k).natShape).map (readAt b) = xs0
  generalize hxs1 : (viewIndices D.natShape (k * D.offset dim).toNat
    (D.resize dim (n - k)).natShape).map (readAt b) = xs1
  have hl0 : xs0.length = shapeVolume (D.resize dim k).natShape := by
    rw [← hxs0, List.length_map, viewIndices_length]
  have hl1 : xs1.length = shapeVolume (D.resize dim (n - k)).natShape := by
    rw [← hxs1, List.length_map, viewIndices_length]
  have hcheck : concatenateCheck (D.resize dim k) (D.resize dim (n - k)) dim
      (D.resize dim k).labels = .ok ⟨⟩ := by
    apply concatenateCheck_ok
    intro d hd hne
    rw [resize_labels] at hd
    have hcd : D.contains d = true := (contains_iff_mem_labels D d).2 hd
    constructor
    · rw [contains_iff_mem_labels, resize_labels]; exact hd
    · rw [resize_extent, resize_extent, if_neg (fun h => hne h.1), if_neg (fun h => hne h.1)]
  have hclone : (⟨tag, unit, name, ⟨D.resize dim k, dtype, .DataModel xs0⟩⟩ : Variable).clone
      = .ok ⟨tag, unit, name, ⟨D.resize dim k, dtype, .DataModel xs0⟩⟩ := by
    unfold Variable.clone VariableConcept.clone
    simp only
    rw [(makeDataModel_ok_iff _ dtype xs0 _).2
      ⟨by rw [← natShape_volume _ hpos1, hl0], rfl⟩]
    rfl
  have hx1 : extentOf (D.resize dim k) dim = .ok k := by
    unfold extentOf; rw [he1]
  have hx2 : extentOf (D.resize dim (n - k)) dim = .ok (n - k) := by
    unfold extentOf; rw [he2]
  have hdims : (D.resize dim k).resize dim (1 + (k - 1) + (1 + (n - k - 1))) = D := by
    have : 1 + (k - 1) + (1 + (n - k - 1)) = n := by ring
    rw [this]
    exact resize_resize_self D dim k n hext
  obtain ⟨buffer, hset, hbuf⟩ := setDimensions_dataModel
    (⟨tag, unit, name, ⟨D.resize dim k, dtype, .DataModel xs0⟩⟩ : Variable) (D.resize dim k) dtype
    xs0 D rfl (by rw [← natShape_volume _ hpos1, hl0]) (volume_nonneg D hpos)
  unfold concatenate
  simp only [Variable.tag, Variable.unit, Variable.name, Variable.dimensions, Variable.data,
    VariableConcept.dimensions, ne_eq, not_true_eq_false, if_false, hcheck, bind, Except.bind,
    hc1, hc2, if_true, resize_count, hclone, hx1, hx2, Except.map, pure, Except.pure, hdims, hset]
  have e1 : 1 + (k - 1) = k := by ring
  have e2 : 1 + (n - k - 1) = n - k := by ring
  rw [e1, e2]
  have hsrc0 := part_as_source (D.resize dim k) (D.resize dim k) dtype xs0 dim k rfl hnodup1 hl0 he1
  have hsrc1 := part_as_source (D.resize dim (n - k)) (D.resize dim (n - k)) dtype xs1 dim (n - k)
    rfl hnodup2 hl1 he2
  have hsp1 := getSpanAt_dataModel D dtype buffer dim 0 (0 + (k - 0)) hc (by
    rw [hext]
    intro h
    have := Option.some.inj h
    omega)
  rw [copy_into_dataModel to_string D dtype buffer
    ⟨D.resize dim k, dtype, .DataModel xs0⟩ dim 0 0 k (D.resize dim k) 0 xs0
    (by rw [hc]; simp) rfl ⟨_, hsp1, by simp⟩ (by simp) hsrc0.1 (fun _ => hsrc0.2) hl0]
  simp only
  have hsp2 := getSpanAt_dataModel D dtype
    (writeAll buffer (viewIndices D.natShape 0 (D.resize dim k).natShape) xs0) dim k
    (k + (n - k - 0)) hc (by
    rw [hext]
    intro h
    have := Option.some.inj h
    omega)
  rw [copy_into_dataModel to_string D dtype _
    ⟨D.resize dim (n - k), dtype, .DataModel xs1⟩ dim k 0 (n - k) (D.resize dim (n - k))
    (k * D.offset dim).toNat xs1
    (by rw [hc]; simp) rfl ⟨_, hsp2, by simp⟩ (by simp [hc]) hsrc1.1 (fun _ => hsrc1.2) hl1]
  simp only
  have hblen : buffer.length = b.length := by
    have : (buffer.length : Int) = b.length := by rw [hbuf, hlen]
    exact_mod_cast this
  have hbvol : b.length = shapeVolume D.natShape := by
    have : (b.length : Int) = shapeVolume D.natShape := by
      rw [natShape_volume D hpos, hlen]
    exact_mod_cast this
  have hfinal : writeAll (writeAll buffer (viewIndices D.natShape 0 (D.resize dim k).natShape) xs0)
      (viewIndices D.natShape (k * D.offset dim).toNat (D.resize dim (n - k)).natShape) xs1
      = b := by
    apply ext_readAt _ _ (by rw [writeAll_length, writeAll_length, hblen])
    intro q hq
    rw [writeAll_length, writeAll_length] at hq
    rw [← hxs1, ← hxs0, readAt_writeAll (readAt b) _ _ q (by rw [writeAll_length]; exact hq),
      readAt_writeAll (readAt b) _ _ q hq]
    have hcover : q ∈ viewIndices D.natShape 0 (D.resize dim k).natShape ∨
        q ∈ viewIndices D.natShape (0 + k.toNat * shapeStride dim D.natShape)
          (D.resize dim (n - k)).natShape :=
      split_covers dim k n hk hkn D.shape [] (by
        simpa [Tagged.Dimensions.labels] using hnodup) hext 0 q (Nat.zero_le _) (by
        rw [Nat.zero_add]
        exact lt_of_lt_of_eq hq (hblen.trans hbvol))
    rw [toNat_mul_offset D dim k (by omega)]
    rw [Nat.zero_add] at hcover
    rcases hcover with h1 | h1
    · by_cases h2 : q ∈ viewIndices D.natShape (k.toNat * shapeStride dim D.natShape)
          (D.resize dim (n - k)).natShape
      · rw [if_pos h2]
      · rw [if_neg h2, if_pos h1]
    · rw [if_pos h1]
  rw [hfinal]

theorem equal_self (xs : List Value) (h : ∀ x ∈ xs, Value.eq x x = true) : equal xs xs = true := by
  induction xs with
  | nil => rfl
  | cons x xs ih =>
    simp only [equal, Bool.and_eq_true]
    exact ⟨h x (List.mem_cons_self _ _), ih (fun y hy => h y (List.mem_cons_of_mem _ hy))⟩

theorem eq_self (to_string : DType → String) (v : Variable) (h : v.m_object.valid = true) :
    v.eq to_string v = .ok (equal v.data.values v.data.values) := by
  unfold Variable.eq equals
  simp only [ne_eq, not_true_eq_false, if_false, decide_True, Bool.not_true, Bool.false_eq_true]
  exact eq_equal_values to_string v.m_object v.m_object h h rfl rfl

/-- Claim C16, the input at which it fails: the variable of the doubles NaN, 1 along `Dim::X`
is split at index 1 into two parts, and the parts are joined again.  The result
has the elements of the variable, but `==` between the two is false, since NaN
does not compare equal to itself. -/
theorem concatenate_split_claim_refuted :
    exampleWithNaN.dimensions.extent Dim.X = some 2 ∧
    ∃ first second joined,
      split exampleToString exampleWithNaN Dim.X [1] = .ok [first, second] ∧
      concatenate exampleToString first second Dim.X = .ok joined ∧
      joined.eq exampleToString exampleWithNaN = .ok false :=
  ⟨by decide, _, _, _, by rfl, by rfl, by rfl⟩

/-- Claim C16, amended: for a variable `v` that owns valid data, a dimension `dim` of `v`
with extent `n` and an index `k` with `0 < k < n`, `split(v, dim, {k})` gives
exactly two parts, with the extents `k` and `n - k` along `dim`, and
`concatenate(parts[0], parts[1], dim)` gives a variable with the name, unit, tag,
dimensions, element type and elements of `v`; it is `== v` where every element of
`v` compares equal to itself. -/
theorem split_then_concatenate (to_string : DType → String) (v : Variable) (dim : Dim)
    (k n : Int) (hown : v.m_object.isView = false) (hvalid : v.m_object.valid = true)
    (hinv : Dim.Invalid ∉ v.dimensions.labels) (hext : v.dimensions.extent dim = some n)
    (hk : 0 < k) (hkn : k < n) :
    ∃ first second joined,
      split to_string v dim [k] = .ok [first, second] ∧
      first.dimensions.extent dim = some k ∧
      second.dimensions.extent dim = some (n - k) ∧
      concatenate to_string first second dim = .ok joined ∧
      joined = v ∧
      ((∀ x ∈ v.data.values, Value.eq x x = true) → joined.eq to_string v = .ok true) := by
  obtain ⟨tag, unit, name, D, dtype, model⟩ := v
  cases model with
  | ViewModel view isConst => simp [VariableConcept.isView] at hown
  | DataModel b =>
    obtain ⟨hpos, hnodup, hlen⟩ := (valid_iff _).1 hvalid
    simp only [Variable.dimensions, VariableConcept.dimensions, VariableConcept.size] at hpos
    simp only [Variable.dimensions, VariableConcept.dimensions, VariableConcept.size] at hnodup
    simp only [Variable.dimensions, VariableConcept.dimensions, VariableConcept.size] at hlen
    simp only [Variable.dimensions, VariableConcept.dimensions, VariableConcept.size] at hinv
    simp only [Variable.dimensions, VariableConcept.dimensions, VariableConcept.size] at hext
    have hc : D.contains dim = true := contains_of_extent D dim n hext
    have h0 := sliceVariable_dataModel to_string
      ⟨tag, unit, name, ⟨D, dtype, .DataModel b⟩⟩ D dtype b dim 0 k rfl hpos hnodup hlen hinv hc
      (le_refl 0) (by omega)
    have h1 := sliceVariable_dataModel to_string
      ⟨tag, unit, name, ⟨D, dtype, .DataModel b⟩⟩ D dtype b dim k n rfl hpos hnodup hlen hinv hc
      (by omega) (by omega)
    have hx : extentOf D dim = .ok n := by
      unfold extentOf; rw [hext]
    simp only [sub_zero, Int.zero_mul] at h0
    rw [show (0 : Int).toNat = 0 from rfl] at h0
    refine ⟨_, _, _, ?_, ?_, ?_,
      concatenate_parts to_string tag unit name D dtype b dim k n hpos hnodup hlen hext hk hkn,
      rfl, ?_⟩
    · unfold split
      simp only [h0, bind, Except.bind, splitLoop, Variable.dimensions, VariableConcept.dimensions,
        hx, h1, pure, Except.pure]
    · simp only [Variable.dimensions, VariableConcept.dimensions]
      rw [resize_extent, if_pos ⟨rfl, hc⟩]
    · simp only [Variable.dimensions, VariableConcept.dimensions]
      rw [resize_extent, if_pos ⟨rfl, hc⟩]
    · intro hrefl
      rw [eq_self to_string _ hvalid, equal_self _ hrefl]

/-- Witness of C16: the variable of two by three doubles, split along `Dim::Y` at index 1. -/
theorem split_then_concatenate_witness :
    exampleMatrix.m_object.valid = true ∧
    exampleMatrix.dimensions.extent Dim.Y = some 3 ∧
    ∃ first second joined,
      split exampleToString exampleMatrix Dim.Y [1] = .ok [first, second] ∧
      first.dimensions.extent Dim.Y = some 1 ∧
      second.dimensions.extent Dim.Y = some (3 - 1) ∧
      concatenate exampleToString first second Dim.Y = .ok joined ∧
      joined = exampleMatrix ∧
      ((∀ x ∈ exampleMatrix.data.values, Value.eq x x = true) →
        joined.eq exampleToString exampleMatrix = .ok true) :=
  ⟨by decide, by decide,
    split_then_concatenate exampleToString exampleMatrix Dim.Y 1 3 (by decide) (by decide)
      (by decide) (by decide) (by decide) (by decide)⟩

end Storage

namespace core

/-! ## Erasing a data item -/

theorem setExtent_threw (Sparse : Int) (t : ExtentMap) (dim : Dim) (e : Int) (isCoord : Bool)
    (msg : String) (h : (extents.setExtent Sparse t dim e isCoord).threw = some msg) :
    msg = extents.lengthMismatch := by
  unfold extents.setExtent at h
  cases ht : t dim with
  | none =>
    rw [ht] at h
    exact absurd h (by simp)
  | some held =>
    rw [ht] at h
    simp only at h
    split_ifs at h <;> exact (Option.some.inj h).symm

theorem setDimsLoop_threw (Sparse : Int) (dims : Dimensions) (coordDim : Dim)
    (labels : List Dim) (tmp : ExtentMap) (msg : String)
    (h : (setDimsLoop Sparse dims coordDim labels tmp).threw = some msg) :
    msg = extents.lengthMismatch ∨ msg = "Dimensions::operator[]" := by
  induction labels generalizing tmp with
  | nil => exact absurd h (by simp [setDimsLoop])
  | cons dim rest ih =>
    unfold setDimsLoop at h
    split at h
    · exact Or.inr (Option.some.inj h).symm
    · rename_i e he
      split at h
      · exact ih _ h
      · rename_i tmp1 m heq
        have h2 : (extents.setExtent Sparse tmp dim e (decide (dim = coordDim))).threw = some m := by
          rw [heq]
        have h3 := setExtent_threw _ _ _ _ _ _ h2
        rw [← Option.some.inj h, h3]
        exact Or.inl rfl

theorem setDimsTable_threw (Sparse : Int) (t : ExtentMap) (dims : Dimensions) (coordDim : Dim)
    (msg : String) (h : setDimsTable Sparse t dims coordDim = .error msg) :
    msg = extents.lengthMismatch ∨ msg = "Dimensions::operator[]" := by
  unfold setDimsTable at h
  split at h
  · rename_i t1 m heq
    have h2 : (setDimsLoop Sparse dims coordDim (dims.denseLabels Sparse) t).threw = some m := by
      rw [heq]
    cases h
    exact setDimsLoop_threw _ _ _ _ _ _ h2
  · rename_i tmp1 heq1
    split at h
    · split at h
      · rename_i t2 m heq
        have h2 : (extents.setExtent Sparse tmp1 (dims.sparseDim Sparse) Sparse false).threw
            = some m := by rw [heq]
        cases h
        exact Or.inl (setExtent_threw _ _ _ _ _ _ h2)
      · cases h
    · cases h

theorem rebuildLoop_threw (Sparse : Int) (entries : List (Option Dimensions × Dim))
    (ds : Dataset) (msg : String) (h : (rebuildLoop Sparse entries ds).threw = some msg) :
    msg = extents.lengthMismatch ∨ msg = "Dimensions::operator[]" ∨
      msg = "DataConstProxy::dims" := by
  induction entries generalizing ds with
  | nil => exact absurd h (by simp [rebuildLoop])
  | cons entry rest ih =>
    obtain ⟨od, cd⟩ := entry
    cases od with
    | none =>
      simp only [rebuildLoop] at h
      exact Or.inr (Or.inr (Option.some.inj h).symm)
    | some dims =>
      unfold rebuildLoop Dataset.setDims at h
      cases htab : setDimsTable Sparse ds.m_dims dims cd with
      | error m =>
        rw [htab] at h
        simp only at h
        rw [← Option.some.inj h]
        rcases setDimsTable_threw _ _ _ _ _ htab with h1 | h1
        · exact Or.inl h1
        · exact Or.inr (Or.inl h1)
      | ok tmp =>
        rw [htab] at h
        exact ih _ h

theorem rebuildLoop_members (Sparse : Int) (entries : List (Option Dimensions × Dim))
    (ds : Dataset) :
    (rebuildLoop Sparse entries ds).dataset.m_data = ds.m_data ∧
    (rebuildLoop Sparse entries ds).dataset.m_coords = ds.m_coords ∧
    (rebuildLoop Sparse entries ds).dataset.m_labels = ds.m_labels ∧
    (rebuildLoop Sparse entries ds).dataset.m_masks = ds.m_masks ∧
    (rebuildLoop Sparse entries ds).dataset.m_attrs = ds.m_attrs := by
  induction entries generalizing ds with
  | nil => exact ⟨rfl, rfl, rfl, rfl, rfl⟩
  | cons entry rest ih =>
    obtain ⟨od, cd⟩ := entry
    cases od with
    | none => exact ⟨rfl, rfl, rfl, rfl, rfl⟩
    | some dims =>
      unfold rebuildLoop Dataset.setDims
      cases htab : setDimsTable Sparse ds.m_dims dims cd with
      | error m => exact ⟨rfl, rfl, rfl, rfl, rfl⟩
      | ok tmp => exact ih _

theorem eraseMessage_ne (name msg : String)
    (h : msg = extents.lengthMismatch ∨ msg = "Dimensions::operator[]" ∨
      msg = "DataConstProxy::dims") : msg ≠ eraseMessage name := by
  intro heq
  have h1 : (eraseMessage name).data.head? = some 'C' := by
    unfold eraseMessage
    rw [String.data_append, String.data_append]
    rfl
  rw [← heq] at h1
  rcases h with h | h | h <;> rw [h] at h1 <;> revert h1 <;> decide

theorem findItem_eraseKey_self {V : Type} (name : String) (m : List (String × V)) :
    findItem name (eraseKey name m) = none := by
  unfold findItem eraseKey
  rw [Option.map_eq_none', List.find?_eq_none]
  intro p hp
  have := (List.mem_filter.1 hp).2
  simpa using this

theorem findItem_eraseKey_other {V : Type} (name other : String) (m : List (String × V))
    (h : other ≠ name) : findItem other (eraseKey name m) = findItem other m := by
  unfold findItem eraseKey
  congr 1
  induction m with
  | nil => rfl
  | cons p rest ih =>
    by_cases hp : p.1 = name
    · have h1 : decide (p.1 ≠ name) = false := by simp [hp]
      have h2 : decide (p.1 = other) = false := by
        simp only [decide_eq_false_iff_not]
        intro h3
        exact h (h3.symm.trans hp)
      simp only [List.filter_cons, List.find?_cons, h1, h2]
      exact ih
    · have h1 : decide (p.1 ≠ name) = true := by simp [hp]
      by_cases hd : p.1 = other
      · have h2 : decide (p.1 = other) = true := by simp [hd]
        simp only [List.filter_cons, List.find?_cons, h1, h2, if_true]
      · have h2 : decide (p.1 = other) = false := by simp [hd]
        simp only [List.filter_cons, List.find?_cons, h1, h2, if_true]
        exact ih

/-- Claim C27: `Dataset::erase(name)` throws the `DatasetError` exactly when there is no data
item called `name`, and then the dataset is as before; otherwise the item is
removed from `m_data`, so that `contains(name)` is false afterwards and every
other data item is as before, and the coordinates, labels, masks and attributes
of the dataset are as before. -/
theorem erase_removes_item (Sparse : Int) (ds : Dataset) (name : String) :
    ((ds.erase Sparse name).threw = some (eraseMessage name) ↔ ds.contains name = false) ∧
    (ds.contains name = false → (ds.erase Sparse name).dataset = ds) ∧
    (ds.contains name = true →
      (ds.erase Sparse name).dataset.contains name = false ∧
      (ds.erase Sparse name).dataset.m_data = eraseKey name ds.m_data ∧
      (∀ other, other ≠ name →
        findItem other (ds.erase Sparse name).dataset.m_data = findItem other ds.m_data) ∧
      (ds.erase Sparse name).dataset.m_coords = ds.m_coords ∧
      (ds.erase Sparse name).dataset.m_labels = ds.m_labels ∧
      (ds.erase Sparse name).dataset.m_masks = ds.m_masks ∧
      (ds.erase Sparse name).dataset.m_attrs = ds.m_attrs) := by
  have hdata : ds.contains name = true →
      (ds.erase Sparse name).dataset.m_data = eraseKey name ds.m_data := by
    intro hc
    unfold Dataset.erase Dataset.rebuildDims
    rw [if_pos hc]
    exact (rebuildLoop_members Sparse _ _).1
  refine ⟨⟨?_, ?_⟩, ?_, ?_⟩
  · intro h
    cases hc : ds.contains name with
    | false => rfl
    | true =>
      unfold Dataset.erase Dataset.rebuildDims at h
      rw [if_pos hc] at h
      exact absurd rfl (eraseMessage_ne name _ (rebuildLoop_threw Sparse _ _ _ h))
  · intro hc
    unfold Dataset.erase
    simp [hc, eraseMessage]
  · intro hc
    unfold Dataset.erase
    simp [hc]
  · intro hc
    have hm := hdata hc
    refine ⟨?_, hm, ?_, ?_⟩
    · unfold Dataset.contains
      rw [hm, findItem_eraseKey_self]
      rfl
    · intro other hne
      rw [hm, findItem_eraseKey_other name other _ hne]
    · unfold Dataset.erase Dataset.rebuildDims
      rw [if_pos hc]
      exact (rebuildLoop_members Sparse _ _).2

/-! ## Erasing sparse labels -/

/-- Claim C28, the input at which the code differs: the item `a` has sparse data, a sparse
coordinate and the two sparse labels `l1` and `l2`.  `eraseSparseLabels("a", "l1")`
does not throw, and afterwards the dataset has no item `a` at all, since for an item
with more than one label the source erases the item instead of the label. -/
theorem eraseSparseLabels_erases_item :
    (findItem "a" (exampleSparseLabels (-9223372036854775808)).m_data).map
        (fun item => item.labels.map Prod.fst) = some ["l1", "l2"] ∧
    ((exampleSparseLabels (-9223372036854775808)).eraseSparseLabels "a" "l1").threw = none ∧
    ((exampleSparseLabels (-9223372036854775808)).eraseSparseLabels "a" "l1").dataset.contains "a"
      = false ∧
    ((exampleSparseLabels (-9223372036854775808)).eraseSparseLabels "a" "l1").dataset.m_data
      = [] := by
  refine ⟨by decide, by decide, by decide, by decide⟩

end core

namespace aligned

/-! ## The fused loop of the multiplication with variances -/

theorem multiplyLoop_values (v2 e2 : Span) (start count : Nat) (state : Span × Span) (k : Nat) :
    (multiplyLoop v2 e2 start count state).1 k
        = (if start ≤ k ∧ k < start + count then Value.mul (state.1 k) (v2 k) else state.1 k) ∧
    (multiplyLoop v2 e2 start count state).2 k
        = (if start ≤ k ∧ k < start + count then
            Value.add (Value.mul (state.2 k) (Value.mul (v2 k) (v2 k)))
              (Value.mul (e2 k) (Value.mul (state.1 k) (state.1 k)))
          else state.2 k) := by
  induction count generalizing start state with
  | zero =>
    have h : ¬ (start ≤ k ∧ k < start + 0) := by omega
    simp only [multiplyLoop, if_neg h, and_self]
  | succ n ih =>
    simp only [multiplyLoop]
    obtain ⟨h1, h2⟩ := ih (start + 1) (multiplyStep v2 e2 start state)
    rw [h1, h2]
    by_cases hk : k = start
    · subst hk
      have ha : ¬ (k + 1 ≤ k ∧ k < k + 1 + n) := by omega
      have hb : k ≤ k ∧ k < k + (n + 1) := by omega
      simp only [if_neg ha, if_pos hb, multiplyStep, Span.set, if_true, and_self]
    · by_cases hr : start + 1 ≤ k ∧ k < start + 1 + n
      · have hb : start ≤ k ∧ k < start + (n + 1) := by omega
        simp only [if_pos hr, if_pos hb, multiplyStep, Span.set, if_neg hk, and_self]
      · have hb : ¬ (start ≤ k ∧ k < start + (n + 1)) := by omega
        simp only [if_neg hr, if_neg hb, multiplyStep, Span.set, if_neg hk, and_self]

/-- Claim C23: after `aligned::multiply(size, v1, e1, v2, e2)`, for every `i < size` the
element `e1[i]` is `e1[i] * (v2[i] * v2[i]) + e2[i] * (v1[i] * v1[i])` of the
elements before the call and `v1[i]` is the old `v1[i] * v2[i]`, and the elements of
`v1` and `e1` at the indices from `size` on are as before. -/
theorem multiply_elements (size : Int) (v1 e1 v2 e2 : Span) (i : Nat) :
    ((i : Int) < size →
      (multiply size v1 e1 v2 e2).2 i
          = Value.add (Value.mul (e1 i) (Value.mul (v2 i) (v2 i)))
              (Value.mul (e2 i) (Value.mul (v1 i) (v1 i))) ∧
      (multiply size v1 e1 v2 e2).1 i = Value.mul (v1 i) (v2 i)) ∧
    (size ≤ (i : Int) →
      (multiply size v1 e1 v2 e2).1 i = v1 i ∧ (multiply size v1 e1 v2 e2).2 i = e1 i) := by
  obtain ⟨h1, h2⟩ := multiplyLoop_values v2 e2 0 size.toNat (v1, e1) i
  unfold multiply
  constructor
  · intro hi
    have hc : 0 ≤ i ∧ i < 0 + size.toNat := by omega
    rw [h1, h2, if_pos hc, if_pos hc]
    exact ⟨rfl, rfl⟩
  · intro hi
    have hc : ¬ (0 ≤ i ∧ i < 0 + size.toNat) := by omega
    rw [h1, h2, if_neg hc, if_neg hc]
    exact ⟨rfl, rfl⟩

end aligned

namespace core

/-! ## Equality of data proxies -/

/-- Claim C29: `operator==` of two data proxies is true exactly when `hasData()` agrees,
`hasVariances()` agrees, the proxies of the coordinates, of the labels, of the masks
and of the attributes do not differ and, where `a` has data, `a.data()` and
`b.data()` do not differ; and the result is the same for the proxies of the same
items under any other names. -/
theorem data_proxy_equality {Proxy VariableProxy : Type}
    (I : ProxyInterface Proxy VariableProxy) (a b : DataConstProxy) (nameA nameB : String) :
    (DataConstProxy.eq I a b = true ↔
      a.hasData = b.hasData ∧ a.hasVariances I = b.hasVariances I ∧
        I.proxyNe (a.coords I) (b.coords I) = false ∧
        I.proxyNe (a.labels I) (b.labels I) = false ∧
        I.proxyNe (a.masks I) (b.masks I) = false ∧
        I.proxyNe (a.attrs I) (b.attrs I) = false ∧
        (a.hasData = true → a.dataDiffers I b = false)) ∧
    DataConstProxy.eq I (a.renamed nameA) (b.renamed nameB) = DataConstProxy.eq I a b ∧
    (a.renamed nameA).name = nameA := by
  refine ⟨?_, rfl, rfl⟩
  unfold DataConstProxy.eq
  by_cases h1 : a.hasData = b.hasData
  swap
  · simp [h1]
  by_cases h2 : a.hasVariances I = b.hasVariances I
  swap
  · simp [h1, h2]
  cases h3 : I.proxyNe (a.coords I) (b.coords I)
  swap
  · simp [h1, h2, h3]
  cases h4 : I.proxyNe (a.labels I) (b.labels I)
  swap
  · simp [h1, h2, h3, h4]
  cases h5 : I.proxyNe (a.masks I) (b.masks I)
  swap
  · simp [h1, h2, h3, h4, h5]
  cases h6 : I.proxyNe (a.attrs I) (b.attrs I)
  swap
  · simp [h1, h2, h3, h4, h5, h6]
  cases h7 : b.hasData <;> cases h8 : a.dataDiffers I b <;> simp [h1, h2, h7, h8]

end core

namespace Storage

open Tagged (Dimensions Tag shapeVolume shapeStride viewIndices)

open core (Exception)

open VariableConcept

/-! ## In-place addition and subtraction of variables -/

/-- Claim C26: `plus_equals` and `minus_equals`, which are `operator+=` and `operator-=` of
`Variable` and of `VariableSlice` for a variable or a slice on the right, throw
when the units of the two operands differ, and the left-hand side is then as
before the call: its data, its unit and its dimensions. -/
theorem unit_mismatch_fails (I : Interface) (var other : Operand) (h : var.unit ≠ other.unit) :
    (∃ e, (plus_equals I var other).threw = some e) ∧
    (∃ e, (minus_equals I var other).threw = some e) ∧
    (plus_equals I var other).lhs.data = var.data ∧
    (plus_equals I var other).lhs.unit = var.unit ∧
    (plus_equals I var other).lhs.dimensions = var.dimensions ∧
    (minus_equals I var other).lhs.data = var.data ∧
    (minus_equals I var other).lhs.unit = var.unit ∧
    (minus_equals I var other).lhs.dimensions = var.dimensions := by
  unfold plus_equals minus_equals
  rw [if_pos h, if_pos h]
  exact ⟨⟨_, rfl⟩, ⟨_, rfl⟩, rfl, rfl, rfl, rfl, rfl, rfl⟩

/-- Witness of C26: two variables of doubles with different units. -/
theorem unit_mismatch_fails_witness :
    (Operand.ofVariable exampleDoubles).unit ≠ (Operand.ofVariable exampleOtherUnit).unit ∧
    (plus_equals exampleInterface (.ofVariable exampleDoubles)
      (.ofVariable exampleOtherUnit)).lhs.data = exampleDoubles.data :=
  ⟨by decide,
    (unit_mismatch_fails exampleInterface (.ofVariable exampleDoubles)
      (.ofVariable exampleOtherUnit) (by decide)).2.2.1⟩

end Storage

namespace Arithmetic

open Storage (Variable Operand Interface InPlaceResult VariableConcept DType readAt exampleInterface)

open Tagged (Tag)

open core (Exception)

/-! ## Variables of the right-hand side without a match -/

theorem applyToTag_none (I : Interface) (op : Operand → Operand → InPlaceResult)
    (var2 : Variable) (dataset : List Variable) (h : ∀ var1 ∈ dataset, var1.tag ≠ var2.tag) :
    applyToTag I op var2 dataset = ⟨dataset, 0, none⟩ := by
  induction dataset with
  | nil => rfl
  | cons var1 rest ih =>
    have h1 : ¬ var1.tag = var2.tag := h var1 (List.mem_cons_self _ _)
    have h2 := ih (fun v hv => h v (List.mem_cons_of_mem _ hv))
    simp only [applyToTag, if_neg h1, h2]

theorem applyToTag_ok (I : Interface) (op : Operand → Operand → InPlaceResult)
    (var2 : Variable) (dataset : List Variable)
    (h : ∀ var1 ∈ dataset, var1.tag = var2.tag →
      (combine I op var2 (asSlice var1)).threw = none) :
    applyToTag I op var2 dataset
      = ⟨dataset.map (fun var1 =>
            if var1.tag = var2.tag then (combine I op var2 (asSlice var1)).lhs.underlying
            else var1),
          (dataset.filter (fun var1 => decide (var1.tag = var2.tag))).length, none⟩ := by
  induction dataset with
  | nil => rfl
  | cons var1 rest ih =>
    have h2 := ih (fun v hv => h v (List.mem_cons_of_mem _ hv))
    by_cases h1 : var1.tag = var2.tag
    · have h3 := h var1 (List.mem_cons_self _ _) h1
      have hd : decide (var1.tag = var2.tag) = true := by simp [h1]
      simp only [applyToTag, if_pos h1, h3, h2, List.map_cons, List.filter_cons, hd,
        if_true, List.length_cons]
    · have hd : decide (var1.tag = var2.tag) = false := by simp [h1]
      simp only [applyToTag, if_neg h1, h2, List.map_cons, List.filter_cons, hd,
        if_false, Bool.false_eq_true]

/-- Claim C21: for a variable `var2` of the right-hand side without a match of tag and name
on the left, `binary_op_equals` throws the 'not present in left-hand-side' error
unless `var2` is data and the right-hand side has exactly one distinct data name;
in that case it throws where no left variable has the tag of `var2`, and, where
some have it and none of the operations throws, it goes on with the left-hand
side in which every variable with the tag of `var2` is combined with `var2` (a
variance by `+=`, anything else by the operation) and the others are as before. -/
theorem unmatched_right_variable (I : Interface) (op : Operand → Operand → InPlaceResult)
    (other dataset : List Variable) (var2 : Variable) (rest : List Variable)
    (hfind : find var2.tag var2.name dataset = none) :
    (¬ (I.isData var2.tag = true ∧ (names I other).length = 1) →
      binaryOpLoop I op (names I other).length (var2 :: rest) dataset
        = ⟨dataset, some (.RuntimeError notPresent)⟩) ∧
    (I.isData var2.tag = true → (names I other).length = 1 →
      (∀ var1 ∈ dataset, var1.tag ≠ var2.tag) →
      binaryOpLoop I op (names I other).length (var2 :: rest) dataset
        = ⟨dataset, some (.RuntimeError typeNotPresent)⟩) ∧
    (I.isData var2.tag = true → (names I other).length = 1 →
      (∃ var1 ∈ dataset, var1.tag = var2.tag) →
      (∀ var1 ∈ dataset, var1.tag = var2.tag →
        (combine I op var2 (asSlice var1)).threw = none) →
      binaryOpLoop I op (names I other).length (var2 :: rest) dataset
        = binaryOpLoop I op (names I other).length rest
            (dataset.map (fun var1 =>
              if var1.tag = var2.tag then (combine I op var2 (asSlice var1)).lhs.underlying
              else var1))) ∧
    binary_op_equals I op dataset other
      = binaryOpLoop I op (names I other).length other dataset := by
  refine ⟨?_, ?_, ?_, rfl⟩
  · intro h
    simp only [binaryOpLoop, binaryOpStep, hfind, if_neg h]
  · intro h1 h2 h3
    simp only [binaryOpLoop, binaryOpStep, hfind, if_pos (And.intro h1 h2),
      applyToTag_none I op var2 dataset h3, if_true]
  · intro h1 h2 h3 h4
    have hcount : (dataset.filter (fun var1 => decide (var1.tag = var2.tag))).length ≠ 0 := by
      obtain ⟨var1, hm, ht⟩ := h3
      have : var1 ∈ dataset.filter (fun var1 => decide (var1.tag = var2.tag)) :=
        List.mem_filter.2 ⟨hm, by simp [ht]⟩
      intro h0
      rw [List.length_eq_zero] at h0
      rw [h0] at this
      exact absurd this (List.not_mem_nil _)
    simp only [binaryOpLoop, binaryOpStep, hfind, if_pos (And.intro h1 h2),
      applyToTag_ok I op var2 dataset h4, if_neg hcount]

/-- Witness of C21: the value `b` is added to a dataset with the coordinate `Coord::X` and the
value `a`. -/
theorem unmatched_right_variable_witness :
    find Tagged.Data.Value "b" exampleLeft = none ∧
    (plusAssign exampleInterface exampleLeft exampleRight).threw = none ∧
    (plusAssign exampleInterface exampleLeft exampleRight).dataset.map
        (fun var1 => var1.m_object.buffer)
      = [[Value.num 0, Value.num 1],
          [Value.add (Value.num 1) (Value.num 10), Value.add (Value.num 2) (Value.num 20)]] := by
  have h := (unmatched_right_variable exampleInterface (Storage.plus_equals exampleInterface)
    exampleRight exampleLeft
    ⟨Tagged.Data.Value, ⟨0⟩, "b", ⟨⟨[(Dim.X, 2)]⟩, .Double,
      .DataModel [Value.num 10, Value.num 20]⟩⟩ [] (by decide)).2.2.1 (by decide) (by decide)
    (by decide) (by decide)
  refine ⟨by decide, ?_, ?_⟩
  · show (binaryOpLoop _ _ _ _ _).threw = none
    exact (congrArg DatasetResult.threw h).trans rfl
  · show (binaryOpLoop _ _ _ _ _).dataset.map _ = _
    exact (congrArg (fun r => r.dataset.map (fun var1 => var1.m_object.buffer)) h).trans rfl

/-! ## Multiplication by a dataset with an unmatched variable -/

/-- Claim C22, the input at which it fails: the right-hand side holds the single value `b`,
the left-hand side holds the value `a` of the same tag and no variable `b`.
`operator*=` throws 'not present in left-hand-side' and leaves the left-hand side
as it is, while `operator+=` combines `b` with `a`. -/
theorem times_broadcast_claim_refuted :
    (names exampleInterface exampleRight).length = 1 ∧
    find Tagged.Data.Value "b" exampleLeft = none ∧
    count exampleLeft Tagged.Data.Value "a" = 1 ∧
    (times_equals exampleInterface exampleLeft exampleRight).threw
      = some (.RuntimeError notPresentTimes) ∧
    (times_equals exampleInterface exampleLeft exampleRight).dataset = exampleLeft ∧
    (plusAssign exampleInterface exampleLeft exampleRight).threw = none :=
  ⟨by decide, by decide, by decide, by rfl, by rfl, by rfl⟩

/-- Claim C22, amended: for a variable `var2` of the right-hand side without a match of tag and
name on the left, `times_equals` throws 'Right-hand-side in addition contains
variable that is not present in left-hand-side.' and the left-hand side is as it
was when `var2` was reached, whatever the number of data names of the right-hand
side. -/
theorem times_unmatched_fails (I : Interface) (other dataset : List Variable) (var2 : Variable)
    (rest : List Variable) (hfind : find var2.tag var2.name dataset = none) :
    timesLoop I other (var2 :: rest) dataset = ⟨dataset, some (.RuntimeError notPresentTimes)⟩ ∧
    times_equals I dataset other = timesLoop I other other dataset := by
  refine ⟨?_, rfl⟩
  simp only [timesLoop, timesStep, hfind]

/-- Witness of C22: the value `b` multiplied onto a dataset without `b`. -/
theorem times_unmatched_fails_witness :
    find Tagged.Data.Value "b" exampleLeft = none ∧
    times_equals exampleInterface exampleLeft exampleRight
      = ⟨exampleLeft, some (.RuntimeError notPresentTimes)⟩ :=
  ⟨by decide,
    (times_unmatched_fails exampleInterface exampleRight exampleLeft
      ⟨Tagged.Data.Value, ⟨0⟩, "b", ⟨⟨[(Dim.X, 2)]⟩, .Double,
        .DataModel [Value.num 10, Value.num 20]⟩⟩ [] (by decide)).1⟩

/-! ## Coordinates in the arithmetic of datasets -/

theorem find_spec (tag : Tag) (name : String) (dataset : List Variable) (index : Nat)
    (h : find tag name dataset = some index) :
    ∃ var, dataset.get? index = some var ∧ var.tag = tag ∧ var.name = name := by
  induction dataset generalizing index with
  | nil => simp [find] at h
  | cons var rest ih =>
    unfold find at h
    by_cases hv : var.tag = tag ∧ var.name = name
    · rw [if_pos hv] at h
      cases h
      exact ⟨var, rfl, hv.1, hv.2⟩
    · rw [if_neg hv] at h
      cases hf : find tag name rest with
      | none => rw [hf] at h; cases h
      | some j =>
        rw [hf] at h
        cases h
        obtain ⟨w, h1, h2⟩ := ih j hf
        exact ⟨w, by simpa using h1, h2⟩

theorem coordsKept_refl (dataset : List Variable) : coordsKept dataset dataset :=
  ⟨rfl, fun _ _ h _ => h⟩

theorem coordsKept_trans (a b c : List Variable) (h1 : coordsKept a b) (h2 : coordsKept b c) :
    coordsKept a c :=
  ⟨h2.1.trans h1.1, fun i var hi hc => h2.2 i var (h1.2 i var hi hc) hc⟩

theorem coordsKept_set (dataset after : List Variable) (index : Nat) (old new : Variable)
    (h : coordsKept dataset after) (hget : dataset.get? index = some old)
    (hold : old.isCoord = false) : coordsKept dataset (after.set index new) := by
  refine ⟨by rw [List.length_set]; exact h.1, ?_⟩
  intro i var hi hc
  have hne : index ≠ i := by
    intro heq
    subst heq
    rw [hget] at hi
    cases hi
    rw [hold] at hc
    cases hc
  have h2 := h.2 i var hi hc
  simp only [List.get?_eq_getElem?] at h2 ⊢
  rw [List.getElem?_set_ne hne]
  exact h2

theorem coordsKept_cons (a b : Variable) (dataset after : List Variable)
    (h : coordsKept dataset after) (hab : a.isCoord = true → b = a) :
    coordsKept (a :: dataset) (b :: after) := by
  refine ⟨by simp [h.1], ?_⟩
  intro i var hi hc
  cases i with
  | zero =>
    simp only [List.get?_cons_zero, Option.some.injEq] at hi ⊢
    subst hi
    exact hab hc
  | succ j =>
    simp only [List.get?_cons_succ] at hi ⊢
    exact h.2 j var hi hc

theorem updateAt_kept (dataset : List Variable) (index : Nat) (f : Operand → InPlaceResult)
    (h : ∀ var1, dataset.get? index = some var1 → var1.isCoord = false) :
    coordsKept dataset (updateAt dataset index f).dataset := by
  unfold updateAt
  cases hg : dataset.get? index with
  | none => exact coordsKept_refl dataset
  | some var1 => exact coordsKept_set dataset dataset index var1 _ (coordsKept_refl _) hg (h var1 hg)

theorem applyToTag_kept (I : Interface) (op : Operand → Operand → InPlaceResult)
    (var2 : Variable) (dataset : List Variable)
    (h : ∀ var1 ∈ dataset, var1.tag = var2.tag → var1.isCoord = false) :
    coordsKept dataset (applyToTag I op var2 dataset).dataset := by
  induction dataset with
  | nil => exact coordsKept_refl []
  | cons var1 rest ih =>
    have h2 := ih (fun v hv => h v (List.mem_cons_of_mem _ hv))
    unfold applyToTag
    by_cases h1 : var1.tag = var2.tag
    · have hc := h var1 (List.mem_cons_self _ _) h1
      rw [if_pos h1]
      simp only
      cases (combine I op var2 (asSlice var1)).threw with
      | some e =>
        exact coordsKept_cons _ _ _ _ (coordsKept_refl rest)
          (fun h3 => by rw [hc] at h3; cases h3)
      | none =>
        exact coordsKept_cons _ _ _ _ h2 (fun h3 => by rw [hc] at h3; cases h3)
    · rw [if_neg h1]
      exact coordsKept_cons _ _ _ _ h2 (fun _ => rfl)

theorem notCoord_of_isData (I : Interface)
    (hdata : ∀ tag, I.isData tag = true → Tagged.numCoordTags ≤ tag.value) (var : Variable)
    (h : I.isData var.tag = true) : var.isCoord = false := by
  have := hdata var.tag h
  simp only [Variable.isCoord, decide_eq_false_iff_not, not_lt]
  exact this

theorem binaryOpStep_kept (I : Interface) (op : Operand → Operand → InPlaceResult)
    (namesSize : Nat) (dataset : List Variable) (var2 : Variable)
    (hdata : ∀ tag, I.isData tag = true → Tagged.numCoordTags ≤ tag.value) :
    coordsKept dataset (binaryOpStep I op namesSize dataset var2).dataset := by
  unfold binaryOpStep
  cases hfind : find var2.tag var2.name dataset with
  | none =>
    simp only
    by_cases hb : I.isData var2.tag = true ∧ namesSize = 1
    · rw [if_pos hb]
      have hk := applyToTag_kept I op var2 dataset (fun var1 _ ht =>
        notCoord_of_isData I hdata var1 (by rw [Variable.tag] at ht; rw [Variable.tag, ht]; exact hb.1))
      generalize applyToTag I op var2 dataset = result at hk ⊢
      obtain ⟨d, c, t⟩ := result
      cases t with
      | some e => exact hk
      | none =>
        by_cases h0 : c = 0
        · simp only [h0, if_true]
          exact hk
        · simp only [h0, if_false]
          exact hk
    · rw [if_neg hb]
      exact coordsKept_refl dataset
  | some index =>
    simp only
    cases hget : dataset.get? index with
    | none => exact coordsKept_refl dataset
    | some var1 =>
      simp only
      cases hc : var1.isCoord with
      | true =>
        simp only [if_true]
        cases Storage.equals I.to_string (asSlice var1) (asSlice var2) with
        | error e => exact coordsKept_refl dataset
        | ok same => cases same <;> exact coordsKept_refl dataset
      | false =>
        have hk : ∀ f, coordsKept dataset (updateAt dataset index f).dataset :=
          fun f => updateAt_kept dataset index f (fun w hw => by
            rw [hget] at hw
            cases hw
            exact hc)
        simp only [Bool.false_eq_true, if_false]
        by_cases hd : I.isData var1.tag = true
        · rw [if_pos hd]
          exact hk _
        · rw [if_neg hd]
          cases Storage.notEquals I.to_string (asSlice var1) (asSlice var2) with
          | error e => exact coordsKept_refl dataset
          | ok differ =>
            cases differ
            · exact coordsKept_refl dataset
            · exact hk _

theorem binaryOpLoop_kept (I : Interface) (op : Operand → Operand → InPlaceResult)
    (namesSize : Nat) (other dataset : List Variable)
    (hdata : ∀ tag, I.isData tag = true → Tagged.numCoordTags ≤ tag.value) :
    coordsKept dataset (binaryOpLoop I op namesSize other dataset).dataset := by
  induction other generalizing dataset with
  | nil => exact coordsKept_refl dataset
  | cons var2 rest ih =>
    have hstep := binaryOpStep_kept I op namesSize dataset var2 hdata
    unfold binaryOpLoop
    cases hs : binaryOpStep I op namesSize dataset var2 with
    | mk dataset1 threw =>
      rw [hs] at hstep
      cases threw with
      | none => exact coordsKept_trans _ _ _ hstep (ih dataset1)
      | some e => exact hstep

theorem variance_notCoord (var : Variable) (h : var.tag = Tagged.Data.Variance) :
    var.isCoord = false := by
  rw [Variable.tag] at h
  simp [Variable.isCoord, h, Tagged.Data.Variance, Tagged.numCoordTags]

theorem timesWithVariance_kept (I : Interface) (dataset other : List Variable) (index : Nat)
    (var1 var2 : Variable) (hget : dataset.get? index = some var1)
    (hc : var1.isCoord = false) :
    coordsKept dataset (timesWithVariance I dataset other index var1 var2).dataset := by
  unfold timesWithVariance
  cases h1 : find Tagged.Data.Variance var2.name dataset with
  | none => exact coordsKept_refl dataset
  | some error_index1 =>
    cases h2 : find Tagged.Data.Variance var2.name other with
    | none => exact coordsKept_refl dataset
    | some error_index2 =>
      simp only
      obtain ⟨error1, hg1, ht1, -⟩ := find_spec _ _ _ _ h1
      rw [hg1]
      cases other.get? error_index2 with
      | none => exact coordsKept_refl dataset
      | some error2 =>
        simp only
        exact coordsKept_set dataset _ error_index1 error1 _
          (coordsKept_set dataset dataset index var1 _ (coordsKept_refl _) hget hc) hg1
          (variance_notCoord error1 ht1)

theorem timesStep_kept (I : Interface) (dataset other : List Variable) (var2 : Variable) :
    coordsKept dataset (timesStep I dataset other var2).dataset := by
  unfold timesStep
  cases hfind : find var2.tag var2.name dataset with
  | none => exact coordsKept_refl dataset
  | some index =>
    simp only
    by_cases hv : var2.tag = Tagged.Data.Variance ∧
        (find Tagged.Data.Value var2.name dataset = none ∨
          find Tagged.Data.Value var2.name other = none)
    · rw [if_pos hv]
      exact coordsKept_refl dataset
    · rw [if_neg hv]
      cases hget : dataset.get? index with
      | none => exact coordsKept_refl dataset
      | some var1 =>
        simp only
        cases hc : var1.isCoord with
        | true =>
          simp only [if_true]
          cases Storage.equals I.to_string (asSlice var1) (asSlice var2) with
          | error e => exact coordsKept_refl dataset
          | ok same => cases same <;> exact coordsKept_refl dataset
        | false =>
          have hk : ∀ f, coordsKept dataset (updateAt dataset index f).dataset :=
            fun f => updateAt_kept dataset index f (fun w hw => by
              rw [hget] at hw
              cases hw
              exact hc)
          simp only [Bool.false_eq_true, if_false]
          by_cases hd : I.isData var1.tag = true
          swap
          · rw [if_neg hd]
            exact coordsKept_refl dataset
          rw [if_pos hd]
          by_cases h1 : var2.tag = Tagged.Data.Value
          · rw [if_pos h1]
            by_cases h2 : count dataset Tagged.Data.Variance var2.name
                ≠ count other Tagged.Data.Variance var2.name
            · rw [if_pos h2]
              exact coordsKept_refl dataset
            · rw [if_neg h2]
              by_cases h3 : count dataset Tagged.Data.Variance var2.name ≠ 0
              · rw [if_pos h3]
                exact timesWithVariance_kept I dataset other index var1 var2 hget hc
              · rw [if_neg h3]
                exact hk _
          · rw [if_neg h1]
            by_cases h2 : var2.tag = Tagged.Data.Variance
            · rw [if_pos h2]
              exact coordsKept_refl dataset
            · rw [if_neg h2]
              exact hk _

theorem timesLoop_kept (I : Interface) (other rest dataset : List Variable) :
    coordsKept dataset (timesLoop I other rest dataset).dataset := by
  induction rest generalizing dataset with
  | nil => exact coordsKept_refl dataset
  | cons var2 rest ih =>
    have hstep := timesStep_kept I dataset other var2
    unfold timesLoop
    cases hs : timesStep I dataset other var2 with
    | mk dataset1 threw =>
      rw [hs] at hstep
      cases threw with
      | none => exact coordsKept_trans _ _ _ hstep (ih dataset1)
      | some e => exact hstep

/-- Claim C25: where a variable `var2` of the right-hand side has a match of tag and name on
the left that is a coordinate, `binary_op_equals` (`+=` and `-=`) and
`times_equals` (`*=`) throw a 'Coordinates of datasets do not match' error and
leave the left-hand side as it is if the two compare unequal, and go on with
the left-hand side as it is if they compare equal; and whatever the whole
operation does, every coordinate of the left-hand side is at its place and
unchanged afterwards (for `+=` and `-=` given that no coordinate tag counts as
data). -/
theorem coordinates_must_match (I : Interface) (op : Operand → Operand → InPlaceResult)
    (namesSize : Nat) (other dataset : List Variable) (var2 : Variable) (rest : List Variable)
    (index : Nat) (var1 : Variable) (hfind : find var2.tag var2.name dataset = some index)
    (hget : dataset.get? index = some var1) (hcoord : var1.isCoord = true) :
    (Storage.equals I.to_string (asSlice var1) (asSlice var2) = .ok false →
      binaryOpLoop I op namesSize (var2 :: rest) dataset
        = ⟨dataset, some (.RuntimeError coordinatesDiffer)⟩ ∧
      timesLoop I other (var2 :: rest) dataset
        = ⟨dataset, some (.RuntimeError coordinatesDifferTimes)⟩) ∧
    (Storage.equals I.to_string (asSlice var1) (asSlice var2) = .ok true →
      binaryOpLoop I op namesSize (var2 :: rest) dataset
        = binaryOpLoop I op namesSize rest dataset ∧
      timesLoop I other (var2 :: rest) dataset = timesLoop I other rest dataset) ∧
    ((∀ tag, I.isData tag = true → Tagged.numCoordTags ≤ tag.value) →
      coordsKept dataset (binary_op_equals I op dataset other).dataset) ∧
    coordsKept dataset (times_equals I dataset other).dataset := by
  obtain ⟨w, hw, htag, -⟩ := find_spec _ _ _ _ hfind
  rw [hget] at hw
  cases hw
  have hnv : ¬ (var2.tag = Tagged.Data.Variance ∧
      (find Tagged.Data.Value var2.name dataset = none ∨
        find Tagged.Data.Value var2.name other = none)) := by
    intro h
    have h2 := variance_notCoord var1 (htag.trans h.1)
    rw [hcoord] at h2
    cases h2
  refine ⟨?_, ?_, ?_, ?_⟩
  · intro heq
    constructor
    · simp only [binaryOpLoop, binaryOpStep, hfind, hget, hcoord, if_true, heq]
    · simp only [timesLoop, timesStep, hfind, hget, hcoord, if_true, heq, if_neg hnv]
  · intro heq
    constructor
    · simp only [binaryOpLoop, binaryOpStep, hfind, hget, hcoord, if_true, heq]
    · simp only [timesLoop, timesStep, hfind, hget, hcoord, if_true, heq, if_neg hnv]
  · intro hdata
    exact binaryOpLoop_kept I op _ other dataset hdata
  · exact timesLoop_kept I other other dataset

/-- Witness of C25: a dataset with another coordinate `Coord::X` is added to and multiplied
onto `exampleLeft`. -/
theorem coordinates_must_match_witness :
    find (⟨0⟩ : Tag) "" exampleLeft = some 0 ∧
    plusAssign exampleInterface exampleLeft exampleShifted
      = ⟨exampleLeft, some (.RuntimeError coordinatesDiffer)⟩ ∧
    times_equals exampleInterface exampleLeft exampleShifted
      = ⟨exampleLeft, some (.RuntimeError coordinatesDifferTimes)⟩ :=
  ⟨by decide,
    ((coordinates_must_match exampleInterface (Storage.plus_equals exampleInterface) 0
      exampleShifted exampleLeft
      ⟨⟨0⟩, ⟨0⟩, "", ⟨⟨[(Dim.X, 2)]⟩, .Double, .DataModel [Value.num 5, Value.num 6]⟩⟩ [] 0
      ⟨⟨0⟩, ⟨0⟩, "", ⟨⟨[(Dim.X, 2)]⟩, .Double, .DataModel [Value.num 0, Value.num 1]⟩⟩
      (by decide) (by decide) (by decide)).1 (by rfl)).1,
    ((coordinates_must_match exampleInterface (Storage.plus_equals exampleInterface) 0
      exampleShifted exampleLeft
      ⟨⟨0⟩, ⟨0⟩, "", ⟨⟨[(Dim.X, 2)]⟩, .Double, .DataModel [Value.num 5, Value.num 6]⟩⟩ [] 0
      ⟨⟨0⟩, ⟨0⟩, "", ⟨⟨[(Dim.X, 2)]⟩, .Double, .DataModel [Value.num 0, Value.num 1]⟩⟩
      (by decide) (by decide) (by decide)).1 (by rfl)).2⟩

/-! ## The generic branch of the multiplication with variances -/

theorem operand_tag (var : Operand) : var.tag = var.underlying.m_tag := by
  cases var <;> rfl

theorem withData_tag (var : Operand) (data : VariableConcept) :
    (var.withData data).underlying.m_tag = var.underlying.m_tag := by
  cases var with
  | ofVariable v => rfl
  | ofSlice slice =>
    simp only [Operand.withData]
    cases slice.m_view <;> rfl

theorem setUnit_tag (var withUnit : Operand) (unit : Storage.Unit)
    (h : var.setUnit unit = .ok withUnit) : withUnit.underlying.m_tag = var.underlying.m_tag := by
  cases var with
  | ofVariable v =>
    simp only [Operand.setUnit] at h
    cases h
    rfl
  | ofSlice slice =>
    simp only [Operand.setUnit] at h
    split_ifs at h
    cases h
    rfl

theorem requireApply_tag (I : Interface) (supported : DType → Bool) (conceptName : String)
    (op : Value → Value → Value) (var other : Operand) :
    (Storage.requireApply I supported conceptName op var other).lhs.underlying.m_tag
      = var.underlying.m_tag := by
  unfold Storage.requireApply
  split_ifs
  · rfl
  · exact withData_tag _ _

theorem times_equals_tag (I : Interface) (var other : Operand) :
    (Storage.times_equals I var other).lhs.underlying.m_tag = var.underlying.m_tag := by
  unfold Storage.times_equals
  split_ifs
  · rfl
  · rfl
  · cases h : var.setUnit (I.unitMul var.unit other.unit) with
    | error e => rfl
    | ok withUnit =>
      simp only
      rw [requireApply_tag, setUnit_tag _ _ _ h]

theorem plus_equals_tag (I : Interface) (var other : Operand) :
    (Storage.plus_equals I var other).lhs.underlying.m_tag = var.underlying.m_tag := by
  unfold Storage.plus_equals
  split_ifs
  · rfl
  · rfl
  · exact requireApply_tag _ _ _ _ _ _
  · cases I.eventsPlus var.data other.data with
    | error e => rfl
    | ok data => exact withData_tag _ _
  · rfl

theorem clone_tag (var copied : Variable) (h : var.clone = .ok copied) :
    copied.m_tag = var.m_tag := by
  unfold Variable.clone at h
  cases hc : var.m_object.clone with
  | error e => rw [hc] at h; cases h
  | ok c => rw [hc] at h; cases h; rfl

theorem setDimensions_tag (var resized : Variable) (dims : Tagged.Dimensions)
    (h : var.setDimensions dims = .ok resized) : resized.m_tag = var.m_tag := by
  unfold Variable.setDimensions at h
  split_ifs at h
  · cases h; rfl
  · cases h; rfl
  · cases hc : var.m_object.cloneWith dims with
    | error e => rw [hc] at h; cases h
    | ok c => rw [hc] at h; cases h; rfl

theorem ofSlice_tag (to_string : DType → String) (slice : Storage.ConstVariableSlice)
    (var : Variable) (h : Variable.ofSlice to_string slice = .ok var) :
    var.m_tag = slice.m_variable.m_tag := by
  unfold Variable.ofSlice at h
  cases hc : slice.m_variable.clone with
  | error e => rw [hc] at h; cases h
  | ok copied =>
    rw [hc] at h
    simp only [bind, Except.bind] at h
    cases hv : slice.m_view with
    | none =>
      rw [hv] at h
      cases h
      exact clone_tag _ _ hc
    | some view =>
      rw [hv] at h
      simp only at h
      cases hs : Variable.setDimensions
          { copied with m_tag := slice.tag, m_name := slice.m_variable.m_name,
                        m_unit := slice.unit } slice.dimensions with
      | error e => rw [hs] at h; cases h
      | ok resized =>
        rw [hs] at h
        simp only at h
        cases hd : resized.m_object.copy to_string slice.data Dim.Invalid 0 0 1 with
        | error e => rw [hd] at h; cases h
        | ok data =>
          rw [hd] at h
          cases h
          have key := setDimensions_tag _ _ _ hs
          exact key

theorem toVariable_tag (to_string : DType → String) (operand : Operand) (var : Variable)
    (h : operand.toVariable to_string = .ok var) : var.m_tag = operand.tag := by
  cases operand with
  | ofVariable v => exact clone_tag _ _ h
  | ofSlice slice => exact ofSlice_tag to_string slice var h

theorem broadcast_tag (to_string : DType → String) (var result : Variable)
    (dims : Tagged.Dimensions) (h : Storage.broadcast to_string var dims = .ok result) :
    result.m_tag = var.m_tag := by
  unfold Storage.broadcast at h
  split_ifs at h
  · cases h; rfl
  · cases h1 : Storage.broadcastDims dims.shape var.dimensions with
    | error e => rw [h1] at h; cases h
    | ok newDims =>
      rw [h1] at h
      simp only [bind, Except.bind] at h
      cases h2 : var.clone with
      | error e => rw [h2] at h; cases h
      | ok copied =>
        rw [h2] at h
        simp only at h
        cases h3 : copied.setDimensions newDims with
        | error e => rw [h3] at h; cases h
        | ok resized =>
          rw [h3] at h
          simp only at h
          cases h4 : resized.m_object.copy to_string var.data Dim.Invalid 0 0 1 with
          | error e => rw [h4] at h; cases h
          | ok data =>
            rw [h4] at h
            cases h
            exact (setDimensions_tag _ _ _ h3).trans (clone_tag _ _ h2)

theorem binaryOperator_tag (I : Interface)
    (inPlace : Interface → Operand → Operand → InPlaceResult)
    (hin : ∀ var other, (inPlace I var other).lhs.underlying.m_tag = var.underlying.m_tag)
    (a result : Variable) (b : Operand) (h : Storage.binaryOperator I inPlace a b = .ok result) :
    result.m_tag = a.m_tag := by
  unfold Storage.binaryOperator at h
  cases h1 : Storage.broadcast I.to_string a b.dimensions with
  | error e => rw [h1] at h; cases h
  | ok broadcasted =>
    rw [h1] at h
    simp only [bind, Except.bind] at h
    cases h2 : (inPlace I (.ofVariable broadcasted) b).threw with
    | some e => rw [h2] at h; cases h
    | none =>
      rw [h2] at h
      cases h
      exact (hin _ _).trans (broadcast_tag _ _ _ _ h1)

theorem varianceFormula_tag (I : Interface) (var1 error1 var2 error2 : Operand)
    (formula : Variable) (h : varianceFormula I var1 error1 var2 error2 = .ok formula) :
    formula.m_tag = error1.tag := by
  unfold varianceFormula at h
  simp only [bind, Except.bind] at h
  cases ha : var2.toVariable I.to_string with
  | error e => rw [ha] at h; cases h
  | ok a =>
    rw [ha] at h
    simp only at h
    cases h1 : Storage.times I a var2 with
    | error e => rw [h1] at h; cases h
    | ok squared2 =>
      rw [h1] at h
      simp only at h
      cases hb : error1.toVariable I.to_string with
      | error e => rw [hb] at h; cases h
      | ok b =>
        rw [hb] at h
        simp only at h
        cases h2 : Storage.times I b (.ofVariable squared2) with
        | error e => rw [h2] at h; cases h
        | ok left =>
          rw [h2] at h
          simp only at h
          cases hc : var1.toVariable I.to_string with
          | error e => rw [hc] at h; cases h
          | ok c =>
            rw [hc] at h
            simp only at h
            cases h3 : Storage.times I c var1 with
            | error e => rw [h3] at h; cases h
            | ok squared1 =>
              rw [h3] at h
              simp only at h
              cases hd : error2.toVariable I.to_string with
              | error e => rw [hd] at h; cases h
              | ok d =>
                rw [hd] at h
                simp only at h
                cases h4 : Storage.times I d (.ofVariable squared1) with
                | error e => rw [h4] at h; cases h
                | ok right =>
                  rw [h4] at h
                  simp only at h
                  have t1 := binaryOperator_tag I Storage.plus_equals (plus_equals_tag I)
                    left formula (.ofVariable right) h
                  have t2 := binaryOperator_tag I Storage.times_equals (times_equals_tag I)
                    b left (.ofVariable squared2) h2
                  rw [t1, t2]
                  exact toVariable_tag _ _ _ hb

theorem timesEqualsGeneric_throws (I : Interface) (var1 error1 var2 error2 : Operand)
    (htag : var1.tag ≠ error1.tag) :
    (∃ e, (timesEqualsGeneric I var1 error1 var2 error2).threw = some e) ∧
    (timesEqualsGeneric I var1 error1 var2 error2).value.data = var1.data ∧
    (timesEqualsGeneric I var1 error1 var2 error2).error.data = error1.data := by
  unfold timesEqualsGeneric
  cases h : varianceFormula I var1 error1 var2 error2 with
  | error e => exact ⟨⟨e, rfl⟩, rfl, rfl⟩
  | ok formula =>
    have ht := varianceFormula_tag I var1 error1 var2 error2 formula h
    have hne : var1.tag ≠ (Operand.ofVariable formula).tag := by
      intro h2
      exact htag (h2.trans ht)
    have hassign : Storage.assign I.to_string var1 (.ofVariable formula)
        = ⟨var1, some (.RuntimeError "Cannot assign to slice: Type mismatch.")⟩ := by
      unfold Storage.assign
      rw [if_pos hne]
    simp only [hassign]
    exact ⟨⟨_, rfl⟩, trivial, trivial⟩

/-- Claim C24, the input at which the code differs: the value `a` and its variance along
`Dim::X` are multiplied by a value `a` and its variance without dimensions, so
that the branch of `ValueWithError::operator*=` for unequal dimensions is taken.
That branch assigns the formula of the variance to the value `var1`, whose tag
differs: the call throws 'Cannot assign to slice: Type mismatch.' and neither the
value nor the variance of the left-hand side is changed, while with equal
dimensions the fused branch multiplies both. -/
theorem generic_branch_throws :
    (times_equals exampleInterface exampleWithVariance exampleScalar).threw
      = some (.RuntimeError "Cannot assign to slice: Type mismatch.") ∧
    (times_equals exampleInterface exampleWithVariance exampleScalar).dataset
      = exampleWithVariance ∧
    (times_equals exampleInterface exampleWithVariance exampleWithVariance).threw = none := by
  refine ⟨by rfl, by rfl, by rfl⟩

end Arithmetic

namespace Storage

open Tagged (Dimensions Tag shapeVolume shapeStride viewIndices)

open core (Exception)

open VariableConcept

/-! ## Rebinning a variable -/

theorem extentOf_ok (dims : Dimensions) (dim : Dim) (n : Int) (h : extentOf dims dim = .ok n) :
    dims.extent dim = some n := by
  unfold extentOf at h
  cases he : dims.extent dim with
  | none => rw [he] at h; cases h
  | some m => rw [he] at h; cases h; rfl

theorem withBuffer_dimensions (self : VariableConcept) (buffer : List Value) :
    (self.withBuffer buffer).dimensions = self.dimensions := by
  unfold VariableConcept.withBuffer
  cases self.m_model <;> rfl

theorem isMatchingOr1DBinEdge_true (dim : Dim) (edges toMatch : Dimensions)
    (h : isMatchingOr1DBinEdge dim edges toMatch = .ok true) :
    edges.ndim = 1 ∨
      ∃ k, toMatch.extent dim = some k ∧ edges = toMatch.resize dim (k + 1) := by
  unfold isMatchingOr1DBinEdge at h
  by_cases h1 : edges.ndim = 1
  · exact Or.inl h1
  · right
    rw [if_neg h1] at h
    cases he : extentOf edges dim with
    | error e => rw [he] at h; cases h
    | ok m =>
      rw [he] at h
      simp only [bind, Except.bind, pure, Except.pure] at h
      have hd : edges.resize dim (m - 1) = toMatch := of_decide_eq_true (Except.ok.inj h)
      have hm := extentOf_ok _ _ _ he
      refine ⟨m - 1, ?_, ?_⟩
      · rw [← hd, resize_extent, if_pos ⟨rfl, contains_of_extent _ _ _ hm⟩]
      · rw [← hd, Int.sub_add_cancel, resize_resize_self _ _ _ _ hm]

theorem rebinInnerOf_dimensions (dim : Dim) (oldT newT oldCoordT newCoordT data : VariableConcept)
    (h : rebinInnerOf dim oldT newT oldCoordT newCoordT = .ok data) :
    data.dimensions = newT.dimensions := by
  unfold rebinInnerOf at h
  simp only [bind, Except.bind, pure, Except.pure] at h
  repeat' split at h
  all_goals first
    | (cases h; unfold Arithmetic.storeAt; exact withBuffer_dimensions _ _)
    | cases h

theorem rebinMember_ok (to_string : DType → String) (self old : VariableConcept) (dim : Dim)
    (oldCoord newCoord data : VariableConcept)
    (h : FloatingPointVariableConceptT.rebin to_string self old dim oldCoord newCoord = .ok data) :
    data.dimensions = self.dimensions ∧
      isMatchingOr1DBinEdge dim oldCoord.dimensions old.dimensions = .ok true ∧
      isMatchingOr1DBinEdge dim newCoord.dimensions self.dimensions = .ok true := by
  unfold FloatingPointVariableConceptT.rebin at h
  simp only [bind, Except.bind] at h
  cases h1 : VariableConcept.requireT to_string self.dtype old with
  | error e => rw [h1] at h; cases h
  | ok oldT =>
    rw [h1] at h
    simp only at h
    cases h2 : VariableConcept.requireT to_string self.dtype oldCoord with
    | error e => rw [h2] at h; cases h
    | ok oldCoordT =>
      rw [h2] at h
      simp only at h
      cases h3 : VariableConcept.requireT to_string self.dtype newCoord with
      | error e => rw [h3] at h; cases h
      | ok newCoordT =>
        rw [h3] at h
        simp only at h
        by_cases hi : self.dimensions.inner ≠ dim
        · rw [if_pos hi] at h; cases h
        · rw [if_neg hi] at h
          cases h4 : isMatchingOr1DBinEdge dim oldCoord.dimensions old.dimensions with
          | error e => rw [h4] at h; cases h
          | ok matchesOld =>
            rw [h4] at h
            simp only at h
            cases matchesOld with
            | false => simp at h
            | true =>
              simp only [Bool.not_true, Bool.false_eq_true, if_false] at h
              cases h5 : isMatchingOr1DBinEdge dim newCoord.dimensions self.dimensions with
              | error e => rw [h5] at h; cases h
              | ok matchesNew =>
                rw [h5] at h
                simp only at h
                cases matchesNew with
                | false => simp at h
                | true =>
                  simp only [Bool.not_true, Bool.false_eq_true, if_false] at h
                  exact ⟨rebinInnerOf_dimensions _ _ _ _ _ _ h, rfl, rfl⟩

theorem requireRebin_ok (R : RebinInterface) (rebinned old : VariableConcept) (dim : Dim)
    (oldCoord newCoord data : VariableConcept)
    (h : requireRebin R rebinned old dim oldCoord newCoord = .ok data) :
    data.dimensions = rebinned.dimensions ∧
      isMatchingOr1DBinEdge dim oldCoord.dimensions old.dimensions = .ok true ∧
      isMatchingOr1DBinEdge dim newCoord.dimensions rebinned.dimensions = .ok true := by
  unfold requireRebin at h
  split_ifs at h
  exact rebinMember_ok _ _ _ _ _ _ _ h

theorem rebinOuter_ok (R : RebinInterface) (dim : Dim)
    (var rebinned oldCoord newCoord result : Variable)
    (h : rebinOuter R dim var rebinned oldCoord newCoord = .ok result) :
    result.dimensions = rebinned.dimensions ∧
      oldCoord.dimensions.ndim = 1 ∧ newCoord.dimensions.ndim = 1 := by
  unfold rebinOuter at h
  by_cases h1 : newCoord.dimensions.ndim ≠ 1 ∨ oldCoord.dimensions.ndim ≠ 1
  · rw [if_pos h1] at h; cases h
  · rw [if_neg h1] at h
    have h2 : oldCoord.dimensions.ndim = 1 ∧ newCoord.dimensions.ndim = 1 := by
      constructor
      · by_contra hc; exact h1 (Or.inr hc)
      · by_contra hc; exact h1 (Or.inl hc)
    refine ⟨?_, h2⟩
    split at h
    · cases hb : R.rebinGeneral dim var rebinned oldCoord newCoord with
      | error e => rw [hb] at h; cases h
      | ok buffer =>
        rw [hb] at h
        cases h
        exact withBuffer_dimensions _ _
    · cases hb : R.rebinGeneral dim var rebinned oldCoord newCoord with
      | error e => rw [hb] at h; cases h
      | ok buffer =>
        rw [hb] at h
        cases h
        exact withBuffer_dimensions _ _
    · cases h

theorem resize_other_extent (dims : Dimensions) (dim label : Dim) (size : Int)
    (h : label ≠ dim) : (dims.resize dim size).extent label = dims.extent label := by
  rw [resize_extent, if_neg (fun hc => h hc.1)]

/-- Claim C30: for a variable whose unit is counts or counts squared, `rebin(var, oldCoord,
newCoord)` either fails with an error or returns a variable with the dimensions
of `var` in which the extent of `dim`, the dimension of the tag of `newCoord`, is
`newCoord.dimensions()[dim] - 1` and every other extent is that of `var`.  It
returns only for supported edges: if `dim` is the inner dimension of the result,
`oldCoord` is one-dimensional or has the dimensions of `var` with the extent of
`dim` larger by one, and `newCoord` is one-dimensional or has the dimensions of
the result with the extent of `dim` larger by one; if `dim` is not the inner
dimension, both are one-dimensional. -/
theorem rebin_counts_shape (R : RebinInterface) (var oldCoord newCoord : Variable) (dim : Dim)
    (hdim : dim = R.coordDimension newCoord.tag.value)
    (hunit : var.unit = R.counts ∨ var.unit = R.unitMul R.counts R.counts) :
    (∃ e, rebin R var oldCoord newCoord = .error e) ∨
    ∃ result n, rebin R var oldCoord newCoord = .ok result ∧
      newCoord.dimensions.extent dim = some n ∧
      result.dimensions = var.dimensions.resize dim (n - 1) ∧
      (var.dimensions.contains dim = true → result.dimensions.extent dim = some (n - 1)) ∧
      (∀ label, label ≠ dim → result.dimensions.extent label = var.dimensions.extent label) ∧
      (result.dimensions.inner = dim →
        (oldCoord.dimensions.ndim = 1 ∨ ∃ k, var.dimensions.extent dim = some k ∧
            oldCoord.dimensions = var.dimensions.resize dim (k + 1)) ∧
        (newCoord.dimensions.ndim = 1 ∨ ∃ k, result.dimensions.extent dim = some k ∧
            newCoord.dimensions = result.dimensions.resize dim (k + 1))) ∧
      (result.dimensions.inner ≠ dim →
        oldCoord.dimensions.ndim = 1 ∧ newCoord.dimensions.ndim = 1) := by
  subst hdim
  cases hr : rebin R var oldCoord newCoord with
  | error e => exact Or.inl ⟨e, rfl⟩
  | ok result =>
    right
    unfold rebin at hr
    cases hc : R.countsOrCountsDensity var with
    | some e => rw [hc] at hr; cases hr
    | none =>
      rw [hc] at hr
      simp only [if_pos hunit, bind, Except.bind] at hr
      cases he : extentOf newCoord.dimensions (R.coordDimension newCoord.tag.value) with
      | error e => rw [he] at hr; cases hr
      | ok n =>
        rw [he] at hr
        simp only at hr
        cases hd : var.m_object.cloneWith
            (var.dimensions.resize (R.coordDimension newCoord.tag.value) (n - 1)) with
        | error e => rw [hd] at hr; cases hr
        | ok data =>
          rw [hd] at hr
          simp only at hr
          have hdims : data.dimensions
              = var.dimensions.resize (R.coordDimension newCoord.tag.value) (n - 1) :=
            (cloneWith_ok _ _ _ hd).2.1
          have shape : ∀ r : Variable, r.dimensions
              = var.dimensions.resize (R.coordDimension newCoord.tag.value) (n - 1) →
              (var.dimensions.contains (R.coordDimension newCoord.tag.value) = true →
                r.dimensions.extent (R.coordDimension newCoord.tag.value) = some (n - 1)) ∧
              (∀ label, label ≠ R.coordDimension newCoord.tag.value →
                r.dimensions.extent label = var.dimensions.extent label) := by
            intro r hrd
            rw [hrd]
            exact ⟨fun hcon => by rw [resize_extent, if_pos ⟨rfl, hcon⟩],
              fun label hl => resize_other_extent _ _ _ _ hl⟩
          by_cases hcond : (Variable.dimensions { var with m_object := data }).inner
              = R.coordDimension newCoord.tag.value
          · have hinner : data.dimensions.inner = R.coordDimension newCoord.tag.value := hcond
            rw [if_pos hcond] at hr
            cases hq : requireRebin R (Variable.data { var with m_object := data }) var.data
                (R.coordDimension newCoord.tag.value) oldCoord.data newCoord.data with
            | error e => rw [hq] at hr; cases hr
            | ok data2 =>
              rw [hq] at hr
              simp only [pure, Except.pure] at hr
              cases hr
              obtain ⟨h1, h2, h3⟩ := requireRebin_ok _ _ _ _ _ _ _ hq
              have hres : Variable.dimensions { var with m_object := data2 }
                  = var.dimensions.resize (R.coordDimension newCoord.tag.value) (n - 1) :=
                h1.trans hdims
              refine ⟨_, n, rfl, extentOf_ok _ _ _ he, hres, (shape _ hres).1, (shape _ hres).2,
                ?_, ?_⟩
              · intro _
                refine ⟨isMatchingOr1DBinEdge_true _ _ _ h2, ?_⟩
                have h4 := isMatchingOr1DBinEdge_true _ _ _ h3
                have h5 : Variable.dimensions { var with m_object := data2 }
                    = (Variable.data { var with m_object := data }).dimensions := h1
                rw [h5]
                exact h4
              · intro hne
                exact absurd (by rw [hres, ← hdims]; exact hinner) hne
          · rw [if_neg hcond] at hr
            obtain ⟨h1, h2, h3⟩ := rebinOuter_ok _ _ _ _ _ _ _ hr
            have hres : result.dimensions
                = var.dimensions.resize (R.coordDimension newCoord.tag.value) (n - 1) :=
              h1.trans hdims
            refine ⟨_, n, rfl, extentOf_ok _ _ _ he, hres, (shape _ hres).1, (shape _ hres).2,
              ?_, ?_⟩
            · intro hin
              exact absurd (by rw [← hin, h1]) hcond
            · intro _
              exact ⟨h2, h3⟩

theorem rebin_counts_shape_witness :
    Dim.X = exampleRebinInterface.coordDimension exampleNewCoord.tag.value ∧
    (exampleCounts.unit = exampleRebinInterface.counts ∨
      exampleCounts.unit
        = exampleRebinInterface.unitMul exampleRebinInterface.counts
            exampleRebinInterface.counts) ∧
    rebin exampleRebinInterface exampleCounts exampleOldCoord exampleNewCoord
      = .ok exampleRebinned ∧
    exampleRebinned.dimensions = ⟨[(Dim.Y, 2), (Dim.X, 1)]⟩ ∧
    ((∃ e, rebin exampleRebinInterface exampleCounts exampleOldCoord exampleNewCoord
        = .error e) ∨
    ∃ result n, rebin exampleRebinInterface exampleCounts exampleOldCoord exampleNewCoord
        = .ok result ∧
      exampleNewCoord.dimensions.extent Dim.X = some n ∧
      result.dimensions = exampleCounts.dimensions.resize Dim.X (n - 1) ∧
      (exampleCounts.dimensions.contains Dim.X = true →
        result.dimensions.extent Dim.X = some (n - 1)) ∧
      (∀ label, label ≠ Dim.X →
        result.dimensions.extent label = exampleCounts.dimensions.extent label) ∧
      (result.dimensions.inner = Dim.X →
        (exampleOldCoord.dimensions.ndim = 1 ∨ ∃ k, exampleCounts.dimensions.extent Dim.X = some k ∧
            exampleOldCoord.dimensions = exampleCounts.dimensions.resize Dim.X (k + 1)) ∧
        (exampleNewCoord.dimensions.ndim = 1 ∨ ∃ k, result.dimensions.extent Dim.X = some k ∧
            exampleNewCoord.dimensions = result.dimensions.resize Dim.X (k + 1))) ∧
      (result.dimensions.inner ≠ Dim.X →
        exampleOldCoord.dimensions.ndim = 1 ∧ exampleNewCoord.dimensions.ndim = 1)) :=
  ⟨rfl, Or.inl rfl, rfl, rfl,
    rebin_counts_shape exampleRebinInterface exampleCounts exampleOldCoord exampleNewCoord Dim.X
      rfl (Or.inl rfl)⟩

end Storage

namespace core

open extents

/-! ## Data of one more element on a known extent -/

/-- Claim C31: on an entry holding the known extent `h`, `setExtent` for an insertion that is
not a coordinate, with the extent `h + 1`, does not throw and leaves the table,
and with it the held value `h`, as it was. -/
theorem data_one_larger_accepted (Sparse : Int) (dims : ExtentMap) (d : Dim) (h : Int)
    (hh : 0 ≤ h) (hS : Sparse < 0) (hd : dims d = some h) :
    (setExtent Sparse dims d (h + 1) false).threw = none ∧
    (setExtent Sparse dims d (h + 1) false).dims = dims ∧
    (setExtent Sparse dims d (h + 1) false).dims d = some h := by
  rw [setExtent_known Sparse dims d h (h + 1) false hh (by omega) (by omega) hd,
    if_neg (fun hc => hc.2 rfl)]
  exact ⟨rfl, rfl, hd⟩

theorem data_one_larger_accepted_witness :
    (0 : Int) ≤ 3 ∧ (-9223372036854775808 : Int) < 0 ∧
    (ExtentMap.empty.assign Dim.X 3) Dim.X = some 3 ∧
    (setExtent (-9223372036854775808) (ExtentMap.empty.assign Dim.X 3) Dim.X (3 + 1) false).threw
      = none ∧
    (setExtent (-9223372036854775808) (ExtentMap.empty.assign Dim.X 3) Dim.X (3 + 1) false).dims
      = ExtentMap.empty.assign Dim.X 3 ∧
    (setExtent (-9223372036854775808) (ExtentMap.empty.assign Dim.X 3) Dim.X (3 + 1) false).dims
      Dim.X = some 3 :=
  ⟨by decide, by decide, assign_same _ _ _,
    data_one_larger_accepted (-9223372036854775808) (ExtentMap.empty.assign Dim.X 3) Dim.X 3
      (by decide) (by decide) (assign_same _ _ _)⟩

/-! ## Two insertions of data for a new dimension -/

/-- Claim C39: for a dimension `d` that is not in the table and extents `e1, e2 ≥ 0`, if
`setExtent` for `d` with `e1` and then with `e2`, both not for a coordinate, does
not throw, then `e2 = e1` or `e2 = e1 - 1`; for `e2 = e1` the entry stays in
unknown edge state and decodes to `e1`, and for `e2 = e1 - 1` the entry is the
known extent `e2`. -/
theorem two_data_insertions (Sparse : Int) (dims : ExtentMap) (d : Dim) (e1 e2 : Int)
    (he1 : 0 ≤ e1) (he2 : 0 ≤ e2) (hS : Sparse < 0) (hS1 : Sparse ≠ -e1 - 1)
    (hd : dims d = none)
    (h2 : (setExtent Sparse (setExtent Sparse dims d e1 false).dims d e2 false).threw = none) :
    (setExtent Sparse dims d e1 false).threw = none ∧
    (e2 = e1 ∨ e2 = e1 - 1) ∧
    (e2 = e1 →
      ∃ held, (setExtent Sparse (setExtent Sparse dims d e1 false).dims d e2 false).dims d
          = some held ∧
        isUnknownEdgeState Sparse held = true ∧ decodeExtent Sparse held = e1) ∧
    (e2 = e1 - 1 →
      (setExtent Sparse (setExtent Sparse dims d e1 false).dims d e2 false).dims d = some e2 ∧
        isUnknownEdgeState Sparse e2 = false) := by
  have hm : makeUnknownEdgeState Sparse e1 = -e1 - 1 := by
    unfold makeUnknownEdgeState
    rw [if_neg (by omega)]
  have hu : isUnknownEdgeState Sparse (-e1 - 1) = true := by
    simp only [isUnknownEdgeState, Bool.and_eq_true, decide_eq_true_eq]
    exact ⟨by omega, fun hc => hS1 hc.symm⟩
  have hdec : decodeExtent Sparse (-e1 - 1) = e1 := by
    unfold decodeExtent
    rw [if_pos hu]
    omega
  have hk : isUnknownEdgeState Sparse e2 = false := by
    simp only [isUnknownEdgeState, Bool.and_eq_false_imp, decide_eq_true_eq]
    intro hc; omega
  rw [setExtent_absent Sparse dims d e1 false hd, hm] at h2 ⊢
  simp only at h2 ⊢
  refine ⟨trivial, ?_⟩
  rw [setExtent_unknownEdge Sparse _ d e1 e2 false he1 hS1 (by omega) (assign_same _ _ _)]
    at h2 ⊢
  by_cases c1 : e2 = e1
  · rw [if_pos c1]
    refine ⟨Or.inl c1, fun _ => ⟨-e1 - 1, assign_same _ _ _, hu, hdec⟩, fun c2 => ?_⟩
    omega
  · rw [if_neg c1] at h2 ⊢
    rw [if_neg (fun hc => Bool.false_ne_true hc.2)] at h2 ⊢
    by_cases c2 : e2 = e1 - 1
    · rw [if_pos ⟨c2, rfl⟩]
      exact ⟨Or.inr c2, fun c3 => absurd c3 c1, fun _ => ⟨assign_same _ _ _, hk⟩⟩
    · rw [if_neg (fun hc => c2 hc.1)] at h2
      cases h2

theorem two_data_insertions_witness :
    (setExtent (-9223372036854775808) ExtentMap.empty Dim.X 5 false).threw = none ∧
    ((4 : Int) = 5 ∨ (4 : Int) = 5 - 1) ∧
    ((4 : Int) = 5 →
      ∃ held, (setExtent (-9223372036854775808)
          (setExtent (-9223372036854775808) ExtentMap.empty Dim.X 5 false).dims Dim.X 4
            false).dims Dim.X = some held ∧
        isUnknownEdgeState (-9223372036854775808) held = true ∧
        decodeExtent (-9223372036854775808) held = 5) ∧
    ((4 : Int) = 5 - 1 →
      (setExtent (-9223372036854775808)
          (setExtent (-9223372036854775808) ExtentMap.empty Dim.X 5 false).dims Dim.X 4
            false).dims Dim.X = some 4 ∧
        isUnknownEdgeState (-9223372036854775808) 4 = false) :=
  two_data_insertions (-9223372036854775808) ExtentMap.empty Dim.X 5 4 (by decide) (by decide)
    (by decide) (by decide) rfl (by decide)

/-! ## The copy of the table in `setDims` -/

theorem setDimsLoop_fold (Sparse : Int) (dims : Dimensions) (coordDim : Dim)
    (labels : List Dim) (tmp : ExtentMap)
    (h : (setDimsLoop Sparse dims coordDim labels tmp).threw = none) :
    (setDimsLoop Sparse dims coordDim labels tmp).dims
      = labels.foldl (fun t dim =>
          match dims.extent dim with
          | some e => (setExtent Sparse t dim e (decide (dim = coordDim))).dims
          | none => t) tmp := by
  induction labels generalizing tmp with
  | nil => rfl
  | cons dim rest ih =>
    unfold setDimsLoop at h ⊢
    simp only [List.foldl_cons]
    cases he : dims.extent dim with
    | none => rw [he] at h; cases h
    | some e =>
      rw [he] at h
      simp only at h ⊢
      generalize setExtent Sparse tmp dim e (decide (dim = coordDim)) = result at h ⊢
      obtain ⟨tmp1, threw⟩ := result
      cases threw with
      | none => exact ih tmp1 h
      | some msg => cases h

/-- Claim C37: `Dataset::setDims` works on a copy of the table.  If the call throws, the
dataset, and with it `m_dims`, is what it was before the call, also where
`setExtent` has changed the copy before it threw.  If the call does not throw,
nothing but `m_dims` has changed, and `m_dims` is what `setExtent` makes of the
table for each dense label of `dims` in order and then, if `dims` has a sparse
dimension, for that dimension with the sparse sentinel. -/
theorem setDims_atomic (Sparse : Int) (ds : Dataset) (dims : Dimensions) (coordDim : Dim) :
    (∀ msg, (ds.setDims Sparse dims coordDim).threw = some msg →
      (ds.setDims Sparse dims coordDim).dataset = ds) ∧
    ((ds.setDims Sparse dims coordDim).threw = none →
      (ds.setDims Sparse dims coordDim).dataset
        = { ds with m_dims := (ds.setDims Sparse dims coordDim).dataset.m_dims } ∧
      (ds.setDims Sparse dims coordDim).dataset.m_dims
        = (fun dense =>
            if dims.sparse Sparse then
              (setExtent Sparse dense (dims.sparseDim Sparse) Sparse false).dims
            else dense)
          ((dims.denseLabels Sparse).foldl (fun t dim =>
            match dims.extent dim with
            | some e => (setExtent Sparse t dim e (decide (dim = coordDim))).dims
            | none => t) ds.m_dims)) := by
  unfold Dataset.setDims setDimsTable
  have key := setDimsLoop_fold Sparse dims coordDim (dims.denseLabels Sparse) ds.m_dims
  generalize setDimsLoop Sparse dims coordDim (dims.denseLabels Sparse) ds.m_dims = loop at key ⊢
  obtain ⟨tmp, threw⟩ := loop
  cases threw with
  | some msg => exact ⟨fun _ _ => rfl, fun hc => by cases hc⟩
  | none =>
    have hfold := key rfl
    simp only at hfold ⊢
    rw [← hfold]
    by_cases hs : dims.sparse Sparse = true
    · simp only [hs, if_true]
      generalize setExtent Sparse tmp (dims.sparseDim Sparse) Sparse false = result
      obtain ⟨tmp1, threw1⟩ := result
      cases threw1 with
      | some msg => exact ⟨fun _ _ => rfl, fun hc => by cases hc⟩
      | none =>
        exact ⟨fun _ hc => (by cases hc), fun _ => ⟨rfl, rfl⟩⟩
    · simp only [hs, if_false, Bool.false_eq_true]
      exact ⟨fun _ hc => (by cases hc), fun _ => ⟨trivial, trivial⟩⟩

end core

namespace RebinHelper

/-! ## Cursors, reads and writes of the loop of `rebinInner` -/

theorem loopBody_skips (oldData xold xnew : Span) (eo en oo no : Nat) (st : LoopState)
    (h : contributes xold xnew eo en st = false) :
    (loopBody oldData xold xnew eo en oo no st).newData = st.newData := by
  unfold contributes at h
  unfold loopBody
  simp only [] at h ⊢
  by_cases c1 : (((xnew (en + st.inew)).isnan || (xnew (en + st.inew + 1)).isnan) ||
      (xnew (en + st.inew + 1)).le (xold (eo + st.iold))) = true
  · rw [if_pos c1]
  · rw [if_neg c1]
    by_cases c2 : (((xold (eo + st.iold)).isnan || (xold (eo + st.iold + 1)).isnan) ||
        (xold (eo + st.iold + 1)).le (xnew (en + st.inew))) = true
    · rw [if_pos c2]
    · exfalso
      simp only [Bool.not_eq_true] at c1 c2
      rw [c1, c2] at h
      exact absurd h (by decide)

theorem loopBody_contributes (oldData xold xnew : Span) (eo en oo no : Nat) (st : LoopState)
    (h : contributes xold xnew eo en st = true) :
    (loopBody oldData xold xnew eo en oo no st).newData
      = st.newData.set (no + st.inew)
          ((st.newData (no + st.inew)).add
            (((oldData (oo + st.iold)).mul (delta xold xnew eo en st)).div
              (owidth xold eo st))) := by
  unfold contributes at h
  unfold loopBody delta owidth
  simp only [Bool.and_eq_true, Bool.not_eq_true'] at h
  simp only []
  rw [if_neg (by rw [h.1]; decide), if_neg (by rw [h.2]; decide)]
  split_ifs <;> rfl

theorem contributes_of_skip (xold xnew : Span) (eo en : Nat) (st : LoopState)
    (h : (xnew (en + st.inew)).isnan = true ∨ (xnew (en + st.inew + 1)).isnan = true ∨
      (xold (eo + st.iold)).isnan = true ∨ (xold (eo + st.iold + 1)).isnan = true ∨
      (xnew (en + st.inew + 1)).le (xold (eo + st.iold)) = true ∨
      (xold (eo + st.iold + 1)).le (xnew (en + st.inew)) = true) :
    contributes xold xnew eo en st = false := by
  unfold contributes
  simp only []
  rcases h with h | h | h | h | h | h <;> simp [h]

theorem loopBody_reads (oldData xold xnew xold2 xnew2 : Span) (eo en oo no : Nat)
    (st : LoopState)
    (h1 : xold2 (eo + st.iold) = xold (eo + st.iold))
    (h2 : xold2 (eo + st.iold + 1) = xold (eo + st.iold + 1))
    (h3 : xnew2 (en + st.inew) = xnew (en + st.inew))
    (h4 : xnew2 (en + st.inew + 1) = xnew (en + st.inew + 1)) :
    loopBody oldData xold2 xnew2 eo en oo no st = loopBody oldData xold xnew eo en oo no st := by
  unfold loopBody
  rw [h1, h2, h3, h4]

theorem whileLoop_reads (n m : Nat) (oldData xold xnew xold2 xnew2 : Span) (eo en oo no : Nat)
    (hold : ∀ k, k ≤ n → xold2 (eo + k) = xold (eo + k))
    (hnew : ∀ k, k ≤ m → xnew2 (en + k) = xnew (en + k)) (fuel : Nat) (st : LoopState) :
    whileLoop n m oldData xold2 xnew2 eo en oo no fuel st
      = whileLoop n m oldData xold xnew eo en oo no fuel st := by
  induction fuel generalizing st with
  | zero => rfl
  | succ fuel ih =>
    unfold whileLoop
    by_cases hc : loopCondition n m st = true
    · rw [if_pos hc, if_pos hc]
      simp only [loopCondition, Bool.and_eq_true, decide_eq_true_eq] at hc
      rw [loopBody_reads oldData xold xnew xold2 xnew2 eo en oo no st
        (hold _ (by omega)) (by rw [Nat.add_assoc]; exact hold _ (by omega))
        (hnew _ (by omega)) (by rw [Nat.add_assoc]; exact hnew _ (by omega))]
      exact ih _
    · rw [if_neg hc, if_neg hc]

theorem whileLoop_reads_data (n m : Nat) (oldData oldData2 xold xnew : Span) (eo en oo no : Nat)
    (hdata : ∀ k, k < n → oldData2 (oo + k) = oldData (oo + k)) (fuel : Nat) (st : LoopState) :
    whileLoop n m oldData2 xold xnew eo en oo no fuel st
      = whileLoop n m oldData xold xnew eo en oo no fuel st := by
  induction fuel generalizing st with
  | zero => rfl
  | succ fuel ih =>
    unfold whileLoop
    by_cases hc : loopCondition n m st = true
    · rw [if_pos hc, if_pos hc]
      simp only [loopCondition, Bool.and_eq_true, decide_eq_true_eq] at hc
      have hb : loopBody oldData2 xold xnew eo en oo no st
          = loopBody oldData xold xnew eo en oo no st := by
        unfold loopBody
        rw [hdata _ hc.1]
      rw [hb]
      exact ih _
    · rw [if_neg hc, if_neg hc]

theorem whileLoop_of_ended (n m : Nat) (oldData xold xnew : Span) (eo en oo no : Nat)
    (fuel : Nat) (st : LoopState) (h : loopCondition n m st = false) :
    whileLoop n m oldData xold xnew eo en oo no fuel st = st := by
  cases fuel with
  | zero => rfl
  | succ fuel =>
    unfold whileLoop
    rw [if_neg (by rw [h]; decide)]

theorem whileLoop_succ (n m : Nat) (oldData xold xnew : Span) (eo en oo no : Nat)
    (fuel : Nat) (st : LoopState) :
    whileLoop n m oldData xold xnew eo en oo no (fuel + 1) st
      = if loopCondition n m st then
          whileLoop n m oldData xold xnew eo en oo no fuel
            (loopBody oldData xold xnew eo en oo no st)
        else st := rfl

theorem whileLoop_add (n m : Nat) (oldData xold xnew : Span) (eo en oo no : Nat)
    (fuel more : Nat) (st : LoopState) :
    whileLoop n m oldData xold xnew eo en oo no (fuel + more) st
      = whileLoop n m oldData xold xnew eo en oo no more
          (whileLoop n m oldData xold xnew eo en oo no fuel st) := by
  induction fuel generalizing st with
  | zero => rw [Nat.zero_add]; rfl
  | succ fuel ih =>
    rw [Nat.add_right_comm, whileLoop_succ, whileLoop_succ]
    by_cases hc : loopCondition n m st = true
    · rw [if_pos hc, if_pos hc]
      exact ih _
    · rw [if_neg hc, if_neg hc]
      exact (whileLoop_of_ended _ _ _ _ _ _ _ _ _ _ _ (by simpa using hc)).symm

theorem whileLoop_enough (n m : Nat) (oldData xold xnew : Span) (eo en oo no : Nat)
    (fuel : Nat) (newData : Span) (hfuel : n + m ≤ fuel) :
    whileLoop n m oldData xold xnew eo en oo no fuel ⟨0, 0, newData⟩
      = whileLoop n m oldData xold xnew eo en oo no (n + m) ⟨0, 0, newData⟩ := by
  obtain ⟨more, rfl⟩ := Nat.exists_eq_add_of_le hfuel
  rw [whileLoop_add]
  exact whileLoop_of_ended _ _ _ _ _ _ _ _ _ _ _
    (whileLoop_ends n m oldData xold xnew eo en oo no (n + m) ⟨0, 0, newData⟩ (by simp))

end RebinHelper

namespace RebinGeneralHelper

open core (Exception)

/-! ## Cursors, reads and writes of the loop of `RebinGeneralHelper::rebin` -/

theorem generalBody_advances {α : Type} (addTo : Nat → Nat → Value → Value → α → Except Exception α)
    (xold xnew : Span) (st next : LoopState α) (h : loopBody addTo xold xnew st = .ok next) :
    next.iold + next.inew = st.iold + st.inew + 1 ∧ st.iold ≤ next.iold ∧
      st.inew ≤ next.inew := by
  unfold loopBody at h
  by_cases c0 : st.iold < INT_MAX ∧ st.inew < INT_MAX
  swap
  · rw [if_neg c0] at h
    cases h
  rw [if_pos c0] at h
  simp only [] at h
  by_cases c1 : (((xnew st.inew).isnan || (xnew (st.inew + 1)).isnan) ||
      (xnew (st.inew + 1)).le (xold st.iold)) = true
  · rw [if_pos c1] at h
    cases h; simp only []; omega
  · rw [if_neg c1] at h
    by_cases c2 : (((xold st.iold).isnan || (xold (st.iold + 1)).isnan) ||
        (xold (st.iold + 1)).le (xnew st.inew)) = true
    · rw [if_pos c2] at h
      cases h; simp only []; omega
    · rw [if_neg c2] at h
      generalize addTo st.inew st.iold _ _ st.newT = added at h
      cases added with
      | error e => cases h
      | ok newT =>
        simp only [] at h
        by_cases c3 : (xnew (st.inew + 1)).gt (xold (st.iold + 1)) = true
        · rw [if_pos c3] at h
          cases h; simp only []; omega
        · rw [if_neg c3] at h
          cases h; simp only []; omega

theorem generalBody_skips {α : Type} (addTo : Nat → Nat → Value → Value → α → Except Exception α)
    (xold xnew : Span) (st : LoopState α) (hold : st.iold < INT_MAX) (hnew : st.inew < INT_MAX)
    (h : (xnew st.inew).isnan = true ∨ (xnew (st.inew + 1)).isnan = true ∨
      (xold st.iold).isnan = true ∨ (xold (st.iold + 1)).isnan = true ∨
      (xnew (st.inew + 1)).le (xold st.iold) = true ∨
      (xold (st.iold + 1)).le (xnew st.inew) = true) :
    ∃ next, loopBody addTo xold xnew st = .ok next ∧ next.newT = st.newT := by
  unfold loopBody
  rw [if_pos ⟨hold, hnew⟩]
  simp only []
  by_cases c1 : (((xnew st.inew).isnan || (xnew (st.inew + 1)).isnan) ||
      (xnew (st.inew + 1)).le (xold st.iold)) = true
  · rw [if_pos c1]
    exact ⟨_, rfl, rfl⟩
  · rw [if_neg c1]
    by_cases c2 : (((xold st.iold).isnan || (xold (st.iold + 1)).isnan) ||
        (xold (st.iold + 1)).le (xnew st.inew)) = true
    · rw [if_pos c2]
      exact ⟨_, rfl, rfl⟩
    · exfalso
      simp only [Bool.or_eq_true, not_or, Bool.not_eq_true] at c1 c2
      rcases h with h | h | h | h | h | h
      · rw [c1.1.1] at h; cases h
      · rw [c1.1.2] at h; cases h
      · rw [c2.1.1] at h; cases h
      · rw [c2.1.2] at h; cases h
      · rw [c1.2] at h; cases h
      · rw [c2.2] at h; cases h

theorem generalLoop_succ {α : Type} (addTo : Nat → Nat → Value → Value → α → Except Exception α)
    (n m : Nat) (xold xnew : Span) (fuel : Nat) (st : LoopState α) :
    whileLoop addTo n m xold xnew (fuel + 1) st
      = if loopCondition n m st then
          match loopBody addTo xold xnew st with
          | .error e => .error e
          | .ok next => whileLoop addTo n m xold xnew fuel next
        else .ok st := rfl

theorem generalLoop_depends {α : Type}
    (addTo addTo2 : Nat → Nat → Value → Value → α → Except Exception α) (n m : Nat)
    (xold xnew xold2 xnew2 : Span)
    (hold : ∀ k, k ≤ n → xold2 k = xold k) (hnew : ∀ k, k ≤ m → xnew2 k = xnew k)
    (hadd : ∀ inew iold, inew < m → iold < n → addTo2 inew iold = addTo inew iold)
    (fuel : Nat) (st : LoopState α) :
    whileLoop addTo2 n m xold2 xnew2 fuel st = whileLoop addTo n m xold xnew fuel st := by
  induction fuel generalizing st with
  | zero => rfl
  | succ fuel ih =>
    rw [generalLoop_succ, generalLoop_succ]
    by_cases hc : loopCondition n m st = true
    · rw [if_pos hc, if_pos hc]
      simp only [loopCondition, Bool.and_eq_true, decide_eq_true_eq] at hc
      have hb : loopBody addTo2 xold2 xnew2 st = loopBody addTo xold xnew st := by
        unfold loopBody
        rw [hold _ (by omega), hold (st.iold + 1) (by omega), hnew _ (by omega),
          hnew (st.inew + 1) (by omega), hadd _ _ hc.2 hc.1]
      rw [hb]
      cases loopBody addTo xold xnew st with
      | error e => rfl
      | ok next => exact ih next
    · rw [if_neg hc, if_neg hc]

theorem generalLoop_ends {α : Type} (addTo : Nat → Nat → Value → Value → α → Except Exception α)
    (n m : Nat) (xold xnew : Span) (fuel : Nat) (st final : LoopState α)
    (hfuel : (n - st.iold) + (m - st.inew) ≤ fuel)
    (h : whileLoop addTo n m xold xnew fuel st = .ok final) :
    loopCondition n m final = false := by
  induction fuel generalizing st with
  | zero =>
    cases h
    simp only [loopCondition, Bool.and_eq_false_imp, decide_eq_true_eq,
      decide_eq_false_iff_not]
    intro h1
    omega
  | succ fuel ih =>
    rw [generalLoop_succ] at h
    by_cases hc : loopCondition n m st = true
    · rw [if_pos hc] at h
      simp only [loopCondition, Bool.and_eq_true, decide_eq_true_eq] at hc
      cases hb : loopBody addTo xold xnew st with
      | error e => rw [hb] at h; cases h
      | ok next =>
        rw [hb] at h
        have hadv := generalBody_advances addTo xold xnew st next hb
        exact ih next (by omega) h
    · rw [if_neg hc] at h
      cases h
      simpa using hc

theorem generalLoop_of_ended {α : Type}
    (addTo : Nat → Nat → Value → Value → α → Except Exception α) (n m : Nat) (xold xnew : Span)
    (fuel : Nat) (st : LoopState α) (h : loopCondition n m st = false) :
    whileLoop addTo n m xold xnew fuel st = .ok st := by
  cases fuel with
  | zero => rfl
  | succ fuel =>
    rw [generalLoop_succ, if_neg (by rw [h]; decide)]

theorem generalLoop_add {α : Type} (addTo : Nat → Nat → Value → Value → α → Except Exception α)
    (n m : Nat) (xold xnew : Span) (fuel more : Nat) (st : LoopState α) :
    whileLoop addTo n m xold xnew (fuel + more) st
      = match whileLoop addTo n m xold xnew fuel st with
        | .error e => .error e
        | .ok next => whileLoop addTo n m xold xnew more next := by
  induction fuel generalizing st with
  | zero => rw [Nat.zero_add]; rfl
  | succ fuel ih =>
    rw [Nat.add_right_comm, generalLoop_succ, generalLoop_succ]
    by_cases hc : loopCondition n m st = true
    · rw [if_pos hc, if_pos hc]
      cases loopBody addTo xold xnew st with
      | error e => rfl
      | ok next => exact ih next
    · rw [if_neg hc, if_neg hc]
      exact (generalLoop_of_ended addTo n m xold xnew more st (by simpa using hc)).symm

theorem generalLoop_enough {α : Type} (addTo : Nat → Nat → Value → Value → α → Except Exception α)
    (n m : Nat) (xold xnew : Span) (fuel : Nat) (newT : α) (hfuel : n + m ≤ fuel) :
    whileLoop addTo n m xold xnew fuel ⟨0, 0, newT⟩
      = whileLoop addTo n m xold xnew (n + m) ⟨0, 0, newT⟩ := by
  obtain ⟨more, rfl⟩ := Nat.exists_eq_add_of_le hfuel
  rw [generalLoop_add]
  cases h : whileLoop addTo n m xold xnew (n + m) ⟨0, 0, newT⟩ with
  | error e => rfl
  | ok final =>
    exact generalLoop_of_ended _ _ _ _ _ _ _
      (generalLoop_ends addTo n m xold xnew (n + m) ⟨0, 0, newT⟩ final (by simp) h)

/-- An iteration with both cursors below `INT_MAX` returns when the statement that adds to
the output does. -/
theorem generalBody_returns {α : Type}
    (addTo : Nat → Nat → Value → Value → α → Except Exception α) (xold xnew : Span)
    (st : LoopState α) (hold : st.iold < INT_MAX) (hnew : st.inew < INT_MAX)
    (hadd : ∀ delta owidth, ∃ newT, addTo st.inew st.iold delta owidth st.newT = .ok newT) :
    ∃ next, loopBody addTo xold xnew st = .ok next := by
  unfold loopBody
  rw [if_pos ⟨hold, hnew⟩]
  simp only []
  by_cases c1 : (((xnew st.inew).isnan || (xnew (st.inew + 1)).isnan) ||
      (xnew (st.inew + 1)).le (xold st.iold)) = true
  · rw [if_pos c1]
    exact ⟨_, rfl⟩
  · rw [if_neg c1]
    by_cases c2 : (((xold st.iold).isnan || (xold (st.iold + 1)).isnan) ||
        (xold (st.iold + 1)).le (xnew st.inew)) = true
    · rw [if_pos c2]
      exact ⟨_, rfl⟩
    · rw [if_neg c2]
      obtain ⟨newT, hn⟩ := hadd
        ((if (xold (st.iold + 1)).lt (xnew (st.inew + 1)) then xold (st.iold + 1)
          else xnew (st.inew + 1)).sub
          (if (xold st.iold).gt (xnew st.inew) then xold st.iold else xnew st.inew))
        ((xold (st.iold + 1)).sub (xold st.iold))
      rw [hn]
      simp only []
      by_cases c3 : (xnew (st.inew + 1)).gt (xold (st.iold + 1)) = true
      · rw [if_pos c3]
        exact ⟨_, rfl⟩
      · rw [if_neg c3]
        exact ⟨_, rfl⟩

/-- For extents up to `INT_MAX` the loop returns when the statement that adds to the output
always does: no cursor overflows. -/
theorem generalLoop_returns {α : Type}
    (addTo : Nat → Nat → Value → Value → α → Except Exception α) (n m : Nat) (xold xnew : Span)
    (hn : n ≤ INT_MAX) (hm : m ≤ INT_MAX)
    (hadd : ∀ inew iold delta owidth newT, ∃ r, addTo inew iold delta owidth newT = .ok r)
    (fuel : Nat) (st : LoopState α) :
    ∃ final, whileLoop addTo n m xold xnew fuel st = .ok final := by
  induction fuel generalizing st with
  | zero => exact ⟨st, rfl⟩
  | succ fuel ih =>
    rw [generalLoop_succ]
    by_cases hc : loopCondition n m st = true
    · rw [if_pos hc]
      simp only [loopCondition, Bool.and_eq_true, decide_eq_true_eq] at hc
      obtain ⟨next, hb⟩ := generalBody_returns addTo xold xnew st (by omega) (by omega)
        (fun delta owidth => hadd _ _ _ _ _)
      rw [hb]
      exact ih next
    · rw [if_neg hc]
      exact ⟨st, rfl⟩

/-- With more than `INT_MAX` new bins, new edges that are all NaN and an old bin, every
iteration advances `inew`, which gets to `INT_MAX` while the loop goes on: the
next iteration overflows. -/
theorem generalLoop_overflows {α : Type}
    (addTo : Nat → Nat → Value → Value → α → Except Exception α) (n m : Nat) (xold : Span)
    (newT : α) (hn : 0 < n) (hm : INT_MAX < m)
    (j : Nat) : ∀ (fuel k : Nat), k + j = INT_MAX → j < fuel →
      whileLoop addTo n m xold (fun _ => Value.nan) fuel ⟨0, k, newT⟩ = .error overflow := by
  have hmax : 0 < INT_MAX := by decide
  induction j with
  | zero =>
    intro fuel k hk hfuel
    obtain ⟨fuel, rfl⟩ : ∃ f, fuel = f + 1 := ⟨fuel - 1, by omega⟩
    rw [generalLoop_succ]
    have hc : loopCondition n m (⟨0, k, newT⟩ : LoopState α) = true := by
      simp only [loopCondition, Bool.and_eq_true, decide_eq_true_eq]
      omega
    rw [if_pos hc]
    have hb : loopBody addTo xold (fun _ => Value.nan) (⟨0, k, newT⟩ : LoopState α)
        = .error overflow := by
      unfold loopBody
      rw [if_neg]
      simp only [not_and, not_lt]
      omega
    rw [hb]
  | succ j ih =>
    intro fuel k hk hfuel
    obtain ⟨fuel, rfl⟩ : ∃ f, fuel = f + 1 := ⟨fuel - 1, by omega⟩
    rw [generalLoop_succ]
    have hc : loopCondition n m (⟨0, k, newT⟩ : LoopState α) = true := by
      simp only [loopCondition, Bool.and_eq_true, decide_eq_true_eq]
      omega
    rw [if_pos hc]
    have hb : loopBody addTo xold (fun _ => Value.nan) (⟨0, k, newT⟩ : LoopState α)
        = .ok ⟨0, k + 1, newT⟩ := by
      unfold loopBody
      rw [if_pos ⟨hmax, by show k < INT_MAX; omega⟩]
      rfl
    rw [hb]
    exact ih fuel (k + 1) (by omega) (by omega)

theorem rebin_overflows {α : Type}
    (addTo : Nat → Nat → Value → Value → α → Except Exception α) (n m : Nat) (xold : Span)
    (newT : α) (hn : 0 < n) (hm : INT_MAX < m) :
    rebin addTo n m xold (fun _ => Value.nan) newT = .error overflow := by
  unfold rebin
  rw [generalLoop_overflows addTo n m xold newT hn hm INT_MAX (n + m) 0 (by omega) (by omega)]

end RebinGeneralHelper

namespace RebinHelper

open core (Exception)

/-- Claim C36: in the loop of `RebinHelper::rebinInner` over one row, whose cursors are of
type `gsl::index`, whatever the edges hold, NaN included: (1) an iteration
advances exactly one of the cursors `iold`, `inew` by one; (2) from the
cursors `0, 0` the loop has ended after `oldSize + newSize` iterations, and
more iterations change nothing; (3) an iteration in which an edge of the
current old or new bin is NaN or in which `xn_high <= xo_low` or
`xo_high <= xn_low` leaves the output as it is; (4) the loop reads the old
edges at indices up to `oldSize` and the new edges at indices up to `newSize`
only (and the old data below `oldSize`): other arrays that agree there give
the same result; (5) the loop writes the output at indices below `newSize`
only: every other element of the output is left as it was.  In the loop of
`RebinGeneralHelper::rebin`, whose cursors are of type `int`: (6) an iteration
that returns advances exactly one cursor by one; (7) the loop has ended after
`oldSize + newSize` iterations if it returns at all; (8) for extents up to
`INT_MAX` it does return when the statement that adds to the output never
throws; (9) an iteration with both cursors below `INT_MAX` in which an edge
is NaN or the bins do not overlap returns and leaves the output as it is;
(10) the loop reads the edges at indices up to the extents and runs the
statement that adds to the slice `inew` of the output for `inew < newSize`
and `iold < oldSize` only; (11) but with an old bin, more than `INT_MAX`
new bins (`INT_MAX + 1`, say) and new edges that are all NaN, the cursor
`inew` gets to `INT_MAX` and the sum `inew + 1` of the next iteration
overflows, so that the call does not return a result. -/
theorem rebin_loops_advance (oldSize newSize : Nat) (oldData xold xnew : Span)
    (eo en oo no : Nat) {α : Type} (addTo : Nat → Nat → Value → Value → α → Except Exception α) :
    (∀ st : LoopState,
      (loopBody oldData xold xnew eo en oo no st).iold
          + (loopBody oldData xold xnew eo en oo no st).inew = st.iold + st.inew + 1 ∧
        st.iold ≤ (loopBody oldData xold xnew eo en oo no st).iold ∧
        st.inew ≤ (loopBody oldData xold xnew eo en oo no st).inew) ∧
    (∀ (newData : Span) (fuel : Nat), oldSize + newSize ≤ fuel →
      whileLoop oldSize newSize oldData xold xnew eo en oo no fuel ⟨0, 0, newData⟩
          = whileLoop oldSize newSize oldData xold xnew eo en oo no (oldSize + newSize)
              ⟨0, 0, newData⟩ ∧
        loopCondition oldSize newSize
          (whileLoop oldSize newSize oldData xold xnew eo en oo no (oldSize + newSize)
            ⟨0, 0, newData⟩) = false) ∧
    (∀ st : LoopState,
      ((xnew (en + st.inew)).isnan = true ∨ (xnew (en + st.inew + 1)).isnan = true ∨
        (xold (eo + st.iold)).isnan = true ∨ (xold (eo + st.iold + 1)).isnan = true ∨
        (xnew (en + st.inew + 1)).le (xold (eo + st.iold)) = true ∨
        (xold (eo + st.iold + 1)).le (xnew (en + st.inew)) = true) →
      (loopBody oldData xold xnew eo en oo no st).newData = st.newData) ∧
    (∀ (oldData2 xold2 xnew2 : Span),
      (∀ k, k ≤ oldSize → xold2 (eo + k) = xold (eo + k)) →
      (∀ k, k ≤ newSize → xnew2 (en + k) = xnew (en + k)) →
      (∀ k, k < oldSize → oldData2 (oo + k) = oldData (oo + k)) →
      ∀ (fuel : Nat) (st : LoopState),
        whileLoop oldSize newSize oldData2 xold2 xnew2 eo en oo no fuel st
          = whileLoop oldSize newSize oldData xold xnew eo en oo no fuel st) ∧
    (∀ (fuel : Nat) (st : LoopState) (k : Nat), k < no ∨ no + newSize ≤ k →
      (whileLoop oldSize newSize oldData xold xnew eo en oo no fuel st).newData k
        = st.newData k) ∧
    (∀ st next : RebinGeneralHelper.LoopState α,
      RebinGeneralHelper.loopBody addTo xold xnew st = .ok next →
      next.iold + next.inew = st.iold + st.inew + 1 ∧ st.iold ≤ next.iold ∧
        st.inew ≤ next.inew) ∧
    (∀ (newT : α) (fuel : Nat), oldSize + newSize ≤ fuel →
      RebinGeneralHelper.whileLoop addTo oldSize newSize xold xnew fuel ⟨0, 0, newT⟩
          = RebinGeneralHelper.whileLoop addTo oldSize newSize xold xnew (oldSize + newSize)
              ⟨0, 0, newT⟩ ∧
        ∀ final, RebinGeneralHelper.whileLoop addTo oldSize newSize xold xnew
            (oldSize + newSize) ⟨0, 0, newT⟩ = .ok final →
          RebinGeneralHelper.loopCondition oldSize newSize final = false) ∧
    (oldSize ≤ RebinGeneralHelper.INT_MAX → newSize ≤ RebinGeneralHelper.INT_MAX →
      (∀ inew iold delta owidth newT, ∃ r, addTo inew iold delta owidth newT = .ok r) →
      ∀ (newT : α) (fuel : Nat),
        ∃ final, RebinGeneralHelper.whileLoop addTo oldSize newSize xold xnew fuel ⟨0, 0, newT⟩
          = .ok final) ∧
    (∀ st : RebinGeneralHelper.LoopState α,
      st.iold < RebinGeneralHelper.INT_MAX → st.inew < RebinGeneralHelper.INT_MAX →
      ((xnew st.inew).isnan = true ∨ (xnew (st.inew + 1)).isnan = true ∨
        (xold st.iold).isnan = true ∨ (xold (st.iold + 1)).isnan = true ∨
        (xnew (st.inew + 1)).le (xold st.iold) = true ∨
        (xold (st.iold + 1)).le (xnew st.inew) = true) →
      ∃ next, RebinGeneralHelper.loopBody addTo xold xnew st = .ok next ∧
        next.newT = st.newT) ∧
    (∀ (addTo2 : Nat → Nat → Value → Value → α → Except Exception α) (xold2 xnew2 : Span),
      (∀ k, k ≤ oldSize → xold2 k = xold k) →
      (∀ k, k ≤ newSize → xnew2 k = xnew k) →
      (∀ inew iold, inew < newSize → iold < oldSize → addTo2 inew iold = addTo inew iold) →
      ∀ (fuel : Nat) (st : RebinGeneralHelper.LoopState α),
        RebinGeneralHelper.whileLoop addTo2 oldSize newSize xold2 xnew2 fuel st
          = RebinGeneralHelper.whileLoop addTo oldSize newSize xold xnew fuel st) ∧
    (0 < oldSize → RebinGeneralHelper.INT_MAX < newSize → ∀ newT : α,
      RebinGeneralHelper.rebin addTo oldSize newSize xold (fun _ => Value.nan) newT
        = .error RebinGeneralHelper.overflow) := by
  refine ⟨fun st => loopBody_advances oldData xold xnew eo en oo no st, ?_, ?_, ?_, ?_, ?_, ?_,
    ?_, ?_, ?_, ?_⟩
  · intro newData fuel hfuel
    exact ⟨whileLoop_enough _ _ _ _ _ _ _ _ _ fuel newData hfuel,
      whileLoop_ends _ _ _ _ _ _ _ _ _ _ _ (by simp)⟩
  · intro st h
    exact loopBody_skips _ _ _ _ _ _ _ _ (contributes_of_skip _ _ _ _ _ h)
  · intro oldData2 xold2 xnew2 h1 h2 h3 fuel st
    rw [whileLoop_reads_data oldSize newSize oldData oldData2 xold2 xnew2 eo en oo no h3,
      whileLoop_reads oldSize newSize oldData xold xnew xold2 xnew2 eo en oo no h1 h2]
  · intro fuel st k hk
    exact whileLoop_frame _ _ _ _ _ _ _ _ _ _ _ k hk
  · intro st next h
    exact RebinGeneralHelper.generalBody_advances addTo xold xnew st next h
  · intro newT fuel hfuel
    exact ⟨RebinGeneralHelper.generalLoop_enough addTo _ _ _ _ fuel newT hfuel,
      fun final h => RebinGeneralHelper.generalLoop_ends addTo _ _ _ _ _ _ final (by simp) h⟩
  · intro hn hm hadd newT fuel
    exact RebinGeneralHelper.generalLoop_returns addTo _ _ xold xnew hn hm hadd fuel _
  · intro st hold hnew h
    exact RebinGeneralHelper.generalBody_skips addTo xold xnew st hold hnew h
  · intro addTo2 xold2 xnew2 h1 h2 h3 fuel st
    exact RebinGeneralHelper.generalLoop_depends addTo addTo2 _ _ _ _ _ _ h1 h2 h3 fuel st
  · intro hn hm newT
    exact RebinGeneralHelper.rebin_overflows addTo _ _ xold newT hn hm

/-! ## The fraction of an old bin that a new bin receives -/

/-- Claim C38, for arithmetic that is exact (the elements are rational numbers, so that no
difference overflows and no quotient is rounded): in a row of `rebinInner`
whose old edges and new edges are numbers and increase strictly, whenever the
body of the loop takes the branch that adds to the output, `owidth` is a
number `w > 0` and `delta` a number `d` with `0 < d ≤ w`: the quotient by
`owidth` is not a quotient by zero, and the fraction `delta / owidth` lies in
`(0, 1]`.  The branch adds `oldData * delta / owidth` to the element of the
current new bin. -/
theorem contribution_is_a_fraction (oldSize newSize : Nat) (oldData xold xnew : Span)
    (eo en oo no : Nat) (x y v : Nat → ℚ)
    (hin : RowInput oldSize newSize oldData xold xnew eo en oo x y v)
    (st : LoopState) (hi : st.iold < oldSize) (hj : st.inew < newSize)
    (hc : contributes xold xnew eo en st = true) :
    ∃ d w : ℚ, delta xold xnew eo en st = Value.num d ∧ owidth xold eo st = Value.num w ∧
      0 < w ∧ 0 < d ∧ d ≤ w ∧
      Value.div (Value.num d) (Value.num w) = Value.num (d / w) ∧ 0 < d / w ∧ d / w ≤ 1 ∧
      (loopBody oldData xold xnew eo en oo no st).newData
        = st.newData.set (no + st.inew)
            ((st.newData (no + st.inew)).add
              (Value.num (v st.iold * d / w))) := by
  have r1 : xold (eo + st.iold) = Value.num (x st.iold) := hin.xold_eq _ hi.le
  have r2 : xold (eo + st.iold + 1) = Value.num (x (st.iold + 1)) := hin.xold_eq (st.iold + 1) hi
  have r3 : xnew (en + st.inew) = Value.num (y st.inew) := hin.xnew_eq _ hj.le
  have r4 : xnew (en + st.inew + 1) = Value.num (y (st.inew + 1)) :=
    hin.xnew_eq (st.inew + 1) hj
  have r5 : oldData (oo + st.iold) = Value.num (v st.iold) := hin.old_eq _ hi
  have hx := hin.x_strict _ hi
  have hy := hin.y_strict _ hj
  have hwrite := loopBody_contributes oldData xold xnew eo en oo no st hc
  unfold contributes at hc
  simp only [r1, r2, r3, r4, Value.isnan, Value.le, Bool.or_self, Bool.false_or,
    Bool.and_eq_true, Bool.not_eq_true', decide_eq_false_iff_not, not_le] at hc
  obtain ⟨c1, c2⟩ := hc
  have hd : delta xold xnew eo en st
      = Value.num (min (x (st.iold + 1)) (y (st.inew + 1)) - max (x st.iold) (y st.inew)) := by
    unfold delta
    simp only [r1, r2, r3, r4, Value.lt, Value.gt, decide_eq_true_eq]
    by_cases a1 : x (st.iold + 1) < y (st.inew + 1)
    · by_cases a2 : y st.inew < x st.iold
      · rw [if_pos a1, if_pos a2, min_eq_left a1.le, max_eq_left a2.le]; rfl
      · rw [if_pos a1, if_neg a2, min_eq_left a1.le, max_eq_right (not_lt.1 a2)]; rfl
    · by_cases a2 : y st.inew < x st.iold
      · rw [if_neg a1, if_pos a2, min_eq_right (not_lt.1 a1), max_eq_left a2.le]; rfl
      · rw [if_neg a1, if_neg a2, min_eq_right (not_lt.1 a1), max_eq_right (not_lt.1 a2)]; rfl
  have hw : owidth xold eo st = Value.num (x (st.iold + 1) - x st.iold) := by
    unfold owidth
    rw [r1, r2]
    rfl
  have wpos : 0 < x (st.iold + 1) - x st.iold := sub_pos.2 hx
  have dpos : 0 < min (x (st.iold + 1)) (y (st.inew + 1)) - max (x st.iold) (y st.inew) := by
    rw [sub_pos, max_lt_iff, lt_min_iff, lt_min_iff]
    exact ⟨⟨hx, c1⟩, ⟨c2, hy⟩⟩
  have dle : min (x (st.iold + 1)) (y (st.inew + 1)) - max (x st.iold) (y st.inew)
      ≤ x (st.iold + 1) - x st.iold :=
    sub_le_sub (min_le_left _ _) (le_max_left _ _)
  refine ⟨_, _, hd, hw, wpos, dpos, dle, ?_, div_pos dpos wpos, (div_le_one wpos).2 dle, ?_⟩
  · simp only [Value.div, if_neg wpos.ne']
  · rw [hwrite, hd, hw, r5]
    simp only [Value.mul, Value.div, if_neg wpos.ne']

theorem contribution_is_a_fraction_witness :
    ∃ d w : ℚ, delta exampleOldEdges exampleNewEdges 0 0 ⟨0, 0, exampleZeros⟩ = Value.num d ∧
      owidth exampleOldEdges 0 ⟨0, 0, exampleZeros⟩ = Value.num w ∧
      0 < w ∧ 0 < d ∧ d ≤ w ∧
      Value.div (Value.num d) (Value.num w) = Value.num (d / w) ∧ 0 < d / w ∧ d / w ≤ 1 ∧
      (loopBody exampleOldData exampleOldEdges exampleNewEdges 0 0 0 0
          ⟨0, 0, exampleZeros⟩).newData
        = exampleZeros.set (0 + 0)
            ((exampleZeros (0 + 0)).add (Value.num (exampleOldValue 0 * d / w))) :=
  contribution_is_a_fraction 2 1 exampleOldData exampleOldEdges exampleNewEdges 0 0 0 0
    exampleOldEdge exampleNewEdge exampleOldValue
    ⟨fun k _ => by simp [exampleOldEdges], fun k _ => by simp [exampleNewEdges],
      fun i _ => by simp [exampleOldData],
      fun i _ => by simp [exampleOldEdge],
      fun j _ => by simp [exampleNewEdge]⟩
    ⟨0, 0, exampleZeros⟩ (by decide) (by decide)
    (by simp [contributes, exampleOldEdges, exampleNewEdges, exampleOldEdge, exampleNewEdge,
      Value.isnan, Value.le])

end RebinHelper

namespace core

theorem extent_isSome_of_contains (dims : Dimensions) (dim : Dim)
    (h : dims.contains dim = true) : (dims.extent dim).isSome = true := by
  unfold Dimensions.contains at h
  rw [List.any_eq_true] at h
  obtain ⟨p, hp, hpd⟩ := h
  have hd : p.1 = dim := by simpa using hpd
  rw [← hd]
  exact extent_isSome_of_mem dims p hp

/-! ## The extent that `slice_items` resolves for a slice -/

theorem extent_of_contains_false (dims : Dimensions) (dim : Dim)
    (h : dims.contains dim = false) : dims.extent dim = none := by
  unfold Dimensions.contains at h
  unfold Dimensions.extent
  rw [List.any_eq_false] at h
  rw [Option.map_eq_none', List.find?_eq_none]
  exact fun p hp => by simpa using h p hp

theorem extentAlong_of_dependsOn_false (item : DataProxy) (dim : Dim)
    (h : item.dependsOn dim = false) : item.extentAlong dim = none := by
  unfold DataProxy.dependsOn at h
  unfold DataProxy.extentAlong
  cases hd : item.dims with
  | none => rfl
  | some dims =>
    rw [hd] at h
    exact extent_of_contains_false dims dim h

theorem sliceItemsLoop_extent (s : Slice) (l acc items : List DataProxy) (e e2 : Int)
    (h : sliceItemsLoop s l acc e = .ok (items, e2)) :
    e2 ≤ e ∧ (∀ item ∈ l, ∀ x, item.extentAlong s.m_dim = some x → e2 ≤ x) ∧
      (e2 = e ∨ ∃ item ∈ l, item.extentAlong s.m_dim = some e2) := by
  induction l generalizing acc e with
  | nil =>
    unfold sliceItemsLoop at h
    cases h
    exact ⟨le_refl _, fun item hi => absurd hi (List.not_mem_nil _), Or.inl rfl⟩
  | cons item rest ih =>
    unfold sliceItemsLoop at h
    cases hd : item.dims with
    | none => rw [hd] at h; exact absurd h (by simp)
    | some dims =>
      rw [hd] at h
      simp only at h
      by_cases hc : dims.contains s.m_dim = true
      · rw [if_pos hc] at h
        cases hs : item.slice s with
        | error err => rw [hs] at h; exact absurd h (by simp)
        | ok p =>
          rw [hs] at h
          cases he : dims.extent s.m_dim with
          | none => rw [he] at h; exact absurd h (by simp)
          | some ext =>
            rw [he] at h
            simp only at h
            have hx : item.extentAlong s.m_dim = some ext := by
              unfold DataProxy.extentAlong
              rw [hd]
              exact he
            obtain ⟨h1, h2, h3⟩ := ih _ _ h
            refine ⟨le_trans h1 (min_le_left _ _), ?_, ?_⟩
            · intro it hit x hxx
              rcases List.mem_cons.1 hit with hit | hit
              · subst hit
                rw [hx] at hxx
                cases hxx
                exact le_trans h1 (min_le_right _ _)
              · exact h2 it hit x hxx
            · rcases h3 with h3 | ⟨it, hit, hxx⟩
              · rcases min_choice e ext with hm | hm
                · exact Or.inl (h3.trans hm)
                · exact Or.inr ⟨item, List.mem_cons_self _ _, by rw [hx, h3, hm]⟩
              · exact Or.inr ⟨it, List.mem_cons_of_mem _ hit, hxx⟩
      · rw [if_neg hc] at h
        have hx : item.extentAlong s.m_dim = none := by
          unfold DataProxy.extentAlong
          rw [hd]
          exact extent_of_contains_false dims _ (by simpa using hc)
        obtain ⟨h1, h2, h3⟩ := ih _ _ h
        refine ⟨h1, ?_, ?_⟩
        · intro it hit x hxx
          rcases List.mem_cons.1 hit with hit | hit
          · subst hit
            rw [hx] at hxx
            cases hxx
          · exact h2 it hit x hxx
        · rcases h3 with h3 | ⟨it, hit, hxx⟩
          · exact Or.inl h3
          · exact Or.inr ⟨it, List.mem_cons_of_mem _ hit, hxx⟩

/-- Claim C32: where `slice_items(view, slice)` returns, with every extent of an item along
the dimension of the slice below the largest index, which the function uses as
the mark for "no extent seen": the slice list returned is that of the view with
the one entry `(slice, extent)` appended.  If an item of the view has the
dimension, `extent` is the smallest `item.dims()[slice.dim()]` of these items;
if no item has it, the slice is valid for `view.dimensions()` and `extent` is
`view.dimensions()[slice.dim()]`. -/
theorem slice_items_extent (Sparse : Int) (view : DatasetConstProxy) (s : Slice)
    (items : List DataProxy) (slices : SliceList)
    (hmax : ∀ item ∈ view.items, ∀ e, item.extentAlong s.m_dim = some e → e < indexMax)
    (h : slice_items Sparse view s = .ok (items, slices)) :
    ∃ extent, slices = view.m_slices ++ [(s, extent)] ∧
      ((∃ item ∈ view.items, item.dependsOn s.m_dim = true) →
        (∃ item ∈ view.items, item.extentAlong s.m_dim = some extent) ∧
        ∀ item ∈ view.items, ∀ e, item.extentAlong s.m_dim = some e → extent ≤ e) ∧
      ((∀ item ∈ view.items, item.dependsOn s.m_dim = false) →
        ∃ currentDims, view.dimensions Sparse = some currentDims ∧
          validSliceMap currentDims s = true ∧ currentDims s.m_dim = some extent) := by
  unfold slice_items at h
  cases hl : sliceItemsLoop s view.items [] indexMax with
  | error err => rw [hl] at h; exact absurd h (by simp)
  | ok r =>
    obtain ⟨its, e2⟩ := r
    rw [hl] at h
    simp only at h
    obtain ⟨h1, h2, h3⟩ := sliceItemsLoop_extent s view.items [] its indexMax e2 hl
    by_cases hm : e2 = indexMax
    · rw [if_pos hm] at h
      have hnone : ∀ item ∈ view.items, item.extentAlong s.m_dim = none := by
        intro item hi
        cases hx : item.extentAlong s.m_dim with
        | none => rfl
        | some x =>
          have a1 := h2 item hi x hx
          have a2 := hmax item hi x hx
          omega
      cases hv : view.dimensions Sparse with
      | none => rw [hv] at h; exact absurd h (by simp)
      | some currentDims =>
        rw [hv] at h
        simp only at h
        by_cases hvalid : validSliceMap currentDims s = true
        · rw [if_pos hvalid] at h
          cases hcur : currentDims s.m_dim with
          | none => rw [hcur] at h; exact absurd h (by simp)
          | some ext =>
            rw [hcur] at h
            simp only [Except.ok.injEq, Prod.mk.injEq] at h
            refine ⟨ext, h.2.symm, ?_, fun _ => ⟨currentDims, rfl, hvalid, hcur⟩⟩
            rintro ⟨item, hi, hdep⟩
            exfalso
            have hx := hnone item hi
            unfold DataProxy.dependsOn at hdep
            unfold DataProxy.extentAlong at hx
            cases hd : item.dims with
            | none => rw [hd] at hdep; cases hdep
            | some dims =>
              rw [hd] at hdep hx
              have hsome := extent_isSome_of_contains dims s.m_dim hdep
              simp only [Option.some_bind] at hx
              rw [hx] at hsome
              cases hsome
        · rw [if_neg hvalid] at h
          exact absurd h (by simp)
    · rw [if_neg hm] at h
      simp only [Except.ok.injEq, Prod.mk.injEq] at h
      have hex : ∃ item ∈ view.items, item.extentAlong s.m_dim = some e2 := by
        rcases h3 with h3 | h3
        · exact absurd h3 hm
        · exact h3
      refine ⟨e2, h.2.symm, fun _ => ⟨hex, h2⟩, fun hall => ?_⟩
      exfalso
      obtain ⟨item, hi, hx⟩ := hex
      rw [extentAlong_of_dependsOn_false item _ (hall item hi)] at hx
      cases hx

end core

namespace core

theorem slice_items_extent_witness :
    ∃ extent, [((⟨Dim.X, 0, 1⟩ : Slice), (2 : Int))]
        = (DatasetConstProxy.ofDataset exampleDataset).m_slices ++ [(⟨Dim.X, 0, 1⟩, extent)] ∧
      ((∃ item ∈ (DatasetConstProxy.ofDataset exampleDataset).items,
          item.dependsOn Dim.X = true) →
        (∃ item ∈ (DatasetConstProxy.ofDataset exampleDataset).items,
          item.extentAlong Dim.X = some extent) ∧
        ∀ item ∈ (DatasetConstProxy.ofDataset exampleDataset).items, ∀ e,
          item.extentAlong Dim.X = some e → extent ≤ e) ∧
      ((∀ item ∈ (DatasetConstProxy.ofDataset exampleDataset).items,
          item.dependsOn Dim.X = false) →
        ∃ currentDims, (DatasetConstProxy.ofDataset exampleDataset).dimensions
            (-9223372036854775808) = some currentDims ∧
          validSliceMap currentDims ⟨Dim.X, 0, 1⟩ = true ∧
          currentDims Dim.X = some extent) :=
  slice_items_extent (-9223372036854775808) (DatasetConstProxy.ofDataset exampleDataset)
    ⟨Dim.X, 0, 1⟩
    [⟨("a", ⟨some ⟨⟨[(Dim.X, 2)]⟩⟩, none, [], []⟩), [(⟨Dim.X, 0, 1⟩, 2)]⟩]
    [(⟨Dim.X, 0, 1⟩, 2)]
    (by
      intro item hi e he
      simp only [DatasetConstProxy.items, DatasetConstProxy.ofDataset, exampleDataset,
        List.map_cons, List.map_nil, List.mem_cons, List.mem_singleton, List.not_mem_nil,
        or_false] at hi
      rcases hi with rfl | rfl
      · have h2 : e = 2 := by
          have h3 : (make_item [] ("a", ⟨some ⟨⟨[(Dim.X, 2)]⟩⟩, none, [], []⟩)).extentAlong Dim.X
              = some 2 := by decide
          rw [h3] at he
          exact (Option.some.inj he).symm
        rw [h2]
        decide
      · have h3 : (make_item [] ("b", ⟨some ⟨⟨[(Dim.Y, 2)]⟩⟩, none, [], []⟩)).extentAlong Dim.X
            = none := by decide
        rw [h3] at he
        cases he)
    (by rfl)

end core

namespace Arithmetic
open Storage (Variable Operand Interface InPlaceResult VariableConcept DType readAt exampleInterface)
open Tagged (Tag)
open core (Exception)


/-! ## Attributes in the arithmetic of datasets -/

/-- Claim C34: in `binary_op_equals`, for a variable `var2` of the right-hand side that has a
match `var1` in the left-hand side which is neither a coordinate nor data: if
`var1 == var2`, the step leaves the dataset as it is; if they differ, `var2` is
added to `var1` by `+=`, whatever the operation `op` of the call is, and nothing
else changes. -/
theorem attribute_added_if_different (I : Interface) (op : Operand → Operand → InPlaceResult)
    (namesSize : Nat) (dataset : List Variable) (var2 var1 : Variable) (index : Nat)
    (hfind : find var2.tag var2.name dataset = some index)
    (hget : dataset.get? index = some var1)
    (hcoord : var1.isCoord = false) (hdata : I.isData var1.tag = false) :
    (Storage.equals I.to_string (asSlice var1) (asSlice var2) = .ok true →
      binaryOpStep I op namesSize dataset var2 = ⟨dataset, none⟩) ∧
    (Storage.equals I.to_string (asSlice var1) (asSlice var2) = .ok false →
      binaryOpStep I op namesSize dataset var2
        = ⟨dataset.set index (Storage.plus_equals I (asSlice var1) (asSlice var2)).lhs.underlying,
            (Storage.plus_equals I (asSlice var1) (asSlice var2)).threw⟩) := by
  unfold binaryOpStep
  rw [hfind]
  simp only [hget, hcoord, hdata, Bool.false_eq_true, if_false]
  constructor
  · intro h
    unfold Storage.notEquals
    rw [h]
    rfl
  · intro h
    unfold Storage.notEquals
    rw [h]
    simp only [bind, Except.bind, pure, Except.pure, Bool.not_false]
    unfold updateAt
    rw [hget]

theorem attribute_added_if_different_witness :
    (Storage.equals exampleAttrInterface.to_string
        (asSlice ⟨⟨26⟩, ⟨0⟩, "n", ⟨⟨[(Dim.X, 2)]⟩, .Double,
          .DataModel [Value.num 1, Value.num 2]⟩⟩)
        (asSlice ⟨⟨26⟩, ⟨0⟩, "n", ⟨⟨[(Dim.X, 2)]⟩, .Double,
          .DataModel [Value.num 10, Value.num 20]⟩⟩) = .ok true →
      binaryOpStep exampleAttrInterface (Storage.minus_equals exampleAttrInterface) 0
          exampleAttrLeft
          ⟨⟨26⟩, ⟨0⟩, "n", ⟨⟨[(Dim.X, 2)]⟩, .Double, .DataModel [Value.num 10, Value.num 20]⟩⟩
        = ⟨exampleAttrLeft, none⟩) ∧
    (Storage.equals exampleAttrInterface.to_string
        (asSlice ⟨⟨26⟩, ⟨0⟩, "n", ⟨⟨[(Dim.X, 2)]⟩, .Double,
          .DataModel [Value.num 1, Value.num 2]⟩⟩)
        (asSlice ⟨⟨26⟩, ⟨0⟩, "n", ⟨⟨[(Dim.X, 2)]⟩, .Double,
          .DataModel [Value.num 10, Value.num 20]⟩⟩) = .ok false →
      binaryOpStep exampleAttrInterface (Storage.minus_equals exampleAttrInterface) 0
          exampleAttrLeft
          ⟨⟨26⟩, ⟨0⟩, "n", ⟨⟨[(Dim.X, 2)]⟩, .Double, .DataModel [Value.num 10, Value.num 20]⟩⟩
        = ⟨exampleAttrLeft.set 0
            (Storage.plus_equals exampleAttrInterface
              (asSlice ⟨⟨26⟩, ⟨0⟩, "n", ⟨⟨[(Dim.X, 2)]⟩, .Double,
                .DataModel [Value.num 1, Value.num 2]⟩⟩)
              (asSlice ⟨⟨26⟩, ⟨0⟩, "n", ⟨⟨[(Dim.X, 2)]⟩, .Double,
                .DataModel [Value.num 10, Value.num 20]⟩⟩)).lhs.underlying,
            (Storage.plus_equals exampleAttrInterface
              (asSlice ⟨⟨26⟩, ⟨0⟩, "n", ⟨⟨[(Dim.X, 2)]⟩, .Double,
                .DataModel [Value.num 1, Value.num 2]⟩⟩)
              (asSlice ⟨⟨26⟩, ⟨0⟩, "n", ⟨⟨[(Dim.X, 2)]⟩, .Double,
                .DataModel [Value.num 10, Value.num 20]⟩⟩)).threw⟩) :=
  attribute_added_if_different exampleAttrInterface (Storage.minus_equals exampleAttrInterface) 0
    exampleAttrLeft
    ⟨⟨26⟩, ⟨0⟩, "n", ⟨⟨[(Dim.X, 2)]⟩, .Double, .DataModel [Value.num 10, Value.num 20]⟩⟩
    ⟨⟨26⟩, ⟨0⟩, "n", ⟨⟨[(Dim.X, 2)]⟩, .Double, .DataModel [Value.num 1, Value.num 2]⟩⟩ 0
    (by rfl) (by rfl) (by rfl) (by rfl)
end Arithmetic

namespace core

open Storage (DType)

/-! ## Views over subspans -/

theorem makeSubspansLoop_ok (data : Subspan) (span_len : Int) (hlen : 0 < span_len)
    (count : Nat) (i : Int) (spans : List Subspan) (hi : 0 ≤ i)
    (hfit : span_len * (i + count) ≤ data.size) :
    makeSubspansLoop data span_len count i spans
      = .ok (spans ++ (List.range count).map
          (fun (k : Nat) => (⟨data.first + span_len * (i + (k : Int)), span_len⟩ : Subspan))) := by
  induction count generalizing i spans with
  | zero => simp [makeSubspansLoop]
  | succ count ih =>
    unfold makeSubspansLoop
    have hpos : 0 ≤ span_len * i := Int.mul_nonneg hlen.le hi
    have hin : span_len * i + span_len ≤ data.size := by
      have h1 : span_len * (i + 1) ≤ span_len * (i + ((count + 1 : Nat) : Int)) := by
        apply Int.mul_le_mul_of_nonneg_left _ hlen.le
        push_cast
        omega
      rw [Int.mul_add, Int.mul_one] at h1
      exact le_trans h1 hfit
    unfold Subspan.subspan
    rw [if_pos ⟨hpos, hlen.le, hin⟩]
    simp only []
    rw [ih (i + 1) _ (by omega) (by
      have : i + 1 + (count : Int) = i + ((count + 1 : Nat) : Int) := by push_cast; omega
      rw [this]; exact hfit)]
    rw [List.range_succ_eq_map, List.map_cons, List.map_map, List.append_assoc]
    congr 2
    simp only [List.singleton_append, List.cons.injEq, Subspan.mk.injEq, Nat.cast_zero,
      Int.add_zero, true_and, and_true, List.map_inj_left, Function.comp, Nat.succ_eq_add_one,
      Nat.cast_add, Nat.cast_one]
    intro a _
    have ha : i + 1 + (a : Int) = i + ((a : Int) + 1) := by omega
    rw [ha]

theorem make_subspans_ok (size span_len : Int) (hsize : 0 ≤ size) (hlen : 0 < span_len) :
    make_subspans ⟨0, size⟩ span_len
      = .ok ((List.range (size / span_len).toNat).map
          (fun (k : Nat) => (⟨span_len * (k : Int), span_len⟩ : Subspan))) := by
  unfold make_subspans
  rw [if_neg hlen.ne', Int.tdiv_eq_ediv hsize hlen.le]
  have hq : 0 ≤ size / span_len := Int.ediv_nonneg hsize hlen.le
  rw [makeSubspansLoop_ok _ _ hlen _ 0 [] (le_refl _) (by
    rw [Int.zero_add, Int.toNat_of_nonneg hq, Int.mul_comm]
    exact Int.ediv_mul_le size hlen.ne')]
  simp

end core

namespace core

open Storage (DType)

theorem subspan_view_ok (Sparse : Int) (notSparse : Exception) (var : SubspanSource)
    (dim : Dim) (L : Int) (hsparse : var.dims.sparse Sparse = false) (hsize : 0 ≤ var.size)
    (hinner : dim = var.dims.inner) (hc : var.isContiguous = true)
    (hL : var.dims.extent dim = some L) (hpos : 0 < L) :
    subspan_view Sparse notSparse var dim
      = .ok ⟨var.dims.erase dim, var.unit,
          (List.range (var.size / L).toNat).map
            (fun (k : Nat) => (⟨L * (k : Int), L⟩ : Subspan)),
          if var.hasVariances then
            (List.range (var.size / L).toNat).map
              (fun (k : Nat) => (⟨L * (k : Int), L⟩ : Subspan))
          else []⟩ := by
  have hv : values_view var
      = .ok ((List.range (var.size / L).toNat).map
          (fun (k : Nat) => (⟨L * (k : Int), L⟩ : Subspan))) := by
    unfold values_view
    rw [← hinner, hL]
    exact make_subspans_ok var.size L hsize hpos
  unfold subspan_view
  rw [hsparse, if_neg (by decide), if_neg (not_not.2 hinner), hc, if_neg (by decide), hv]
  cases var.hasVariances <;> rfl

/-- Claim C40: for a variable without a sparse dimension, `subspan_view(var, dim)` fails with
a `DimensionError` if `dim` is not the inner dimension of `var` or the data
of `var` are not contiguous, and it returns only if both hold.  If both hold and
the extent `L` of `dim` is positive, it returns a variable whose dimensions are
those of `var` without `dim` and whose values are `floor(size / L)` spans, the
`i`-th of which has the length `L` and starts at element `L * i` of the values of
`var`: every span lies within the `size` elements, and each span ends where
the next one starts.  The variances, if there are any, are the same spans.  For
the element types `double` and `float`, `subspan_view_impl` is this function. -/
theorem subspan_view_spans (Sparse : Int) (notSparse : Exception) (var : SubspanSource)
    (dim : Dim) (hsparse : var.dims.sparse Sparse = false) (hsize : 0 ≤ var.size) :
    ((dim ≠ var.dims.inner ∨ var.isContiguous = false) →
      ∃ msg, subspan_view Sparse notSparse var dim = .error (.DimensionError msg)) ∧
    (∀ result, subspan_view Sparse notSparse var dim = .ok result →
      dim = var.dims.inner ∧ var.isContiguous = true) ∧
    (∀ L, dim = var.dims.inner → var.isContiguous = true → var.dims.extent dim = some L →
      0 < L →
      ∃ result, subspan_view Sparse notSparse var dim = .ok result ∧
        result.dims = var.dims.erase dim ∧
        result.values.length = (var.size / L).toNat ∧
        (∀ i : Nat, i < (var.size / L).toNat →
          result.values[i]? = some ⟨L * (i : Int), L⟩ ∧
            0 ≤ L * (i : Int) ∧ L * (i : Int) + L ≤ var.size) ∧
        (∀ i : Nat, i + 1 < (var.size / L).toNat →
          ∃ a b, result.values[i]? = some a ∧ result.values[i + 1]? = some b ∧
            a.first + a.size = b.first) ∧
        result.variances = if var.hasVariances then result.values else []) ∧
    ((var.dtype = DType.Double ∨ var.dtype = DType.Float) →
      subspan_view_impl Sparse notSparse var dim = subspan_view Sparse notSparse var dim) := by
  have hfail : (dim ≠ var.dims.inner ∨ var.isContiguous = false) →
      ∃ msg, subspan_view Sparse notSparse var dim = .error (.DimensionError msg) := by
    intro h
    unfold subspan_view
    rw [hsparse, if_neg (by decide)]
    by_cases hd : dim ≠ var.dims.inner
    · rw [if_pos hd]
      exact ⟨_, rfl⟩
    · rw [if_neg hd]
      rcases h with h | h
      · exact absurd h hd
      · rw [h, if_pos (by decide)]
        exact ⟨_, rfl⟩
  refine ⟨hfail, ?_, ?_, ?_⟩
  · intro result hok
    by_cases hd : dim = var.dims.inner
    · refine ⟨hd, ?_⟩
      cases hcont : var.isContiguous with
      | true => rfl
      | false =>
        obtain ⟨msg, hmsg⟩ := hfail (Or.inr hcont)
        rw [hmsg] at hok
        cases hok
    · obtain ⟨msg, hmsg⟩ := hfail (Or.inl hd)
      rw [hmsg] at hok
      cases hok
  · intro L hinner hc hL hpos
    refine ⟨_, subspan_view_ok Sparse notSparse var dim L hsparse hsize hinner hc hL hpos, rfl,
      by simp, ?_, ?_, ?_⟩
    · intro i hi
      have hq : 0 ≤ var.size / L := Int.ediv_nonneg hsize hpos.le
      have hi2 : (i : Int) + 1 ≤ var.size / L := by
        have := (Int.toNat_lt hq).1 (show (var.size / L).toNat < (var.size / L).toNat + 1 by omega)
        omega
      refine ⟨by simp [hi], Int.mul_nonneg hpos.le (Int.ofNat_nonneg i), ?_⟩
      have h1 : L * ((i : Int) + 1) ≤ L * (var.size / L) :=
        Int.mul_le_mul_of_nonneg_left hi2 hpos.le
      have h2 : L * (var.size / L) ≤ var.size := by
        rw [Int.mul_comm]
        exact Int.ediv_mul_le var.size hpos.ne'
      rw [Int.mul_add, Int.mul_one] at h1
      exact le_trans h1 h2
    · intro i hi
      have hi0 : i < (var.size / L).toNat := by omega
      refine ⟨⟨L * (i : Int), L⟩, ⟨L * ((i + 1 : Nat) : Int), L⟩, by simp [hi0], by simp [hi],
        ?_⟩
      simp only []
      push_cast
      rw [Int.mul_add, Int.mul_one]
    · cases var.hasVariances <;> rfl
  · intro h
    unfold subspan_view_impl
    rcases h with h | h
    · rw [if_pos h]
    · rw [if_pos h]
      split_ifs <;> rfl

theorem subspan_view_spans_witness :
    exampleRows.dims.sparse (-9223372036854775808) = false ∧ 0 ≤ exampleRows.size ∧
    ((Dim.X ≠ exampleRows.dims.inner ∨ exampleRows.isContiguous = false) →
      ∃ msg, subspan_view (-9223372036854775808) (.DimensionError "Expected non-sparse.")
        exampleRows Dim.X = .error (.DimensionError msg)) ∧
    (∀ result, subspan_view (-9223372036854775808) (.DimensionError "Expected non-sparse.")
        exampleRows Dim.X = .ok result →
      Dim.X = exampleRows.dims.inner ∧ exampleRows.isContiguous = true) ∧
    (∀ L, Dim.X = exampleRows.dims.inner → exampleRows.isContiguous = true →
      exampleRows.dims.extent Dim.X = some L → 0 < L →
      ∃ result, subspan_view (-9223372036854775808) (.DimensionError "Expected non-sparse.")
          exampleRows Dim.X = .ok result ∧
        result.dims = exampleRows.dims.erase Dim.X ∧
        result.values.length = (exampleRows.size / L).toNat ∧
        (∀ i : Nat, i < (exampleRows.size / L).toNat →
          result.values[i]? = some ⟨L * (i : Int), L⟩ ∧
            0 ≤ L * (i : Int) ∧ L * (i : Int) + L ≤ exampleRows.size) ∧
        (∀ i : Nat, i + 1 < (exampleRows.size / L).toNat →
          ∃ a b, result.values[i]? = some a ∧ result.values[i + 1]? = some b ∧
            a.first + a.size = b.first) ∧
        result.variances = if exampleRows.hasVariances then result.values else []) ∧
    ((exampleRows.dtype = DType.Double ∨ exampleRows.dtype = DType.Float) →
      subspan_view_impl (-9223372036854775808) (.DimensionError "Expected non-sparse.")
          exampleRows Dim.X
        = subspan_view (-9223372036854775808) (.DimensionError "Expected non-sparse.")
          exampleRows Dim.X) :=
  ⟨by decide, by decide,
    subspan_view_spans (-9223372036854775808) (.DimensionError "Expected non-sparse.")
      exampleRows Dim.X (by decide) (by decide)⟩

end core

namespace Storage
open Tagged (Dimensions Tag shapeVolume shapeStride viewIndices)
open core (Exception)
open VariableConcept


/-! ## Element-wise operations with a right-hand side that owns its data -/

theorem transform_spec (op : Value → Value → Value) (buffer : List Value)
    (positions : List Nat) (xs : List Value) (hnd : positions.Nodup)
    (hb : ∀ p ∈ positions, p < buffer.length) (hlen : positions.length ≤ xs.length) :
    (transform op buffer positions xs).length = buffer.length ∧
    positions.map (readAt (transform op buffer positions xs))
      = List.zipWith op (positions.map (readAt buffer)) xs ∧
    ∀ q, q ∉ positions → readAt (transform op buffer positions xs) q = readAt buffer q := by
  induction positions generalizing buffer xs with
  | nil =>
    cases xs <;> simp [transform]
  | cons p ps ih =>
    cases xs with
    | nil => simp at hlen
    | cons x xs =>
      have hp : p < buffer.length := hb p (List.mem_cons_self _ _)
      have hps : p ∉ ps := (List.nodup_cons.1 hnd).1
      obtain ⟨h1, h2, h3⟩ := ih (buffer.set p (op (readAt buffer p) x)) xs
        (List.nodup_cons.1 hnd).2
        (fun q hq => by rw [List.length_set]; exact hb q (List.mem_cons_of_mem _ hq))
        (by simpa using hlen)
      have hsame : ps.map (readAt (buffer.set p (op (readAt buffer p) x)))
          = ps.map (readAt buffer) := by
        apply List.map_congr_left
        intro q hq
        rw [readAt_set, if_neg]
        rintro ⟨hqp, -⟩
        exact hps (hqp ▸ hq)
      simp only [transform]
      refine ⟨by rw [h1, List.length_set], ?_, ?_⟩
      · rw [List.map_cons, List.map_cons, List.zipWith_cons_cons, h2, hsame, h3 p hps, readAt_set,
          if_pos ⟨rfl, hp⟩]
      · intro q hq
        rw [h3 q (fun hc => hq (List.mem_cons_of_mem _ hc)), readAt_set, if_neg]
        rintro ⟨hqp, -⟩
        exact hq (hqp ▸ List.mem_cons_self _ _)

/-- The largest offset that the indices of a target shape reach in a parent shape. -/
theorem viewIndices_le (parent : List (Dim × Nat)) (target : List (Dim × Nat)) (offset p : Nat)
    (hp : p ∈ viewIndices parent offset target) :
    p ≤ offset + (target.map (fun q => (q.2 - 1) * shapeStride q.1 parent)).sum := by
  induction target generalizing offset with
  | nil =>
    simp only [viewIndices, List.mem_singleton] at hp
    simp [hp]
  | cons q rest ih =>
    obtain ⟨label, extent⟩ := q
    simp only [viewIndices, List.mem_flatMap, List.mem_range] at hp
    obtain ⟨t, ht, hpt⟩ := hp
    have h1 := ih _ hpt
    have h2 : t * shapeStride label parent ≤ (extent - 1) * shapeStride label parent :=
      Nat.mul_le_mul_right _ (by omega)
    simp only [List.map_cons, List.sum_cons]
    omega

theorem sum_split (f : Dim × Nat → Nat) (target : List (Dim × Nat)) (label : Dim)
    (extent : Nat) (hnd : (target.map Prod.fst).Nodup) (hmem : (label, extent) ∈ target) :
    (target.map f).sum
      = f (label, extent) + ((target.filter (fun q => !decide (q.1 = label))).map f).sum := by
  induction target with
  | nil => cases hmem
  | cons q rest ih =>
    rw [List.map_cons, List.nodup_cons] at hnd
    rcases List.mem_cons.1 hmem with hq | hq
    · subst hq
      have hfilter : rest.filter (fun q => !decide (q.1 = label)) = rest := by
        rw [List.filter_eq_self]
        intro a ha
        have : a.1 ≠ label := fun hc => hnd.1 (List.mem_map.2 ⟨a, ha, hc⟩)
        simpa using this
      simp [List.filter_cons, hfilter]
    · have hne : q.1 ≠ label := fun hc =>
        hnd.1 (List.mem_map.2 ⟨(label, extent), hq, hc.symm⟩)
      have hd : (!decide (q.1 = label)) = true := by simpa using hne
      simp only [List.filter_cons, hd, if_true, List.map_cons, List.sum_cons, ih hnd.2 hq]
      omega

theorem sum_stride_lt (parent : List (Dim × Nat)) (target : List (Dim × Nat))
    (hp : (parent.map Prod.fst).Nodup) (ht : (target.map Prod.fst).Nodup)
    (hsub : ∀ q ∈ parent, q ∈ target) (hpos : ∀ q ∈ target, 1 ≤ q.2) :
    (target.map (fun q => (q.2 - 1) * shapeStride q.1 parent)).sum < shapeVolume parent := by
  induction parent generalizing target with
  | nil => simp [shapeStride, shapeVolume]
  | cons q0 rest ih =>
    obtain ⟨l0, e0⟩ := q0
    rw [List.map_cons, List.nodup_cons] at hp
    have hmem : (l0, e0) ∈ target := hsub _ (List.mem_cons_self _ _)
    rw [sum_split _ target l0 e0 ht hmem]
    have hrest : ((target.filter (fun q => !decide (q.1 = l0))).map
        (fun q => (q.2 - 1) * shapeStride q.1 ((l0, e0) :: rest))).sum
        = ((target.filter (fun q => !decide (q.1 = l0))).map
            (fun q => (q.2 - 1) * shapeStride q.1 rest)).sum := by
      congr 1
      apply List.map_congr_left
      intro q hq
      have hne : q.1 ≠ l0 := by simpa using (List.mem_filter.1 hq).2
      simp only [shapeStride, if_neg (fun hc : l0 = q.1 => hne hc.symm)]
    have hih := ih (target.filter (fun q => !decide (q.1 = l0))) hp.2
      ((ht.sublist ((List.filter_sublist _).map Prod.fst)))
      (fun q hq => List.mem_filter.2 ⟨hsub q (List.mem_cons_of_mem _ hq), by
        have : q.1 ≠ l0 := fun hc => hp.1 (List.mem_map.2 ⟨q, hq, hc⟩)
        simpa using this⟩)
      (fun q hq => hpos q (List.mem_filter.1 hq).1)
    rw [hrest]
    have he : 1 ≤ e0 := hpos _ hmem
    simp only [shapeStride, if_true, shapeVolume_cons]
    have : (e0 - 1) * shapeVolume rest + shapeVolume rest = e0 * shapeVolume rest := by
      have h2 : e0 = (e0 - 1) + 1 := by omega
      nth_rewrite 2 [h2]
      rw [Nat.add_mul, Nat.one_mul]
    omega

theorem values_eq_positions (self : VariableConcept) :
    self.values = self.positions.map (readAt self.buffer) := by
  cases hm : self.m_model with
  | DataModel m =>
    simp only [VariableConcept.values, VariableConcept.positions, hm, VariableConcept.buffer,
      VariableView.elements, VariableView.indices, makeVariableView]
    rfl
  | ViewModel v isConst =>
    simp only [VariableConcept.values, VariableConcept.positions, hm, VariableConcept.buffer,
      VariableView.elements, VariableView.indices, VariableView.retarget]

theorem positions_length (self : VariableConcept) :
    self.positions.length = shapeVolume self.dimensions.natShape := by
  unfold VariableConcept.positions
  cases self.m_model <;> exact viewIndices_length _ _ _

theorem valuesIn_length (self : VariableConcept) (dims : Dimensions) :
    (self.valuesIn dims).length = shapeVolume dims.natShape := by
  unfold VariableConcept.valuesIn
  cases self.m_model <;>
    simp [VariableView.elements, VariableView.indices, makeVariableView, VariableView.retarget,
      viewIndices_length]

theorem valuesIn_self (self : VariableConcept) : self.valuesIn self.dimensions = self.values := by
  unfold VariableConcept.valuesIn VariableConcept.values
  cases self.m_model <;> rfl

theorem positions_withBuffer (self : VariableConcept) (buffer : List Value) :
    (self.withBuffer buffer).positions = self.positions := by
  unfold VariableConcept.withBuffer VariableConcept.positions
  cases self.m_model <;> rfl

theorem buffer_withBuffer (self : VariableConcept) (buffer : List Value) :
    (self.withBuffer buffer).buffer = buffer := by
  unfold VariableConcept.withBuffer VariableConcept.buffer
  cases self.m_model <;> rfl

theorem getView_mutable (self : VariableConcept) (hmut : self.isConstView = false) :
    ∃ view, self.getView true self.dimensions = .ok view ∧ view.indices = self.positions ∧
      view.m_variable = self.buffer := by
  unfold getView requireMutable
  rw [hmut]
  cases hm : self.m_model with
  | DataModel m =>
    exact ⟨_, rfl, by simp [VariableConcept.positions, hm, VariableView.indices,
      makeVariableView, VariableConcept.dimensions], by simp [VariableConcept.buffer, hm, makeVariableView]⟩
  | ViewModel v isConst =>
    exact ⟨_, rfl, by simp [VariableConcept.positions, hm, VariableView.indices,
      VariableView.retarget, VariableConcept.dimensions], by simp [VariableConcept.buffer, hm, VariableView.retarget]⟩

theorem getSpan_mutable (self : VariableConcept) (hmut : self.isConstView = false)
    (hvalid : self.valid = true) (hc : self.isContiguous = true) :
    ∃ span, self.getSpan true = .ok span ∧ spanIndices span = self.positions := by
  have hv := valid_volume self hvalid
  obtain ⟨-, h2, -⟩ := (valid_iff self).1 hvalid
  refine ⟨⟨self.dataOffset, self.size⟩, ?_, ?_⟩
  · unfold getSpan requireMutable requireContiguous
    simp [hc, hmut]
    rfl
  · unfold spanIndices
    simp only [hv]
    cases hm : self.m_model with
    | DataModel m =>
      simp only [VariableConcept.positions, hm, VariableConcept.dataOffset]
      rw [show (0 : Int).toNat = 0 from rfl]
      exact (viewIndices_self _ _ (by rw [natShape_labels]; exact h2)).symm
    | ViewModel v isConst =>
      have hc2 : self.m_dimensions.isContiguousIn v.m_dimensions = true := by
        simpa [VariableConcept.isContiguous, hm] using hc
      simp only [VariableConcept.positions, hm, VariableConcept.dataOffset]
      exact (viewIndices_of_contiguous _ _ _ hc2).symm

theorem pos_of_shapeVolume_pos (shape : List (Dim × Nat)) (h : 0 < shapeVolume shape) :
    ∀ q ∈ shape, 1 ≤ q.2 := by
  intro q hq
  by_contra hc
  have h0 : q.2 = 0 := by omega
  have : shapeVolume shape = 0 := by
    unfold shapeVolume
    rw [List.prod_eq_zero_iff]
    exact List.mem_map.2 ⟨q, hq, h0⟩
  omega

theorem mem_natShape_of_containsAll (dims other : Dimensions)
    (h : containsAll dims other = true) : ∀ q ∈ other.natShape, q ∈ dims.natShape := by
  intro q hq
  unfold Tagged.Dimensions.natShape at hq ⊢
  obtain ⟨p, hp, rfl⟩ := List.mem_map.1 hq
  unfold containsAll at h
  rw [List.all_eq_true] at h
  have h1 := of_decide_eq_true (h p hp)
  unfold Tagged.Dimensions.extent at h1
  cases hf : dims.shape.find? (fun r => decide (r.1 = p.1)) with
  | none => rw [hf] at h1; cases h1
  | some r =>
    rw [hf] at h1
    have h2 := List.find?_some hf
    have h3 : r.1 = p.1 := by simpa using h2
    have h4 : r.2 = p.2 := Option.some.inj h1
    have h5 := List.mem_of_find?_eq_some hf
    refine List.mem_map.2 ⟨r, h5, ?_⟩
    rw [h3, h4]

theorem volume_le_of_contiguousIn (dims other : Dimensions)
    (hd : dims.labels.Nodup) (ho : other.labels.Nodup)
    (hcontains : containsAll dims other = true) (hc : dims.isContiguousIn other = true) :
    shapeVolume dims.natShape ≤ shapeVolume other.natShape := by
  by_cases hV : shapeVolume dims.natShape = 0
  · omega
  · have hpos : 0 < shapeVolume dims.natShape := Nat.pos_of_ne_zero hV
    have hidx : viewIndices other.natShape 0 dims.natShape
        = List.range' 0 (shapeVolume dims.natShape) := by
      simpa [Tagged.Dimensions.isContiguousIn] using hc
    have hmem : shapeVolume dims.natShape - 1 ∈ viewIndices other.natShape 0 dims.natShape := by
      rw [hidx, List.mem_range']
      exact ⟨shapeVolume dims.natShape - 1, by omega, by omega⟩
    have h1 := viewIndices_le _ _ _ _ hmem
    have h2 := sum_stride_lt other.natShape dims.natShape
      (by rw [natShape_labels]; exact ho) (by rw [natShape_labels]; exact hd)
      (mem_natShape_of_containsAll dims other hcontains)
      (pos_of_shapeVolume_pos _ hpos)
    omega

theorem valuesIn_owned_contiguous (dims other : Dimensions) (dtype : DType) (ys : List Value)
    (hc : dims.isContiguousIn other = true) :
    (⟨other, dtype, .DataModel ys⟩ : VariableConcept).valuesIn dims
      = (List.range (shapeVolume dims.natShape)).map (readAt ys) := by
  simp only [VariableConcept.valuesIn, VariableView.elements, VariableView.indices,
    makeVariableView]
  rw [show (0 : Int).toNat = 0 from rfl, viewIndices_of_contiguous _ _ _ hc,
    ← List.range_eq_range']

theorem zipWith_take_right (op : Value → Value → Value) (xs ys : List Value) :
    List.zipWith op xs ys = List.zipWith op xs (ys.take xs.length) := by
  induction xs generalizing ys with
  | nil => simp
  | cons x xs ih =>
    cases ys with
    | nil => simp
    | cons y ys => simp [ih ys]

theorem take_eq_map_readAt (ys : List Value) (n : Nat) (h : n ≤ ys.length) :
    ys.take n = (List.range n).map (readAt ys) := by
  apply List.ext_getElem
  · simp [h]
  · intro i h1 h2
    simp only [List.length_take, lt_min_iff] at h1
    simp [readAt, List.getElem?_eq_getElem h1.2]

/-- What `applyTransform` does for a right-hand side that owns its data: every element of
the left-hand side is replaced by `op` of it and of the element of the
right-hand side at the same place of the iteration over the dimensions of the
left-hand side. -/
theorem applyTransform_owned (op : Value → Value → Value) (self : VariableConcept)
    (O : Dimensions) (dtype : DType) (ys : List Value)
    (hself : self.valid = true)
    (hother : (⟨O, dtype, .DataModel ys⟩ : VariableConcept).valid = true)
    (hmut : self.isConstView = false)
    (hcontains : containsAll self.dimensions O = true)
    (hnd : self.positions.Nodup) (hb : ∀ p ∈ self.positions, p < self.buffer.length) :
    ∃ buffer, applyTransform op self ⟨O, dtype, .DataModel ys⟩ = .ok (self.withBuffer buffer) ∧
      buffer.length = self.buffer.length ∧
      self.positions.map (readAt buffer)
        = List.zipWith op self.values
            ((⟨O, dtype, .DataModel ys⟩ : VariableConcept).valuesIn self.dimensions) ∧
      ∀ q, q ∉ self.positions → readAt buffer q = readAt self.buffer q := by
  obtain ⟨-, hselfnd, -⟩ := (valid_iff self).1 hself
  obtain ⟨hopos, hond, hovol⟩ := (valid_iff _).1 hother
  have hlenV : self.positions.length = shapeVolume self.dimensions.natShape :=
    positions_length self
  have hview : (⟨O, dtype, .DataModel ys⟩ : VariableConcept).getView false self.dimensions
      = .ok (makeVariableView ys 0 self.dimensions O) := rfl
  have hviewEl : (makeVariableView ys 0 self.dimensions O).elements
      = (⟨O, dtype, .DataModel ys⟩ : VariableConcept).valuesIn self.dimensions := rfl
  have hspan : (⟨O, dtype, .DataModel ys⟩ : VariableConcept).getSpan false
      = .ok ⟨0, (ys.length : Int)⟩ := by
    rw [getSpan_of_contiguous ⟨O, dtype, .DataModel ys⟩ rfl]
    rfl
  have hspanEl : (⟨0, (ys.length : Int)⟩ : GslSpan).elements ys = ys := by
    simp only [GslSpan.elements, Int.toNat_ofNat]
    rw [show (0 : Int).toNat = 0 from rfl]
    simp only [Nat.zero_add]
    exact map_readAt_range ys
  have hylen : ys.length = shapeVolume O.natShape := by
    have h1 := valid_volume _ hother
    simpa [VariableConcept.size] using h1
  -- the result for the two ways to read the right-hand side
  have viaView : ∀ positions : List Nat, positions = self.positions →
      ∃ buffer, (Except.ok (self.withBuffer (transform op self.buffer positions
          ((⟨O, dtype, .DataModel ys⟩ : VariableConcept).valuesIn self.dimensions)))
            : Except Exception VariableConcept)
          = .ok (self.withBuffer buffer) ∧
        buffer.length = self.buffer.length ∧
        self.positions.map (readAt buffer)
          = List.zipWith op self.values
              ((⟨O, dtype, .DataModel ys⟩ : VariableConcept).valuesIn self.dimensions) ∧
        ∀ q, q ∉ self.positions → readAt buffer q = readAt self.buffer q := by
    intro positions hp
    subst hp
    obtain ⟨h1, h2, h3⟩ := transform_spec op self.buffer self.positions
      ((⟨O, dtype, .DataModel ys⟩ : VariableConcept).valuesIn self.dimensions) hnd hb
      (by rw [hlenV, valuesIn_length])
    exact ⟨_, rfl, h1, by rw [h2, ← values_eq_positions], h3⟩
  have viaSpan : self.dimensions.isContiguousIn O = true →
      ∀ positions : List Nat, positions = self.positions →
      ∃ buffer, (Except.ok (self.withBuffer (transform op self.buffer positions ys))
            : Except Exception VariableConcept)
          = .ok (self.withBuffer buffer) ∧
        buffer.length = self.buffer.length ∧
        self.positions.map (readAt buffer)
          = List.zipWith op self.values
              ((⟨O, dtype, .DataModel ys⟩ : VariableConcept).valuesIn self.dimensions) ∧
        ∀ q, q ∉ self.positions → readAt buffer q = readAt self.buffer q := by
    intro hc positions hp
    subst hp
    have hle := volume_le_of_contiguousIn self.dimensions O hselfnd hond hcontains hc
    obtain ⟨h1, h2, h3⟩ := transform_spec op self.buffer self.positions ys hnd hb
      (by rw [hlenV, hylen]; exact hle)
    refine ⟨_, rfl, h1, ?_, h3⟩
    rw [h2, ← values_eq_positions, zipWith_take_right, valuesIn_owned_contiguous _ _ _ _ hc]
    congr 1
    rw [values_eq_positions, List.length_map, hlenV]
    exact take_eq_map_readAt ys _ (by rw [hylen]; exact hle)
  unfold applyTransform
  simp only [hcontains, Bool.and_true, VariableConcept.dimensions] at *
  have hoc : (⟨O, dtype, .DataModel ys⟩ : VariableConcept).isContiguous = true := rfl
  simp only [hoc, Bool.true_and, hview, hspan, bind, Except.bind, pure, Except.pure]
  by_cases hsc : self.isContiguous = true
  · obtain ⟨span, hs1, hs2⟩ := getSpan_mutable self hmut hself hsc
    simp only [hsc, if_true, hs1]
    by_cases hc : self.m_dimensions.isContiguousIn O = true
    · simp only [hc, if_true]
      have hbuf : (⟨O, dtype, .DataModel ys⟩ : VariableConcept).buffer = ys := rfl
      rw [hbuf, hspanEl]
      exact viaSpan hc _ hs2
    · simp only [hc, Bool.false_eq_true, if_false]
      rw [hviewEl]
      exact viaView _ hs2
  · obtain ⟨view, hv1, hv2, -⟩ := getView_mutable self hmut
    simp only [VariableConcept.dimensions] at hv1
    simp only [hsc, Bool.false_eq_true, if_false, if_true, hv1]
    by_cases hc : self.m_dimensions.isContiguousIn O = true
    · simp only [hc, if_true]
      have hbuf : (⟨O, dtype, .DataModel ys⟩ : VariableConcept).buffer = ys := rfl
      rw [hbuf, hspanEl]
      exact viaSpan hc _ hv2
    · simp only [hc, Bool.false_eq_true, if_false]
      rw [hviewEl]
      exact viaView _ hv2

theorem values_length (self : VariableConcept) :
    self.values.length = shapeVolume self.dimensions.natShape := by
  rw [values_eq_positions, List.length_map, positions_length]

theorem copyOf_valid (other : VariableConcept) (h : other.valid = true) :
    other.copyOf.valid = true := by
  obtain ⟨h1, h2, -⟩ := (valid_iff other).1 h
  rw [valid_iff]
  refine ⟨h1, h2, ?_⟩
  have h3 : other.copyOf.size = (other.values.length : Int) := rfl
  have h4 : other.copyOf.dimensions = other.dimensions := rfl
  rw [h3, h4, values_length, natShape_volume _ h1]

theorem copyOf_values (other : VariableConcept) (h : other.valid = true) :
    other.copyOf.values = other.values := by
  have hv := copyOf_valid other h
  rw [← span_elements other.copyOf hv rfl]
  have h3 : other.copyOf.size = (other.values.length : Int) := rfl
  have h4 : other.copyOf.buffer = other.values := rfl
  have h5 : other.copyOf.dataOffset = 0 := rfl
  rw [h3, h4, h5]
  simp only [GslSpan.elements, Int.toNat_ofNat]
  rw [show (0 : Int).toNat = 0 from rfl]
  simp only [Nat.zero_add]
  exact map_readAt_range _

theorem getView_const (self : VariableConcept) (dims : Dimensions) :
    ∃ view, self.getView false dims = .ok view := by
  unfold getView requireMutable
  cases self.m_model <;> exact ⟨_, rfl⟩

theorem values_withBuffer (self : VariableConcept) (buffer : List Value) :
    (self.withBuffer buffer).values = self.positions.map (readAt buffer) := by
  rw [values_eq_positions, positions_withBuffer, buffer_withBuffer]

/-- The call of `apply` for equal element types with operands that overlap. -/
theorem apply_overlapping (to_string : DType → String)
    (overlaps : VariableView → VariableView → Bool) (op : Value → Value → Value)
    (self other : VariableConcept) (hother : other.valid = true)
    (hdtype : other.dtype = self.dtype) (hmut : self.isConstView = false)
    (hoverlap : ∀ mine theirs, self.getView true self.dimensions = .ok mine →
      other.getView false self.dimensions = .ok theirs → overlaps mine theirs = true) :
    applyTry to_string overlaps op self.dtype self other
      = applyTransform op self other.copyOf := by
  obtain ⟨mine, hm1, -, -⟩ := getView_mutable self hmut
  obtain ⟨theirs, ht⟩ := getView_const other self.dimensions
  obtain ⟨data, hd1, hd2⟩ := getView_values other
  have hr : requireT to_string self.dtype other = .ok other := by
    unfold requireT
    rw [if_pos hdtype]
  have hcopy : makeDataModel other.dimensions self.dtype data.elements = .ok other.copyOf := by
    rw [makeDataModel_ok_iff]
    obtain ⟨h1, -, -⟩ := (valid_iff other).1 hother
    refine ⟨?_, ?_⟩
    · rw [hd2, values_length, natShape_volume _ h1]
    · unfold VariableConcept.copyOf
      rw [hd2, ← hdtype]
      rfl
  unfold applyTry
  simp only [hr, bind, Except.bind, if_true, hm1, ht, hoverlap mine theirs hm1 ht, hd1, hcopy]

/-- The call of `apply` for equal element types with a right-hand side that owns its data
and does not overlap the left-hand side. -/
theorem apply_separate (to_string : DType → String)
    (overlaps : VariableView → VariableView → Bool) (op : Value → Value → Value)
    (self other : VariableConcept)
    (hdtype : other.dtype = self.dtype) (hmut : self.isConstView = false)
    (hoverlap : ∀ mine theirs, self.getView true self.dimensions = .ok mine →
      other.getView false self.dimensions = .ok theirs → overlaps mine theirs = false) :
    applyTry to_string overlaps op self.dtype self other = applyTransform op self other := by
  obtain ⟨mine, hm1, -, -⟩ := getView_mutable self hmut
  obtain ⟨theirs, ht⟩ := getView_const other self.dimensions
  have hr : requireT to_string self.dtype other = .ok other := by
    unfold requireT
    rw [if_pos hdtype]
  unfold applyTry
  simp only [hr, bind, Except.bind, if_true, hm1, ht, hoverlap mine theirs hm1 ht,
    Bool.false_eq_true, if_false]

end Storage

namespace Storage
open Tagged (Dimensions Tag shapeVolume shapeStride viewIndices)
open core (Exception)
open VariableConcept

open Storage (Interface)

/-! ## Element-wise operations on variables that own their data -/

theorem positions_owned (self : VariableConcept) (hvalid : self.valid = true)
    (hown : self.isView = false) :
    self.isConstView = false ∧ self.positions.Nodup ∧
      (∀ p ∈ self.positions, p < self.buffer.length) ∧
      self.values = self.buffer := by
  obtain ⟨-, h2, -⟩ := (valid_iff self).1 hvalid
  have hv := valid_volume self hvalid
  cases hm : self.m_model with
  | ViewModel v isConst => simp [VariableConcept.isView, hm] at hown
  | DataModel m =>
    have hpos : self.positions = List.range' 0 m.length := by
      simp only [VariableConcept.positions, hm]
      rw [viewIndices_self _ _ (by rw [natShape_labels]; exact h2)]
      simp only [VariableConcept.size, hm, Int.toNat_ofNat, VariableConcept.dimensions] at hv
      rw [hv]
    have hbuf : self.buffer = m := by simp [VariableConcept.buffer, hm]
    refine ⟨by simp [VariableConcept.isConstView, hm], ?_, ?_, ?_⟩
    · rw [hpos]
      exact List.nodup_range' _ _
    · intro p hp
      rw [hpos, List.mem_range'] at hp
      rw [hbuf]
      omega
    · rw [values_eq_positions, hpos, hbuf, ← List.range_eq_range']
      exact map_readAt_range m

theorem containsAll_self (dims : Dimensions) (h : dims.labels.Nodup) :
    containsAll dims dims = true := by
  obtain ⟨shape⟩ := dims
  unfold containsAll
  rw [List.all_eq_true]
  intro p hp
  simp only [decide_eq_true_eq, Tagged.Dimensions.extent]
  simp only [Tagged.Dimensions.labels] at h
  induction shape with
  | nil => cases hp
  | cons q rest ih =>
    rw [List.map_cons, List.nodup_cons] at h
    rcases List.mem_cons.1 hp with hq | hq
    · subst hq
      simp
    · have hne : q.1 ≠ p.1 := fun hc => h.1 (List.mem_map.2 ⟨p, hq, hc.symm⟩)
      have hd : decide (q.1 = p.1) = false := by simpa using hne
      simp only [List.find?_cons, hd]
      exact ih h.2 hq

theorem viewIndices_nil_parent (target : List (Dim × Nat)) (offset : Nat) :
    viewIndices [] offset target = List.replicate (shapeVolume target) offset := by
  induction target generalizing offset with
  | nil => rfl
  | cons q rest ih =>
    obtain ⟨label, extent⟩ := q
    simp only [viewIndices, shapeStride, Nat.mul_zero, Nat.add_zero, ih, shapeVolume_cons]
    induction extent with
    | zero => simp
    | succ n ihn =>
      rw [List.range_succ, List.flatMap_append, ihn, Nat.succ_mul, List.replicate_add]
      simp

theorem valuesIn_scalar (dtype : DType) (x : Value) (dims : Dimensions) :
    (⟨⟨[]⟩, dtype, .DataModel [x]⟩ : VariableConcept).valuesIn dims
      = List.replicate (shapeVolume dims.natShape) x := by
  simp only [VariableConcept.valuesIn, VariableView.elements, VariableView.indices,
    makeVariableView]
  have h : (⟨[]⟩ : Dimensions).natShape = [] := rfl
  rw [h, viewIndices_nil_parent, List.map_replicate]
  rfl

theorem zipWith_replicate_right (op : Value → Value → Value) (xs : List Value) (y : Value) :
    List.zipWith op xs (List.replicate xs.length y) = xs.map (fun x => op x y) := by
  induction xs with
  | nil => rfl
  | cons x xs ih => simp [List.replicate_succ, ih]

theorem copyOf_owned (other : VariableConcept) (hvalid : other.valid = true)
    (hown : other.isView = false) : other.copyOf = other := by
  obtain ⟨-, -, -, hv⟩ := positions_owned other hvalid hown
  obtain ⟨D, t, m⟩ := other
  cases m with
  | ViewModel v isConst => simp [VariableConcept.isView] at hown
  | DataModel ys =>
    unfold VariableConcept.copyOf
    rw [hv]
    rfl

/-- The call of `apply` for equal element types with a right-hand side that owns its data:
whatever the test for an overlap finds, the elements of the right-hand side
are the ones combined, since the copy made of an overlapping right-hand side
holds the same elements. -/
theorem applyTry_owned (to_string : DType → String)
    (overlaps : VariableView → VariableView → Bool) (op : Value → Value → Value)
    (self other : VariableConcept) (hother : other.valid = true)
    (hoown : other.isView = false)
    (hdtype : other.dtype = self.dtype) (hmut : self.isConstView = false) :
    applyTry to_string overlaps op self.dtype self other = applyTransform op self other := by
  obtain ⟨mine, hm1, -, -⟩ := getView_mutable self hmut
  obtain ⟨theirs, ht⟩ := getView_const other self.dimensions
  cases hov : overlaps mine theirs with
  | true =>
    rw [apply_overlapping to_string overlaps op self other hother hdtype hmut (fun a b ha hb => by
      rw [hm1] at ha
      rw [ht] at hb
      cases ha
      cases hb
      exact hov), copyOf_owned other hother hoown]
  | false =>
    rw [apply_separate to_string overlaps op self other hdtype hmut (fun a b ha hb => by
      rw [hm1] at ha
      rw [ht] at hb
      cases ha
      cases hb
      exact hov)]

/-- The result of `require<T>(variable.data()) op= other.data()` for a variable that owns its
data and a right-hand side that owns its data, for every test for an overlap. -/
theorem requireApply_owned (I : Interface) (supported : DType → Bool) (conceptName : String)
    (op : Value → Value → Value) (var other : Operand)
    (hsup : supported var.data.dtype = true)
    (hvalid : var.data.valid = true) (hown : var.data.isView = false)
    (hother : other.data.valid = true) (hoown : other.data.isView = false)
    (hdtype : other.data.dtype = var.data.dtype)
    (hcontains : containsAll var.data.dimensions other.data.dimensions = true) :
    ∃ result, requireApply I supported conceptName op var other
        = ⟨var.withData result, none⟩ ∧
      result.dimensions = var.data.dimensions ∧ result.dtype = var.data.dtype ∧
      result.isView = false ∧
      result.values
        = List.zipWith op var.data.values (other.data.valuesIn var.data.dimensions) := by
  obtain ⟨hmut, hnd, hb, -⟩ := positions_owned var.data hvalid hown
  have hshape : ∃ ys, other.data = ⟨other.data.m_dimensions, other.data.m_dtype, .DataModel ys⟩ := by
    cases hm : other.data.m_model with
    | ViewModel v isConst => simp [VariableConcept.isView, hm] at hoown
    | DataModel ys =>
      refine ⟨ys, ?_⟩
      rw [← hm]
  obtain ⟨ys, hys⟩ := hshape
  have hother2 := hother
  rw [hys] at hother2
  obtain ⟨buffer, h1, -, h3, -⟩ := applyTransform_owned op var.data other.data.m_dimensions
    other.data.m_dtype ys hvalid hother2 hmut hcontains hnd hb
  rw [← hys] at h1 h3
  refine ⟨var.data.withBuffer buffer, ?_, withBuffer_dimensions _ _, ?_, ?_, ?_⟩
  · unfold requireApply
    rw [hsup]
    simp only [Bool.not_true, Bool.false_eq_true, if_false]
    unfold apply
    rw [applyTry_owned I.to_string I.overlaps op var.data other.data hother hoown hdtype hmut,
      h1]
  · unfold VariableConcept.withBuffer VariableConcept.dtype
    cases var.data.m_model <;> rfl
  · revert hown
    unfold VariableConcept.withBuffer VariableConcept.isView
    cases var.data.m_model <;> simp
  · rw [values_withBuffer, h3]

end Storage

namespace Arithmetic
open Storage (Variable Operand Interface InPlaceResult VariableConcept DType readAt exampleInterface
  exampleOverlapInterface)
open Tagged (Tag)
open core (Exception)


/-! ## Variances in the arithmetic of datasets -/

theorem timesAssignDouble_map (I : Interface) (dimensionless : Storage.Unit) (value : Value)
    (dataset : List Variable)
    (h : (timesAssignDouble I dimensionless value dataset).threw = none) :
    (timesAssignDouble I dimensionless value dataset).dataset
      = dataset.map (fun var => (timesDoubleStep I dimensionless value var).lhs.underlying) := by
  induction dataset with
  | nil => rfl
  | cons var rest ih =>
    unfold timesAssignDouble at h ⊢
    simp only [] at h ⊢
    cases ht : (timesDoubleStep I dimensionless value var).threw with
    | some e => rw [ht] at h; cases h
    | none =>
      rw [ht] at h
      simp only [] at h ⊢
      rw [List.map_cons, ih h]

theorem plus_equals_owned (I : Interface) (var1 var2 : Variable)
    (hu : var1.m_unit = var2.m_unit)
    (hv1 : var1.m_object.valid = true) (ho1 : var1.m_object.isView = false)
    (hv2 : var2.m_object.valid = true) (ho2 : var2.m_object.isView = false)
    (hdt : var2.m_object.dtype = var1.m_object.dtype)
    (hnot : var1.m_object.dtype ≠ DType.Dataset)
    (hadd : I.isAddable var1.m_object.dtype = true)
    (hdims : var2.m_object.dimensions = var1.m_object.dimensions) :
    ∃ sum, Storage.plus_equals I (asSlice var1) (asSlice var2)
        = ⟨asSlice { var1 with m_object := sum }, none⟩ ∧
      sum.dimensions = var1.m_object.dimensions ∧
      sum.values = List.zipWith Value.add var1.m_object.values var2.m_object.values := by
  obtain ⟨-, hnd, -⟩ := (Storage.valid_iff var1.m_object).1 hv1
  have hc : Storage.containsAll var1.m_object.dimensions var2.m_object.dimensions = true := by
    rw [hdims]
    exact Storage.containsAll_self _ hnd
  obtain ⟨result, h1, h2, -, -, h5⟩ := Storage.requireApply_owned I I.isAddable I.addableName
    Value.add (asSlice var1) (asSlice var2) hadd hv1 ho1 hv2 ho2 hdt hc
  refine ⟨result, ?_, h2, ?_⟩
  · unfold Storage.plus_equals
    have hu2 : (asSlice var1).unit = (asSlice var2).unit := hu
    rw [if_neg (not_not.2 hu2)]
    have hd : (decide ((asSlice var1).dtype ≠ DType.Dataset) || I.isAttr (asSlice var1).tag)
        = true := by
      have : (asSlice var1).dtype ≠ DType.Dataset := hnot
      simp [this]
    rw [if_pos hd]
    have hc2 : Storage.containsAll (asSlice var1).dimensions (asSlice var2).dimensions = true := hc
    rw [hc2]
    simp only [Bool.not_true, Bool.false_eq_true, if_false]
    exact h1
  · rw [h5]
    have h6 : (asSlice var2).data.valuesIn (asSlice var1).data.dimensions
        = var2.m_object.values := by
      have : (asSlice var1).data.dimensions = var2.m_object.dimensions := hdims.symm
      rw [this]
      exact Storage.valuesIn_self var2.m_object
    rw [h6]
    rfl

theorem minus_equals_owned (I : Interface) (var1 var2 : Variable)
    (hu : var1.m_unit = var2.m_unit)
    (hv1 : var1.m_object.valid = true) (ho1 : var1.m_object.isView = false)
    (hv2 : var2.m_object.valid = true) (ho2 : var2.m_object.isView = false)
    (hdt : var2.m_object.dtype = var1.m_object.dtype)
    (hev : var1.m_tag ≠ Tagged.Data.Events)
    (harith : I.isArithmetic var1.m_object.dtype = true)
    (hdims : var2.m_object.dimensions = var1.m_object.dimensions) :
    ∃ difference, Storage.minus_equals I (asSlice var1) (asSlice var2)
        = ⟨asSlice { var1 with m_object := difference }, none⟩ ∧
      difference.dimensions = var1.m_object.dimensions ∧
      difference.values
        = List.zipWith Value.sub var1.m_object.values var2.m_object.values := by
  obtain ⟨-, hnd, -⟩ := (Storage.valid_iff var1.m_object).1 hv1
  have hc : Storage.containsAll var1.m_object.dimensions var2.m_object.dimensions = true := by
    rw [hdims]
    exact Storage.containsAll_self _ hnd
  obtain ⟨result, h1, h2, -, -, h5⟩ := Storage.requireApply_owned I I.isArithmetic
    I.arithmeticName Value.sub (asSlice var1) (asSlice var2) harith hv1 ho1 hv2 ho2 hdt hc
  refine ⟨result, ?_, h2, ?_⟩
  · unfold Storage.minus_equals
    have hu2 : (asSlice var1).unit = (asSlice var2).unit := hu
    rw [if_neg (not_not.2 hu2)]
    have hc2 : Storage.containsAll (asSlice var1).dimensions (asSlice var2).dimensions = true := hc
    rw [hc2]
    simp only [Bool.not_true, Bool.false_eq_true, if_false]
    have hev2 : ¬ (asSlice var1).tag = Tagged.Data.Events := hev
    rw [if_neg hev2]
    exact h1
  · rw [h5]
    have h6 : (asSlice var2).data.valuesIn (asSlice var1).data.dimensions
        = var2.m_object.values := by
      have : (asSlice var1).data.dimensions = var2.m_object.dimensions := hdims.symm
      rw [this]
      exact Storage.valuesIn_self var2.m_object
    rw [h6]
    rfl

theorem timesEqualsDouble_owned (I : Interface) (dimensionless : Storage.Unit) (var : Variable)
    (value : Value)
    (hv : var.m_object.valid = true) (ho : var.m_object.isView = false)
    (hdt : var.m_object.dtype = DType.Double)
    (hev : var.m_tag ≠ Tagged.Data.Events)
    (harith : I.isArithmetic DType.Double = true) :
    ∃ product, timesEqualsDouble I dimensionless var value
        = ⟨.ofVariable { var with m_unit := I.unitMul var.m_unit dimensionless,
                                  m_object := product }, none⟩ ∧
      product.dimensions = var.m_object.dimensions ∧
      product.values = var.m_object.values.map (fun x => Value.mul x value) := by
  obtain ⟨result, h1, h2, -, -, h5⟩ := Storage.requireApply_owned I I.isArithmetic
    I.arithmeticName Value.mul
    (.ofVariable { var with m_unit := I.unitMul var.m_unit dimensionless })
    (.ofVariable ⟨Tagged.Data.Value, dimensionless, "",
      ⟨⟨[]⟩, .Double, .DataModel [value]⟩⟩)
    (by rw [show (Operand.ofVariable
        { var with m_unit := I.unitMul var.m_unit dimensionless }).data.dtype
          = var.m_object.dtype from rfl, hdt]; exact harith)
    hv ho (by rfl) rfl hdt.symm rfl
  refine ⟨result, ?_, h2, ?_⟩
  · unfold timesEqualsDouble Storage.times_equals
    have hc : Storage.containsAll (Operand.ofVariable var).dimensions
        (Operand.ofVariable ⟨Tagged.Data.Value, dimensionless, "",
          ⟨⟨[]⟩, .Double, .DataModel [value]⟩⟩).dimensions = true := rfl
    rw [hc]
    simp only [Bool.not_true, Bool.false_eq_true, if_false]
    have hev2 : ¬ (Operand.ofVariable var).tag = Tagged.Data.Events := hev
    rw [if_neg hev2]
    exact h1
  · rw [h5]
    have h6 : (Operand.ofVariable ⟨Tagged.Data.Value, dimensionless, "",
        ⟨⟨[]⟩, .Double, .DataModel [value]⟩⟩).data.valuesIn
          (Operand.ofVariable { var with m_unit := I.unitMul var.m_unit dimensionless }).data.dimensions
        = List.replicate var.m_object.values.length value := by
      rw [Storage.values_length]
      exact Storage.valuesIn_scalar _ _ _
    rw [h6]
    exact Storage.zipWith_replicate_right _ _ _

/-- Claim C33: (1) in `binary_op_equals`, for a variable of the right-hand side with a match
in the left-hand side that is data: if the match has the tag `Data::Variance`,
the right-hand variable is added to it by `+=`, whatever the operation `op` of
the call is, and otherwise `op` is applied (`-=` for `Dataset::operator-=`);
(2) for variables that own valid data of one element type and equal
dimensions and units, and for every test for an overlap, `+=` gives the sums
and `-=` the differences of the elements; (3) `Dataset::operator*=(double)` multiplies the elements of a
`Data::Value` by `value` and those of a `Data::Variance` by `value * value`
and leaves every other variable as it is, for every test for an overlap.
The two examples are `d -= d` and `d *= 3` for a dataset `d` of a value and
its variance, with a test for an overlap that finds a variable to overlap
itself. -/
theorem variances_are_added (I : Interface) (dimensionless : Storage.Unit) :
    (∀ (op : Operand → Operand → InPlaceResult) (namesSize : Nat) (dataset : List Variable)
        (var2 var1 : Variable) (index : Nat),
      find var2.tag var2.name dataset = some index → dataset.get? index = some var1 →
      var1.isCoord = false → I.isData var1.tag = true →
      (var1.tag = Tagged.Data.Variance →
        binaryOpStep I op namesSize dataset var2
          = updateAt dataset index (fun v => Storage.plus_equals I v (asSlice var2))) ∧
      (var1.tag ≠ Tagged.Data.Variance →
        binaryOpStep I op namesSize dataset var2
          = updateAt dataset index (fun v => op v (asSlice var2)))) ∧
    (∀ var1 var2 : Variable,
      var1.m_unit = var2.m_unit →
      var1.m_object.valid = true → var1.m_object.isView = false →
      var2.m_object.valid = true → var2.m_object.isView = false →
      var2.m_object.dtype = var1.m_object.dtype →
      var1.m_object.dtype ≠ DType.Dataset → var1.m_tag ≠ Tagged.Data.Events →
      I.isAddable var1.m_object.dtype = true → I.isArithmetic var1.m_object.dtype = true →
      var2.m_object.dimensions = var1.m_object.dimensions →
      ∃ sum difference,
        Storage.plus_equals I (asSlice var1) (asSlice var2)
          = ⟨asSlice { var1 with m_object := sum }, none⟩ ∧
        sum.values = List.zipWith Value.add var1.m_object.values var2.m_object.values ∧
        Storage.minus_equals I (asSlice var1) (asSlice var2)
          = ⟨asSlice { var1 with m_object := difference }, none⟩ ∧
        difference.values
          = List.zipWith Value.sub var1.m_object.values var2.m_object.values) ∧
    (∀ (value : Value) (var : Variable),
      var.m_object.valid = true → var.m_object.isView = false →
      var.m_object.dtype = DType.Double → I.isArithmetic DType.Double = true →
      (var.tag = Tagged.Data.Value →
        ∃ product, timesDoubleStep I dimensionless value var
            = ⟨.ofVariable { var with m_unit := I.unitMul var.m_unit dimensionless,
                                      m_object := product }, none⟩ ∧
          product.values = var.m_object.values.map (fun x => Value.mul x value)) ∧
      (var.tag = Tagged.Data.Variance →
        ∃ product, timesDoubleStep I dimensionless value var
            = ⟨.ofVariable { var with m_unit := I.unitMul var.m_unit dimensionless,
                                      m_object := product }, none⟩ ∧
          product.values
            = var.m_object.values.map (fun x => Value.mul x (Value.mul value value)))) ∧
    (∀ (value : Value) (var : Variable),
      var.tag ≠ Tagged.Data.Value → var.tag ≠ Tagged.Data.Variance →
      timesDoubleStep I dimensionless value var = ⟨.ofVariable var, none⟩) ∧
    (∀ (value : Value) (dataset : List Variable),
      (timesAssignDouble I dimensionless value dataset).threw = none →
      (timesAssignDouble I dimensionless value dataset).dataset
        = dataset.map
            (fun var => (timesDoubleStep I dimensionless value var).lhs.underlying)) ∧
    (minusAssign exampleOverlapInterface exampleWithVariance exampleWithVariance).threw = none ∧
    (minusAssign exampleOverlapInterface exampleWithVariance exampleWithVariance).dataset.map
        (fun var => var.m_object.buffer)
      = [[Value.sub (Value.num 1) (Value.num 1), Value.sub (Value.num 2) (Value.num 2)],
          [Value.add (Value.num 3) (Value.num 3), Value.add (Value.num 4) (Value.num 4)]] ∧
    (timesAssignDouble exampleOverlapInterface ⟨0⟩ (Value.num 3) exampleWithVariance).threw
      = none ∧
    (timesAssignDouble exampleOverlapInterface ⟨0⟩ (Value.num 3) exampleWithVariance).dataset.map
        (fun var => var.m_object.buffer)
      = [[Value.mul (Value.num 1) (Value.num 3), Value.mul (Value.num 2) (Value.num 3)],
          [Value.mul (Value.num 3) (Value.mul (Value.num 3) (Value.num 3)),
            Value.mul (Value.num 4) (Value.mul (Value.num 3) (Value.num 3))]] := by
  refine ⟨?_, ?_, ?_, ?_, ?_, by rfl, by rfl, by rfl, by rfl⟩
  · intro op namesSize dataset var2 var1 index hfind hget hcoord hdata
    have hstep : binaryOpStep I op namesSize dataset var2
        = updateAt dataset index (combine I op var2) := by
      unfold binaryOpStep
      rw [hfind]
      simp only [hget, hcoord, hdata, Bool.false_eq_true, if_false, if_true]
    rw [hstep]
    unfold updateAt combine
    rw [hget]
    simp only []
    constructor
    · intro ht
      have ht2 : (asSlice var1).tag = Tagged.Data.Variance := ht
      rw [if_pos ht2]
    · intro ht
      have ht2 : ¬ (asSlice var1).tag = Tagged.Data.Variance := ht
      rw [if_neg ht2]
  · intro var1 var2 hu hv1 ho1 hv2 ho2 hdt hnot hev hadd harith hdims
    obtain ⟨sum, s1, -, s3⟩ := plus_equals_owned I var1 var2 hu hv1 ho1 hv2 ho2 hdt hnot hadd
      hdims
    obtain ⟨difference, d1, -, d3⟩ := minus_equals_owned I var1 var2 hu hv1 ho1 hv2 ho2 hdt hev
      harith hdims
    exact ⟨sum, difference, s1, s3, d1, d3⟩
  · intro value var hv ho hdt harith
    constructor
    · intro ht
      have hev : var.m_tag ≠ Tagged.Data.Events := by
        have ht2 : var.m_tag = Tagged.Data.Value := ht
        rw [ht2]
        decide
      obtain ⟨product, p1, -, p3⟩ := timesEqualsDouble_owned I dimensionless var value hv ho
        hdt hev harith
      refine ⟨product, ?_, p3⟩
      unfold timesDoubleStep
      rw [if_pos ht]
      exact p1
    · intro ht
      have ht2 : var.m_tag = Tagged.Data.Variance := ht
      have hev : var.m_tag ≠ Tagged.Data.Events := by
        rw [ht2]
        decide
      have hnv : ¬ var.tag = Tagged.Data.Value := by
        rw [ht]
        decide
      obtain ⟨product, p1, -, p3⟩ := timesEqualsDouble_owned I dimensionless var
        (Value.mul value value) hv ho hdt hev harith
      refine ⟨product, ?_, p3⟩
      unfold timesDoubleStep
      rw [if_neg hnv, if_pos ht]
      exact p1
  · intro value var h1 h2
    unfold timesDoubleStep
    rw [if_neg h1, if_neg h2]
  · intro value dataset h
    exact timesAssignDouble_map I dimensionless value dataset h

end Arithmetic

namespace Double

theorem DBL_MAX_pos : 0 < DBL_MAX := by
  unfold DBL_MAX
  norm_num

end Double

namespace RebinHelper

/-- What the branch of the loop that adds to the output writes, for elements of type
`double`. -/
theorem loopBodyDouble_contributes (oldData xold xnew : Nat → Double) (eo en oo no : Nat)
    (st : DoubleState) (h : contributesDouble xold xnew eo en st = true) :
    (loopBodyDouble oldData xold xnew eo en oo no st).newData (no + st.inew)
      = (st.newData (no + st.inew)).add
          (((oldData (oo + st.iold)).mul (deltaDouble xold xnew eo en st)).div
            (owidthDouble xold eo st)) := by
  unfold contributesDouble at h
  simp only [Bool.and_eq_true, Bool.not_eq_true'] at h
  unfold loopBodyDouble deltaDouble owidthDouble
  simp only []
  rw [if_neg (by rw [h.1]; decide), if_neg (by rw [h.2]; decide)]
  by_cases c3 : (xnew (en + st.inew + 1)).gt (xold (eo + st.iold + 1)) = true
  · rw [if_pos c3]
    simp only [if_true]
  · rw [if_neg c3]
    simp only [if_true]

/-- Counterexample to C38 as stated: in the arithmetic of `double`, (1) the old bin and the
new bin with the finite, strictly increasing edges `-DBL_MAX, DBL_MAX` reach the
branch that adds to the output, where `owidth` and `delta` overflow to
infinity and the fraction `delta / owidth` is NaN, which the branch adds to the
output; (2) the old bin with the strictly increasing edges `-∞, 0` and the new
bin with the edges `-1, 0` reach that branch with `owidth` infinite and
`delta = 1`, and the fraction `delta / owidth` is `0`, which is not in
`(0, 1]`. -/
theorem fraction_outside_unit_interval :
    ((exampleWideEdges 0).isnan = false ∧ (exampleWideEdges 1).isnan = false ∧
      (exampleWideEdges 0).lt (exampleWideEdges 1) = true ∧
      contributesDouble exampleWideEdges exampleWideEdges 0 0 ⟨0, 0, exampleDoubleZeros⟩ = true ∧
      owidthDouble exampleWideEdges 0 ⟨0, 0, exampleDoubleZeros⟩ = Double.posInf ∧
      deltaDouble exampleWideEdges exampleWideEdges 0 0 ⟨0, 0, exampleDoubleZeros⟩
        = Double.posInf ∧
      Double.div (deltaDouble exampleWideEdges exampleWideEdges 0 0 ⟨0, 0, exampleDoubleZeros⟩)
        (owidthDouble exampleWideEdges 0 ⟨0, 0, exampleDoubleZeros⟩) = Double.nan ∧
      (loopBodyDouble exampleOnes exampleWideEdges exampleWideEdges 0 0 0 0
        ⟨0, 0, exampleDoubleZeros⟩).newData 0 = Double.nan) ∧
    ((exampleHalfLine 0).isnan = false ∧ (exampleHalfLine 1).isnan = false ∧
      (exampleHalfLine 0).lt (exampleHalfLine 1) = true ∧
      (exampleUnitEdges 0).lt (exampleUnitEdges 1) = true ∧
      contributesDouble exampleHalfLine exampleUnitEdges 0 0 ⟨0, 0, exampleDoubleZeros⟩ = true ∧
      owidthDouble exampleHalfLine 0 ⟨0, 0, exampleDoubleZeros⟩ = Double.posInf ∧
      deltaDouble exampleHalfLine exampleUnitEdges 0 0 ⟨0, 0, exampleDoubleZeros⟩
        = Double.num 1 ∧
      Double.div (deltaDouble exampleHalfLine exampleUnitEdges 0 0 ⟨0, 0, exampleDoubleZeros⟩)
        (owidthDouble exampleHalfLine 0 ⟨0, 0, exampleDoubleZeros⟩) = Double.num 0 ∧
      Double.lt (Double.num 0)
        (Double.div
          (deltaDouble exampleHalfLine exampleUnitEdges 0 0 ⟨0, 0, exampleDoubleZeros⟩)
          (owidthDouble exampleHalfLine 0 ⟨0, 0, exampleDoubleZeros⟩)) = false ∧
      (loopBodyDouble exampleOnes exampleHalfLine exampleUnitEdges 0 0 0 0
        ⟨0, 0, exampleDoubleZeros⟩).newData 0 = Double.num 0) := by
  have hp := Double.DBL_MAX_pos
  have h1 : -Double.DBL_MAX < Double.DBL_MAX := by linarith
  have h1le : ¬ Double.DBL_MAX ≤ -Double.DBL_MAX := not_le.2 h1
  have h2 : Double.DBL_MAX < Double.DBL_MAX + Double.DBL_MAX := by linarith
  have hw : owidthDouble exampleWideEdges 0 ⟨0, 0, exampleDoubleZeros⟩ = Double.posInf := by
    simp [owidthDouble, exampleWideEdges, Double.sub, Double.neg, Double.add, Double.ofExact, h2]
  have hd : deltaDouble exampleWideEdges exampleWideEdges 0 0 ⟨0, 0, exampleDoubleZeros⟩
      = Double.posInf := by
    simp [deltaDouble, exampleWideEdges, Double.sub, Double.neg, Double.add, Double.ofExact, h2,
      Double.lt, Double.gt]
  have hw2 : owidthDouble exampleHalfLine 0 ⟨0, 0, exampleDoubleZeros⟩ = Double.posInf := by
    simp [owidthDouble, exampleHalfLine, Double.sub, Double.neg, Double.add]
  have hd2 : deltaDouble exampleHalfLine exampleUnitEdges 0 0 ⟨0, 0, exampleDoubleZeros⟩
      = Double.num 1 := by
    have h3 : ¬ Double.DBL_MAX < 1 := by
      unfold Double.DBL_MAX
      norm_num
    have h4 : ¬ (1 : ℚ) < -Double.DBL_MAX := by linarith
    simp [deltaDouble, exampleHalfLine, exampleUnitEdges, Double.sub, Double.neg, Double.add,
      Double.ofExact, Double.lt, Double.gt, h3, h4]
  refine ⟨⟨rfl, rfl, ?_, ?_, hw, hd, ?_, ?_⟩, ⟨rfl, rfl, rfl, ?_, ?_, hw2, hd2, ?_, ?_, ?_⟩⟩
  · simp [exampleWideEdges, Double.lt, h1]
  · simp [contributesDouble, exampleWideEdges, Double.isnan, Double.le, h1le]
  · rw [hw, hd]
    rfl
  · have hc : contributesDouble exampleWideEdges exampleWideEdges 0 0
        ⟨0, 0, exampleDoubleZeros⟩ = true := by
      simp [contributesDouble, exampleWideEdges, Double.isnan, Double.le, h1le]
    have hb := loopBodyDouble_contributes exampleOnes exampleWideEdges exampleWideEdges 0 0 0 0
      ⟨0, 0, exampleDoubleZeros⟩ hc
    rw [hw, hd] at hb
    refine hb.trans ?_
    simp [exampleOnes, exampleDoubleZeros, Double.mul, Double.infinityOf, Double.div,
      Double.add]
  · simp [exampleUnitEdges, Double.lt]
  · simp [contributesDouble, exampleHalfLine, exampleUnitEdges, Double.isnan, Double.le]
  · rw [hw2, hd2]
    rfl
  · rw [hw2, hd2]
    rfl
  · have hc : contributesDouble exampleHalfLine exampleUnitEdges 0 0
        ⟨0, 0, exampleDoubleZeros⟩ = true := by
      simp [contributesDouble, exampleHalfLine, exampleUnitEdges, Double.isnan, Double.le]
    have hb := loopBodyDouble_contributes exampleOnes exampleHalfLine exampleUnitEdges 0 0 0 0
      ⟨0, 0, exampleDoubleZeros⟩ hc
    rw [hw2, hd2] at hb
    refine hb.trans ?_
    have h3 : ¬ Double.DBL_MAX < 1 := by
      unfold Double.DBL_MAX
      norm_num
    have h4 : ¬ (1 : ℚ) < -Double.DBL_MAX := by linarith
    have h5 : ¬ Double.DBL_MAX < 0 := by linarith
    have h6 : ¬ (0 : ℚ) < -Double.DBL_MAX := by linarith
    simp [exampleOnes, exampleDoubleZeros, Double.mul, Double.div, Double.add, Double.ofExact,
      h3, h4, h5, h6]

end RebinHelper

namespace Storage
open Tagged (Dimensions Tag shapeVolume shapeStride viewIndices)
open core (Exception)
open VariableConcept

/-! ## Operands of `apply` that are views of one buffer -/

/-- The call of `apply` for equal element types with operands of one buffer that are found to
overlap: the transformation is the one with an independent copy of the
right-hand side. -/
theorem applyShared_overlapping (to_string : DType → String)
    (overlaps : VariableView → VariableView → Bool) (op : Value → Value → Value)
    (self other : VariableConcept) (hother : other.valid = true)
    (hdtype : other.dtype = self.dtype) (hmut : self.isConstView = false)
    (hshared : other.buffer = self.buffer)
    (hoverlap : ∀ mine theirs, self.getView true self.dimensions = .ok mine →
      other.getView false self.dimensions = .ok theirs → overlaps mine theirs = true) :
    applyTryShared to_string overlaps op self.dtype self other
      = applyTransform op self other.copyOf := by
  obtain ⟨mine, hm1, -, -⟩ := getView_mutable self hmut
  obtain ⟨theirs, ht⟩ := getView_const other self.dimensions
  have hdata : ∃ data, other.getView false other.dimensions = .ok data ∧
      data.indices.map (readAt self.buffer) = other.values := by
    rw [← hshared]
    unfold getView requireMutable
    cases hm : other.m_model with
    | DataModel m =>
      exact ⟨_, rfl, by simp [VariableConcept.values, hm, VariableConcept.dimensions,
        VariableConcept.buffer, VariableView.elements, makeVariableView]⟩
    | ViewModel v isConst =>
      exact ⟨_, rfl, by simp [VariableConcept.values, hm, VariableConcept.dimensions,
        VariableConcept.buffer, VariableView.elements, VariableView.retarget,
        VariableView.indices]⟩
  obtain ⟨data, hd1, hd2⟩ := hdata
  have hr : requireT to_string self.dtype other = .ok other := by
    unfold requireT
    rw [if_pos hdtype]
  have hcopy : makeDataModel other.dimensions self.dtype (data.indices.map (readAt self.buffer))
      = .ok other.copyOf := by
    rw [makeDataModel_ok_iff]
    obtain ⟨h1, -, -⟩ := (valid_iff other).1 hother
    refine ⟨?_, ?_⟩
    · rw [hd2, values_length, natShape_volume _ h1]
    · unfold VariableConcept.copyOf
      rw [hd2, ← hdtype]
      rfl
  unfold applyTryShared
  simp only [hr, bind, Except.bind, if_true, hm1, ht, hoverlap mine theirs hm1 ht, hd1, hcopy]

/-- Claim C35: in `apply` for equal element types, with a right-hand side that is a view of
the buffer of the left-hand side (or its owner), a left-hand side that can be
written and whose elements lie at distinct places of the buffer, and
dimensions of the left-hand side that contain those of the right-hand side: if
`overlaps` finds the view of the right-hand side to overlap the left-hand
side, the call returns and every element of the result is `op` of the element
that the left-hand side had and of the element that the right-hand side had
before the call at the same place of the iteration (for equal dimensions the
element with the same index); no other element of the buffer changes, and the
result is the one of the call with an independent copy of the right-hand side
that overlaps nothing. -/
theorem overlap_reads_old_values (to_string : DType → String)
    (overlaps : VariableView → VariableView → Bool) (op : Value → Value → Value)
    (self other : VariableConcept) (hself : self.valid = true) (hother : other.valid = true)
    (hdtype : other.dtype = self.dtype) (hmut : self.isConstView = false)
    (hshared : other.buffer = self.buffer)
    (hcontains : containsAll self.dimensions other.dimensions = true)
    (hnd : self.positions.Nodup) (hb : ∀ p ∈ self.positions, p < self.buffer.length)
    (hoverlap : ∀ mine theirs, self.getView true self.dimensions = .ok mine →
      other.getView false self.dimensions = .ok theirs → overlaps mine theirs = true) :
    ∃ result, applyShared to_string overlaps op self.dtype self other = ⟨result, none⟩ ∧
      result.dimensions = self.dimensions ∧
      result.values = List.zipWith op self.values (other.copyOf.valuesIn self.dimensions) ∧
      (other.dimensions = self.dimensions →
        result.values = List.zipWith op self.values other.values) ∧
      (∀ q, q ∉ self.positions → readAt result.buffer q = readAt self.buffer q) ∧
      apply to_string (fun _ _ => false) op self.dtype self other.copyOf = ⟨result, none⟩ := by
  obtain ⟨buffer, h1, -, h3, h4⟩ := applyTransform_owned op self other.m_dimensions
    other.m_dtype other.values hself (copyOf_valid other hother) hmut hcontains hnd hb
  have hcopy : (⟨other.m_dimensions, other.m_dtype, .DataModel other.values⟩ : VariableConcept)
      = other.copyOf := rfl
  rw [hcopy] at h1 h3
  have hvalues : (self.withBuffer buffer).values
      = List.zipWith op self.values (other.copyOf.valuesIn self.dimensions) := by
    rw [values_withBuffer, h3]
  refine ⟨self.withBuffer buffer, ?_, withBuffer_dimensions _ _, hvalues, ?_, ?_, ?_⟩
  · unfold applyShared
    rw [applyShared_overlapping to_string overlaps op self other hother hdtype hmut hshared
      hoverlap, h1]
  · intro hd
    have h5 : other.copyOf.dimensions = other.dimensions := rfl
    rw [hvalues, ← hd, ← h5, valuesIn_self, copyOf_values other hother]
  · intro q hq
    rw [buffer_withBuffer]
    exact h4 q hq
  · unfold apply
    rw [apply_separate to_string (fun _ _ => false) op self other.copyOf hdtype hmut
      (fun _ _ _ _ => rfl), h1]

/-- Witness for C35: the elements `1` and `2` of the buffer `1, 2, 3` are added to the
elements `2` and `3` of the same buffer. -/
theorem overlap_reads_old_values_witness :
    ∃ result, applyShared exampleToString exampleOverlaps Value.add exampleUpperView.dtype
        exampleUpperView exampleLowerView = ⟨result, none⟩ ∧
      result.dimensions = exampleUpperView.dimensions ∧
      result.values = List.zipWith Value.add exampleUpperView.values
        (exampleLowerView.copyOf.valuesIn exampleUpperView.dimensions) ∧
      (exampleLowerView.dimensions = exampleUpperView.dimensions →
        result.values = List.zipWith Value.add exampleUpperView.values
          exampleLowerView.values) ∧
      (∀ q, q ∉ exampleUpperView.positions →
        readAt result.buffer q = readAt exampleUpperView.buffer q) ∧
      apply exampleToString (fun _ _ => false) Value.add exampleUpperView.dtype
        exampleUpperView exampleLowerView.copyOf = ⟨result, none⟩ :=
  overlap_reads_old_values exampleToString exampleOverlaps Value.add exampleUpperView
    exampleLowerView (by decide) (by decide) rfl rfl rfl (by decide) (by decide) (by decide)
    (fun mine theirs h1 h2 => by
      cases h1
      cases h2
      simp [exampleOverlaps, VariableView.retarget])

/-- The copy decides the example of the witness: with the overlap found, the buffer `1, 2, 3`
becomes `1, 2 + 1, 3 + 2`; were it not found, `std::transform` would read the
element `2 + 1` that it has just written and the buffer would become
`1, 2 + 1, 3 + (2 + 1)`. -/
theorem copy_decides_example :
    (applyShared exampleToString exampleOverlaps Value.add .Double exampleUpperView
        exampleLowerView).threw = none ∧
    (applyShared exampleToString exampleOverlaps Value.add .Double exampleUpperView
        exampleLowerView).self.buffer
      = [Value.num 1, Value.add (Value.num 2) (Value.num 1),
          Value.add (Value.num 3) (Value.num 2)] ∧
    (applyShared exampleToString (fun _ _ => false) Value.add .Double exampleUpperView
        exampleLowerView).self.buffer
      = [Value.num 1, Value.add (Value.num 2) (Value.num 1),
          Value.add (Value.num 3) (Value.add (Value.num 2) (Value.num 1))] ∧
    Value.add (Value.num 3) (Value.num 2)
      ≠ Value.add (Value.num 3) (Value.add (Value.num 2) (Value.num 1)) := by
  refine ⟨by rfl, by rfl, by rfl, ?_⟩
  simp only [Value.add, ne_eq, Value.num.injEq]
  norm_num

end Storage

end Scipp
